import Mathlib

/-!
# libiec61883: CIP timing engine and AMDTP packetizer

A shallow embedding of `src/cip.c`, `src/amdtp.c` and the packet layout of
`src/iec61883-private.h`.

Conventions of the embedding.

* A C `int` is a mathematical integer (`Int`): signed overflow is undefined
  behaviour in C, so the arithmetic `+ - *` is taken without wrap-around. The
  exception is `iec61883_cip_init`, whose two products overflow on arguments that
  the library itself passes; there the product is the 32-bit word the machine keeps
  (`int_mul`).
* The stores that `amdtp_xmit_handler` makes through a `struct iec60958_data *` laid
  over a quadlet are kept or lost according to the build, a parameter of the model
  (`stores_kept`).
* C division and remainder truncate toward zero (`Int.tdiv`, `Int.tmod`).
  A division by zero has no defined result: the functions that divide return
  `Option`, with `none` standing for the undefined execution.
* Bitwise operators on `int` act on the 32-bit two's complement image of their
  operands.
* A bit-field of width `w` stores its value modulo `2 ^ w`.
-/

namespace Iec61883

/-! ## Fractions (`cip.c`, lines 31-82) -/

/-- The struct `iec61883_fraction` of `iec61883-private.h`. -/
structure iec61883_fraction where
  integer : Int
  numerator : Int
  denominator : Int
deriving DecidableEq, Repr

/-- The function `fraction_init` of `cip.c`: `numerator / denominator` and
`numerator % denominator` with C semantics. -/
def fraction_init (numerator denominator : Int) : Option iec61883_fraction :=
  if denominator = 0 then none
  else some
    { integer := numerator.tdiv denominator
      numerator := numerator.tmod denominator
      denominator := denominator }

/-- The function `fraction_add` of `cip.c`. The denominator of the result is the one of
`src1`; the one of `src2` is never read. -/
def fraction_add (src1 src2 : iec61883_fraction) : Option iec61883_fraction :=
  let sum := src1.numerator + src2.numerator
  let denom := src1.denominator
  if denom = 0 then none
  else some
    { integer := src1.integer + src2.integer + sum.tdiv denom
      numerator := sum.tmod denom
      denominator := denom }

/-- The function `fraction_sub_int` of `cip.c`. -/
def fraction_sub_int (src : iec61883_fraction) (integer : Int) : iec61883_fraction :=
  { integer := src.integer - integer
    numerator := src.numerator
    denominator := src.denominator }

/-- The function `fraction_floor` of `cip.c`. -/
def fraction_floor (frac : iec61883_fraction) : Int :=
  frac.integer

/-- The function `fraction_ceil` of `cip.c`. -/
def fraction_ceil (frac : iec61883_fraction) : Int :=
  frac.integer + (if frac.numerator > 0 then 1 else 0)

/-- The stored value of a fraction scaled by its denominator:
`integer * denominator + numerator`. -/
def fraction_value (f : iec61883_fraction) : Int :=
  f.integer * f.denominator + f.numerator

/-- The rational number a fraction stands for: `integer + numerator / denominator`. -/
def fraction_rat (f : iec61883_fraction) : ℚ :=
  (f.integer : ℚ) + (f.numerator : ℚ) / (f.denominator : ℚ)

/-- The invariant of the data model: `0 ≤ numerator < denominator`, `denominator > 0`. -/
def fraction_inv (f : iec61883_fraction) : Prop :=
  0 ≤ f.numerator ∧ f.numerator < f.denominator ∧ 0 < f.denominator

instance (f : iec61883_fraction) : Decidable (fraction_inv f) := by
  unfold fraction_inv; infer_instance

/-- One mutation of a fraction accumulator: add another fraction, or subtract an integer. -/
inductive fraction_op where
  | add (g : iec61883_fraction)
  | sub_int (k : Int)

/-- A sequence of `fraction_add` / `fraction_sub_int` calls applied in place to an
accumulator, as `fill_header` does with `ready_samples`. -/
def fraction_run : iec61883_fraction → List fraction_op → Option iec61883_fraction
  | f, [] => some f
  | f, fraction_op.add g :: ops => (fraction_add f g).bind (fun r => fraction_run r ops)
  | f, fraction_op.sub_int k :: ops => fraction_run (fraction_sub_int f k) ops

/-- The exact rational result of a sequence of operations, computed in `ℚ`. -/
def exact_run : ℚ → List fraction_op → ℚ
  | q, [] => q
  | q, fraction_op.add g :: ops => exact_run (q + fraction_rat g) ops
  | q, fraction_op.sub_int k :: ops => exact_run (q - (k : ℚ)) ops

/-- Every added operand of the sequence has the denominator `d`. -/
def ops_share_denominator (d : Int) : List fraction_op → Prop
  | [] => True
  | fraction_op.add g :: ops => g.denominator = d ∧ ops_share_denominator d ops
  | fraction_op.sub_int _ :: ops => ops_share_denominator d ops

/-! ## Machine-level helpers -/

/-- The 32-bit two's complement image of a C `int`. -/
def to_u32 (x : Int) : Nat :=
  (x % 4294967296).toNat

/-- The C `int` whose 32-bit two's complement image is `n`. -/
def of_u32 (n : Nat) : Int :=
  if n < 2147483648 then (n : Int) else (n : Int) - 4294967296

/-- The C operator `&` on `int`. -/
def int_and (a b : Int) : Int :=
  of_u32 (to_u32 a &&& to_u32 b)

/-- The C operator `|` on `int`. -/
def int_or (a b : Int) : Int :=
  of_u32 (to_u32 a ||| to_u32 b)

/-- The C operator `<<` on `int`, bits shifted out of the 32-bit word being lost. -/
def int_shl (a : Int) (k : Nat) : Int :=
  of_u32 ((to_u32 a * 2 ^ k) % 4294967296)

/-- The C operator `~` on `int`. -/
def int_not (a : Int) : Int :=
  -a - 1

/-- The C operator `*` on `int`: the product is kept in a 32-bit word, the bits above it
being lost, which is what the machine multiplication stores when the product of two `int`
values does not fit an `int`. -/
def int_mul (a b : Int) : Int :=
  of_u32 (to_u32 (a * b))

/-- The value kept by an unsigned bit-field of width `w` when an `int` is assigned to it. -/
def bitfield (w : Nat) (x : Int) : Nat :=
  (x % (2 : Int) ^ w).toNat

/-- The function `htons`: the 16-bit host value whose memory image is `v` in network
byte order. It is the identity on a big-endian host and a byte swap on a little-endian
one. -/
def htons (big_endian : Bool) (v : Nat) : Nat :=
  if big_endian then v % 65536 else (v % 256) * 256 + (v / 256) % 256

/-! ## CIP state and header (`iec61883-private.h`, `cip.c`) -/

/-- The enum value `IEC61883_MODE_BLOCKING_EMPTY` of `iec61883.h`. -/
def IEC61883_MODE_BLOCKING_EMPTY : Int := 0
/-- The enum value `IEC61883_MODE_BLOCKING_NODATA` of `iec61883.h`. -/
def IEC61883_MODE_BLOCKING_NODATA : Int := 1
/-- The enum value `IEC61883_MODE_NON_BLOCKING` of `iec61883.h`. -/
def IEC61883_MODE_NON_BLOCKING : Int := 2
/-- The constant `IEC61883_FDF_NODATA`. -/
def IEC61883_FDF_NODATA : Int := 0xFF
/-- The constant `IEC61883_FMT_AMDTP`. -/
def IEC61883_FMT_AMDTP : Int := 0x10

/-- The struct `iec61883_cip` of `iec61883-private.h`. -/
structure iec61883_cip where
  cycle_offset : iec61883_fraction
  ticks_per_syt_offset : iec61883_fraction
  ready_samples : iec61883_fraction
  samples_per_cycle : iec61883_fraction
  dbc : Int
  dbs : Int
  cycle_count : Int
  cycle_count2 : Int
  mode : Int
  syt_interval : Int
  dimension : Int
  rate : Int
  fdf : Int
  format : Int
deriving DecidableEq, Repr

/-- The header bit-fields of the struct `iec61883_packet`; each field holds a value below
`2 ^ width`. The order of the fields in memory depends on the host, see `packet_image`. -/
structure iec61883_packet where
  dbs : Nat
  eoh0 : Nat
  sid : Nat
  dbc : Nat
  fn : Nat
  qpc : Nat
  sph : Nat
  reserved : Nat
  fdf : Nat
  eoh1 : Nat
  fmt : Nat
  syt : Nat
deriving DecidableEq, Repr

/-- The function `iec61883_cip_init` of `cip.c`. It overwrites every field of `ptz`
except `dimension`. The two divisions by `rate` are undefined for `rate = 0`. The two
numerators `24576000 * ptz->syt_interval` and `(transfer_delay % 3072) * ptz->rate` are
products of `int` values: the first one does not fit an `int` for `syt_interval ≥ 88` (the
DV transmitter passes 300 and 250) and the second one for `rate ≥ 751921`, and the value
divided is then the 32-bit word of the product. -/
def iec61883_cip_init (ptz : iec61883_cip) (format fdf rate dbs syt_interval : Int) :
    Option iec61883_cip :=
  let transfer_delay : Int := 9000
  match fraction_init rate 8000, fraction_init 0 8000,
      fraction_init (int_mul 24576000 syt_interval) rate,
      fraction_init (int_mul (transfer_delay.tmod 3072) rate) rate with
  | some samples_per_cycle, some ready_samples, some ticks_per_syt_offset, some cycle_offset =>
    some
      { ptz with
        rate := rate
        cycle_count := transfer_delay.tdiv 3072
        cycle_count2 := 0
        format := format
        fdf := fdf
        mode := IEC61883_MODE_BLOCKING_EMPTY
        dbs := dbs
        dbc := 0
        syt_interval := syt_interval
        samples_per_cycle := samples_per_cycle
        ready_samples := ready_samples
        ticks_per_syt_offset := ticks_per_syt_offset
        cycle_offset := cycle_offset }
  | _, _, _, _ => none

/-- The function `iec61883_cip_set_transmission_mode` of `cip.c`. -/
def iec61883_cip_set_transmission_mode (ptz : iec61883_cip) (mode : Int) : iec61883_cip :=
  { ptz with mode := mode }

/-- The function `iec61883_cip_get_max_packet_size` of `cip.c`. -/
def iec61883_cip_get_max_packet_size (ptz : iec61883_cip) : Int :=
  let max_nevents : Int :=
    if ptz.mode = IEC61883_MODE_BLOCKING_EMPTY ∨ ptz.mode = IEC61883_MODE_BLOCKING_NODATA then
      ptz.syt_interval
    else
      fraction_ceil ptz.samples_per_cycle
  max_nevents * ptz.dbs * 4 + 8

/-- The event count `nevents` computed by `iec61883_cip_fill_header` (lines 141-150) from
the sum `next` of `ready_samples` and `samples_per_cycle`. -/
def fill_header_nevents (ptz : iec61883_cip) (next : iec61883_fraction) : Int :=
  if ptz.mode = IEC61883_MODE_BLOCKING_EMPTY ∨ ptz.mode = IEC61883_MODE_BLOCKING_NODATA then
    (if fraction_floor next ≥ ptz.syt_interval then ptz.syt_interval else 0)
  else
    fraction_floor next

/-- The synchronization timestamp part of `iec61883_cip_fill_header` (lines 164-180):
the value `syt`, and the new `cycle_offset` and `cycle_count`. -/
def fill_header_timing (ptz : iec61883_cip) (nevents : Int) :
    Option (Int × iec61883_fraction × Int) :=
  let syt_index : Int := int_and (ptz.syt_interval - ptz.dbc) (ptz.syt_interval - 1)
  if syt_index < nevents then
    match fraction_add ptz.cycle_offset ptz.ticks_per_syt_offset with
    | none => none
    | some cycle_offset =>
      some
        (int_and (int_or (int_shl ptz.cycle_count 12) (fraction_floor ptz.cycle_offset)) 0xffff,
          { cycle_offset with integer := cycle_offset.integer.tmod 3072 },
          ptz.cycle_count + cycle_offset.integer.tdiv 3072)
  else
    some (0xffff, ptz.cycle_offset, ptz.cycle_count)

/-- The header fields written by `iec61883_cip_fill_header` (lines 182-206). The handle
matters only through `raw1394_get_local_id`, passed as `local_id`; `big_endian` is the
byte order of the host, on which `htons` depends. -/
def fill_header_packet (big_endian : Bool) (local_id : Nat) (ptz : iec61883_cip)
    (nevents syt : Int) : iec61883_packet :=
  { eoh0 := 0
    sid := bitfield 6 ((local_id &&& 0x3f : Nat) : Int)
    dbs := bitfield 8 ptz.dbs
    fn := 0
    qpc := 0
    sph := 0
    reserved := 0
    dbc := bitfield 8 ptz.dbc
    eoh1 := 2
    fmt := bitfield 6 ptz.format
    fdf :=
      if nevents = 0 ∧ ptz.mode = IEC61883_MODE_BLOCKING_NODATA then
        bitfield 8 IEC61883_FDF_NODATA
      else
        bitfield 8 ptz.fdf
    syt := htons big_endian (bitfield 16 syt) }

/-- The function `iec61883_cip_fill_header` of `cip.c`. The result is the returned event
count, the updated stream state and the header fields written into the packet. -/
def iec61883_cip_fill_header (big_endian : Bool) (local_id : Nat) (ptz : iec61883_cip) :
    Option (Int × iec61883_cip × iec61883_packet) :=
  match fraction_add ptz.ready_samples ptz.samples_per_cycle with
  | none => none
  | some next =>
    let nevents : Int := fill_header_nevents ptz next
    let nevents_dbc : Int :=
      if ptz.mode = IEC61883_MODE_BLOCKING_NODATA then ptz.syt_interval else nevents
    match fill_header_timing ptz nevents with
    | none => none
    | some (syt, cycle_offset, cycle_count) =>
      some
        (nevents,
          { ptz with
            ready_samples := fraction_sub_int next nevents
            cycle_offset := cycle_offset
            cycle_count := cycle_count
            dbc := ptz.dbc + nevents_dbc },
          fill_header_packet big_endian local_id ptz nevents syt)

/-- The two bytes a 16-bit host value occupies in memory, lowest address first. -/
def u16_image (big_endian : Bool) (v : Nat) : List Nat :=
  if big_endian then [v / 256 % 256, v % 256] else [v % 256, v / 256 % 256]

/-- The eight bytes the header bit-fields of the struct `iec61883_packet` occupy in memory,
lowest address first, which is the order in which they go on the wire. The struct has
two declarations (`iec61883-private.h`, lines 58-126); the compiler packs the bit-fields
of a 32-bit unit in declaration order, from the most significant bit on a big-endian host
and from the least significant bit on a little-endian one. -/
def packet_image (big_endian : Bool) (p : iec61883_packet) : List Nat :=
  if big_endian then
    [p.dbs % 256,
      (p.eoh0 % 4) * 64 + p.sid % 64,
      p.dbc % 256,
      (p.fn % 4) * 64 + (p.qpc % 8) * 8 + (p.sph % 2) * 4 + p.reserved % 4,
      p.fdf % 256,
      (p.eoh1 % 4) * 64 + p.fmt % 64] ++ u16_image true p.syt
  else
    [p.sid % 64 + (p.eoh0 % 4) * 64,
      p.dbs % 256,
      p.reserved % 4 + (p.sph % 2) * 4 + (p.qpc % 8) * 8 + (p.fn % 4) * 64,
      p.dbc % 256,
      p.fmt % 64 + (p.eoh1 % 4) * 64,
      p.fdf % 256] ++ u16_image false p.syt

/-- The shape of the timing fields of a stream whose `syt_interval` is `2 ^ k`, as
`iec61883_cip_init` sets them up and `iec61883_cip_fill_header` keeps them: the fractions
`cycle_offset` and `ticks_per_syt_offset` satisfy the fraction invariant over one
denominator, the tick increment is not negative and `floor cycle_offset` lies in
`[0, 3072)`. -/
def timing_inv (k : Nat) (ptz : iec61883_cip) : Prop :=
  ptz.syt_interval = (2 : Int) ^ k ∧
  ptz.ready_samples.denominator ≠ 0 ∧
  fraction_inv ptz.cycle_offset ∧ fraction_inv ptz.ticks_per_syt_offset ∧
  ptz.ticks_per_syt_offset.denominator = ptz.cycle_offset.denominator ∧
  0 ≤ ptz.ticks_per_syt_offset.integer ∧
  0 ≤ fraction_floor ptz.cycle_offset ∧ fraction_floor ptz.cycle_offset < 3072

instance (k : Nat) (ptz : iec61883_cip) : Decidable (timing_inv k ptz) := by
  unfold timing_inv; infer_instance

/-- The event counts returned by `n` consecutive calls of `iec61883_cip_fill_header` on a
stream, with the state after the last call. -/
def fill_header_run (big_endian : Bool) (local_id : Nat) :
    Nat → iec61883_cip → Option (List Int × iec61883_cip)
  | 0, ptz => some ([], ptz)
  | n + 1, ptz =>
    match iec61883_cip_fill_header big_endian local_id ptz with
    | none => none
    | some (nevents, ptz2, _) =>
      match fill_header_run big_endian local_id n ptz2 with
      | none => none
      | some (counts, ptz3) => some (nevents :: counts, ptz3)

/-- The shape of a stream of rate `rate` between two cycles in non-blocking mode: no whole
sample is left over in `ready_samples`. -/
def nonblocking_inv (rate : Int) (ptz : iec61883_cip) : Prop :=
  ptz.mode = IEC61883_MODE_NON_BLOCKING ∧
  ptz.samples_per_cycle = ⟨rate.tdiv 8000, rate.tmod 8000, 8000⟩ ∧
  ptz.ready_samples.integer = 0 ∧ 0 ≤ ptz.ready_samples.numerator ∧
  ptz.ready_samples.numerator < 8000 ∧ ptz.ready_samples.denominator = 8000 ∧
  ptz.cycle_offset.denominator ≠ 0

/-! ## AMDTP (`amdtp.c`) -/

/-- The enum value `IEC61883_AMDTP_FORMAT_RAW` of `iec61883.h`. -/
def IEC61883_AMDTP_FORMAT_RAW : Int := 0
/-- The enum value `IEC61883_AMDTP_FORMAT_IEC958_PCM` of `iec61883.h`. -/
def IEC61883_AMDTP_FORMAT_IEC958_PCM : Int := 1
/-- The enum value `IEC61883_AMDTP_FORMAT_IEC958_AC3` of `iec61883.h`. -/
def IEC61883_AMDTP_FORMAT_IEC958_AC3 : Int := 2

/-- The enum value `IEC61883_AMDTP_INPUT_NA`. -/
def IEC61883_AMDTP_INPUT_NA : Int := -1
/-- The enum value `IEC61883_AMDTP_INPUT_LE16`. -/
def IEC61883_AMDTP_INPUT_LE16 : Int := 0
/-- The enum value `IEC61883_AMDTP_INPUT_BE16`. -/
def IEC61883_AMDTP_INPUT_BE16 : Int := 1
/-- The enum value `IEC61883_AMDTP_INPUT_LE20`. -/
def IEC61883_AMDTP_INPUT_LE20 : Int := 2
/-- The enum value `IEC61883_AMDTP_INPUT_BE20`. -/
def IEC61883_AMDTP_INPUT_BE20 : Int := 3
/-- The enum value `IEC61883_AMDTP_INPUT_LE24`. -/
def IEC61883_AMDTP_INPUT_LE24 : Int := 4
/-- The enum value `IEC61883_AMDTP_INPUT_BE24`. -/
def IEC61883_AMDTP_INPUT_BE24 : Int := 5

/-- The constant `IEC61883_FDF_SFC_32KHZ`. -/
def IEC61883_FDF_SFC_32KHZ : Int := 0x00
/-- The constant `IEC61883_FDF_SFC_44K1HZ`. -/
def IEC61883_FDF_SFC_44K1HZ : Int := 0x01
/-- The constant `IEC61883_FDF_SFC_48KHZ`. -/
def IEC61883_FDF_SFC_48KHZ : Int := 0x02
/-- The constant `IEC61883_FDF_SFC_88K2HZ`. -/
def IEC61883_FDF_SFC_88K2HZ : Int := 0x03
/-- The constant `IEC61883_FDF_SFC_96KHZ`. -/
def IEC61883_FDF_SFC_96KHZ : Int := 0x04
/-- The constant `IEC61883_FDF_SFC_176K4HZ`. -/
def IEC61883_FDF_SFC_176K4HZ : Int := 0x05
/-- The constant `IEC61883_FDF_SFC_192KHZ`. -/
def IEC61883_FDF_SFC_192KHZ : Int := 0x06

/-- The constant `IEC61883_TAG_WITH_CIP`. -/
def IEC61883_TAG_WITH_CIP : Nat := 1
/-- The constant `IEC61883_FDF_AM824`. -/
def IEC61883_FDF_AM824 : Int := 0x00
/-- The constant `IEC61883_FDF_AM824_CONTROLLED`. -/
def IEC61883_FDF_AM824_CONTROLLED : Int := 0x04
/-- The constant `IEC61883_FDF_SFC_MASK`. -/
def IEC61883_FDF_SFC_MASK : Int := 0x03
/-- The constant `IEC61883_AM824_LABEL`. -/
def IEC61883_AM824_LABEL : Nat := 0x40
/-- The constant `IEC61883_AM824_VBL_24BITS`. -/
def IEC61883_AM824_VBL_24BITS : Nat := 0x0
/-- The constant `IEC61883_AM824_VBL_20BITS`. -/
def IEC61883_AM824_VBL_20BITS : Nat := 0x1
/-- The constant `IEC61883_AM824_VBL_16BITS`. -/
def IEC61883_AM824_VBL_16BITS : Nat := 0x2
/-- The constant `IEC60958_LABEL`. -/
def IEC60958_LABEL : Nat := 0x0
/-- The constant `IEC60958_PAC_RSV`. -/
def IEC60958_PAC_RSV : Nat := 0x2
/-- The constant `IEC60958_PAC_M`. -/
def IEC60958_PAC_M : Nat := 0x1
/-- The constant `IEC60958_PAC_W`. -/
def IEC60958_PAC_W : Nat := 0x0
/-- The constant `IEC60958_DATA_VALID`. -/
def IEC60958_DATA_VALID : Nat := 0
/-- The constant `IEC60958_DATA_INVALID`. -/
def IEC60958_DATA_INVALID : Nat := 1

/-- The value `RAW1394_ISO_SPEED_100` of libraw1394, the first value of its enum. -/
def RAW1394_ISO_SPEED_100 : Int := 0

/-- The enum `raw1394_iso_disposition` of libraw1394, as far as the handlers use it. -/
inductive raw1394_iso_disposition where
  | RAW1394_ISO_OK
  | RAW1394_ISO_DEFER
  | RAW1394_ISO_ERROR
deriving DecidableEq, Repr

open raw1394_iso_disposition

/-- The struct `iec61883_amdtp` of `iec61883-private.h`, without its pointers: the two
callbacks and their `callback_data` are arguments of the handlers, the handle is
represented by the local node id. -/
structure iec61883_amdtp where
  cip : iec61883_cip
  dimension : Int
  rate : Int
  iec958_rate_code : Int
  sample_format : Int
  format : Int
  syt_interval : Int
  channel : Int
  buffer_packets : Nat
  prebuffer_packets : Nat
  irq_interval : Nat
  synch : Int
  speed : Int
  total_dropped : Nat
deriving DecidableEq, Repr

/-- The function `htonl` / `ntohl` on a 32-bit value: the identity on a big-endian host, a
byte swap on a little-endian one. -/
def htonl (big_endian : Bool) (v : Nat) : Nat :=
  if big_endian then v % 4294967296
  else (v % 256) * 16777216 + (v / 256 % 256) * 65536 + (v / 65536 % 256) * 256
    + (v / 16777216 % 256)

/-- The switch on `rate` of `iec61883_amdtp_xmit_init` (lines 63-103): the triple
`(syt_interval, fdf, iec958_rate_code)`, or `none` for the default case. -/
def xmit_init_rate (rate : Int) : Option (Int × Int × Int) :=
  if rate = 32000 then some (8, IEC61883_FDF_SFC_32KHZ, 0x0c)
  else if rate = 44100 then some (8, IEC61883_FDF_SFC_44K1HZ, 0x00)
  else if rate = 48000 then some (8, IEC61883_FDF_SFC_48KHZ, 0x04)
  else if rate = 88200 then some (16, IEC61883_FDF_SFC_88K2HZ, 0x00)
  else if rate = 96000 then some (16, IEC61883_FDF_SFC_96KHZ, 0x00)
  else if rate = 176400 then some (32, IEC61883_FDF_SFC_176K4HZ, 0x00)
  else if rate = 192000 then some (32, IEC61883_FDF_SFC_192KHZ, 0x00)
  else none

/-- The function `iec61883_amdtp_xmit_init` of `amdtp.c`. The argument `mem` is the result
of `malloc`: `none` when the allocation fails, otherwise the (arbitrary) contents of the
fresh block. The result `none` is the `NULL` return. -/
def iec61883_amdtp_xmit_init (mem : Option iec61883_amdtp)
    (rate format sample_format mode dimension : Int) : Option iec61883_amdtp :=
  match mem with
  | none => none
  | some amdtp =>
    if format ≤ IEC61883_AMDTP_FORMAT_IEC958_AC3 then
      match xmit_init_rate rate with
      | none => none
      | some (syt_interval, fdf, iec958_rate_code) =>
        if format = IEC61883_AMDTP_FORMAT_IEC958_PCM ∧ dimension > 2 then none
        else
          match iec61883_cip_init amdtp.cip IEC61883_FMT_AMDTP fdf rate dimension
              syt_interval with
          | none => none
          | some cip =>
            some
              { amdtp with
                channel := -1
                format := format
                iec958_rate_code := iec958_rate_code
                sample_format := sample_format
                dimension := dimension
                buffer_packets := 1000
                prebuffer_packets := 1000
                irq_interval := 250
                synch := 0
                speed := RAW1394_ISO_SPEED_100
                cip := iec61883_cip_set_transmission_mode cip mode }
    else none

/-- The label quadlet of the RAW branch of `amdtp_xmit_handler` (lines 179-193):
`(IEC61883_AM824_LABEL | vbl) << 24`. -/
def xmit_raw_label (sample_format : Int) : Nat :=
  let label : Nat :=
    if sample_format = IEC61883_AMDTP_INPUT_LE24 then
      IEC61883_AM824_LABEL ||| IEC61883_AM824_VBL_24BITS
    else if sample_format = IEC61883_AMDTP_INPUT_LE20 then
      IEC61883_AM824_LABEL ||| IEC61883_AM824_VBL_20BITS
    else if sample_format = IEC61883_AMDTP_INPUT_LE16 then
      IEC61883_AM824_LABEL ||| IEC61883_AM824_VBL_16BITS
    else IEC61883_AM824_LABEL
  (label * 16777216) % 4294967296

/-- The value that `event[i]` is read with at line 224 of `amdtp.c`, after the assignments
to the bit-fields `label`, `validity` and `pac` of lines 205-220. The assignments are made
through `(struct iec60958_data *) &event[i]`, a pointer to a struct type laid over an
object of the type `quadlet_t`; the C language does not let the two alias, so what the read
of `event[i]` sees depends on the build, told by `stores_kept`. With `stores_kept` (a build
that does not optimise, or one with `-fno-strict-aliasing`) the read sees the three fields
stored: both branches of the header declare the fields in the same order (`data:24,
validity, user_data, ch_status, parity, pac:2, label:2`), which the compiler allocates
from the least significant bit on a little-endian host and from the most significant bit
on a big-endian one. Without it (the library built with `-O2`) the compiler reads
`event[i]` before the three stores and the assignment `event[i] = htonl (event[i])`
overwrites them: the quadlet is read as the data source left it. -/
def iec60958_set (big_endian stores_kept : Bool) (q label validity pac : Nat) : Nat :=
  if ¬ stores_kept then q
  else if big_endian then
    (q / 256 % 16777216) * 256 + (validity % 2) * 128 + (q / 16 % 8) * 16 + (pac % 4) * 4
      + label % 4
  else
    q % 16777216 + (validity % 2) * 16777216 + (q / 33554432 % 8) * 33554432
      + (pac % 4) * 268435456 + (label % 4) * 1073741824

/-- The number of events `nsamples` that `amdtp_xmit_handler` puts in a packet (lines
153-163), from the event count returned by the CIP engine. -/
def xmit_nsamples (cip : iec61883_cip) (nevents : Int) : Int :=
  if nevents > 0 then nevents
  else if cip.mode = IEC61883_MODE_BLOCKING_EMPTY then 0
  else cip.syt_interval

/-- What one cycle of `amdtp_xmit_handler` leaves behind: the disposition, the stream,
the callback state, the header fields and payload quadlets (as host 32-bit values) in the
buffer, and the outputs `*len`, `*tag`, `*sy` when they are written. -/
structure xmit_cycle (σ : Type) where
  result : raw1394_iso_disposition
  amdtp : iec61883_amdtp
  callback_data : σ
  packet : iec61883_packet
  data : List Nat
  len : Option Nat
  tag : Option Nat
  sy : Option Nat

/-- The function `amdtp_xmit_handler` of `amdtp.c`. The callback `get_data` receives the
stream, its state, `nevents`, the header `dbc` and `dropped`; it returns its `int` result,
the quadlets it stored from `packet->data` on, and its new state. The result is `none`
when the call is undefined (a division by zero in the CIP engine, or a negative size given
to `memset`). The flag `stores_kept` is the one of `iec60958_set`; it matters in the format
IEC958 PCM only. -/
def amdtp_xmit_handler {σ : Type} (big_endian : Bool) (local_id : Nat) (stores_kept : Bool)
    (get_data : iec61883_amdtp → σ → Int → Nat → Nat → Int × List Nat × σ)
    (amdtp : iec61883_amdtp) (callback_data : σ) (dropped : Nat) :
    Option (xmit_cycle σ) :=
  match iec61883_cip_fill_header big_endian local_id amdtp.cip with
  | none => none
  | some (nevents, cip, packet) =>
    let amdtp : iec61883_amdtp :=
      { amdtp with cip := cip, total_dropped := (amdtp.total_dropped + dropped) % 4294967296 }
    let nsamples : Int := xmit_nsamples amdtp.cip nevents
    if nsamples * amdtp.dimension < 0 then none
    else
      let nquadlets : Nat := (nsamples * amdtp.dimension).toNat
      let called : Int × List Nat × σ :=
        if nevents > 0 then get_data amdtp callback_data nevents packet.dbc dropped
        else (0, [], callback_data)
      let event : List Nat := (List.range nquadlets).map (fun i => called.2.1.getD i 0)
      if called.1 < 0 then
        some
          { result := RAW1394_ISO_ERROR, amdtp := amdtp, callback_data := called.2.2,
            packet := packet, data := event, len := none, tag := none, sy := none }
      else
        let len : Nat := (nquadlets * 4 + 8) % 4294967296
        if amdtp.format = IEC61883_AMDTP_FORMAT_RAW then
          some
            { result := RAW1394_ISO_OK, amdtp := amdtp, callback_data := called.2.2,
              packet := packet,
              data := event.map (fun q => htonl big_endian (q ||| xmit_raw_label amdtp.sample_format)),
              len := some len, tag := some IEC61883_TAG_WITH_CIP, sy := some 0 }
        else if amdtp.format = IEC61883_AMDTP_FORMAT_IEC958_PCM then
          some
            { result := RAW1394_ISO_OK, amdtp := amdtp, callback_data := called.2.2,
              packet := packet,
              data := (List.range nquadlets).map (fun i =>
                htonl big_endian
                  (iec60958_set big_endian stores_kept (event.getD i 0) IEC60958_LABEL
                    (if nevents = 0 then IEC60958_DATA_INVALID else IEC60958_DATA_VALID)
                    (if nevents = 0 then IEC60958_PAC_RSV
                      else if i % 2 = 0 ∨ amdtp.dimension = 1 then IEC60958_PAC_M
                      else IEC60958_PAC_W))),
              len := some len, tag := some IEC61883_TAG_WITH_CIP, sy := some 0 }
        else
          some
            { result := RAW1394_ISO_ERROR, amdtp := amdtp, callback_data := called.2.2,
              packet := packet, data := event,
              len := some len, tag := some IEC61883_TAG_WITH_CIP, sy := some 0 }

/-- The size computed by `iec61883_amdtp_xmit_start` for `raw1394_iso_xmit_init`: the
`int` result of `iec61883_cip_get_max_packet_size` stored in an `unsigned int`. -/
def xmit_start_max_packet_size (amdtp : iec61883_amdtp) : Nat :=
  to_u32 (iec61883_cip_get_max_packet_size amdtp.cip)

/-- Consecutive cycles of `amdtp_xmit_handler`, one for each element of `dropped`, the
stream and the callback state being handed from one cycle to the next whatever the
disposition. The result is the list of the cycles. -/
def amdtp_xmit_run {σ : Type} (big_endian : Bool) (local_id : Nat) (stores_kept : Bool)
    (get_data : iec61883_amdtp → σ → Int → Nat → Nat → Int × List Nat × σ) :
    List Nat → iec61883_amdtp → σ → Option (List (xmit_cycle σ))
  | [], _, _ => some []
  | dropped :: rest, amdtp, callback_data =>
    match amdtp_xmit_handler big_endian local_id stores_kept get_data amdtp callback_data
        dropped with
    | none => none
    | some r =>
      match amdtp_xmit_run big_endian local_id stores_kept get_data rest r.amdtp
          r.callback_data with
      | none => none
      | some rs => some (r :: rs)

/-- The stream and callback state after a run of cycles. -/
def xmit_run_last {σ : Type} (amdtp : iec61883_amdtp) (callback_data : σ) :
    List (xmit_cycle σ) → iec61883_amdtp × σ
  | [] => (amdtp, callback_data)
  | r :: rs => xmit_run_last r.amdtp r.callback_data rs

/-- What stays fixed in an AMDTP transmit stream of rate `rate`, and the shape of
`ready_samples` that non-blocking mode keeps between two cycles. -/
def xmit_inv (rate mode dimension syt_interval : Int) (a : iec61883_amdtp) : Prop :=
  a.dimension = dimension ∧ a.cip.dbs = dimension ∧ a.cip.mode = mode ∧
  a.cip.syt_interval = syt_interval ∧
  a.cip.samples_per_cycle = ⟨rate.tdiv 8000, rate.tmod 8000, 8000⟩ ∧
  a.cip.ready_samples.denominator = 8000 ∧ a.cip.cycle_offset.denominator ≠ 0 ∧
  (mode = IEC61883_MODE_NON_BLOCKING →
    a.cip.ready_samples.integer = 0 ∧ 0 ≤ a.cip.ready_samples.numerator ∧
    a.cip.ready_samples.numerator < 8000)

/-! ### Receive side -/

/-- The function `iec61883_amdtp_recv_start` of `amdtp.c`; `recv_init_result` and
`recv_start_result` are what `raw1394_iso_recv_init` and `raw1394_iso_recv_start`
return. -/
def iec61883_amdtp_recv_start (amdtp : iec61883_amdtp) (channel : Int)
    (recv_init_result recv_start_result : Int) : Int × iec61883_amdtp :=
  if recv_init_result = 0 then
    (recv_start_result,
      { amdtp with total_dropped := 0, channel := channel, dimension := -1 })
  else
    (recv_init_result, amdtp)

/-- The switch on the sampling frequency code in `amdtp_recv_handler` (lines 321-347):
the rate it stores, if any, and whether control leaves the switch by `break` (`true`) or
reaches the `return RAW1394_ISO_ERROR` of the default case (`false`). The case of
`IEC61883_FDF_SFC_192KHZ` has no `break` and falls into the default case. -/
def recv_rate_switch (sfc : Int) : Option Int × Bool :=
  if sfc = IEC61883_FDF_SFC_32KHZ then (some 32000, true)
  else if sfc = IEC61883_FDF_SFC_44K1HZ then (some 44100, true)
  else if sfc = IEC61883_FDF_SFC_48KHZ then (some 48000, true)
  else if sfc = IEC61883_FDF_SFC_88K2HZ then (some 88200, true)
  else if sfc = IEC61883_FDF_SFC_96KHZ then (some 96000, true)
  else if sfc = IEC61883_FDF_SFC_176K4HZ then (some 176400, true)
  else if sfc = IEC61883_FDF_SFC_192KHZ then (some 192000, false)
  else (none, false)

/-- The check of the label byte in `amdtp_recv_handler` (lines 349-387): the disposition
and the stream with `format` and `sample_format` filled in. -/
def recv_check_label (amdtp : iec61883_amdtp) (label : Int) :
    raw1394_iso_disposition × iec61883_amdtp :=
  if int_and label (int_not 0x03) = (IEC61883_AM824_LABEL : Int) then
    let amdtp := { amdtp with format := IEC61883_AMDTP_FORMAT_RAW }
    if int_and label 0x03 = (IEC61883_AM824_VBL_24BITS : Int) then
      (RAW1394_ISO_OK, { amdtp with sample_format := IEC61883_AMDTP_INPUT_LE24 })
    else if int_and label 0x03 = (IEC61883_AM824_VBL_20BITS : Int) then
      (RAW1394_ISO_OK, { amdtp with sample_format := IEC61883_AMDTP_INPUT_LE20 })
    else if int_and label 0x03 = (IEC61883_AM824_VBL_16BITS : Int) then
      (RAW1394_ISO_OK, { amdtp with sample_format := IEC61883_AMDTP_INPUT_LE16 })
    else
      (RAW1394_ISO_ERROR, amdtp)
  else if label ≥ 0 ∧ label ≤ 0x3F then
    (RAW1394_ISO_OK,
      { amdtp with
        format := IEC61883_AMDTP_FORMAT_IEC958_PCM
        sample_format := IEC61883_AMDTP_INPUT_NA })
  else
    (RAW1394_ISO_ERROR, amdtp)

/-- What one call of `amdtp_recv_handler` leaves behind: the disposition, the stream, the
callback state and the payload quadlets of the buffer. -/
structure recv_cycle (σ : Type) where
  result : raw1394_iso_disposition
  amdtp : iec61883_amdtp
  callback_data : σ
  data : List Nat

/-- The validation of an inbound packet in `amdtp_recv_handler` (lines 309-312). -/
def recv_valid (tag : Nat) (packet : iec61883_packet) : Prop :=
  tag = IEC61883_TAG_WITH_CIP ∧ (packet.fmt : Int) = IEC61883_FMT_AMDTP ∧
    (int_and (packet.fdf : Int) (int_not IEC61883_FDF_SFC_MASK) = IEC61883_FDF_AM824 ∨
      int_and (packet.fdf : Int) (int_not IEC61883_FDF_SFC_MASK) =
        IEC61883_FDF_AM824_CONTROLLED)

instance (tag : Nat) (packet : iec61883_packet) : Decidable (recv_valid tag packet) := by
  unfold recv_valid; infer_instance

/-- The block of `amdtp_recv_handler` that fills in the fields of the stream on the first
packet (lines 314-388): whether the handler returns from inside the block, the
disposition so far and the stream; `none` when the first payload quadlet is read from a
buffer that holds none. -/
def recv_latch (big_endian : Bool) (amdtp : iec61883_amdtp) (packet : iec61883_packet)
    (data : List Nat) : Option (Bool × raw1394_iso_disposition × iec61883_amdtp) :=
  if amdtp.dimension < 0 ∧ packet.syt ≠ 0xFFFF then
    let amdtp := { amdtp with dimension := (packet.dbs : Int) }
    let sw := recv_rate_switch (int_and (packet.fdf : Int) IEC61883_FDF_SFC_MASK)
    let amdtp :=
      match sw.1 with
      | some rate => { amdtp with rate := rate }
      | none => amdtp
    if sw.2 then
      match data.head? with
      | none => none
      | some q =>
        let checked := recv_check_label amdtp ((htonl big_endian q / 16777216 : Nat) : Int)
        some (false, checked.1, checked.2)
    else
      some (true, RAW1394_ISO_ERROR, amdtp)
  else
    some (false, RAW1394_ISO_OK, amdtp)

/-- The last statement of `amdtp_recv_handler` (lines 404-405). -/
def recv_defer (result : raw1394_iso_disposition) (dropped : Nat) : raw1394_iso_disposition :=
  if result = RAW1394_ISO_OK ∧ dropped ≠ 0 then RAW1394_ISO_DEFER else result

/-- The block of `amdtp_recv_handler` that converts the payload and calls the sink (lines
390-402); `none` when the conversion loop runs past the quadlets of the buffer. -/
def recv_deliver {σ : Type} (big_endian : Bool)
    (put_data : iec61883_amdtp → σ → List Nat → Int → Nat → Nat → Int × σ)
    (result : raw1394_iso_disposition) (amdtp : iec61883_amdtp) (callback_data : σ)
    (packet : iec61883_packet) (data : List Nat) (len dropped : Nat) :
    Option (recv_cycle σ) :=
  if result = RAW1394_ISO_OK ∧ amdtp.dimension > 0 ∧ packet.syt ≠ 0xFFFF then
    let nsamples : Int := (len / 4 : Nat) - 2
    if (data.length : Int) < nsamples then none
    else
      let event : List Nat :=
        (data.take nsamples.toNat).map (htonl big_endian) ++ data.drop nsamples.toNat
      let called := put_data amdtp callback_data (event.take nsamples.toNat) nsamples
        packet.dbc dropped
      some
        { result := recv_defer (if called.1 < 0 then RAW1394_ISO_ERROR else RAW1394_ISO_OK)
            dropped,
          amdtp := amdtp, callback_data := called.2, data := event }
  else
    some
      { result := recv_defer result dropped, amdtp := amdtp, callback_data := callback_data,
        data := data }

/-- The function `amdtp_recv_handler` of `amdtp.c`. The buffer is given by its header
fields `packet` and its payload quadlets `data` (host 32-bit values). The callback
`put_data` receives the stream, its state, the `nsamples` converted quadlets, `nsamples`,
the header `dbc` and `dropped`, and returns its `int` result and new state. The result is
`none` when the handler reads a quadlet the buffer does not hold. -/
def amdtp_recv_handler {σ : Type} (big_endian : Bool)
    (put_data : iec61883_amdtp → σ → List Nat → Int → Nat → Nat → Int × σ)
    (amdtp : iec61883_amdtp) (callback_data : σ) (packet : iec61883_packet)
    (data : List Nat) (len : Nat) (_channel tag _sy _cycle dropped : Nat) :
    Option (recv_cycle σ) :=
  let amdtp : iec61883_amdtp :=
    { amdtp with total_dropped := (amdtp.total_dropped + dropped) % 4294967296 }
  if recv_valid tag packet then
    match recv_latch big_endian amdtp packet data with
    | none => none
    | some (true, result, amdtp) =>
      some { result := result, amdtp := amdtp, callback_data := callback_data, data := data }
    | some (false, result, amdtp) =>
      recv_deliver big_endian put_data result amdtp callback_data packet data len dropped
  else
    some
      { result := recv_defer RAW1394_ISO_OK dropped, amdtp := amdtp,
        callback_data := callback_data, data := data }

/-- The packets of a run of transmit cycles handed in order to `amdtp_recv_handler` of a
receiving stream, on a host of the same byte order and without dropped packets: the
receiver finds in its buffer the header fields and payload quadlets the transmitter
stored, with the length and tag the transmit handler reported. Cycles that report no
length send nothing. The result is the receiving stream and the state of its callback. -/
def amdtp_loopback {σ τ : Type} (big_endian : Bool)
    (put_data : iec61883_amdtp → τ → List Nat → Int → Nat → Nat → Int × τ) :
    List (xmit_cycle σ) → iec61883_amdtp → τ → Option (iec61883_amdtp × τ)
  | [], rx, sink => some (rx, sink)
  | r :: rs, rx, sink =>
    match r.len, r.tag, r.sy with
    | some len, some tag, some sy =>
      match amdtp_recv_handler big_endian put_data rx sink r.packet r.data len 63 tag sy 0 0 with
      | none => none
      | some c => amdtp_loopback big_endian put_data rs c.amdtp c.callback_data
    | _, _, _ => amdtp_loopback big_endian put_data rs rx sink

/-- A data source that hands out the quadlets `src 0, src 1, ...` in order, `nevents *
dimension` of them in each call, and never fails; its state is the number of quadlets
handed out so far. -/
def stream_source (src : Nat → Nat) (amdtp : iec61883_amdtp) (position : Nat)
    (nevents : Int) (_dbc _dropped : Nat) : Int × List Nat × Nat :=
  (0, (List.range (nevents * amdtp.dimension).toNat).map (fun i => src (position + i)),
    position + (nevents * amdtp.dimension).toNat)

/-- A data sink that keeps every quadlet it is given, in order, and never fails. -/
def list_sink (_amdtp : iec61883_amdtp) (received : List Nat) (data : List Nat)
    (_nsamples : Int) (_dbc _dropped : Nat) : Int × List Nat :=
  (0, received ++ data)

/-- The shape of a RAW transmit stream in one of the two blocking modes between two
cycles: `xmit_inv` and `timing_inv` hold, and the data-block count is a multiple of
`syt_interval`. -/
def blocking_inv (k : Nat) (rate mode dimension syt_interval sample_format fdf : Int)
    (a : iec61883_amdtp) : Prop :=
  xmit_inv rate mode dimension syt_interval a ∧ timing_inv k a.cip ∧
  a.cip.dbc % syt_interval = 0 ∧ a.format = IEC61883_AMDTP_FORMAT_RAW ∧
  a.sample_format = sample_format ∧ a.cip.fdf = fdf ∧ a.cip.format = IEC61883_FMT_AMDTP

/-- The four bytes a 32-bit host value occupies in memory, lowest address first. -/
def u32_image (big_endian : Bool) (v : Nat) : List Nat :=
  if big_endian then [v / 16777216 % 256, v / 65536 % 256, v / 256 % 256, v % 256]
  else [v % 256, v / 256 % 256, v / 65536 % 256, v / 16777216 % 256]

/-- A data sink that records the arguments of every call (the quadlets, `nsamples`, `dbc`
and `dropped`), in order, and never fails. -/
def record_sink (_amdtp : iec61883_amdtp) (calls : List (List Nat × Int × Nat × Nat))
    (data : List Nat) (nsamples : Int) (dbc dropped : Nat) :
    Int × List (List Nat × Int × Nat × Nat) :=
  (0, calls ++ [(data, nsamples, dbc, dropped)])

/-! ## Receive handlers of DV and MPEG2 (`dv.c`, `mpeg2.c`) -/

/-- The constant `DIF_BLOCK_SIZE` of `dv.c`. -/
def DIF_BLOCK_SIZE : Nat := 480
/-- The constant `TSP_SPH_SIZE` of `mpeg2.c`. -/
def TSP_SPH_SIZE : Nat := 192
/-- The constant `IEC61883_MPEG2_TSP_SIZE` of `iec61883.h`. -/
def IEC61883_MPEG2_TSP_SIZE : Nat := 188

/-- The struct `iec61883_dv` of `iec61883-private.h`, without its pointers: a callback
that may be `NULL` is an `Option` argument of the handler. -/
structure iec61883_dv where
  cip : iec61883_cip
  channel : Int
  buffer_packets : Nat
  prebuffer_packets : Nat
  irq_interval : Nat
  synch : Int
  speed : Int
  total_dropped : Nat
deriving DecidableEq, Repr

/-- The struct `iec61883_mpeg2` of `iec61883-private.h`, without its pointers (the
callbacks, their data, the handle and the smoothing buffer). -/
structure iec61883_mpeg2 where
  cip : iec61883_cip
  syt_interval : Int
  channel : Int
  buffer_packets : Nat
  prebuffer_packets : Nat
  irq_interval : Nat
  synch : Int
  speed : Int
  total_dropped : Nat
deriving DecidableEq, Repr

/-- What a call of `dv_recv_handler` leaves behind. -/
structure dv_recv_cycle (σ : Type) where
  result : raw1394_iso_disposition
  dv : iec61883_dv
  callback_data : σ

/-- The function `dv_recv_handler` of `dv.c`. The buffer is the list of bytes `data`; the
callback `put_data` (`none` for `NULL`) receives its state, the bytes from `data + 8` on,
`DIF_BLOCK_SIZE` and `dropped`. -/
def dv_recv_handler {σ : Type} (put_data : Option (σ → List Nat → Int → Nat → Int × σ))
    (dv : iec61883_dv) (callback_data : σ) (data : List Nat) (len channel _tag _sy _cycle
      dropped : Nat) : dv_recv_cycle σ :=
  let dv : iec61883_dv := { dv with total_dropped := (dv.total_dropped + dropped) % 4294967296 }
  match put_data with
  | some put =>
    if (channel : Int) = dv.channel ∧ len = DIF_BLOCK_SIZE + 8 then
      let called := put callback_data (data.drop 8) (DIF_BLOCK_SIZE : Int) dropped
      { result := recv_defer (if called.1 < 0 then RAW1394_ISO_ERROR else RAW1394_ISO_OK)
          dropped,
        dv := dv, callback_data := called.2 }
    else
      { result := recv_defer RAW1394_ISO_OK dropped, dv := dv, callback_data := callback_data }
  | none =>
    { result := recv_defer RAW1394_ISO_OK dropped, dv := dv, callback_data := callback_data }

/-- The 32-bit value `htonl` receives from `htonl (* (unsigned long*) p)` in
`mpeg2_recv_handler`, for the bytes at `p`: the `unsigned long` read from memory is cut to
32 bits, which are its first four bytes on a little-endian host or with a 4-byte `long`,
and its last four bytes on a big-endian host with an 8-byte `long`. The result is `none`
when a byte outside `bytes` is read. -/
def read_long_u32 (big_endian long_is_64 : Bool) (bytes : List Nat) (offset : Nat) :
    Option Nat :=
  let first := if big_endian ∧ long_is_64 then offset + 4 else offset
  let last := if long_is_64 then offset + 7 else offset + 3
  match bytes.get? first, bytes.get? (first + 1), bytes.get? (first + 2),
      bytes.get? (first + 3), bytes.get? last with
  | some b0, some b1, some b2, some b3, some _ =>
    if big_endian then some (b0 % 256 * 16777216 + b1 % 256 * 65536 + b2 % 256 * 256 + b3 % 256)
    else some (b0 % 256 + b1 % 256 * 256 + b2 % 256 * 65536 + b3 % 256 * 16777216)
  | _, _, _, _, _ => none

/-- What a call of `mpeg2_recv_handler` leaves behind. -/
structure mpeg2_recv_cycle (σ : Type) where
  result : raw1394_iso_disposition
  mpeg : iec61883_mpeg2
  callback_data : σ

/-- The forwarding loop of `mpeg2_recv_handler` (lines 127-133):
`for (; len > IEC61883_MPEG2_TSP_SIZE; len -= TSP_SPH_SIZE, data += TSP_SPH_SIZE)`, with
`len` an `unsigned int` and `offset` the distance of `data` from the start of the buffer.
The result is the disposition so far, the value of `dropped` after the loop, the callback
state and the number of calls of the sink; `none` when `fuel` iterations do not end the
loop. -/
def mpeg2_recv_loop {σ : Type} (put_data : σ → List Nat → Int → Nat → Int × σ)
    (data : List Nat) :
    Nat → Nat → Nat → Nat → σ → Nat → Option (raw1394_iso_disposition × Nat × σ × Nat)
  | 0, _, _, _, _, _ => none
  | fuel + 1, len, offset, dropped, callback_data, calls =>
    if len > IEC61883_MPEG2_TSP_SIZE then
      let called := put_data callback_data ((data.drop offset).take IEC61883_MPEG2_TSP_SIZE)
        (IEC61883_MPEG2_TSP_SIZE : Int) dropped
      if called.1 < 0 then some (RAW1394_ISO_ERROR, dropped, called.2, calls + 1)
      else
        mpeg2_recv_loop put_data data fuel ((len + 4294967296 - TSP_SPH_SIZE) % 4294967296)
          (offset + TSP_SPH_SIZE) 0 called.2 (calls + 1)
    else some (RAW1394_ISO_OK, dropped, callback_data, calls)

/-- The function `mpeg2_recv_handler` of `mpeg2.c`. The buffer is the list of bytes
`data`; the callback `put_data` (`none` for `NULL`) receives its state, the bytes of one
transport packet, `IEC61883_MPEG2_TSP_SIZE` and `dropped`. The loop is given `2 ^ 26`
iterations, within which `len`, going down in steps of 192 modulo `2 ^ 32`, is at most 188
at least once. The result is `none` when a header byte outside `data` is read. -/
def mpeg2_recv_handler {σ : Type} (big_endian long_is_64 : Bool)
    (put_data : Option (σ → List Nat → Int → Nat → Int × σ))
    (mpeg : iec61883_mpeg2) (callback_data : σ) (data : List Nat) (len channel _tag _sy _cycle
      dropped : Nat) : Option (mpeg2_recv_cycle σ) :=
  match read_long_u32 big_endian long_is_64 data 0,
      read_long_u32 big_endian long_is_64 data 4 with
  | some q0, some q1 =>
    let dbs_fn_qpc_sph : Nat := (htonl big_endian q0 / 1024) % 16384
    let fmt : Nat := (htonl big_endian q1 / 16777216) % 64
    let mpeg : iec61883_mpeg2 :=
      { mpeg with total_dropped := (mpeg.total_dropped + dropped) % 4294967296 }
    match put_data with
    | some put =>
      if (channel : Int) = mpeg.channel ∧ len ≥ TSP_SPH_SIZE + 8 ∧ dbs_fn_qpc_sph = 0x01b1 ∧
          fmt = 0x20 then
        match mpeg2_recv_loop put data 67108864 len 12 dropped callback_data 0 with
        | none => none
        | some (result, dropped2, callback_data2, _) =>
          some { result := recv_defer result dropped2, mpeg := mpeg,
                 callback_data := callback_data2 }
      else
        some { result := recv_defer RAW1394_ISO_OK dropped, mpeg := mpeg,
               callback_data := callback_data }
    | none =>
      some { result := recv_defer RAW1394_ISO_OK dropped, mpeg := mpeg,
             callback_data := callback_data }
  | _, _ => none

/-! ## The MPEG2 smoothing buffer (`tsbuffer.c`) -/

/-- The constant `MAX_PCR_LOOKAHEAD` of `tsbuffer.c`. -/
def MAX_PCR_LOOKAHEAD : Nat := 20000
/-- The constant `PCR_SMOOTH_INTERVAL` of `tsbuffer.c`. -/
def PCR_SMOOTH_INTERVAL : Nat := 5
/-- The constant `SYT_OFFSET` of `tsbuffer.c`. -/
def SYT_OFFSET : Nat := 7

/-- The function `fill_mpeg_cip_header` of `tsbuffer.c`: the eight bytes `cip->b`; the two
arguments are of type `u8`. -/
def fill_mpeg_cip_header (src_node_id counter : Nat) : List Nat :=
  [src_node_id % 256, 0x06, 0xC4, counter % 256, 0xA0, 0x80, 0x00, 0x00]

/-- The function `make_sph` of `tsbuffer.c` on 32-bit values; the result is below `2 ^ 25`,
so no bit is shifted out. -/
def make_sph (count offset : Nat) : Nat :=
  ((count &&& 0x1fff) <<< 12) ||| (offset &&& 0xfff)

/-- The byte at offset `i` of a `struct mpeg2_ts` given by its bytes: `ts_header` at 0-3,
`adapt_len` at 4, `adapt_flags` at 5, `pcr` at 6-11, `data` at 12-187. -/
def ts_byte (ts : List Nat) (i : Nat) : Nat :=
  ts.getD i 0 % 256

/-- The function `ts_get_pid` of `tsbuffer.c`. Its return type is `u8`, which keeps the low
eight bits of the masked value. -/
def ts_get_pid (ts : List Nat) : Nat :=
  ((ts_byte ts 1 * 256 + ts_byte ts 2) &&& 0x1fff) % 256

/-- The function `ts_get_pcr` of `tsbuffer.c`. The operand of `ts->pcr[0] << 25` is
promoted to `int`: the shift keeps the low 32 bits as a two's complement number (it is
undefined in ISO C when `pcr[0] >= 0x40`), which is converted to `u64` when it is stored in
`pcr`. The other terms are non-negative `int` values; the sums and the product are `u64`
operations. -/
def ts_get_pcr (ts : List Nat) : Nat :=
  let pcr : Nat := (int_shl (ts_byte ts 6 : Int) 25 % 18446744073709551616).toNat
  let pcr := (pcr + ts_byte ts 7 * 131072) % 18446744073709551616
  let pcr := (pcr + ts_byte ts 8 * 512) % 18446744073709551616
  let pcr := (pcr + ts_byte ts 9 * 2) % 18446744073709551616
  let pcr := (pcr + (ts_byte ts 10 &&& 0x80) / 128) % 18446744073709551616
  let pcr := (pcr * 300) % 18446744073709551616
  let pcr := (pcr + (ts_byte ts 10 &&& 0x1) * 256) % 18446744073709551616
  (pcr + ts_byte ts 11) % 18446744073709551616

/-- The function `ts_has_pcr` of `tsbuffer.c`. -/
def ts_has_pcr (ts : List Nat) (pid : Int) : Int :=
  if pid = -1 ∨ pid = (ts_get_pid ts : Int) then
    if (ts_byte ts 3 &&& 0x20) ≠ 0 ∧ ts_byte ts 4 > 0 ∧ (ts_byte ts 5 &&& 0x10) ≠ 0 then 1
    else 0
  else 0

/-- The struct `tsbuffer` of `tsbuffer.c`, without the callback and its data, which are
arguments of the functions. The deque `ts_queue` is given by the list of its items, front
first; an item is the 188 bytes of a `struct mpeg2_ts`. Allocations are taken to
succeed. -/
structure tsbuffer where
  ts_queue : List (List Nat)
  dropped : Nat
  last_pcr : Nat
  pcr_drift_ref : Nat
  pcr_drift_cycles : Nat
  packets_since_last_pcr : Nat
  delta_pcr_per_packet : Nat
  tsp_accum : Nat
  tsp_whole : Nat
  tsp_num : Nat
  tsp_denom : Nat
  selected_pid : Int
  iso_counter : Nat
deriving DecidableEq, Repr

/-- The 188-byte block that `tsbuffer_read_ts` gets from `calloc` after the callback has
stored `bytes` from its start. -/
def ts_block (bytes : List Nat) : List Nat :=
  (bytes.map (fun b => b % 256) ++ List.replicate 188 0).take 188

/-- The function `tsbuffer_read_ts` of `tsbuffer.c`. The callback `read_packet` receives
its state, the packet count 1 and `dropped`; it returns its `int` result, the bytes it
stored and its new state. -/
def tsbuffer_read_ts {σ : Type} (read_packet : σ → Int → Nat → Int × List Nat × σ)
    (this : tsbuffer) (callback_data : σ) : Int × tsbuffer × σ :=
  let called := read_packet callback_data 1 this.dropped
  if called.1 < 0 then (0, this, called.2.2)
  else
    (1, { this with dropped := 0, ts_queue := this.ts_queue ++ [ts_block called.2.1] },
      called.2.2)

/-- The loop of `tsbuffer_read_to_next_pcr`, with a bound `fuel` on the number of
iterations; `none` when the bound is reached. -/
def read_to_next_pcr_loop {σ : Type} (read_packet : σ → Int → Nat → Int × List Nat × σ) :
    Nat → tsbuffer → σ → Option (Int × tsbuffer × σ)
  | 0, _, _ => none
  | fuel + 1, this, callback_data =>
    if this.ts_queue.length > MAX_PCR_LOOKAHEAD then some (0, this, callback_data)
    else
      let r := tsbuffer_read_ts read_packet this callback_data
      if r.1 = 0 then some (0, r.2.1, r.2.2)
      else
        match r.2.1.ts_queue.getLast? with
        | none => none
        | some back =>
          let this : tsbuffer :=
            if r.2.1.selected_pid = -1 then
              { r.2.1 with selected_pid := (ts_get_pid back : Int) }
            else r.2.1
          if ts_has_pcr back this.selected_pid = 0 then
            read_to_next_pcr_loop read_packet fuel this r.2.2
          else some (1, this, r.2.2)

/-- The function `tsbuffer_read_to_next_pcr` of `tsbuffer.c`: the returned `int`, the
buffer and the callback state. The loop is given `MAX_PCR_LOOKAHEAD + 2` iterations. -/
def tsbuffer_read_to_next_pcr {σ : Type} (read_packet : σ → Int → Nat → Int × List Nat × σ)
    (this : tsbuffer) (callback_data : σ) : Option (Int × tsbuffer × σ) :=
  read_to_next_pcr_loop read_packet (MAX_PCR_LOOKAHEAD + 2) this callback_data

/-- The first loop of `tsbuffer_refill` (lines 282-284): `n` calls of
`tsbuffer_read_to_next_pcr`, ended by the first that returns 0. -/
def refill_search {σ : Type} (read_packet : σ → Int → Nat → Int × List Nat × σ) :
    Nat → tsbuffer → σ → Option (Int × tsbuffer × σ)
  | 0, this, callback_data => some (1, this, callback_data)
  | n + 1, this, callback_data =>
    match tsbuffer_read_to_next_pcr read_packet this callback_data with
    | none => none
    | some (r, this, callback_data) =>
      if r = 0 then some (0, this, callback_data)
      else refill_search read_packet n this callback_data

/-- The rate computed by `tsbuffer_refill` (lines 324-329): `tsp_whole`, `tsp_num` and
`tsp_denom`. The product `n_packets * 3375` is computed in `unsigned int`; the division by
`delta_pcr = 0` is undefined. -/
def refill_rate (n_packets delta_pcr : Nat) : Option (Nat × Nat × Nat) :=
  let num : Nat := (n_packets * 3375) % 4294967296
  let denom : Nat := delta_pcr
  if denom = 0 then none else some (num / denom, num % denom, denom)

/-- The function `tsbuffer_refill` of `tsbuffer.c`; `none` when the call is undefined (a
division by zero, or `ts_get_pcr` on the `NULL` back of an empty queue). -/
def tsbuffer_refill {σ : Type} (read_packet : σ → Int → Nat → Int × List Nat × σ)
    (this : tsbuffer) (callback_data : σ) : Option (Int × tsbuffer × σ) :=
  match refill_search read_packet PCR_SMOOTH_INTERVAL this callback_data with
  | none => none
  | some (r, this, callback_data) =>
    if r = 0 then some (0, this, callback_data)
    else
      let n_packets : Nat := this.ts_queue.length % 4294967296
      match this.ts_queue.getLast? with
      | none => none
      | some back =>
        let pcr : Nat := ts_get_pcr back
        let this : tsbuffer :=
          if this.pcr_drift_ref = 0 then
            { this with pcr_drift_ref := pcr, pcr_drift_cycles := 0 }
          else this
        let delta_pcr : Nat :=
          (pcr + 18446744073709551616 - this.last_pcr) % 18446744073709551616
        if n_packets = 0 then none
        else
          match refill_rate n_packets delta_pcr with
          | none => none
          | some (whole, num, denom) =>
            some
              (1,
                { this with
                  delta_pcr_per_packet := delta_pcr / n_packets
                  tsp_whole := whole
                  tsp_num := num
                  tsp_denom := denom
                  last_pcr := pcr
                  packets_since_last_pcr := 0 },
                callback_data)

/-- What `tsbuffer_init` leaves behind: the buffer (`none` for the `NULL` of a failed
`calloc`), the callback state, and the values returned by its calls of
`tsbuffer_read_to_next_pcr` and `tsbuffer_refill`, which the function does not look at. -/
structure tsbuffer_init_result (σ : Type) where
  this : Option tsbuffer
  callback_data : σ
  search_result : Int
  refill_result : Int

/-- The function `tsbuffer_init` of `tsbuffer.c`; `calloc_ok` tells whether `calloc`
succeeds. The result is `none` when the call is undefined: `ts_get_pcr` on the `NULL` back
of an empty queue, or an undefined `tsbuffer_refill`. -/
def tsbuffer_init {σ : Type} (calloc_ok : Bool)
    (read_cb : σ → Int → Nat → Int × List Nat × σ) (callback_data : σ) (pid : Int) :
    Option (tsbuffer_init_result σ) :=
  if calloc_ok then
    let this : tsbuffer :=
      { ts_queue := [], dropped := 0, last_pcr := 0, pcr_drift_ref := 0,
        pcr_drift_cycles := 0, packets_since_last_pcr := 0, delta_pcr_per_packet := 0,
        tsp_accum := 0, tsp_whole := 0, tsp_num := 0, tsp_denom := 0, selected_pid := pid,
        iso_counter := 0 }
    match tsbuffer_read_to_next_pcr read_cb this callback_data with
    | none => none
    | some (search_result, this, callback_data) =>
      match this.ts_queue.getLast? with
      | none => none
      | some back =>
        let this : tsbuffer := { this with last_pcr := ts_get_pcr back, ts_queue := [] }
        match tsbuffer_refill read_cb this callback_data with
        | none => none
        | some (refill_result, this, callback_data) =>
          some
            { this := some this, callback_data := callback_data,
              search_result := search_result, refill_result := refill_result }
  else
    some { this := none, callback_data := callback_data, search_result := 0,
           refill_result := 0 }

/-- The numerator/denominator step of `tsbuffer_send_iso_cycle` (lines 359-364) in `u64`
arithmetic: the number of packets added to `tsp_whole` and the buffer with the new
`tsp_accum`. -/
def send_accumulate (this : tsbuffer) : Nat × tsbuffer :=
  let gap : Nat := (this.tsp_denom + 18446744073709551616 - this.tsp_num) % 18446744073709551616
  if this.tsp_accum > gap then
    (1, { this with
          tsp_accum := (this.tsp_accum + 18446744073709551616 - gap) % 18446744073709551616 })
  else
    (0, { this with tsp_accum := (this.tsp_accum + this.tsp_num) % 18446744073709551616 })

/-- The loop `while (n_tsps > iec61883_deque_size (this->ts_queue))` of
`tsbuffer_send_iso_cycle` (lines 403-405), with a bound `fuel` on the number of
iterations; `none` when the bound is reached. -/
def send_read_loop {σ : Type} (read_packet : σ → Int → Nat → Int × List Nat × σ)
    (n_tsps : Nat) : Nat → tsbuffer → σ → Option (Int × tsbuffer × σ)
  | 0, this, callback_data =>
    if n_tsps > this.ts_queue.length then none else some (1, this, callback_data)
  | fuel + 1, this, callback_data =>
    if n_tsps > this.ts_queue.length then
      let r := tsbuffer_read_ts read_packet this callback_data
      if r.1 = 0 then some (0, r.2.1, r.2.2)
      else send_read_loop read_packet n_tsps fuel r.2.1 r.2.2
    else some (1, this, callback_data)

/-- The loop of `tsbuffer_send_iso_cycle` that moves `n` packets from the queue to
`cycle->packet[i]`, `i` counting up from the given index (lines 410-427): the buffer and
the bytes written, the source packet header in memory order first; `none` when the queue
has no front to copy from. -/
def send_packets (big_endian : Bool) (iso_cycle : Nat) :
    Nat → Nat → tsbuffer → Option (tsbuffer × List Nat)
  | 0, _, this => some (this, [])
  | n + 1, i, this =>
    match this.ts_queue.head? with
    | none => none
    | some ts =>
      let cycle_count : Nat := ((iso_cycle + SYT_OFFSET) % 4294967296) % 8000
      let sph : Nat := htonl big_endian (make_sph cycle_count ((1000 * i) % 4294967296))
      let this : tsbuffer :=
        { this with
          ts_queue := this.ts_queue.tail
          packets_since_last_pcr := (this.packets_since_last_pcr + 1) % 4294967296 }
      match send_packets big_endian iso_cycle n (i + 1) this with
      | none => none
      | some (this, rest) => some (this, u32_image big_endian sph ++ ts_block ts ++ rest)

/-- What a call of `tsbuffer_send_iso_cycle` leaves behind: the returned length, the
buffer, the callback state and the bytes written at `data`. -/
structure send_iso_cycle_result (σ : Type) where
  len : Nat
  this : tsbuffer
  callback_data : σ
  data : List Nat

/-- The function `tsbuffer_send_iso_cycle` of `tsbuffer.c`. With
`ENABLE_PCR_DRIFT_CORRECTION` defined as 0 the drift block (lines 366-401) only counts
`pcr_drift_cycles`. The result is `none` when the call is undefined. -/
def tsbuffer_send_iso_cycle {σ : Type} (read_packet : σ → Int → Nat → Int × List Nat × σ)
    (big_endian : Bool) (this : tsbuffer) (callback_data : σ)
    (iso_cycle src_node_id dropped : Nat) : Option (send_iso_cycle_result σ) :=
  let this : tsbuffer := { this with dropped := dropped }
  let step := send_accumulate this
  let n_tsps : Nat := (this.tsp_whole % 4294967296 + step.1) % 4294967296
  let this : tsbuffer := step.2
  let this : tsbuffer :=
    if this.pcr_drift_ref ≠ 0 then
      { this with pcr_drift_cycles := (this.pcr_drift_cycles + 1) % 4294967296 }
    else this
  match send_read_loop read_packet n_tsps n_tsps this callback_data with
  | none => none
  | some (r, this, callback_data) =>
    if r = 0 then some { len := 0, this := this, callback_data := callback_data, data := [] }
    else
      let header := fill_mpeg_cip_header src_node_id this.iso_counter
      match send_packets big_endian iso_cycle n_tsps 0 this with
      | none => none
      | some (this, packets) =>
        if this.ts_queue.length = 0 then
          match tsbuffer_refill read_packet this callback_data with
          | none => none
          | some (r, this, callback_data) =>
            if r = 0 then
              some { len := 0, this := this, callback_data := callback_data,
                     data := header ++ packets }
            else
              some
                { len := (8 + n_tsps * 192) % 4294967296
                  this := { this with
                            iso_counter := (this.iso_counter + 8 * n_tsps) % 4294967296 }
                  callback_data := callback_data
                  data := header ++ packets }
        else
          some
            { len := (8 + n_tsps * 192) % 4294967296
              this := { this with
                        iso_counter := (this.iso_counter + 8 * n_tsps) % 4294967296 }
              callback_data := callback_data
              data := header ++ packets }

/-- What `iec61883_mpeg2_xmit_start` leaves behind: the returned `int`, the stream, its
`tsbuffer` pointer (`none` for `NULL`) and the callback state. -/
structure mpeg2_xmit_start_result (σ : Type) where
  result : Int
  mpeg : iec61883_mpeg2
  tsbuffer : Option tsbuffer
  callback_data : σ

/-- The function `iec61883_mpeg2_xmit_start` of `mpeg2.c`. The callback `get_data` is
`none` for `NULL`; `calloc_ok` tells whether the `calloc` of `tsbuffer_init` succeeds;
`xmit_init_result` and `xmit_start_result` are what `raw1394_iso_xmit_init` and
`raw1394_iso_xmit_start` return. The result is `none` when `tsbuffer_init` is
undefined. -/
def iec61883_mpeg2_xmit_start {σ : Type} (calloc_ok : Bool)
    (get_data : Option (σ → Int → Nat → Int × List Nat × σ)) (mpeg : iec61883_mpeg2)
    (callback_data : σ) (pid _channel xmit_init_result xmit_start_result : Int) :
    Option (mpeg2_xmit_start_result σ) :=
  match get_data with
  | some get =>
    match tsbuffer_init calloc_ok get callback_data pid with
    | none => none
    | some init =>
      match init.this with
      | some this =>
        if xmit_init_result = 0 then
          some { result := xmit_start_result, mpeg := { mpeg with total_dropped := 0 },
                 tsbuffer := some this, callback_data := init.callback_data }
        else
          some { result := -1, mpeg := mpeg, tsbuffer := some this,
                 callback_data := init.callback_data }
      | none =>
        some { result := -1, mpeg := mpeg, tsbuffer := none,
               callback_data := init.callback_data }
  | none => some { result := -1, mpeg := mpeg, tsbuffer := none, callback_data := callback_data }

/-! ## The DV transmitter (`dv.c`) -/

/-- The constant `IEC61883_FMT_DV` of `iec61883-private.h`. -/
def IEC61883_FMT_DV : Int := 0x00

/-- The function `iec61883_dv_xmit_init` of `dv.c`; `mem` is the result of `malloc`. The
rate is `syt_interval * (is_pal ? 25 : 30000.0/1001.0)` converted to `int`: 7500 for PAL,
and 7492 for NTSC, the integer part of 7492.507... With the `syt_interval` 300 or 250 the
product `24576000 * syt_interval` of `iec61883_cip_init` does not fit an `int`, and
`ticks_per_syt_offset` is made from the 32-bit word of the product: `-162284 - 4592/7500`
for PAL and `246800 + 7104/7492` for NTSC (`dv_xmit_init_ticks`). -/
def iec61883_dv_xmit_init (mem : Option iec61883_dv) (is_pal : Int) : Option iec61883_dv :=
  let dbs : Int := (DIF_BLOCK_SIZE : Int).tdiv 4
  let fdf : Int := if is_pal ≠ 0 then 0x80 else 0x00
  let syt_interval : Int := if is_pal ≠ 0 then 300 else 250
  let rate : Int := if is_pal ≠ 0 then 7500 else 7492
  match mem with
  | none => none
  | some dv =>
    match iec61883_cip_init dv.cip IEC61883_FMT_DV fdf rate dbs syt_interval with
    | none => none
    | some cip =>
      some
        { dv with
          channel := -1
          buffer_packets := 1000
          prebuffer_packets := 1000
          irq_interval := 250
          synch := 0
          speed := RAW1394_ISO_SPEED_100
          cip := iec61883_cip_set_transmission_mode cip IEC61883_MODE_NON_BLOCKING }

/-- The static variables of `dv_xmit_handler` (lines 129-131). -/
structure dv_xmit_static where
  packet_num : Int
  cip_accum : Int
  continuity_counter : Int
deriving DecidableEq, Repr

/-- What a call of `dv_xmit_handler` leaves behind: the disposition, the stream, the
static variables, the callback state, the header fields, `n_dif_blocks`, the payload bytes
stored by the callback, and the outputs `*len`, `*tag`, `*sy`. -/
structure dv_xmit_cycle (σ : Type) where
  result : raw1394_iso_disposition
  dv : iec61883_dv
  statics : dv_xmit_static
  callback_data : σ
  packet : iec61883_packet
  n_dif_blocks : Int
  data : List Nat
  len : Nat
  tag : Nat
  sy : Nat

/-- The function `dv_xmit_handler` of `dv.c`, with `DV_CUSTOM_CIP` defined. The callback
`get_data` (`none` for `NULL`) receives its state, `n_dif_blocks` and `dropped`, and
returns its `int` result, the bytes it stored at `packet->data` and its new state. The
result is `none` when `iec61883_cip_fill_header` is undefined. -/
def dv_xmit_handler {σ : Type} (big_endian : Bool) (local_id : Nat)
    (get_data : Option (σ → Int → Nat → Int × List Nat × σ)) (dv : iec61883_dv)
    (statics : dv_xmit_static) (callback_data : σ) (cycle : Int) (dropped : Nat) :
    Option (dv_xmit_cycle σ) :=
  match iec61883_cip_fill_header big_endian local_id dv.cip with
  | none => none
  | some (_, cip, packet) =>
    let dv : iec61883_dv := { dv with cip := cip }
    let syt_offset : Int := 3
    let cip_n : Int := if dv.cip.syt_interval = 250 then 68 else 1
    let cip_d : Int := if dv.cip.syt_interval = 250 then 1068 else 16
    let ts : Nat :=
      if statics.packet_num = 0 then
        let ts : Nat := to_u32 (cycle + syt_offset)
        let ts : Nat := if ts > 8000 then ts - 8000 else ts
        ((ts &&& 0xF) <<< 12) % 4294967296
      else 0xFFFF
    let packet : iec61883_packet :=
      { packet with
        syt := htons big_endian (ts % 65536)
        dbc := bitfield 8 statics.continuity_counter }
    let n_dif_blocks : Int := if statics.cip_accum > cip_d - cip_n then 0 else 1
    let statics : dv_xmit_static :=
      if statics.cip_accum > cip_d - cip_n then
        { statics with cip_accum := statics.cip_accum - (cip_d - cip_n) }
      else
        { packet_num :=
            if statics.packet_num + 1 ≥ dv.cip.syt_interval then 0 else statics.packet_num + 1
          cip_accum := statics.cip_accum + cip_n
          continuity_counter := statics.continuity_counter + 1 }
    let dv : iec61883_dv :=
      { dv with total_dropped := (dv.total_dropped + dropped) % 4294967296 }
    let len : Nat := to_u32 (n_dif_blocks * (DIF_BLOCK_SIZE : Int) + 8)
    match get_data with
    | some get =>
      let called := get callback_data n_dif_blocks dropped
      some
        { result := if called.1 < 0 then RAW1394_ISO_ERROR else RAW1394_ISO_OK
          dv := dv, statics := statics, callback_data := called.2.2, packet := packet
          n_dif_blocks := n_dif_blocks, data := called.2.1
          len := len, tag := IEC61883_TAG_WITH_CIP, sy := 0 }
    | none =>
      some
        { result := RAW1394_ISO_OK
          dv := dv, statics := statics, callback_data := callback_data, packet := packet
          n_dif_blocks := n_dif_blocks, data := []
          len := len, tag := IEC61883_TAG_WITH_CIP, sy := 0 }

/-- Consecutive cycles of `dv_xmit_handler`, one for each pair of `cycle` and `dropped`,
the stream, the static variables and the callback state being handed from one cycle to
the next. -/
def dv_xmit_run {σ : Type} (big_endian : Bool) (local_id : Nat)
    (get_data : Option (σ → Int → Nat → Int × List Nat × σ)) :
    List (Int × Nat) → iec61883_dv → dv_xmit_static → σ → Option (List (dv_xmit_cycle σ))
  | [], _, _, _ => some []
  | (cycle, dropped) :: rest, dv, statics, callback_data =>
    match dv_xmit_handler big_endian local_id get_data dv statics callback_data cycle
        dropped with
    | none => none
    | some r =>
      match dv_xmit_run big_endian local_id get_data rest r.dv r.statics r.callback_data with
      | none => none
      | some rs => some (r :: rs)

/-- Consecutive cycles of `tsbuffer_send_iso_cycle`, one for each pair of `iso_cycle` and
`dropped`, ended by the first cycle that returns 0. -/
def send_iso_run {σ : Type} (read_packet : σ → Int → Nat → Int × List Nat × σ)
    (big_endian : Bool) (src_node_id : Nat) :
    List (Nat × Nat) → tsbuffer → σ → Option (List (send_iso_cycle_result σ))
  | [], _, _ => some []
  | (iso_cycle, dropped) :: rest, this, callback_data =>
    match tsbuffer_send_iso_cycle read_packet big_endian this callback_data iso_cycle
        src_node_id dropped with
    | none => none
    | some r =>
      if r.len = 0 then some [r]
      else
        match send_iso_run read_packet big_endian src_node_id rest r.this r.callback_data with
        | none => none
        | some rs => some (r :: rs)

/-- The rate-driven choice of `tsbuffer_send_iso_cycle` alone, repeated `n` times on a
buffer whose rate does not change: the numbers of packets chosen and the final buffer. -/
def send_accumulate_run : Nat → tsbuffer → List Nat × tsbuffer
  | 0, this => ([], this)
  | n + 1, this =>
    let step := send_accumulate this
    let rest := send_accumulate_run n step.2
    ((this.tsp_whole % 4294967296 + step.1) % 4294967296 :: rest.1, rest.2)

/-! ## The DV frame buffer (`dv.c`) -/

/-- The struct `iec61883_dv_fb` of `iec61883-private.h`, without its pointers (`dv`,
`put_data`, `callback_data`): `data` stands for the array `data[480*300]`. -/
structure iec61883_dv_fb where
  data : List Nat
  len : Int
  ff : Int
  total_incomplete : Nat
deriving DecidableEq, Repr

/-- The offset from `fb->data` at which `dv_fb_recv` copies a block (the `switch` of lines
312-334); `none` for the `default` case, which copies nothing. -/
def dv_fb_offset (section_type dif_sequence dif_block : Int) : Option Int :=
  if section_type = 0 then some (dif_sequence * 150 * 80)
  else if section_type = 1 then some (dif_sequence * 150 * 80 + (1 + dif_block) * 80)
  else if section_type = 2 then some (dif_sequence * 150 * 80 + (3 + dif_block) * 80)
  else if section_type = 3 then some (dif_sequence * 150 * 80 + (6 + dif_block * 16) * 80)
  else if section_type = 4 then
    some (dif_sequence * 150 * 80 + (7 + dif_block.tdiv 15 + dif_block) * 80)
  else none

/-- The bytes of an array after `memcpy (array + offset, data, 480)`. -/
def memcpy_480 (array : List Nat) (offset : Nat) (data : List Nat) : List Nat :=
  array.take offset ++ data.take 480 ++ array.drop (offset + 480)

/-- The function `dv_fb_recv` of `dv.c`: the returned `int`, the frame buffer object and the
callback state. The callback `put_data` receives its state, the bytes of `fb->data`, `total`
and the flag `complete`. A byte is a list element taken modulo 256. The result is `none`
when the call is undefined: one of the three header bytes or of the 480 bytes to copy is
not in `data`, or the 480 bytes copied do not lie within `fb->data`. -/
def dv_fb_recv {σ : Type} (put_data : σ → List Nat → Int → Int → Int × σ)
    (fb : iec61883_dv_fb) (callback_data : σ) (data : List Nat) (len : Int) (_dropped : Nat) :
    Option (Int × iec61883_dv_fb × σ) :=
  match data.get? 0, data.get? 1, data.get? 2 with
  | some d0, some d1, some d2 =>
    let section_type : Int := ((d0 % 256 / 32 : Nat) : Int)
    let dif_sequence : Int := ((d1 % 256 / 16 : Nat) : Int)
    let dif_block : Int := ((d2 % 256 : Nat) : Int)
    let start : Int × iec61883_dv_fb × σ :=
      if section_type = 0 ∧ dif_sequence = 0 then
        if fb.ff = 0 then
          let total : Int := (if (fb.data.getD 3 0 % 256) &&& 0x80 = 0 then 250 else 300) * 480
          let fb : iec61883_dv_fb :=
            if fb.len ≠ total then
              { fb with total_incomplete := (fb.total_incomplete + 1) % 4294967296 }
            else fb
          let called := put_data callback_data fb.data total (if fb.len = total then 1 else 0)
          (called.1, { fb with len := 0 }, called.2)
        else (0, { fb with ff := 0 }, callback_data)
      else (0, fb, callback_data)
    let result : Int := start.1
    let fb : iec61883_dv_fb := start.2.1
    let callback_data : σ := start.2.2
    if fb.ff = 0 then
      let fb : iec61883_dv_fb := { fb with len := fb.len + len }
      match dv_fb_offset section_type dif_sequence dif_block with
      | some offset =>
        if offset + 480 ≤ 480 * 300 ∧ 480 ≤ data.length then
          some (result, { fb with data := memcpy_480 fb.data offset.toNat data }, callback_data)
        else none
      | none => some (result, fb, callback_data)
    else some (result, fb, callback_data)
  | _, _, _ => none

/-- The function `iec61883_dv_fb_init` of `dv.c`: `mem` is the object returned by `malloc`
(`none` for `NULL`), with the indeterminate content of fresh memory, and `recv_init_ok`
tells whether `iec61883_dv_recv_init` succeeds. The function stores `data`, `len`, `ff` and
the pointers; it does not store `total_incomplete`. -/
def iec61883_dv_fb_init (mem : Option iec61883_dv_fb) (recv_init_ok : Bool) :
    Option iec61883_dv_fb :=
  match mem with
  | none => none
  | some fb =>
    let fb : iec61883_dv_fb :=
      { fb with data := List.replicate (480 * 300) 0, len := 0, ff := 1 }
    if recv_init_ok then some fb else none

/-- The function `iec61883_dv_fb_get_incomplete` of `dv.c`. -/
def iec61883_dv_fb_get_incomplete (fb : iec61883_dv_fb) : Nat :=
  fb.total_incomplete

/-- Consecutive calls of `dv_fb_recv`, one for each block of `blocks`, with `len` 480 and
`dropped` 0, which is how `dv_recv_handler` calls it: the values returned, the frame buffer
object and the callback state. -/
def dv_fb_run {σ : Type} (put_data : σ → List Nat → Int → Int → Int × σ) :
    List (List Nat) → iec61883_dv_fb → σ → Option (List Int × iec61883_dv_fb × σ)
  | [], fb, callback_data => some ([], fb, callback_data)
  | block :: rest, fb, callback_data =>
    match dv_fb_recv put_data fb callback_data block 480 0 with
    | none => none
    | some (result, fb, callback_data) =>
      match dv_fb_run put_data rest fb callback_data with
      | none => none
      | some (results, fb, callback_data) => some (result :: results, fb, callback_data)

/-! ## The plug registers of the local host (`plug.c`) -/

/-- The value of `EINVAL` in `errno.h`. -/
def EINVAL : Int := 22

/-- The bit-fields of the struct `iec61883_iMPR` of `iec61883-private.h`. -/
structure iec61883_iMPR where
  data_rate : Nat
  reserved : Nat
  non_persist_ext : Nat
  persist_ext : Nat
  reserved2 : Nat
  n_plugs : Nat
deriving DecidableEq, Repr

/-- The bit-fields of the struct `iec61883_oMPR` of `iec61883-private.h`. -/
structure iec61883_oMPR where
  data_rate : Nat
  bcast_channel : Nat
  non_persist_ext : Nat
  persist_ext : Nat
  reserved : Nat
  n_plugs : Nat
deriving DecidableEq, Repr

/-- What `iec61883_plug_impr_init` leaves behind: the returned `int`, the value of `errno`
before the call of `raw1394_arm_register`, and `g_data_in.mpr`. -/
structure plug_impr_init_result where
  result : Int
  errno : Int
  mpr : iec61883_iMPR
deriving DecidableEq, Repr

/-- What `iec61883_plug_ompr_init` leaves behind: the returned `int`, the value of `errno`
before the call of `raw1394_arm_register`, and `g_data_out.mpr`. -/
structure plug_ompr_init_result where
  result : Int
  errno : Int
  mpr : iec61883_oMPR
deriving DecidableEq, Repr

/-- The function `iec61883_plug_impr_init` of `plug.c`; `errno` is the value of `errno` at
the call, and `arm_register` is what `raw1394_arm_register` returns. -/
def iec61883_plug_impr_init (errno arm_register : Int) (data_rate : Nat) :
    plug_impr_init_result :=
  let errno : Int := if data_rate % 4294967296 / 4 ≠ 0 then -EINVAL else errno
  { result := arm_register
    errno := errno
    mpr := { data_rate := bitfield 2 (data_rate : Int), reserved := 0, non_persist_ext := 0,
             persist_ext := 0, reserved2 := 0, n_plugs := 0 } }

/-- The function `iec61883_plug_ompr_init` of `plug.c`; `errno` is the value of `errno` at
the call, and `arm_register` is what `raw1394_arm_register` returns. -/
def iec61883_plug_ompr_init (errno arm_register : Int) (data_rate bcast_channel : Nat) :
    plug_ompr_init_result :=
  let errno : Int := if data_rate % 4294967296 / 4 ≠ 0 then -EINVAL else errno
  let errno : Int := if bcast_channel % 4294967296 / 64 ≠ 0 then -EINVAL else errno
  { result := arm_register
    errno := errno
    mpr := { data_rate := bitfield 2 (data_rate : Int),
             bcast_channel := bitfield 6 (bcast_channel : Int), non_persist_ext := 0,
             persist_ext := 0, reserved := 0, n_plugs := 0 } }

/-! ## The deque (`deque.c`) -/

/-- The struct `iec61883_deque` of `deque.c`. A pointer is a number, `NULL` is 0; `list`
is `none` for `NULL` and otherwise holds the cells of the allocated array. -/
structure iec61883_deque where
  list : Option (List Nat)
  size : Int
  count : Int
deriving DecidableEq, Repr

/-- The function `iec61883_deque_init` of `deque.c`; `malloc_ok` tells whether `malloc`
succeeds. -/
def iec61883_deque_init (malloc_ok : Bool) : Option iec61883_deque :=
  if malloc_ok then some { list := none, size := 0, count := 0 } else none

/-- The function `iec61883_deque_size` of `deque.c`. -/
def iec61883_deque_size (this : iec61883_deque) : Int :=
  this.count

/-- The function `iec61883_deque_allocate` of `deque.c`. A successful `realloc`
(`realloc_ok`) keeps the cells of the array and adds 20 cells of indeterminate content,
given by `fresh`; a failed one returns `NULL`. -/
def iec61883_deque_allocate (realloc_ok : Bool) (fresh : List Nat) (this : iec61883_deque) :
    Int × iec61883_deque :=
  let this : iec61883_deque :=
    if this.count = this.size then
      { this with
        list :=
          if realloc_ok then
            some (this.list.getD [] ++ (fresh ++ List.replicate 20 0).take 20)
          else none
        size := this.size + 20 }
    else this
  (if this.list = none then 1 else 0, this)

/-- The function `iec61883_deque_push_back` of `deque.c`: the returned `int` and the deque.
The result is `none` when the cell written is outside the array. -/
def iec61883_deque_push_back (realloc_ok : Bool) (fresh : List Nat) (this : iec61883_deque)
    (item : Nat) : Option (Int × iec61883_deque) :=
  let allocated := iec61883_deque_allocate realloc_ok fresh this
  let error : Int := allocated.1
  let this : iec61883_deque := allocated.2
  if error = 0 then
    match this.list with
    | some cells =>
      if 0 ≤ this.count ∧ this.count < cells.length then
        some (error,
          { this with list := some (cells.set this.count.toNat item), count := this.count + 1 })
      else none
    | none => none
  else some (error, this)

/-- The function `iec61883_deque_pop_back` of `deque.c`: the returned pointer and the
deque. The result is `none` when the cell read is outside the array. -/
def iec61883_deque_pop_back (this : iec61883_deque) : Option (Nat × iec61883_deque) :=
  if this.count > 0 then
    match this.list with
    | some cells =>
      if this.count - 1 < cells.length then
        some (cells.getD (this.count - 1).toNat 0, { this with count := this.count - 1 })
      else none
    | none => none
  else some (0, this)

/-- The function `iec61883_deque_push_front` of `deque.c`: the returned `int` and the
deque. The `memmove` moves the first `count` cells up by one cell. The result is `none`
when a cell written is outside the array. -/
def iec61883_deque_push_front (realloc_ok : Bool) (fresh : List Nat) (this : iec61883_deque)
    (item : Nat) : Option (Int × iec61883_deque) :=
  let allocated := iec61883_deque_allocate realloc_ok fresh this
  let error : Int := allocated.1
  let this : iec61883_deque := allocated.2
  if error = 0 then
    match this.list with
    | some cells =>
      if 0 ≤ this.count ∧ this.count < cells.length then
        some (error,
          { this with
            list := some (item :: cells.take this.count.toNat ++
              cells.drop (this.count.toNat + 1))
            count := this.count + 1 })
      else none
    | none => none
  else some (error, this)

/-- The function `iec61883_deque_pop_front` of `deque.c`: the returned pointer and the
deque. The `memmove` moves the cells 1 to `count - 1` down by one cell. The result is
`none` when a cell read is outside the array. -/
def iec61883_deque_pop_front (this : iec61883_deque) : Option (Nat × iec61883_deque) :=
  if this.count > 0 then
    match this.list with
    | some cells =>
      if this.count ≤ cells.length then
        some (cells.getD 0 0,
          { this with
            list := some ((cells.drop 1).take (this.count - 1).toNat ++
              cells.drop (this.count - 1).toNat)
            count := this.count - 1 })
      else none
    | none => none
  else some (0, this)

/-- The function `iec61883_deque_back` of `deque.c`; `none` when the cell read is outside
the array. -/
def iec61883_deque_back (this : iec61883_deque) : Option Nat :=
  if this.count > 0 then
    match this.list with
    | some cells =>
      if this.count - 1 < cells.length then some (cells.getD (this.count - 1).toNat 0)
      else none
    | none => none
  else some 0

/-- The function `iec61883_deque_front` of `deque.c`; `none` when the cell read is outside
the array. -/
def iec61883_deque_front (this : iec61883_deque) : Option Nat :=
  if this.count > 0 then
    match this.list with
    | some cells => if 0 < cells.length then some (cells.getD 0 0) else none
    | none => none
  else some 0

/-! ## Concrete states used to instantiate the theorems -/

/-- A zero-filled `iec61883_cip`. -/
def cip_blank : iec61883_cip :=
  { cycle_offset := ⟨0, 0, 0⟩, ticks_per_syt_offset := ⟨0, 0, 0⟩, ready_samples := ⟨0, 0, 0⟩,
    samples_per_cycle := ⟨0, 0, 0⟩, dbc := 0, dbs := 0, cycle_count := 0, cycle_count2 := 0,
    mode := 0, syt_interval := 0, dimension := 0, rate := 0, fdf := 0, format := 0 }

/-- A zero-filled `iec61883_amdtp`. -/
def amdtp_blank : iec61883_amdtp :=
  { cip := cip_blank, dimension := 0, rate := 0, iec958_rate_code := 0, sample_format := 0,
    format := 0, syt_interval := 0, channel := 0, buffer_packets := 0,
    prebuffer_packets := 0, irq_interval := 0, synch := 0, speed := 0, total_dropped := 0 }

/-- The state `iec61883_cip_init` gives a stereo 44100 Hz AMDTP stream (fdf 1,
`syt_interval` 8), switched to the transmission mode `mode`. -/
def cip_44100 (mode : Int) : iec61883_cip :=
  { cycle_offset := ⟨2856, 0, 44100⟩, ticks_per_syt_offset := ⟨4458, 10200, 44100⟩,
    ready_samples := ⟨0, 0, 8000⟩, samples_per_cycle := ⟨5, 4100, 8000⟩, dbc := 0, dbs := 2,
    cycle_count := 2, cycle_count2 := 0, mode := mode, syt_interval := 8, dimension := 0,
    rate := 44100, fdf := 1, format := 0x10 }

/-- The stream `iec61883_amdtp_xmit_init` builds on a zero-filled block for a stereo
44100 Hz RAW transmitter with 16-bit samples in the transmission mode `mode`. -/
def amdtp_44100 (mode : Int) : iec61883_amdtp :=
  { amdtp_blank with
    cip := cip_44100 mode, dimension := 2, channel := -1, buffer_packets := 1000,
    prebuffer_packets := 1000, irq_interval := 250 }

/-- A receiving stream right after `iec61883_amdtp_recv_start` on a zero-filled block. -/
def amdtp_recv_blank : iec61883_amdtp :=
  (iec61883_amdtp_recv_start amdtp_blank 63 0 0).2

/-- The quadlets 1, 2, 3, ... (top byte zero) as the content of a data source. -/
def count_source (i : Nat) : Nat :=
  (i + 1) % 16777216

/-- The two bytes `read_packet` of `examples/test-amdtp.c` (lines 89-93) stores for one
received quadlet: `sample >> 8` and `sample >> 16`, each cut to an `unsigned char`. -/
def read_packet_bytes (sample : Nat) : List Nat :=
  [sample / 256 % 256, sample / 65536 % 256]

/-- A sink of DV or MPEG2 data that records the arguments of every call (the bytes, the
length and `dropped`), in order, and never fails. -/
def byte_sink (calls : List (List Nat × Int × Nat)) (data : List Nat) (len : Int)
    (dropped : Nat) : Int × List (List Nat × Int × Nat) :=
  (0, calls ++ [(data, len, dropped)])

/-- A zero-filled `iec61883_mpeg2` receiving on channel 63. -/
def mpeg2_blank : iec61883_mpeg2 :=
  { cip := cip_blank, syt_interval := 0, channel := 63, buffer_packets := 0,
    prebuffer_packets := 0, irq_interval := 0, synch := 0, speed := 0, total_dropped := 0 }

/-- A zero-filled `iec61883_dv` receiving on channel 63. -/
def dv_blank : iec61883_dv :=
  { cip := cip_blank, channel := 63, buffer_packets := 0, prebuffer_packets := 0,
    irq_interval := 0, synch := 0, speed := 0, total_dropped := 0 }

/-- The 200 bytes of an isochronous packet with one MPEG2 transport packet: the CIP header
(`dbs` 6, `fn` 3, `qpc` 0, `sph` 1, `fmt` 0x20), a zero source packet header and 188
bytes 0x47. -/
def mpeg2_packet_bytes : List Nat :=
  [0x00, 0x06, 0xC4, 0x00, 0xA0, 0x00, 0x00, 0x00] ++ List.replicate 4 0x00 ++
    List.replicate 188 0x47

/-- The six bytes of a PCR field with the given 33-bit base and 9-bit extension, the six
reserved bits set. -/
def pcr_field (base ext : Nat) : List Nat :=
  [base / 33554432 % 256, base / 131072 % 256, base / 512 % 256, base / 2 % 256,
    (base % 2) * 128 + 0x7E + ext / 256 % 2, ext % 256]

/-- A transport packet of the given PID with an adaptation field of 7 bytes that carries
the PCR `pcr` (in units of 1 / 27 MHz); the other 176 bytes are `tag`. -/
def pcr_packet (pid pcr tag : Nat) : List Nat :=
  [0x47, pid / 256 % 32, pid % 256, 0x30, 7, 0x10] ++ pcr_field (pcr / 300) (pcr % 300) ++
    List.replicate 176 (tag % 256)

/-- A transport packet of the given PID without adaptation field; the 184 bytes of its
payload are `tag`. -/
def plain_packet (pid tag : Nat) : List Nat :=
  [0x47, pid / 256 % 32, pid % 256, 0x10] ++ List.replicate 184 (tag % 256)

/-- A source of transport packets that never fails: its `k`-th packet (from 0) is on PID
0x11, is tagged `k` and carries the PCR `pcr_of k`; its state is the number of packets
delivered. -/
def pcr_source (pcr_of : Nat → Nat) (k : Nat) (_n_packets : Int) (_dropped : Nat) :
    Int × List Nat × Nat :=
  (0, pcr_packet 0x11 (pcr_of k) k, k + 1)

/-- A PCR that grows by 13500 per packet up to packet 5 and by 2000 per packet after
it. -/
def slowing_pcr (k : Nat) : Nat :=
  if k ≤ 5 then 13500 * k else 67500 + 2000 * (k - 5)

/-- A source that never fails and whose packet 20000 (the 20001st) is the only one with a
PCR. -/
def late_pcr_source (k : Nat) (_n_packets : Int) (_dropped : Nat) : Int × List Nat × Nat :=
  (0, if k = 20000 then pcr_packet 0x11 0 0 else plain_packet 0x11 0, k + 1)

/-- A source that fails at every call. -/
def failing_source (u : Unit) (_n_packets : Int) (_dropped : Nat) : Int × List Nat × Unit :=
  (-1, [], u)

/-- A source that delivers one packet without PCR and fails from then on. -/
def one_packet_source (k : Nat) (_n_packets : Int) (_dropped : Nat) : Int × List Nat × Nat :=
  if k = 0 then (0, plain_packet 0x11 0, 1) else (-1, [], k)

/-- The result of the call number `k` (from 0) of a source that is called again and again
from the state `callback_data`, first with `dropped` and then, as long as it does not
fail, with 0, which is what `tsbuffer_read_ts` passes. -/
def source_nth {σ : Type} (read_packet : σ → Int → Nat → Int × List Nat × σ) :
    Nat → σ → Nat → Int × List Nat × σ
  | 0, callback_data, dropped => read_packet callback_data 1 dropped
  | k + 1, callback_data, dropped =>
    source_nth read_packet k (read_packet callback_data 1 dropped).2.2 0

/-- A zero-filled `tsbuffer` with an empty queue. -/
def tsbuffer_blank : tsbuffer :=
  { ts_queue := [], dropped := 0, last_pcr := 0, pcr_drift_ref := 0, pcr_drift_cycles := 0,
    packets_since_last_pcr := 0, delta_pcr_per_packet := 0, tsp_accum := 0, tsp_whole := 0,
    tsp_num := 0, tsp_denom := 0, selected_pid := 0, iso_counter := 0 }

/-- The initial values of the static variables of `dv_xmit_handler`. -/
def dv_xmit_static_init : dv_xmit_static :=
  { packet_num := 0, cip_accum := 0, continuity_counter := 0 }

/-- The PID against which a search that starts with the selected PID `pid` tests its
packets: `pid` itself or, for -1, what `ts_get_pid` returns for the first packet read. -/
def search_pid (pid : Int) (first : List Nat) : Int :=
  if pid = -1 then (ts_get_pid (ts_block first) : Int) else pid

/-- The first `m` packets of a source, as blocks of 188 bytes. -/
def source_packets {σ : Type} (read_packet : σ → Int → Nat → Int × List Nat × σ)
    (m : Nat) (callback_data : σ) (dropped : Nat) : List (List Nat) :=
  (List.range m).map (fun j => ts_block (source_nth read_packet j callback_data dropped).2.1)

/-- The fields of a `tsbuffer` that the functions reading from the source leave alone. -/
def tsbuffer_frame (a b : tsbuffer) : Prop :=
  b.last_pcr = a.last_pcr ∧ b.pcr_drift_ref = a.pcr_drift_ref ∧
  b.pcr_drift_cycles = a.pcr_drift_cycles ∧
  b.packets_since_last_pcr = a.packets_since_last_pcr ∧
  b.delta_pcr_per_packet = a.delta_pcr_per_packet ∧ b.tsp_accum = a.tsp_accum ∧
  b.tsp_whole = a.tsp_whole ∧ b.tsp_num = a.tsp_num ∧ b.tsp_denom = a.tsp_denom ∧
  b.iso_counter = a.iso_counter

/-- The queue of the buffer is not empty and `ts_has_pcr` returns 1 for its last packet
and the selected PID. -/
def tsbuffer_inv (t : tsbuffer) : Prop :=
  ∃ back, t.ts_queue.getLast? = some back ∧ ts_has_pcr back t.selected_pid = 1

/-- The number of transport packets `n_tsps` that `tsbuffer_send_iso_cycle` chooses in the
state `this` (lines 352 and 359-364). -/
def send_n_tsps (this : tsbuffer) : Nat :=
  (this.tsp_whole % 4294967296 + (send_accumulate this).1) % 4294967296

/-- The buffer of `tsbuffer_send_iso_cycle` when its reading loop starts: `dropped` is
stored, the accumulator has made its step and `pcr_drift_cycles` is counted. -/
def send_prepare (this : tsbuffer) (dropped : Nat) : tsbuffer :=
  let this : tsbuffer := (send_accumulate { this with dropped := dropped }).2
  if this.pcr_drift_ref ≠ 0 then
    { this with pcr_drift_cycles := (this.pcr_drift_cycles + 1) % 4294967296 }
  else this

/-- A buffer with two packets in its queue, the second with a PCR on the selected PID
0x11, a rate of one packet per cycle and the continuity counter 16. -/
def tsbuffer_two_packets : tsbuffer :=
  { tsbuffer_blank with
    ts_queue := [plain_packet 0x11 1, pcr_packet 0x11 300 2], tsp_whole := 1, tsp_num := 0,
    tsp_denom := 1, selected_pid := 0x11, iso_counter := 16 }

/-- A buffer with an empty queue and the fixed rate 0 + 3375000 / 50000000 packets per
cycle, its accumulator at 0. -/
def tsbuffer_fixed_rate : tsbuffer :=
  { tsbuffer_blank with tsp_whole := 0, tsp_num := 3375000, tsp_denom := 50000000 }

/-- The number of empty packets (`n_dif_blocks = 0`) among cycles of `dv_xmit_handler`. -/
def dv_empty_count {σ : Type} (rs : List (dv_xmit_cycle σ)) : Nat :=
  rs.countP (fun r => decide (r.n_dif_blocks = 0))

/-- A PCR that grows by 500 per packet: 54000 transport packets per second. -/
def fast_pcr (k : Nat) : Nat :=
  500 * k

/-- A frame buffer object that has seen its first start of frame: `ff` is 0, the array is
zero-filled and 480 bytes are counted. -/
def dv_fb_started : iec61883_dv_fb :=
  { data := List.replicate (480 * 300) 0, len := 480, ff := 0, total_incomplete := 0 }

/-- A block of 480 bytes that starts with the three header bytes given and is filled with
`tag`. -/
def dif_packet (b0 b1 b2 tag : Nat) : List Nat :=
  [b0, b1, b2] ++ List.replicate 477 tag

/-- A sink of DV frames that records the length and the flag `complete` of every call, in
order, and never fails. -/
def frame_sink (calls : List (Int × Int)) (_data : List Nat) (len complete : Int) :
    Int × List (Int × Int) :=
  (0, calls ++ [(len, complete)])

/-- The value of `section_type` in `dv_fb_recv` for the block `data`. -/
def dif_section_type (data : List Nat) : Int :=
  ((data.getD 0 0 % 256 / 32 : Nat) : Int)

/-- The value of `dif_sequence` in `dv_fb_recv` for the block `data`. -/
def dif_sequence_number (data : List Nat) : Int :=
  ((data.getD 1 0 % 256 / 16 : Nat) : Int)

/-- The value of `dif_block` in `dv_fb_recv` for the block `data`. -/
def dif_block_number (data : List Nat) : Int :=
  ((data.getD 2 0 % 256 : Nat) : Int)

/-- The value of `total` in `dv_fb_recv`: the length of a frame according to byte 3 of the
frame buffer. -/
def dv_fb_total (fb : iec61883_dv_fb) : Int :=
  (if (fb.data.getD 3 0 % 256) &&& 0x80 = 0 then 250 else 300) * 480

/-- The number of packets with one DIF block (`n_dif_blocks = 1`) among cycles of
`dv_xmit_handler`. -/
def dv_data_count {σ : Type} (rs : List (dv_xmit_cycle σ)) : Nat :=
  rs.countP (fun r => decide (r.n_dif_blocks = 1))

/-- The value that `dv_xmit_handler` computes for `ts` (lines 141-149) from `packet_num` and
`cycle`. -/
def dv_xmit_ts (packet_num cycle : Int) : Nat :=
  if packet_num = 0 then
    let ts : Nat := to_u32 (cycle + 3)
    let ts : Nat := if ts > 8000 then ts - 8000 else ts
    ((ts &&& 0xF) <<< 12) % 4294967296
  else 0xFFFF

/-- The invariant of the static variables of `dv_xmit_handler` for the group length `S` and
the cadence `n / d`: the accumulator is in `[0, d]`, `packet_num` is in `[0, S)`, and the
accumulator differs from `n * packet_num` by a multiple of `d - n`. -/
def dv_cadence_inv (S n d : Int) (statics : dv_xmit_static) : Prop :=
  0 ≤ statics.cip_accum ∧ statics.cip_accum ≤ d ∧ 0 ≤ statics.packet_num ∧
    statics.packet_num < S ∧ (statics.cip_accum - n * statics.packet_num) % (d - n) = 0

/-- The sequence that a deque stands for: the cells `list[0 .. count - 1]`. -/
def deque_items (this : iec61883_deque) : List Nat :=
  (this.list.getD []).take this.count.toNat

/-- The representation invariant of a deque: `0 ≤ count ≤ size`, and the array has `size`
cells (none when `list` is `NULL`). -/
def deque_inv (this : iec61883_deque) : Prop :=
  0 ≤ this.count ∧ this.count ≤ this.size ∧ ((this.list.getD []).length : Int) = this.size

/-- The items `items` pushed at the back, one after the other, every `realloc`
succeeding. -/
def deque_push_all : List Nat → iec61883_deque → Option iec61883_deque
  | [], this => some this
  | item :: items, this =>
    match iec61883_deque_push_back true [] this item with
    | none => none
    | some (_, this) => deque_push_all items this

/-- The results of `n` calls of `iec61883_deque_pop_front`, and the deque they leave. -/
def deque_pop_all : Nat → iec61883_deque → Option (List Nat × iec61883_deque)
  | 0, this => some ([], this)
  | n + 1, this =>
    match iec61883_deque_pop_front this with
    | none => none
    | some (item, this) =>
      match deque_pop_all n this with
      | none => none
      | some (items, this) => some (item :: items, this)

/-- The callback state after `k` calls of the sink by the loop of `mpeg2_recv_handler`, the
first at `offset` with `dropped`, when no call fails. -/
def mpeg2_sink_run {σ : Type} (put_data : σ → List Nat → Int → Nat → Int × σ)
    (data : List Nat) : Nat → Nat → Nat → σ → σ
  | 0, _, _, callback_data => callback_data
  | k + 1, offset, dropped, callback_data =>
    mpeg2_sink_run put_data data k (offset + TSP_SPH_SIZE) 0
      (put_data callback_data ((data.drop offset).take IEC61883_MPEG2_TSP_SIZE)
        (IEC61883_MPEG2_TSP_SIZE : Int) dropped).2

/-- A sink of MPEG2 data that counts its calls and never fails. -/
def count_sink (calls : Nat) (_data : List Nat) (_len : Int) (_dropped : Nat) : Int × Nat :=
  (0, calls + 1)

/-- A sink of MPEG2 data that records the bytes of every call and fails from its second
call on. -/
def second_call_fails (calls : List (List Nat)) (data : List Nat) (_len : Int)
    (_dropped : Nat) : Int × List (List Nat) :=
  (if calls.length ≥ 1 then -1 else 0, calls ++ [data])

/-- A buffer of 400 bytes that holds a packet of 381 bytes: a valid CIP header, 373 bytes
0x47, and behind the packet 19 bytes 0xEE. -/
def mpeg2_packet_381 : List Nat :=
  [0x00, 0x06, 0xC4, 0x00, 0xA0, 0x00, 0x00, 0x00] ++ List.replicate 373 0x47 ++
    List.replicate 19 0xEE

/-- The order of the 150 DIF blocks of a DIF sequence in a DV stream, each given by its
section type and its block number: the header block, two subcode blocks, three VAUX blocks,
and nine times an audio block followed by fifteen video blocks. -/
def dif_sequence_order : List (Int × Int) :=
  [(0, 0), (1, 0), (1, 1), (2, 0), (2, 1), (2, 2)] ++
    (List.range 9).flatMap (fun a =>
      ((3 : Int), (a : Int)) ::
        (List.range 15).map (fun v => ((4 : Int), ((15 * a + v : Nat) : Int))))

/-- The block `data` is a packet number `j` of a frame in stream order: it has 480 bytes,
the sequence number `j / 25`, and the section type and block number of the DIF block
`6 * (j mod 25)` of a DIF sequence, the first of the six DIF blocks of the packet
`j mod 25` of the sequence. -/
def dif_packet_at (j : Nat) (data : List Nat) : Prop :=
  data.length = 480 ∧ dif_sequence_number data = ((j / 25 : Nat) : Int) ∧
    dif_sequence_order.get? (6 * (j % 25)) =
      some (dif_section_type data, dif_block_number data)

/-- The 480 bytes at the place of the packet number `j` in a frame buffer. -/
def dv_fb_chunk (data : List Nat) (j : Nat) : List Nat :=
  (data.drop (480 * j)).take 480

/-- A packet number `j` of a frame in stream order, filled with `tag`: its three header
bytes give the section type and the block number of the DIF block `6 * (j mod 25)` and the
sequence number `j / 25`. -/
def dif_standard_packet (j tag : Nat) : List Nat :=
  dif_packet ((dif_sequence_order.getD (6 * (j % 25)) (0, 0)).1.toNat * 32 + 0x1F)
    (j / 25 * 16 + 0x07) (dif_sequence_order.getD (6 * (j % 25)) (0, 0)).2.toNat tag

/-- The frame buffer object that `iec61883_dv_fb_init` returns on a zero-filled block: the
array is zero-filled, `len` is 0 and `ff` is 1, the object waits for a start of frame. -/
def dv_fb_fresh : iec61883_dv_fb :=
  { data := List.replicate (480 * 300) 0, len := 0, ff := 1, total_incomplete := 0 }

/-! # Theorems -/

/-! ### Lemmas on fractions -/

theorem fraction_add_eq (a b : iec61883_fraction) (h : a.denominator ≠ 0) :
    fraction_add a b = some
      { integer := a.integer + b.integer + (a.numerator + b.numerator).tdiv a.denominator
        numerator := (a.numerator + b.numerator).tmod a.denominator
        denominator := a.denominator } := by
  simp [fraction_add, h]

theorem fraction_add_value (a b c : iec61883_fraction) (hd : b.denominator = a.denominator)
    (h : fraction_add a b = some c) :
    c.denominator = a.denominator ∧
      fraction_value c = fraction_value a + fraction_value b := by
  by_cases h0 : a.denominator = 0
  · simp [fraction_add, h0] at h
  · rw [fraction_add_eq a b h0] at h
    injection h with h
    subst h
    refine ⟨rfl, ?_⟩
    simp only [fraction_value, hd]
    have := Int.tdiv_add_tmod (a.numerator + b.numerator) a.denominator
    linear_combination this

theorem fraction_rat_eq (f : iec61883_fraction) (h : f.denominator ≠ 0) :
    fraction_rat f = (fraction_value f : ℚ) / (f.denominator : ℚ) := by
  have h2 : (f.denominator : ℚ) ≠ 0 := by exact_mod_cast h
  simp only [fraction_rat, fraction_value]
  push_cast
  field_simp

theorem fraction_add_rat (a b c : iec61883_fraction) (hd : b.denominator = a.denominator)
    (h : fraction_add a b = some c) :
    fraction_rat c = fraction_rat a + fraction_rat b := by
  have h0 : a.denominator ≠ 0 := by
    intro h0
    simp [fraction_add, h0] at h
  obtain ⟨hcd, hv⟩ := fraction_add_value a b c hd h
  rw [fraction_rat_eq c (by rw [hcd]; exact h0), fraction_rat_eq a h0,
    fraction_rat_eq b (by rw [hd]; exact h0), hcd, hd, hv]
  push_cast
  ring

theorem fraction_sub_int_rat (f : iec61883_fraction) (k : Int) :
    fraction_rat (fraction_sub_int f k) = fraction_rat f - (k : ℚ) := by
  simp only [fraction_rat, fraction_sub_int]
  push_cast
  ring

theorem fraction_run_exact (ops : List fraction_op) :
    ∀ f : iec61883_fraction, f.denominator ≠ 0 → ops_share_denominator f.denominator ops →
      ∃ r, fraction_run f ops = some r ∧ r.denominator = f.denominator ∧
        fraction_rat r = exact_run (fraction_rat f) ops := by
  induction ops with
  | nil => intro f _ _; exact ⟨f, rfl, rfl, rfl⟩
  | cons op ops ih =>
    intro f h0 hs
    cases op with
    | add g =>
      obtain ⟨hg, hs⟩ := hs
      have hadd := fraction_add_eq f g h0
      obtain ⟨hcd, _⟩ := fraction_add_value f g _ hg hadd
      have hrat := fraction_add_rat f g _ hg hadd
      obtain ⟨r, hr, hrd, hrr⟩ := ih _ (by rw [hcd]; exact h0) (by rw [hcd]; exact hs)
      refine ⟨r, ?_, by rw [hrd, hcd], ?_⟩
      · simp only [fraction_run, hadd, Option.bind_some]
        exact hr
      · rw [hrr, hrat]
        rfl
    | sub_int k =>
      obtain ⟨r, hr, hrd, hrr⟩ := ih (fraction_sub_int f k) h0 hs
      refine ⟨r, ?_, hrd, ?_⟩
      · simpa [fraction_run] using hr
      · rw [hrr, fraction_sub_int_rat]
        rfl

/-! ### Lemmas on `iec61883_cip_fill_header` -/

theorem fill_header_timing_some (ptz : iec61883_cip) (nevents : Int)
    (h : ptz.cycle_offset.denominator ≠ 0) :
    ∃ t, fill_header_timing ptz nevents = some t := by
  unfold fill_header_timing
  rw [fraction_add_eq _ _ h]
  dsimp only
  split <;> exact ⟨_, rfl⟩

/-- With non-zero denominators of `ready_samples` and `cycle_offset` the call of
`iec61883_cip_fill_header` is defined, and its result is made of `next`, the event count
and the timing triple. -/
theorem fill_header_some (be : Bool) (local_id : Nat) (ptz : iec61883_cip)
    (h1 : ptz.ready_samples.denominator ≠ 0) (h2 : ptz.cycle_offset.denominator ≠ 0) :
    ∃ next syt cycle_offset cycle_count,
      fraction_add ptz.ready_samples ptz.samples_per_cycle = some next ∧
      fill_header_timing ptz (fill_header_nevents ptz next) =
        some (syt, cycle_offset, cycle_count) ∧
      iec61883_cip_fill_header be local_id ptz =
        some
          (fill_header_nevents ptz next,
            { ptz with
              ready_samples := fraction_sub_int next (fill_header_nevents ptz next)
              cycle_offset := cycle_offset
              cycle_count := cycle_count
              dbc := ptz.dbc +
                (if ptz.mode = IEC61883_MODE_BLOCKING_NODATA then ptz.syt_interval
                  else fill_header_nevents ptz next) },
            fill_header_packet be local_id ptz (fill_header_nevents ptz next) syt) := by
  have hadd := fraction_add_eq ptz.ready_samples ptz.samples_per_cycle h1
  obtain ⟨⟨syt, co, cc⟩, ht⟩ := fill_header_timing_some ptz (fill_header_nevents ptz _) h2
  refine ⟨_, syt, co, cc, hadd, ht, ?_⟩
  simp only [iec61883_cip_fill_header, hadd, ht]

/-! ### Exactness and invariant of fractions -/

/-- C1. Fraction exactness. With `value f = f.integer * f.denominator + f.numerator`:
`fraction_init n d` has value `n` for `d > 0`, `n ≥ 0`; `fraction_add` of two fractions
with the same (non-zero) denominator has the sum of the two values; `fraction_sub_int f k`
has value `value f - k * d`; and after any sequence of add / subtract-integer operations
the stored fraction is the exact rational result. -/
theorem fraction_exactness :
    (∀ n d : Int, 0 < d → 0 ≤ n → ∃ f, fraction_init n d = some f ∧ fraction_value f = n) ∧
    (∀ a b : iec61883_fraction, a.denominator ≠ 0 → b.denominator = a.denominator →
      ∃ c, fraction_add a b = some c ∧
        fraction_value c = fraction_value a + fraction_value b) ∧
    (∀ (f : iec61883_fraction) (k : Int),
      fraction_value (fraction_sub_int f k) = fraction_value f - k * f.denominator) ∧
    (∀ (f : iec61883_fraction) (ops : List fraction_op), f.denominator ≠ 0 →
      ops_share_denominator f.denominator ops →
      ∃ r, fraction_run f ops = some r ∧ r.denominator = f.denominator ∧
        fraction_rat r = exact_run (fraction_rat f) ops) := by
  refine ⟨?_, ?_, ?_, ?_⟩
  · intro n d hd _
    refine ⟨⟨n.tdiv d, n.tmod d, d⟩, by simp [fraction_init, hd.ne.symm], ?_⟩
    simp only [fraction_value]
    exact Int.tdiv_add_tmod' n d
  · intro a b h0 hd
    exact ⟨_, fraction_add_eq a b h0, (fraction_add_value a b _ hd (fraction_add_eq a b h0)).2⟩
  · intro f k
    simp only [fraction_value, fraction_sub_int]
    ring
  · intro f ops h0 hs
    exact fraction_run_exact ops f h0 hs

/-- Witness of `fraction_exactness`: 44100 / 8000, an addition, a subtraction and a
sequence of three operations. -/
theorem fraction_exactness_witness :
    ((0 : Int) < 8000 ∧ (0 : Int) ≤ 44100 ∧
      ∃ f, fraction_init 44100 8000 = some f ∧ fraction_value f = 44100) ∧
    (((⟨5, 4100, 8000⟩ : iec61883_fraction).denominator ≠ 0 ∧
      (⟨0, 7000, 8000⟩ : iec61883_fraction).denominator =
        (⟨5, 4100, 8000⟩ : iec61883_fraction).denominator) ∧
      ∃ c, fraction_add ⟨5, 4100, 8000⟩ ⟨0, 7000, 8000⟩ = some c ∧
        fraction_value c = fraction_value ⟨5, 4100, 8000⟩ + fraction_value ⟨0, 7000, 8000⟩) ∧
    fraction_value (fraction_sub_int ⟨6, 3100, 8000⟩ 6) =
      fraction_value ⟨6, 3100, 8000⟩ - 6 * (⟨6, 3100, 8000⟩ : iec61883_fraction).denominator ∧
    (((⟨0, 0, 8000⟩ : iec61883_fraction).denominator ≠ 0 ∧
      ops_share_denominator (⟨0, 0, 8000⟩ : iec61883_fraction).denominator
        [fraction_op.add ⟨5, 4100, 8000⟩, fraction_op.sub_int 5,
          fraction_op.add ⟨5, 4100, 8000⟩]) ∧
      ∃ r, fraction_run ⟨0, 0, 8000⟩
          [fraction_op.add ⟨5, 4100, 8000⟩, fraction_op.sub_int 5,
            fraction_op.add ⟨5, 4100, 8000⟩] = some r ∧
        r.denominator = (⟨0, 0, 8000⟩ : iec61883_fraction).denominator ∧
        fraction_rat r = exact_run (fraction_rat ⟨0, 0, 8000⟩)
          [fraction_op.add ⟨5, 4100, 8000⟩, fraction_op.sub_int 5,
            fraction_op.add ⟨5, 4100, 8000⟩]) :=
  ⟨⟨by decide, by decide, fraction_exactness.1 44100 8000 (by decide) (by decide)⟩,
    ⟨⟨by decide, rfl⟩, fraction_exactness.2.1 ⟨5, 4100, 8000⟩ ⟨0, 7000, 8000⟩ (by decide) rfl⟩,
    fraction_exactness.2.2.1 ⟨6, 3100, 8000⟩ 6,
    ⟨⟨by decide, ⟨rfl, rfl, trivial⟩⟩,
      fraction_exactness.2.2.2 ⟨0, 0, 8000⟩ _ (by decide) ⟨rfl, rfl, trivial⟩⟩⟩

/-- C2. Fraction invariant. For `d > 0`, `n ≥ 0`, `fraction_init n d` is
`(n div d, n mod d, d)`; and every fraction produced by `fraction_init`, by
`fraction_add` (operands sharing the denominator and satisfying the invariant) or by
`fraction_sub_int` (operand satisfying the invariant) satisfies
`0 ≤ numerator < denominator` and `denominator > 0`. -/
theorem fraction_invariant :
    (∀ n d : Int, 0 < d → 0 ≤ n →
      fraction_init n d = some ⟨n / d, n % d, d⟩ ∧ fraction_inv ⟨n / d, n % d, d⟩) ∧
    (∀ a b : iec61883_fraction, fraction_inv a → fraction_inv b →
      b.denominator = a.denominator →
      ∃ c, fraction_add a b = some c ∧ fraction_inv c) ∧
    (∀ (f : iec61883_fraction) (k : Int), fraction_inv f →
      fraction_inv (fraction_sub_int f k)) := by
  refine ⟨?_, ?_, ?_⟩
  · intro n d hd hn
    refine ⟨?_, Int.emod_nonneg _ hd.ne.symm, Int.emod_lt_of_pos _ hd, hd⟩
    simp [fraction_init, hd.ne.symm, Int.tdiv_eq_ediv hn hd.le, Int.tmod_eq_emod hn hd.le]
  · intro a b ha hb _
    obtain ⟨ha0, _, had⟩ := ha
    obtain ⟨hb0, _, _⟩ := hb
    refine ⟨_, fraction_add_eq a b had.ne.symm, ?_⟩
    have hs : 0 ≤ a.numerator + b.numerator := by omega
    simp only [fraction_inv, Int.tmod_eq_emod hs had.le]
    exact ⟨Int.emod_nonneg _ had.ne.symm, Int.emod_lt_of_pos _ had, had⟩
  · intro f k hf
    exact hf

/-- Witness of `fraction_invariant`: 44100 / 8000, a carrying addition and a
subtraction. -/
theorem fraction_invariant_witness :
    ((0 : Int) < 8000 ∧ (0 : Int) ≤ 44100 ∧
      fraction_init 44100 8000 = some ⟨44100 / 8000, 44100 % 8000, 8000⟩ ∧
      fraction_inv ⟨44100 / 8000, 44100 % 8000, 8000⟩) ∧
    ((fraction_inv ⟨5, 4100, 8000⟩ ∧ fraction_inv ⟨0, 7000, 8000⟩ ∧
      (⟨0, 7000, 8000⟩ : iec61883_fraction).denominator =
        (⟨5, 4100, 8000⟩ : iec61883_fraction).denominator) ∧
      ∃ c, fraction_add ⟨5, 4100, 8000⟩ ⟨0, 7000, 8000⟩ = some c ∧ fraction_inv c) ∧
    (fraction_inv ⟨6, 3100, 8000⟩ ∧ fraction_inv (fraction_sub_int ⟨6, 3100, 8000⟩ 6)) :=
  ⟨⟨by decide, by decide, fraction_invariant.1 44100 8000 (by decide) (by decide)⟩,
    ⟨⟨by decide, by decide, rfl⟩,
      fraction_invariant.2.1 ⟨5, 4100, 8000⟩ ⟨0, 7000, 8000⟩ (by decide) (by decide) rfl⟩,
    ⟨by decide, fraction_invariant.2.2 ⟨6, 3100, 8000⟩ 6 (by decide)⟩⟩

/-! ### Event count, data-block counter and maximal packet size -/

theorem cip_44100_eq (mode : Int) :
    (iec61883_cip_init cip_blank IEC61883_FMT_AMDTP IEC61883_FDF_SFC_44K1HZ 44100 2 8).map
      (fun c => iec61883_cip_set_transmission_mode c mode) = some (cip_44100 mode) := by
  rfl

/-- C3. Per-cycle event count of `iec61883_cip_fill_header`. With
`next = ready_samples + samples_per_cycle`: in both blocking modes the returned count is
`syt_interval` when `floor next ≥ syt_interval` and 0 otherwise; in non-blocking mode it
is `floor next`; in every mode the new `ready_samples` is `next` minus the returned count,
numerator and denominator of `next` being kept. -/
theorem fill_header_event_count (be : Bool) (local_id : Nat) (ptz : iec61883_cip)
    (h1 : ptz.ready_samples.denominator ≠ 0) (h2 : ptz.cycle_offset.denominator ≠ 0) :
    ∃ next nevents ptz2 packet,
      fraction_add ptz.ready_samples ptz.samples_per_cycle = some next ∧
      iec61883_cip_fill_header be local_id ptz = some (nevents, ptz2, packet) ∧
      ((ptz.mode = IEC61883_MODE_BLOCKING_EMPTY ∨ ptz.mode = IEC61883_MODE_BLOCKING_NODATA) →
        (fraction_floor next ≥ ptz.syt_interval → nevents = ptz.syt_interval) ∧
        (fraction_floor next < ptz.syt_interval → nevents = 0) ∧
        (nevents = ptz.syt_interval ∨ nevents = 0)) ∧
      (ptz.mode = IEC61883_MODE_NON_BLOCKING → nevents = fraction_floor next) ∧
      ptz2.ready_samples = fraction_sub_int next nevents ∧
      fraction_rat ptz2.ready_samples = fraction_rat next - (nevents : ℚ) ∧
      ptz2.ready_samples.numerator = next.numerator ∧
      ptz2.ready_samples.denominator = next.denominator := by
  obtain ⟨next, syt, co, cc, hadd, _, hfill⟩ := fill_header_some be local_id ptz h1 h2
  refine ⟨next, _, _, _, hadd, hfill, ?_, ?_, rfl, fraction_sub_int_rat _ _, rfl, rfl⟩
  · intro hm
    simp only [fill_header_nevents, if_pos hm]
    refine ⟨fun h => if_pos h, fun h => if_neg (by omega), ?_⟩
    split
    · exact Or.inl rfl
    · exact Or.inr rfl
  · intro hm
    have hne : ¬ (ptz.mode = IEC61883_MODE_BLOCKING_EMPTY ∨
        ptz.mode = IEC61883_MODE_BLOCKING_NODATA) := by
      rw [hm]; decide
    simp only [fill_header_nevents, if_neg hne]

/-- Witness of `fill_header_event_count`: the first cycle of a 44100 Hz stream in
blocking-empty mode. -/
theorem fill_header_event_count_witness :
    ((cip_44100 0).ready_samples.denominator ≠ 0 ∧
      (cip_44100 0).cycle_offset.denominator ≠ 0) ∧
    ∃ next nevents ptz2 packet,
      fraction_add (cip_44100 0).ready_samples (cip_44100 0).samples_per_cycle = some next ∧
      iec61883_cip_fill_header false 0 (cip_44100 0) = some (nevents, ptz2, packet) ∧
      (((cip_44100 0).mode = IEC61883_MODE_BLOCKING_EMPTY ∨
          (cip_44100 0).mode = IEC61883_MODE_BLOCKING_NODATA) →
        (fraction_floor next ≥ (cip_44100 0).syt_interval →
          nevents = (cip_44100 0).syt_interval) ∧
        (fraction_floor next < (cip_44100 0).syt_interval → nevents = 0) ∧
        (nevents = (cip_44100 0).syt_interval ∨ nevents = 0)) ∧
      ((cip_44100 0).mode = IEC61883_MODE_NON_BLOCKING → nevents = fraction_floor next) ∧
      ptz2.ready_samples = fraction_sub_int next nevents ∧
      fraction_rat ptz2.ready_samples = fraction_rat next - (nevents : ℚ) ∧
      ptz2.ready_samples.numerator = next.numerator ∧
      ptz2.ready_samples.denominator = next.denominator :=
  ⟨⟨by decide, by decide⟩,
    fill_header_event_count false 0 (cip_44100 0) (by decide) (by decide)⟩

/-- C5. Data-block counter. The `dbc` written into the header is the running count before
the call modulo 256; the running count then advances by `syt_interval` in
blocking-no-data mode (whatever the returned event count) and by exactly the returned
event count in the other modes, so by 0 or by `syt_interval` in blocking-empty mode. -/
theorem fill_header_dbc (be : Bool) (local_id : Nat) (ptz : iec61883_cip)
    (h1 : ptz.ready_samples.denominator ≠ 0) (h2 : ptz.cycle_offset.denominator ≠ 0) :
    ∃ nevents ptz2 packet,
      iec61883_cip_fill_header be local_id ptz = some (nevents, ptz2, packet) ∧
      (packet.dbc : Int) = ptz.dbc % 256 ∧
      (ptz.mode = IEC61883_MODE_BLOCKING_NODATA → ptz2.dbc = ptz.dbc + ptz.syt_interval) ∧
      (ptz.mode ≠ IEC61883_MODE_BLOCKING_NODATA → ptz2.dbc = ptz.dbc + nevents) ∧
      (ptz.mode = IEC61883_MODE_BLOCKING_EMPTY →
        (nevents = 0 ∧ ptz2.dbc = ptz.dbc) ∨
        (nevents = ptz.syt_interval ∧ ptz2.dbc = ptz.dbc + ptz.syt_interval)) := by
  obtain ⟨next, syt, co, cc, _, _, hfill⟩ := fill_header_some be local_id ptz h1 h2
  refine ⟨_, _, _, hfill, ?_, ?_, ?_, ?_⟩
  · simp only [fill_header_packet, bitfield]
    have : (0 : Int) ≤ ptz.dbc % 256 := Int.emod_nonneg _ (by decide)
    rw [show ((2 : Int) ^ 8) = 256 by norm_num]
    omega
  · intro hm
    simp only [if_pos hm]
  · intro hm
    simp only [if_neg hm]
  · intro hm
    have hne : ptz.mode ≠ IEC61883_MODE_BLOCKING_NODATA := by rw [hm]; decide
    simp only [if_neg hne, fill_header_nevents, if_pos (Or.inl hm)]
    split
    · exact Or.inr ⟨rfl, rfl⟩
    · exact Or.inl ⟨rfl, by omega⟩

/-- Witness of `fill_header_dbc`: the first cycle of a 44100 Hz stream in
blocking-no-data mode. -/
theorem fill_header_dbc_witness :
    ((cip_44100 1).ready_samples.denominator ≠ 0 ∧
      (cip_44100 1).cycle_offset.denominator ≠ 0) ∧
    ∃ nevents ptz2 packet,
      iec61883_cip_fill_header false 0 (cip_44100 1) = some (nevents, ptz2, packet) ∧
      (packet.dbc : Int) = (cip_44100 1).dbc % 256 ∧
      ((cip_44100 1).mode = IEC61883_MODE_BLOCKING_NODATA →
        ptz2.dbc = (cip_44100 1).dbc + (cip_44100 1).syt_interval) ∧
      ((cip_44100 1).mode ≠ IEC61883_MODE_BLOCKING_NODATA →
        ptz2.dbc = (cip_44100 1).dbc + nevents) ∧
      ((cip_44100 1).mode = IEC61883_MODE_BLOCKING_EMPTY →
        (nevents = 0 ∧ ptz2.dbc = (cip_44100 1).dbc) ∨
        (nevents = (cip_44100 1).syt_interval ∧
          ptz2.dbc = (cip_44100 1).dbc + (cip_44100 1).syt_interval)) :=
  ⟨⟨by decide, by decide⟩, fill_header_dbc false 0 (cip_44100 1) (by decide) (by decide)⟩

/-- For a non-zero rate `iec61883_cip_init` is defined, and these are the fields it
sets. -/
theorem cip_init_some (ptz : iec61883_cip) (format fdf rate dbs syt_interval : Int)
    (h : rate ≠ 0) :
    ∃ c, iec61883_cip_init ptz format fdf rate dbs syt_interval = some c ∧
      c.mode = IEC61883_MODE_BLOCKING_EMPTY ∧ c.dbs = dbs ∧ c.syt_interval = syt_interval ∧
      c.dbc = 0 ∧ c.cycle_count = 2 ∧ c.fdf = fdf ∧ c.format = format ∧ c.rate = rate ∧
      c.samples_per_cycle = ⟨rate.tdiv 8000, rate.tmod 8000, 8000⟩ ∧
      c.ready_samples = ⟨0, 0, 8000⟩ ∧
      c.ticks_per_syt_offset =
        ⟨(int_mul 24576000 syt_interval).tdiv rate, (int_mul 24576000 syt_interval).tmod rate,
          rate⟩ ∧
      c.cycle_offset = ⟨(int_mul 2856 rate).tdiv rate, (int_mul 2856 rate).tmod rate, rate⟩ := by
  have h8 : ¬ ((8000 : Int) = 0) := by decide
  simp only [iec61883_cip_init, fraction_init, if_neg h, if_neg h8]
  exact ⟨_, rfl, rfl, rfl, rfl, rfl, rfl, rfl, rfl, rfl, rfl, rfl, rfl, rfl⟩

/-- The successful path of `iec61883_amdtp_xmit_init`. -/
theorem xmit_init_some (mem : iec61883_amdtp) (rate format sample_format mode dimension : Int)
    (syt_interval fdf rc : Int) (c : iec61883_cip)
    (hf : format ≤ IEC61883_AMDTP_FORMAT_IEC958_AC3)
    (hr : xmit_init_rate rate = some (syt_interval, fdf, rc))
    (hd : ¬ (format = IEC61883_AMDTP_FORMAT_IEC958_PCM ∧ dimension > 2))
    (hc : iec61883_cip_init mem.cip IEC61883_FMT_AMDTP fdf rate dimension syt_interval =
      some c) :
    ∃ a, iec61883_amdtp_xmit_init (some mem) rate format sample_format mode dimension =
        some a ∧
      a.cip = iec61883_cip_set_transmission_mode c mode ∧ a.dimension = dimension ∧
      a.format = format ∧ a.sample_format = sample_format := by
  simp only [iec61883_amdtp_xmit_init, if_pos hf, hr, if_neg hd, hc]
  exact ⟨_, rfl, rfl, rfl, rfl, rfl⟩

theorem fraction_ceil_eq (f : iec61883_fraction) (h : fraction_inv f) :
    fraction_ceil f = ⌈fraction_rat f⌉ := by
  obtain ⟨h0, h1, hd⟩ := h
  have hdq : (0 : ℚ) < (f.denominator : ℚ) := by exact_mod_cast hd
  have h0q : (0 : ℚ) ≤ (f.numerator : ℚ) := by exact_mod_cast h0
  have h1q : (f.numerator : ℚ) < (f.denominator : ℚ) := by exact_mod_cast h1
  have hfrac0 : (0 : ℚ) ≤ (f.numerator : ℚ) / (f.denominator : ℚ) := div_nonneg h0q hdq.le
  have hfrac1 : (f.numerator : ℚ) / (f.denominator : ℚ) < 1 := (div_lt_one hdq).mpr h1q
  symm
  rw [Int.ceil_eq_iff]
  simp only [fraction_ceil, fraction_rat]
  by_cases hn : f.numerator > 0
  · have hnq : (0 : ℚ) < (f.numerator : ℚ) := by exact_mod_cast hn
    have hpos : (0 : ℚ) < (f.numerator : ℚ) / (f.denominator : ℚ) := div_pos hnq hdq
    rw [if_pos hn]
    push_cast
    constructor <;> linarith
  · have hz : f.numerator = 0 := by omega
    rw [if_neg hn, hz]
    push_cast
    simp

/-- C7. The function `iec61883_cip_get_max_packet_size` returns
`(syt_interval in the two blocking modes, otherwise integer + (1 if numerator > 0 else 0)
of samples_per_cycle) * dbs * 4 + 8`; the second alternative is the ceiling of
`samples_per_cycle` when that fraction satisfies the invariant; and for the stream
created with rate 48000, dimension 2 and blocking-empty mode (`syt_interval` 8) the
result is 72. -/
theorem max_packet_size_formula :
    (∀ ptz : iec61883_cip,
      iec61883_cip_get_max_packet_size ptz =
        (if ptz.mode = IEC61883_MODE_BLOCKING_EMPTY ∨
            ptz.mode = IEC61883_MODE_BLOCKING_NODATA then ptz.syt_interval
          else ptz.samples_per_cycle.integer +
            (if ptz.samples_per_cycle.numerator > 0 then 1 else 0)) * ptz.dbs * 4 + 8) ∧
    (∀ ptz : iec61883_cip, fraction_inv ptz.samples_per_cycle →
      ptz.mode ≠ IEC61883_MODE_BLOCKING_EMPTY → ptz.mode ≠ IEC61883_MODE_BLOCKING_NODATA →
      iec61883_cip_get_max_packet_size ptz =
        ⌈fraction_rat ptz.samples_per_cycle⌉ * ptz.dbs * 4 + 8) ∧
    (∀ (mem : iec61883_amdtp) (format sample_format : Int),
      format ≤ IEC61883_AMDTP_FORMAT_IEC958_AC3 →
      ∃ amdtp, iec61883_amdtp_xmit_init (some mem) 48000 format sample_format
          IEC61883_MODE_BLOCKING_EMPTY 2 = some amdtp ∧
        amdtp.cip.syt_interval = 8 ∧ amdtp.cip.dbs = 2 ∧
        iec61883_cip_get_max_packet_size amdtp.cip = 72) := by
  refine ⟨fun ptz => rfl, ?_, ?_⟩
  · intro ptz hinv h0 h1
    rw [← fraction_ceil_eq _ hinv]
    simp only [iec61883_cip_get_max_packet_size]
    rw [if_neg (by tauto)]
  · intro mem format sample_format hf
    obtain ⟨c, hc, hmode, hdbs, hsyt, _⟩ :=
      cip_init_some mem.cip IEC61883_FMT_AMDTP IEC61883_FDF_SFC_48KHZ 48000 2 8 (by decide)
    obtain ⟨a, ha, hcip, _⟩ := xmit_init_some mem 48000 format sample_format
      IEC61883_MODE_BLOCKING_EMPTY 2 8 IEC61883_FDF_SFC_48KHZ 0x04 c hf (by decide)
      (fun h => absurd h.2 (by decide)) hc
    refine ⟨a, ha, ?_, ?_, ?_⟩
    · rw [hcip]; exact hsyt
    · rw [hcip]; exact hdbs
    · rw [hcip]
      simp only [iec61883_cip_get_max_packet_size, iec61883_cip_set_transmission_mode,
        hsyt, hdbs, true_or, if_true]
      norm_num

/-- Witness of `max_packet_size_formula`: a 44100 Hz non-blocking stream (ceiling 6) and a
48000 Hz RAW stream built on a zero-filled block. -/
theorem max_packet_size_formula_witness :
    ((fraction_inv (cip_44100 2).samples_per_cycle ∧
        (cip_44100 2).mode ≠ IEC61883_MODE_BLOCKING_EMPTY ∧
        (cip_44100 2).mode ≠ IEC61883_MODE_BLOCKING_NODATA) ∧
      iec61883_cip_get_max_packet_size (cip_44100 2) =
        ⌈fraction_rat (cip_44100 2).samples_per_cycle⌉ * (cip_44100 2).dbs * 4 + 8 ∧
      iec61883_cip_get_max_packet_size (cip_44100 2) = 56) ∧
    (IEC61883_AMDTP_FORMAT_RAW ≤ IEC61883_AMDTP_FORMAT_IEC958_AC3 ∧
      ∃ amdtp, iec61883_amdtp_xmit_init (some amdtp_blank) 48000 IEC61883_AMDTP_FORMAT_RAW
          IEC61883_AMDTP_INPUT_LE16 IEC61883_MODE_BLOCKING_EMPTY 2 = some amdtp ∧
        amdtp.cip.syt_interval = 8 ∧ amdtp.cip.dbs = 2 ∧
        iec61883_cip_get_max_packet_size amdtp.cip = 72) :=
  ⟨⟨⟨by decide, by decide, by decide⟩,
      max_packet_size_formula.2.1 (cip_44100 2) (by decide) (by decide) (by decide),
      by decide⟩,
    ⟨by decide,
      max_packet_size_formula.2.2 amdtp_blank IEC61883_AMDTP_FORMAT_RAW
        IEC61883_AMDTP_INPUT_LE16 (by decide)⟩⟩

/-! ### Event-count conservation -/

theorem fill_header_cycle_offset_denominator (ptz : iec61883_cip) (nevents syt cc : Int)
    (co : iec61883_fraction)
    (h : fill_header_timing ptz nevents = some (syt, co, cc)) :
    co.denominator = ptz.cycle_offset.denominator := by
  unfold fill_header_timing at h
  dsimp only at h
  split at h
  · by_cases h0 : ptz.cycle_offset.denominator = 0
    · simp [fraction_add, h0] at h
    · rw [fraction_add_eq _ _ h0] at h
      simp only [Option.some.injEq, Prod.mk.injEq] at h
      rw [← h.2.1]
  · simp only [Option.some.injEq, Prod.mk.injEq] at h
    rw [← h.2.1]

/-- One cycle in non-blocking mode: the count and the new carry add up to the old carry
plus the rate. -/
theorem nonblocking_step (be : Bool) (local_id : Nat) (rate : Int) (hr : 0 ≤ rate)
    (ptz : iec61883_cip) (h : nonblocking_inv rate ptz) :
    ∃ nevents ptz2 packet,
      iec61883_cip_fill_header be local_id ptz = some (nevents, ptz2, packet) ∧
      nonblocking_inv rate ptz2 ∧
      8000 * nevents + ptz2.ready_samples.numerator = rate + ptz.ready_samples.numerator := by
  obtain ⟨hm, hs, hi, hn0, hn1, hd, hc⟩ := h
  have h1 : ptz.ready_samples.denominator ≠ 0 := by rw [hd]; decide
  obtain ⟨next, syt, co, cc, hadd, ht, hfill⟩ := fill_header_some be local_id ptz h1 hc
  have hcd := fill_header_cycle_offset_denominator ptz _ syt cc co ht
  rw [fraction_add_eq _ _ h1] at hadd
  injection hadd with hadd
  have hne : ¬ (ptz.mode = IEC61883_MODE_BLOCKING_EMPTY ∨
      ptz.mode = IEC61883_MODE_BLOCKING_NODATA) := by
    rw [hm]; decide
  have hnev : fill_header_nevents ptz next = next.integer := by
    simp only [fill_header_nevents, if_neg hne, fraction_floor]
  have hr0 : 0 ≤ rate.tmod 8000 := by
    rw [Int.tmod_eq_emod hr (by decide)]; exact Int.emod_nonneg _ (by decide)
  have hsum : 0 ≤ ptz.ready_samples.numerator + rate.tmod 8000 := by omega
  have hdiv := Int.tdiv_add_tmod (ptz.ready_samples.numerator + rate.tmod 8000) 8000
  have hrate := Int.tdiv_add_tmod rate 8000
  have hmod0 : 0 ≤ (ptz.ready_samples.numerator + rate.tmod 8000).tmod 8000 := by
    rw [Int.tmod_eq_emod hsum (by decide)]; exact Int.emod_nonneg _ (by decide)
  have hmod1 : (ptz.ready_samples.numerator + rate.tmod 8000).tmod 8000 < 8000 := by
    rw [Int.tmod_eq_emod hsum (by decide)]; exact Int.emod_lt_of_pos _ (by decide)
  refine ⟨_, _, _, hfill, ⟨hm, hs, ?_, ?_, ?_, ?_, ?_⟩, ?_⟩
  · simp only [fraction_sub_int, hnev]; omega
  · simp only [fraction_sub_int, ← hadd, hs, hd]; exact hmod0
  · simp only [fraction_sub_int, ← hadd, hs, hd]; exact hmod1
  · simp only [fraction_sub_int, ← hadd, hd]
  · rw [hcd]; exact hc
  · simp only [fraction_sub_int, hnev]
    simp only [← hadd, hs, hd, hi]
    omega

/-- After `n` cycles in non-blocking mode the emitted events and the carry account for
exactly `n * rate`. -/
theorem nonblocking_run (be : Bool) (local_id : Nat) (rate : Int) (hr : 0 ≤ rate) (n : Nat) :
    ∀ ptz : iec61883_cip, nonblocking_inv rate ptz →
      ∃ counts ptz2, fill_header_run be local_id n ptz = some (counts, ptz2) ∧
        nonblocking_inv rate ptz2 ∧ counts.length = n ∧
        8000 * counts.sum + ptz2.ready_samples.numerator =
          n * rate + ptz.ready_samples.numerator := by
  induction n with
  | zero =>
    intro ptz h
    exact ⟨[], ptz, rfl, h, rfl, by simp⟩
  | succ n ih =>
    intro ptz h
    obtain ⟨nevents, ptz2, packet, hfill, hinv, hstep⟩ := nonblocking_step be local_id rate hr ptz h
    obtain ⟨counts, ptz3, hrun, hinv3, hlen, hsum⟩ := ih ptz2 hinv
    refine ⟨nevents :: counts, ptz3, ?_, hinv3, by simp [hlen], ?_⟩
    · simp only [fill_header_run, hfill, hrun]
    · simp only [List.sum_cons]
      push_cast
      linarith

theorem nonblocking_inv_init (mem : iec61883_cip) (format fdf rate dbs syt_interval : Int)
    (hr : 0 < rate) :
    ∃ c, iec61883_cip_init mem format fdf rate dbs syt_interval = some c ∧
      nonblocking_inv rate (iec61883_cip_set_transmission_mode c IEC61883_MODE_NON_BLOCKING) := by
  obtain ⟨c, hc, _, _, _, _, _, _, _, _, hs, hrs, _, hco⟩ :=
    cip_init_some mem format fdf rate dbs syt_interval hr.ne.symm
  refine ⟨c, hc, rfl, ?_, ?_, ?_, ?_, ?_, ?_⟩
  · exact hs
  · simp only [iec61883_cip_set_transmission_mode, hrs]
  · simp only [iec61883_cip_set_transmission_mode, hrs]; decide
  · simp only [iec61883_cip_set_transmission_mode, hrs]; decide
  · simp only [iec61883_cip_set_transmission_mode, hrs]
  · simp only [iec61883_cip_set_transmission_mode, hco]; exact hr.ne.symm

/-- C4, counterexample. The statement includes `rate = 0`, for which `iec61883_cip_init`
divides by zero (`24576000 * syt_interval / rate`) and produces no state. -/
theorem cip_init_rate_zero_undefined :
    iec61883_cip_init cip_blank IEC61883_FMT_AMDTP 0 0 2 8 = none := by
  rfl

/-- C4, amended. Event-count conservation for every rate `> 0`: in non-blocking mode,
starting from the state produced by `iec61883_cip_init` or from any state reached from it
by `k` calls of `iec61883_cip_fill_header`, the event counts returned by the next 8000
calls add up to exactly `rate`, and `ready_samples` is the same before and after that
window. -/
theorem event_count_conservation (be : Bool) (local_id : Nat) (mem : iec61883_cip)
    (format fdf rate dbs syt_interval : Int) (hr : 0 < rate) (k : Nat) :
    ∃ c counts0 ptz,
      iec61883_cip_init mem format fdf rate dbs syt_interval = some c ∧
      fill_header_run be local_id k
        (iec61883_cip_set_transmission_mode c IEC61883_MODE_NON_BLOCKING) =
          some (counts0, ptz) ∧
      ∃ counts ptz2, fill_header_run be local_id 8000 ptz = some (counts, ptz2) ∧
        counts.length = 8000 ∧ counts.sum = rate ∧
        ptz2.ready_samples = ptz.ready_samples := by
  obtain ⟨c, hc, hinv⟩ := nonblocking_inv_init mem format fdf rate dbs syt_interval hr
  obtain ⟨counts0, ptz, hrun0, hinv1, _, _⟩ := nonblocking_run be local_id rate hr.le k _ hinv
  obtain ⟨counts, ptz2, hrun, hinv2, hlen, hsum⟩ :=
    nonblocking_run be local_id rate hr.le 8000 ptz hinv1
  refine ⟨c, counts0, ptz, hc, hrun0, counts, ptz2, hrun, hlen, ?_, ?_⟩
  · obtain ⟨_, _, _, ha0, ha1, _, _⟩ := hinv1
    obtain ⟨_, _, _, hb0, hb1, _, _⟩ := hinv2
    push_cast at hsum
    omega
  · obtain ⟨_, _, hai, ha0, ha1, had, _⟩ := hinv1
    obtain ⟨_, _, hbi, hb0, hb1, hbd, _⟩ := hinv2
    have hnum : ptz2.ready_samples.numerator = ptz.ready_samples.numerator := by
      push_cast at hsum
      omega
    cases hp : ptz.ready_samples
    cases hq : ptz2.ready_samples
    simp only [hp, hq] at hai hbi had hbd hnum
    simp only [iec61883_fraction.mk.injEq]
    exact ⟨by rw [hai, hbi], hnum, by rw [had, hbd]⟩

/-- Witness of `event_count_conservation`: a 44100 Hz stream after 3 cycles. -/
theorem event_count_conservation_witness :
    (0 : Int) < 44100 ∧
    ∃ c counts0 ptz,
      iec61883_cip_init cip_blank IEC61883_FMT_AMDTP 1 44100 2 8 = some c ∧
      fill_header_run false 0 3
        (iec61883_cip_set_transmission_mode c IEC61883_MODE_NON_BLOCKING) =
          some (counts0, ptz) ∧
      ∃ counts ptz2, fill_header_run false 0 8000 ptz = some (counts, ptz2) ∧
        counts.length = 8000 ∧ counts.sum = 44100 ∧
        ptz2.ready_samples = ptz.ready_samples :=
  ⟨by decide, event_count_conservation false 0 cip_blank IEC61883_FMT_AMDTP 1 44100 2 8
    (by decide) 3⟩

/-! ### Bitwise operators -/

theorem to_u32_of_u32 (n : Nat) (h : n < 4294967296) : to_u32 (of_u32 n) = n := by
  unfold to_u32 of_u32
  split <;> omega

theorem of_u32_small (n : Nat) (h : n < 2147483648) : of_u32 n = (n : Int) := by
  unfold of_u32
  rw [if_pos h]

theorem to_u32_nonneg (x : Int) (h0 : 0 ≤ x) (h1 : x < 4294967296) : to_u32 x = x.toNat := by
  unfold to_u32
  omega

/-- Masking with `2 ^ k - 1` is the remainder modulo `2 ^ k`, also for a negative left
operand. -/
theorem int_and_mask (x : Int) (k : Nat) (hk : k ≤ 30) :
    int_and x ((2 : Int) ^ k - 1) = x % (2 : Int) ^ k := by
  have hcast : ((2 : Int) ^ k) = (((2 ^ k : Nat)) : Int) := by push_cast; rfl
  have hle : 2 ^ k ≤ 2 ^ 30 := Nat.pow_le_pow_right (by decide) hk
  have hpos : 0 < 2 ^ k := Nat.pow_pos (by decide)
  have hdvd : ((2 ^ k : Nat) : Int) ∣ 4294967296 := by
    have : (2 : Int) ^ k ∣ 2 ^ 32 := pow_dvd_pow 2 (by omega)
    rw [hcast] at this
    simpa using this
  have hm : to_u32 ((2 : Int) ^ k - 1) = 2 ^ k - 1 := by
    rw [hcast]
    unfold to_u32
    generalize 2 ^ k = P at hle hpos
    norm_num at hle
    omega
  unfold int_and
  rw [hm, Nat.and_pow_two_sub_one_eq_mod]
  have hlt : to_u32 x % 2 ^ k < 2 ^ k := Nat.mod_lt _ hpos
  rw [of_u32_small _ (by norm_num at hle; omega), hcast]
  have hu : ((to_u32 x : Nat) : Int) = x % 4294967296 := by
    unfold to_u32
    omega
  rw [Int.natCast_mod, hu, Int.emod_emod_of_dvd _ hdvd]

/-- The value `((cycle_count << 12) | floor) & 0xffff` for `0 ≤ floor < 4096`. -/
theorem syt_value (c f : Int) (h0 : 0 ≤ f) (h1 : f < 4096) :
    int_and (int_or (int_shl c 12) f) 0xffff = (c % 16) * 4096 + f := by
  have hu : to_u32 c < 4294967296 := by unfold to_u32; omega
  have ha : (to_u32 c * 2 ^ 12) % 4294967296 = 4096 * (to_u32 c % 1048576) := by omega
  have hg : to_u32 f = f.toNat := to_u32_nonneg f h0 (by omega)
  have hglt : f.toNat < 4096 := by omega
  have hor : 4096 * (to_u32 c % 1048576) ||| f.toNat =
      4096 * (to_u32 c % 1048576) + f.toNat := by
    have := Nat.mul_add_lt_is_or (i := 12) (b := f.toNat) (by simpa using hglt)
      (to_u32 c % 1048576)
    simpa using this.symm
  have hmask : to_u32 (0xffff : Int) = 65535 := by decide
  have hand : ∀ x : Nat, x &&& 65535 = x % 65536 := by
    intro x
    have := Nat.and_pow_two_sub_one_eq_mod x 16
    simpa using this
  unfold int_and int_or int_shl
  rw [ha, to_u32_of_u32 (4096 * (to_u32 c % 1048576)) (by omega), hg, hor,
    to_u32_of_u32 (4096 * (to_u32 c % 1048576) + f.toNat) (by omega), hmask, hand,
    of_u32_small _ (by omega)]
  have hc : ((to_u32 c : Nat) : Int) = c % 4294967296 := by unfold to_u32; omega
  omega

theorem u16_image_htons (be : Bool) (x : Nat) (h : x < 65536) :
    u16_image be (htons be x) = [x / 256, x % 256] := by
  cases be
  · have h1 : (x % 256 * 256 + x / 256 % 256) / 256 = x % 256 := by omega
    have h2 : (x % 256 * 256 + x / 256 % 256) % 256 = x / 256 := by omega
    simp only [u16_image, htons, Bool.false_eq_true, if_false]
    rw [h1, h2, Nat.mod_mod]
  · have h1 : x % 65536 / 256 % 256 = x / 256 := by omega
    have h2 : x % 65536 % 256 = x % 256 := by omega
    simp only [u16_image, htons, if_true]
    rw [h1, h2]

/-! ### Synchronization timestamp -/

theorem xmit_init_rate_facts (rate syt_interval fdf rc : Int)
    (h : xmit_init_rate rate = some (syt_interval, fdf, rc)) :
    32000 ≤ rate ∧ (syt_interval = 8 ∨ syt_interval = 16 ∨ syt_interval = 32) ∧
      0 ≤ fdf ∧ fdf ≤ 6 := by
  unfold xmit_init_rate at h
  split_ifs at h <;>
    simp only [Option.some.injEq, Prod.mk.injEq, IEC61883_FDF_SFC_32KHZ,
      IEC61883_FDF_SFC_44K1HZ, IEC61883_FDF_SFC_48KHZ, IEC61883_FDF_SFC_88K2HZ,
      IEC61883_FDF_SFC_96KHZ, IEC61883_FDF_SFC_176K4HZ, IEC61883_FDF_SFC_192KHZ] at h <;>
    omega

/-- What a successful `iec61883_amdtp_xmit_init` tells about its arguments and result. -/
theorem xmit_init_inv (mem : Option iec61883_amdtp)
    (rate format sample_format mode dimension : Int) (a0 : iec61883_amdtp)
    (h : iec61883_amdtp_xmit_init mem rate format sample_format mode dimension = some a0) :
    ∃ m syt_interval fdf rc c, mem = some m ∧
      xmit_init_rate rate = some (syt_interval, fdf, rc) ∧
      iec61883_cip_init m.cip IEC61883_FMT_AMDTP fdf rate dimension syt_interval = some c ∧
      a0.cip = iec61883_cip_set_transmission_mode c mode ∧ a0.dimension = dimension ∧
      a0.format = format ∧ a0.sample_format = sample_format ∧
      format ≤ IEC61883_AMDTP_FORMAT_IEC958_AC3 ∧
      ¬ (format = IEC61883_AMDTP_FORMAT_IEC958_PCM ∧ dimension > 2) := by
  unfold iec61883_amdtp_xmit_init at h
  split at h
  · exact absurd h (by simp)
  · rename_i m
    split at h
    · rename_i hf
      split at h
      · exact absurd h (by simp)
      · rename_i syt_interval fdf rc hr
        split at h
        · exact absurd h (by simp)
        · rename_i hd
          split at h
          · exact absurd h (by simp)
          · rename_i c hc
            injection h with h
            subst h
            exact ⟨m, syt_interval, fdf, rc, c, rfl, hr, hc, rfl, rfl, rfl, rfl, hf, hd⟩
    · exact absurd h (by simp)

theorem xmit_init_rate_le (rate syt_interval fdf rc : Int)
    (h : xmit_init_rate rate = some (syt_interval, fdf, rc)) : rate ≤ 192000 := by
  unfold xmit_init_rate at h
  split_ifs at h <;> omega

/-- A product that fits an `int` is not changed by the 32-bit word. -/
theorem int_mul_small (a b : Int) (h0 : -2147483648 ≤ a * b) (h1 : a * b < 2147483648) :
    int_mul a b = a * b := by
  unfold int_mul to_u32 of_u32
  generalize a * b = x at h0 h1
  split <;> omega

/-- The timing state set up by `iec61883_cip_init` for `syt_interval = 2 ^ k` when the two
products do not overflow (`k ≤ 6`, `rate ≤ 751920`). -/
theorem timing_inv_init (mem : iec61883_cip) (format fdf rate dbs : Int) (k : Nat)
    (hr : 0 < rate) (hr2 : rate ≤ 751920) (hk : k ≤ 6) :
    ∃ c, iec61883_cip_init mem format fdf rate dbs ((2 : Int) ^ k) = some c ∧
      timing_inv k c := by
  obtain ⟨c, hc, _, _, hsyt, _, _, _, _, _, _, hrs, hti, hco⟩ :=
    cip_init_some mem format fdf rate dbs ((2 : Int) ^ k) hr.ne.symm
  have hp0 : (0 : Int) < (2 : Int) ^ k := by positivity
  have hp1 : (2 : Int) ^ k ≤ 2 ^ 6 := pow_le_pow_right₀ (by decide) hk
  have hp2 : (2 : Int) ^ 6 = 64 := by norm_num
  have hm1 : int_mul 24576000 ((2 : Int) ^ k) = 24576000 * (2 : Int) ^ k :=
    int_mul_small _ _ (by omega) (by omega)
  have hm2 : int_mul 2856 rate = 2856 * rate := int_mul_small _ _ (by omega) (by omega)
  rw [hm1] at hti
  rw [hm2] at hco
  have hnum : (0 : Int) ≤ 24576000 * (2 : Int) ^ k := by positivity
  have hco2 : c.cycle_offset = ⟨2856, 0, rate⟩ := by
    rw [hco, Int.mul_tdiv_cancel _ hr.ne.symm, Int.mul_tmod_left]
  refine ⟨c, hc, hsyt, ?_, ?_, ?_, ?_, ?_, ?_, ?_⟩
  · rw [hrs]; decide
  · rw [hco2]; exact ⟨le_refl _, hr, hr⟩
  · rw [hti]
    refine ⟨?_, ?_, hr⟩
    · show 0 ≤ (24576000 * (2 : Int) ^ k).tmod rate
      rw [Int.tmod_eq_emod hnum hr.le]; exact Int.emod_nonneg _ hr.ne.symm
    · show (24576000 * (2 : Int) ^ k).tmod rate < rate
      rw [Int.tmod_eq_emod hnum hr.le]; exact Int.emod_lt_of_pos _ hr
  · rw [hti, hco2]
  · rw [hti]
    show 0 ≤ (24576000 * (2 : Int) ^ k).tdiv rate
    rw [Int.tdiv_eq_ediv hnum hr.le]; exact Int.ediv_nonneg hnum hr.le
  · rw [hco2]; simp [fraction_floor]
  · rw [hco2]; simp [fraction_floor]

/-- At `syt_interval = 128` the product `24576000 * 128` does not fit an `int`: the state
made by `iec61883_cip_init` at 48000 Hz has a negative `ticks_per_syt_offset` and is not a
timing state in the sense of `timing_inv`. No stream of the library has this interval. -/
theorem cip_init_overflow :
    (iec61883_cip_init cip_blank IEC61883_FMT_AMDTP 2 48000 2 ((2 : Int) ^ 7)).map
        (fun c => c.ticks_per_syt_offset) = some ⟨-23942, -23296, 48000⟩ ∧
      (iec61883_cip_init cip_blank IEC61883_FMT_AMDTP 2 48000 2 ((2 : Int) ^ 7)).map
        (fun c => decide (timing_inv 7 c)) = some false := by
  constructor <;> decide

/-- Every stream made by `iec61883_amdtp_xmit_init` has the timing state of `timing_inv`:
its `syt_interval` is `2 ^ 3`, `2 ^ 4` or `2 ^ 5` and its rate is at most 192000, for which
the two products of `iec61883_cip_init` fit an `int`. -/
theorem xmit_init_timing (mem : Option iec61883_amdtp)
    (rate format sample_format mode dimension : Int) (a0 : iec61883_amdtp)
    (hinit : iec61883_amdtp_xmit_init mem rate format sample_format mode dimension =
      some a0) :
    ∃ k : Nat, 3 ≤ k ∧ k ≤ 5 ∧ timing_inv k a0.cip := by
  obtain ⟨m, syt_interval, fdf, rc, c, _, hr, hc, hcip, _, _, _, _, _⟩ :=
    xmit_init_inv mem rate format sample_format mode dimension a0 hinit
  obtain ⟨hrate, hsyt, _, _⟩ := xmit_init_rate_facts rate syt_interval fdf rc hr
  have hle := xmit_init_rate_le rate syt_interval fdf rc hr
  rw [hcip]
  rcases hsyt with h8 | h8 | h8
  · obtain ⟨c3, hc3, ht⟩ := timing_inv_init m.cip IEC61883_FMT_AMDTP fdf rate dimension 3
      (by omega) (by omega) (by decide)
    rw [show ((2 : Int) ^ 3) = 8 by norm_num, ← h8, hc] at hc3
    injection hc3 with hc3
    exact ⟨3, by decide, by decide, by rw [hc3]; exact ht⟩
  · obtain ⟨c3, hc3, ht⟩ := timing_inv_init m.cip IEC61883_FMT_AMDTP fdf rate dimension 4
      (by omega) (by omega) (by decide)
    rw [show ((2 : Int) ^ 4) = 16 by norm_num, ← h8, hc] at hc3
    injection hc3 with hc3
    exact ⟨4, by decide, by decide, by rw [hc3]; exact ht⟩
  · obtain ⟨c3, hc3, ht⟩ := timing_inv_init m.cip IEC61883_FMT_AMDTP fdf rate dimension 5
      (by omega) (by omega) (by decide)
    rw [show ((2 : Int) ^ 5) = 32 by norm_num, ← h8, hc] at hc3
    injection hc3 with hc3
    exact ⟨5, by decide, by decide, by rw [hc3]; exact ht⟩

/-- The two branches of the timestamp computation for a stream satisfying `timing_inv`. -/
theorem fill_header_timing_cases (ptz : iec61883_cip) (k : Nat) (hk : k ≤ 30)
    (h : timing_inv k ptz) (nevents : Int) :
    (¬ (ptz.syt_interval - ptz.dbc) % ptz.syt_interval < nevents →
      fill_header_timing ptz nevents = some (0xffff, ptz.cycle_offset, ptz.cycle_count)) ∧
    ((ptz.syt_interval - ptz.dbc) % ptz.syt_interval < nevents →
      fill_header_timing ptz nevents =
        some
          ((ptz.cycle_count % 16) * 4096 + fraction_floor ptz.cycle_offset,
            ⟨(ptz.cycle_offset.integer + ptz.ticks_per_syt_offset.integer +
                (ptz.cycle_offset.numerator + ptz.ticks_per_syt_offset.numerator).tdiv
                  ptz.cycle_offset.denominator).tmod 3072,
              (ptz.cycle_offset.numerator + ptz.ticks_per_syt_offset.numerator).tmod
                ptz.cycle_offset.denominator,
              ptz.cycle_offset.denominator⟩,
            ptz.cycle_count +
              (ptz.cycle_offset.integer + ptz.ticks_per_syt_offset.integer +
                (ptz.cycle_offset.numerator + ptz.ticks_per_syt_offset.numerator).tdiv
                  ptz.cycle_offset.denominator).tdiv 3072)) := by
  obtain ⟨hsyt, _, hco, _, _, _, hf0, hf1⟩ := h
  have hidx : int_and (ptz.syt_interval - ptz.dbc) (ptz.syt_interval - 1) =
      (ptz.syt_interval - ptz.dbc) % ptz.syt_interval := by
    rw [hsyt]; exact int_and_mask _ k hk
  constructor
  · intro hlt
    simp only [fill_header_timing, hidx, if_neg hlt]
  · intro hlt
    simp only [fill_header_timing, hidx, if_pos hlt,
      fraction_add_eq _ _ hco.2.2.ne.symm, syt_value _ _ hf0 (by omega)]

/-- The new `cycle_offset` of a stream satisfying `timing_inv`, and the `syt` value in
the two branches. -/
theorem fill_header_timing_step (ptz : iec61883_cip) (k : Nat) (hk : k ≤ 30)
    (h : timing_inv k ptz) (nevents syt : Int) (co : iec61883_fraction) (cc : Int)
    (ht : fill_header_timing ptz nevents = some (syt, co, cc)) :
    fraction_inv co ∧ co.denominator = ptz.cycle_offset.denominator ∧
      0 ≤ fraction_floor co ∧ fraction_floor co < 3072 ∧
      (¬ (ptz.syt_interval - ptz.dbc) % ptz.syt_interval < nevents → syt = 0xffff) ∧
      ((ptz.syt_interval - ptz.dbc) % ptz.syt_interval < nevents →
        syt = (ptz.cycle_count % 16) * 4096 + fraction_floor ptz.cycle_offset) := by
  have hcase0 := (fill_header_timing_cases ptz k hk h nevents).1
  have hcase1 := (fill_header_timing_cases ptz k hk h nevents).2
  obtain ⟨hsyt, hrd, hco, hti, hden, htick, hf0, hf1⟩ := h
  by_cases hlt : (ptz.syt_interval - ptz.dbc) % ptz.syt_interval < nevents
  · rw [hcase1 hlt] at ht
    simp only [Option.some.injEq, Prod.mk.injEq] at ht
    obtain ⟨hs, hco2, _⟩ := ht
    obtain ⟨hc0, hc1, hcd⟩ := hco
    obtain ⟨ht0, ht1, htd⟩ := hti
    have hs2 : 0 ≤ ptz.cycle_offset.numerator + ptz.ticks_per_syt_offset.numerator := by
      omega
    have hq : 0 ≤ (ptz.cycle_offset.numerator + ptz.ticks_per_syt_offset.numerator).tdiv
        ptz.cycle_offset.denominator := by
      rw [Int.tdiv_eq_ediv hs2 hcd.le]; exact Int.ediv_nonneg hs2 hcd.le
    have hX : 0 ≤ ptz.cycle_offset.integer + ptz.ticks_per_syt_offset.integer +
        (ptz.cycle_offset.numerator + ptz.ticks_per_syt_offset.numerator).tdiv
          ptz.cycle_offset.denominator := by
      simp only [fraction_floor] at hf0
      omega
    refine ⟨?_, ?_, ?_, ?_, fun h2 => absurd hlt h2, fun _ => hs.symm⟩
    · simp only [← hco2, fraction_inv]
      rw [Int.tmod_eq_emod hs2 hcd.le]
      exact ⟨Int.emod_nonneg _ hcd.ne.symm, Int.emod_lt_of_pos _ hcd, hcd⟩
    · simp only [← hco2]
    · simp only [← hco2, fraction_floor]
      rw [Int.tmod_eq_emod hX (by decide)]; exact Int.emod_nonneg _ (by decide)
    · simp only [← hco2, fraction_floor]
      rw [Int.tmod_eq_emod hX (by decide)]; exact Int.emod_lt_of_pos _ (by decide)
  · rw [hcase0 hlt] at ht
    simp only [Option.some.injEq, Prod.mk.injEq] at ht
    obtain ⟨hs, hco2, _⟩ := ht
    refine ⟨?_, ?_, ?_, ?_, fun _ => hs.symm, fun h2 => absurd h2 hlt⟩
    · simp only [← hco2]; exact hco
    · simp only [← hco2]
    · simp only [← hco2]; exact hf0
    · simp only [← hco2]; exact hf1

/-- The shape of the result of `amdtp_xmit_handler` when the CIP engine is defined and the
payload size is not negative. -/
theorem xmit_handler_some {σ : Type} (be : Bool) (local_id : Nat) (sk : Bool)
    (get_data : iec61883_amdtp → σ → Int → Nat → Nat → Int × List Nat × σ)
    (a : iec61883_amdtp) (cb : σ) (d : Nat) (nevents : Int) (cip2 : iec61883_cip)
    (pkt : iec61883_packet)
    (hfill : iec61883_cip_fill_header be local_id a.cip = some (nevents, cip2, pkt))
    (hq : 0 ≤ xmit_nsamples cip2 nevents * a.dimension) :
    ∃ r, amdtp_xmit_handler be local_id sk get_data a cb d = some r ∧
      r.amdtp.cip = cip2 ∧ r.amdtp.dimension = a.dimension ∧ r.amdtp.format = a.format ∧
      r.amdtp.sample_format = a.sample_format ∧ r.packet = pkt ∧
      r.data.length = (xmit_nsamples cip2 nevents * a.dimension).toNat ∧
      (∀ l, r.len = some l → l = (r.data.length * 4 + 8) % 4294967296) := by
  simp only [amdtp_xmit_handler, hfill, if_neg (not_lt.mpr hq)]
  split_ifs
  all_goals
    refine ⟨_, rfl, rfl, rfl, rfl, rfl, rfl, ?_, ?_⟩
    · simp
    · intro l hl
      simp at hl <;> simp [← hl]

theorem fraction_add_denominator (a b c : iec61883_fraction)
    (h : fraction_add a b = some c) : c.denominator = a.denominator := by
  by_cases h0 : a.denominator = 0
  · simp [fraction_add, h0] at h
  · rw [fraction_add_eq a b h0] at h
    injection h with h
    rw [← h]

/-- The fields of the stream that a call of `iec61883_cip_fill_header` leaves alone. -/
theorem fill_header_static (be : Bool) (local_id : Nat) (ptz ptz2 : iec61883_cip)
    (nevents : Int) (pkt : iec61883_packet)
    (h : iec61883_cip_fill_header be local_id ptz = some (nevents, ptz2, pkt)) :
    ptz2.mode = ptz.mode ∧ ptz2.syt_interval = ptz.syt_interval ∧ ptz2.dbs = ptz.dbs ∧
      ptz2.samples_per_cycle = ptz.samples_per_cycle ∧
      ptz2.ticks_per_syt_offset = ptz.ticks_per_syt_offset ∧
      ptz2.fdf = ptz.fdf ∧ ptz2.format = ptz.format ∧
      ptz2.ready_samples.denominator = ptz.ready_samples.denominator ∧
      ptz2.cycle_offset.denominator = ptz.cycle_offset.denominator := by
  unfold iec61883_cip_fill_header at h
  split at h
  · exact absurd h (by simp)
  · rename_i next hadd
    dsimp only at h
    split at h
    · exact absurd h (by simp)
    · rename_i syt co cc ht
      simp only [Option.some.injEq, Prod.mk.injEq] at h
      obtain ⟨_, h2, _⟩ := h
      subst h2
      refine ⟨rfl, rfl, rfl, rfl, rfl, rfl, rfl, ?_, ?_⟩
      · exact fraction_add_denominator _ _ next hadd
      · exact fill_header_cycle_offset_denominator ptz _ syt cc co ht

/-- One cycle of the transmit handler on a stream satisfying `xmit_inv`: the handler is
defined, keeps the invariant, and the packet it builds is not longer than the maximal
packet size of the stream. -/
theorem xmit_step {σ : Type} (be : Bool) (local_id : Nat) (sk : Bool)
    (get_data : iec61883_amdtp → σ → Int → Nat → Nat → Int × List Nat × σ)
    (rate mode dimension syt_interval : Int) (hrate : 32000 ≤ rate) (hdim : 1 ≤ dimension)
    (hsyt : 0 < syt_interval)
    (hmode : mode = IEC61883_MODE_BLOCKING_EMPTY ∨ mode = IEC61883_MODE_BLOCKING_NODATA ∨
      mode = IEC61883_MODE_NON_BLOCKING)
    (a : iec61883_amdtp) (cb : σ) (d : Nat)
    (h : xmit_inv rate mode dimension syt_interval a) :
    ∃ r, amdtp_xmit_handler be local_id sk get_data a cb d = some r ∧
      xmit_inv rate mode dimension syt_interval r.amdtp ∧
      iec61883_cip_get_max_packet_size r.amdtp.cip = iec61883_cip_get_max_packet_size a.cip ∧
      ((r.data.length : Int) * 4 + 8 ≤ iec61883_cip_get_max_packet_size a.cip) ∧
      (∀ l, r.len = some l → l = (r.data.length * 4 + 8) % 4294967296) := by
  obtain ⟨hadim, hdbs, hm, hs, hspc, hrd, hcd, hnb⟩ := h
  have hrd0 : a.cip.ready_samples.denominator ≠ 0 := by rw [hrd]; decide
  obtain ⟨next, syt, co, cc, hadd, ht, hfill⟩ := fill_header_some be local_id a.cip hrd0 hcd
  obtain ⟨sm, ss, sd, sp, _, _, _, srd, scd⟩ := fill_header_static be local_id _ _ _ _ hfill
  have hr0 : 0 ≤ rate := by omega
  have hq4 : 4 ≤ rate.tdiv 8000 := by
    rw [Int.tdiv_eq_ediv hr0 (by decide)]; omega
  have hrm0 : 0 ≤ rate.tmod 8000 := by
    rw [Int.tmod_eq_emod hr0 (by decide)]; exact Int.emod_nonneg _ (by decide)
  have hrm1 : rate.tmod 8000 < 8000 := by
    rw [Int.tmod_eq_emod hr0 (by decide)]; exact Int.emod_lt_of_pos _ (by decide)
  -- the number of events put in the packet, and the maximum
  have hbound : 0 ≤ xmit_nsamples a.cip (fill_header_nevents a.cip next) ∧
      xmit_nsamples a.cip (fill_header_nevents a.cip next) * dimension * 4 + 8 ≤
        iec61883_cip_get_max_packet_size a.cip ∧
      (mode = IEC61883_MODE_NON_BLOCKING →
        (fraction_sub_int next (fill_header_nevents a.cip next)).integer = 0 ∧
        0 ≤ (fraction_sub_int next (fill_header_nevents a.cip next)).numerator ∧
        (fraction_sub_int next (fill_header_nevents a.cip next)).numerator < 8000) := by
    rw [fraction_add_eq _ _ hrd0] at hadd
    injection hadd with hadd
    rcases hmode with h0 | h0 | h0
    · -- blocking, empty packets
      have hb : a.cip.mode = IEC61883_MODE_BLOCKING_EMPTY ∨
          a.cip.mode = IEC61883_MODE_BLOCKING_NODATA := Or.inl (hm.trans h0)
      have hmax : iec61883_cip_get_max_packet_size a.cip = syt_interval * dimension * 4 + 8 := by
        simp only [iec61883_cip_get_max_packet_size, if_pos hb, hs, hdbs]
      have hns : xmit_nsamples a.cip (fill_header_nevents a.cip next) = 0 ∨
          xmit_nsamples a.cip (fill_header_nevents a.cip next) = syt_interval := by
        simp only [xmit_nsamples, fill_header_nevents, if_pos hb, hs]
        split_ifs <;> simp_all
      refine ⟨by omega, ?_, fun h2 => absurd (h0.symm.trans h2) (by decide)⟩
      rw [hmax]
      rcases hns with h1 | h1
      · rw [h1]
        have : 0 ≤ syt_interval * dimension := by positivity
        omega
      · rw [h1]
    · -- blocking, no-data packets
      have hb : a.cip.mode = IEC61883_MODE_BLOCKING_EMPTY ∨
          a.cip.mode = IEC61883_MODE_BLOCKING_NODATA := Or.inr (hm.trans h0)
      have hmax : iec61883_cip_get_max_packet_size a.cip = syt_interval * dimension * 4 + 8 := by
        simp only [iec61883_cip_get_max_packet_size, if_pos hb, hs, hdbs]
      have hne : a.cip.mode ≠ IEC61883_MODE_BLOCKING_EMPTY := by
        rw [hm, h0]; decide
      have hns : xmit_nsamples a.cip (fill_header_nevents a.cip next) = syt_interval := by
        simp only [xmit_nsamples, fill_header_nevents, if_pos hb, hs, if_neg hne]
        split_ifs <;> simp_all
      refine ⟨by omega, ?_, fun h2 => absurd (h0.symm.trans h2) (by decide)⟩
      rw [hmax, hns]
    · -- non-blocking
      obtain ⟨hi, hn0, hn1⟩ := hnb h0
      have hb : ¬ (a.cip.mode = IEC61883_MODE_BLOCKING_EMPTY ∨
          a.cip.mode = IEC61883_MODE_BLOCKING_NODATA) := by
        rw [hm, h0]; decide
      have hsum : 0 ≤ a.cip.ready_samples.numerator + rate.tmod 8000 := by omega
      have hdiv := Int.tdiv_add_tmod (a.cip.ready_samples.numerator + rate.tmod 8000) 8000
      have hmod0 : 0 ≤ (a.cip.ready_samples.numerator + rate.tmod 8000).tmod 8000 := by
        rw [Int.tmod_eq_emod hsum (by decide)]; exact Int.emod_nonneg _ (by decide)
      have hmod1 : (a.cip.ready_samples.numerator + rate.tmod 8000).tmod 8000 < 8000 := by
        rw [Int.tmod_eq_emod hsum (by decide)]; exact Int.emod_lt_of_pos _ (by decide)
      have hnev : fill_header_nevents a.cip next = rate.tdiv 8000 +
          (a.cip.ready_samples.numerator + rate.tmod 8000).tdiv 8000 := by
        simp only [fill_header_nevents, if_neg hb, fraction_floor, ← hadd, hspc, hi, hrd]
        omega
      have hcarry0 : 0 ≤ (a.cip.ready_samples.numerator + rate.tmod 8000).tdiv 8000 := by
        omega
      have hcarry1 : (a.cip.ready_samples.numerator + rate.tmod 8000).tdiv 8000 ≤
          (if rate.tmod 8000 > 0 then 1 else 0) := by
        split_ifs <;> omega
      have hpos : fill_header_nevents a.cip next > 0 := by omega
      have hns : xmit_nsamples a.cip (fill_header_nevents a.cip next) =
          fill_header_nevents a.cip next := by
        simp only [xmit_nsamples, if_pos hpos]
      have hmax : iec61883_cip_get_max_packet_size a.cip =
          (rate.tdiv 8000 + (if rate.tmod 8000 > 0 then 1 else 0)) * dimension * 4 + 8 := by
        simp only [iec61883_cip_get_max_packet_size, if_neg hb, fraction_ceil, hspc, hdbs]
      refine ⟨by omega, ?_, fun _ => ⟨?_, ?_, ?_⟩⟩
      · rw [hmax, hns, hnev]
        have hle : (rate.tdiv 8000 + (a.cip.ready_samples.numerator + rate.tmod 8000).tdiv 8000)
            * dimension ≤ (rate.tdiv 8000 + (if rate.tmod 8000 > 0 then 1 else 0)) * dimension :=
          mul_le_mul_of_nonneg_right (by omega) (by omega)
        omega
      · simp only [fraction_sub_int, hnev]
        simp only [← hadd, hspc, hi, hrd]
        omega
      · simp only [fraction_sub_int, ← hadd, hspc, hrd]; exact hmod0
      · simp only [fraction_sub_int, ← hadd, hspc, hrd]; exact hmod1
  obtain ⟨hns0, hle, hnb2⟩ := hbound
  have hmode2 : xmit_nsamples
      { a.cip with
        ready_samples := fraction_sub_int next (fill_header_nevents a.cip next)
        cycle_offset := co
        cycle_count := cc
        dbc := a.cip.dbc +
          (if a.cip.mode = IEC61883_MODE_BLOCKING_NODATA then a.cip.syt_interval
            else fill_header_nevents a.cip next) } (fill_header_nevents a.cip next) =
      xmit_nsamples a.cip (fill_header_nevents a.cip next) := rfl
  obtain ⟨r, hr, hcip, hrdim, _, _, _, hlen, hl⟩ :=
    xmit_handler_some be local_id sk get_data a cb d _ _ _ hfill
      (by rw [hmode2, hadim]; exact mul_nonneg hns0 (by omega))
  rw [hmode2, hadim] at hlen
  refine ⟨r, hr, ⟨by rw [hrdim, hadim], ?_, ?_, ?_, ?_, ?_, ?_, ?_⟩, ?_, ?_, hl⟩
  · rw [hcip]; exact sd.trans hdbs
  · rw [hcip]; exact sm.trans hm
  · rw [hcip]; exact ss.trans hs
  · rw [hcip]; exact sp.trans hspc
  · rw [hcip]; exact srd.trans hrd
  · rw [hcip, scd]; exact hcd
  · rw [hcip]; exact hnb2
  · rw [hcip]
    simp only [iec61883_cip_get_max_packet_size, sm, ss, sd, sp]
  · rw [hlen, Int.toNat_of_nonneg (mul_nonneg hns0 (by omega))]
    linarith

theorem xmit_run_bound {σ : Type} (be : Bool) (local_id : Nat) (sk : Bool)
    (get_data : iec61883_amdtp → σ → Int → Nat → Nat → Int × List Nat × σ)
    (rate mode dimension syt_interval : Int) (hrate : 32000 ≤ rate) (hdim : 1 ≤ dimension)
    (hsyt : 0 < syt_interval)
    (hmode : mode = IEC61883_MODE_BLOCKING_EMPTY ∨ mode = IEC61883_MODE_BLOCKING_NODATA ∨
      mode = IEC61883_MODE_NON_BLOCKING)
    (drops : List Nat) :
    ∀ (a : iec61883_amdtp) (cb : σ), xmit_inv rate mode dimension syt_interval a →
      ∃ rs, amdtp_xmit_run be local_id sk get_data drops a cb = some rs ∧
        rs.length = drops.length ∧
        ∀ r ∈ rs,
          ((r.data.length : Int) * 4 + 8 ≤ iec61883_cip_get_max_packet_size a.cip) ∧
          (∀ l, r.len = some l → l = (r.data.length * 4 + 8) % 4294967296) := by
  induction drops with
  | nil =>
    intro a cb _
    exact ⟨[], rfl, rfl, fun r hr => absurd hr (List.not_mem_nil r)⟩
  | cons d rest ih =>
    intro a cb h
    obtain ⟨r, hr, hinv, hmax, hle, hl⟩ :=
      xmit_step be local_id sk get_data rate mode dimension syt_interval hrate hdim hsyt hmode
        a cb d h
    obtain ⟨rs, hrs, hlen, hall⟩ := ih r.amdtp r.callback_data hinv
    refine ⟨r :: rs, ?_, by simp [hlen], ?_⟩
    · simp only [amdtp_xmit_run, hr, hrs]
    · intro r2 hr2
      rcases List.mem_cons.mp hr2 with h2 | h2
      · rw [h2]; exact ⟨hle, hl⟩
      · rw [← hmax]; exact hall r2 h2

/-- C8. Buffer-sizing contract. For every AMDTP transmit stream created by
`iec61883_amdtp_xmit_init` (which accepts the seven supported rates only), any of the
three transmission modes and dimension `≥ 1`, whatever the data source does: in every
cycle the handler is defined and the length of the packet it builds,
`nsamples * dimension * 4 + 8`, is at most `iec61883_cip_get_max_packet_size` of the
stream; the length it reports in `*len` is that value as an `unsigned int`, at most the
size `iec61883_amdtp_xmit_start` passes on whenever the latter fits an `int`. -/
theorem xmit_len_le_max_packet_size {σ : Type} (be : Bool) (local_id : Nat) (sk : Bool)
    (get_data : iec61883_amdtp → σ → Int → Nat → Nat → Int × List Nat × σ)
    (mem : Option iec61883_amdtp) (rate format sample_format mode dimension : Int)
    (a0 : iec61883_amdtp) (drops : List Nat) (cb : σ)
    (hmode : mode = IEC61883_MODE_BLOCKING_EMPTY ∨ mode = IEC61883_MODE_BLOCKING_NODATA ∨
      mode = IEC61883_MODE_NON_BLOCKING)
    (hdim : 1 ≤ dimension)
    (hinit : iec61883_amdtp_xmit_init mem rate format sample_format mode dimension =
      some a0) :
    ∃ rs, amdtp_xmit_run be local_id sk get_data drops a0 cb = some rs ∧
      rs.length = drops.length ∧
      ∀ r ∈ rs,
        ((r.data.length : Int) * 4 + 8 ≤ iec61883_cip_get_max_packet_size a0.cip) ∧
        (∀ l, r.len = some l → l = (r.data.length * 4 + 8) % 4294967296 ∧
          (iec61883_cip_get_max_packet_size a0.cip < 2147483648 →
            l = r.data.length * 4 + 8 ∧ l ≤ xmit_start_max_packet_size a0)) := by
  obtain ⟨m, syt_interval, fdf, rc, c, _, hr, hc, hcip, hd, _, _, _, _⟩ :=
    xmit_init_inv mem rate format sample_format mode dimension a0 hinit
  obtain ⟨hrate, hsyt, _, _⟩ := xmit_init_rate_facts rate syt_interval fdf rc hr
  obtain ⟨c2, hc2, _, hdbs, hs, _, _, _, _, _, hspc, hrs, _, hco⟩ :=
    cip_init_some m.cip IEC61883_FMT_AMDTP fdf rate dimension syt_interval (by omega)
  rw [hc] at hc2
  injection hc2 with hc2
  subst hc2
  have hinv : xmit_inv rate mode dimension syt_interval a0 := by
    refine ⟨hd, ?_, ?_, ?_, ?_, ?_, ?_, ?_⟩
    · rw [hcip]; exact hdbs
    · rw [hcip]; rfl
    · rw [hcip]; exact hs
    · rw [hcip]; exact hspc
    · rw [hcip]; simp only [iec61883_cip_set_transmission_mode, hrs]
    · rw [hcip]; simp only [iec61883_cip_set_transmission_mode, hco]; omega
    · intro _
      rw [hcip]
      simp only [iec61883_cip_set_transmission_mode, hrs]
      decide
  obtain ⟨rs, hrs2, hlen, hall⟩ :=
    xmit_run_bound be local_id sk get_data rate mode dimension syt_interval hrate hdim
      (by omega) hmode drops a0 cb hinv
  refine ⟨rs, hrs2, hlen, fun r hr2 => ⟨(hall r hr2).1, fun l hl => ⟨(hall r hr2).2 l hl, ?_⟩⟩⟩
  intro hfit
  have h1 := (hall r hr2).1
  have h2 := (hall r hr2).2 l hl
  have h3 : r.data.length * 4 + 8 < 4294967296 := by omega
  have h4 : l = r.data.length * 4 + 8 := by omega
  refine ⟨h4, ?_⟩
  simp only [xmit_start_max_packet_size, to_u32]
  omega

/-- Witness of `xmit_len_le_max_packet_size`: three cycles of a stereo 44100 Hz RAW stream
in non-blocking mode whose source delivers nothing. -/
theorem xmit_len_le_max_packet_size_witness :
    ((IEC61883_MODE_NON_BLOCKING = IEC61883_MODE_BLOCKING_EMPTY ∨
        IEC61883_MODE_NON_BLOCKING = IEC61883_MODE_BLOCKING_NODATA ∨
        IEC61883_MODE_NON_BLOCKING = IEC61883_MODE_NON_BLOCKING) ∧ (1 : Int) ≤ 2 ∧
      iec61883_amdtp_xmit_init (some amdtp_blank) 44100 IEC61883_AMDTP_FORMAT_RAW
        IEC61883_AMDTP_INPUT_LE16 IEC61883_MODE_NON_BLOCKING 2 =
          some { amdtp_blank with
            cip := cip_44100 2, dimension := 2, channel := -1, buffer_packets := 1000,
            prebuffer_packets := 1000, irq_interval := 250 }) ∧
    ∃ rs, amdtp_xmit_run false 0 false
        (fun _ (u : Unit) _ _ _ => ((0 : Int), ([] : List Nat), u))
        [0, 0, 0]
        { amdtp_blank with
          cip := cip_44100 2, dimension := 2, channel := -1, buffer_packets := 1000,
          prebuffer_packets := 1000, irq_interval := 250 } () = some rs ∧
      rs.length = [0, 0, 0].length ∧
      ∀ r ∈ rs,
        ((r.data.length : Int) * 4 + 8 ≤ iec61883_cip_get_max_packet_size (cip_44100 2)) ∧
        (∀ l, r.len = some l → l = (r.data.length * 4 + 8) % 4294967296 ∧
          (iec61883_cip_get_max_packet_size (cip_44100 2) < 2147483648 →
            l = r.data.length * 4 + 8 ∧
            l ≤ xmit_start_max_packet_size { amdtp_blank with
              cip := cip_44100 2, dimension := 2, channel := -1, buffer_packets := 1000,
              prebuffer_packets := 1000, irq_interval := 250 })) :=
  ⟨⟨by decide, by decide, rfl⟩,
    xmit_len_le_max_packet_size false 0 false _ (some amdtp_blank) 44100 IEC61883_AMDTP_FORMAT_RAW
      IEC61883_AMDTP_INPUT_LE16 IEC61883_MODE_NON_BLOCKING 2 _ [0, 0, 0] () (by decide)
      (by decide) rfl⟩

/-! ### Round trip through the AMDTP transmitter and receiver -/

theorem timing_inv_step (be : Bool) (local_id : Nat) (ptz ptz2 : iec61883_cip) (k : Nat)
    (hk : k ≤ 30) (h : timing_inv k ptz) (nevents : Int) (pkt : iec61883_packet)
    (hfill : iec61883_cip_fill_header be local_id ptz = some (nevents, ptz2, pkt)) :
    timing_inv k ptz2 := by
  have h0 := h
  obtain ⟨hsyt, hrd, hco, hti, hden, htick, hf0, hf1⟩ := h
  obtain ⟨next, syt, co, cc, _, ht, hfill2⟩ :=
    fill_header_some be local_id ptz hrd hco.2.2.ne.symm
  obtain ⟨_, ss, _, _, st, _, _, srd, _⟩ := fill_header_static be local_id _ _ _ _ hfill
  rw [hfill] at hfill2
  simp only [Option.some.injEq, Prod.mk.injEq] at hfill2
  obtain ⟨_, h2, _⟩ := hfill2
  obtain ⟨hinv2, hden2, hg0, hg1, _⟩ := fill_header_timing_step ptz k hk h0 _ syt co cc ht
  have hco2 : ptz2.cycle_offset = co := by rw [h2]
  refine ⟨ss.trans hsyt, by rw [srd]; exact hrd, by rw [hco2]; exact hinv2,
    by rw [st]; exact hti, ?_, by rw [st]; exact htick, by rw [hco2]; exact hg0,
    by rw [hco2]; exact hg1⟩
  rw [st, hco2, hden2]; exact hden

theorem htons_ne (be : Bool) (x : Nat) (h1 : x < 65536) (h2 : x ≠ 65535) :
    htons be x ≠ 0xFFFF := by
  cases be
  · simp only [htons, Bool.false_eq_true, if_false]
    omega
  · simp only [htons, if_true]
    omega

/-- One call of `iec61883_cip_fill_header` in a blocking mode on a stream whose `dbc` is a
multiple of `syt_interval`: either no event and no timestamp, or `syt_interval` events
and a timestamp. -/
theorem blocking_fill_header (be : Bool) (local_id : Nat) (ptz : iec61883_cip) (k : Nat)
    (hk : k ≤ 30) (h : timing_inv k ptz)
    (hmode : ptz.mode = IEC61883_MODE_BLOCKING_EMPTY ∨
      ptz.mode = IEC61883_MODE_BLOCKING_NODATA)
    (hs : ptz.syt_interval = 8 ∨ ptz.syt_interval = 16 ∨ ptz.syt_interval = 32)
    (hdbc : ptz.dbc % ptz.syt_interval = 0) :
    ∃ nevents ptz2 pkt,
      iec61883_cip_fill_header be local_id ptz = some (nevents, ptz2, pkt) ∧
      ptz2.dbc % ptz.syt_interval = 0 ∧
      pkt.fmt = bitfield 6 ptz.format ∧ pkt.dbs = bitfield 8 ptz.dbs ∧
      pkt.dbc = bitfield 8 ptz.dbc ∧
      ((nevents = 0 ∧ pkt.syt = 0xFFFF) ∨
        (nevents = ptz.syt_interval ∧ pkt.syt ≠ 0xFFFF ∧ pkt.fdf = bitfield 8 ptz.fdf)) := by
  have h0 := h
  obtain ⟨hsyt, hrd, hco, hti, hden, htick, hf0, hf1⟩ := h
  obtain ⟨next, syt, co, cc, _, ht, hfill⟩ :=
    fill_header_some be local_id ptz hrd hco.2.2.ne.symm
  obtain ⟨_, _, _, _, hsy0, hsy1⟩ := fill_header_timing_step ptz k hk h0 _ syt co cc ht
  have hidx : (ptz.syt_interval - ptz.dbc) % ptz.syt_interval = 0 := by
    rcases hs with h8 | h8 | h8 <;> rw [h8] at hdbc ⊢ <;> omega
  rw [hidx] at hsy0 hsy1
  have hnev : fill_header_nevents ptz next = 0 ∨
      fill_header_nevents ptz next = ptz.syt_interval := by
    simp only [fill_header_nevents, if_pos hmode]
    split_ifs
    · exact Or.inr rfl
    · exact Or.inl rfl
  refine ⟨_, _, _, hfill, ?_, rfl, rfl, rfl, ?_⟩
  · show (ptz.dbc + (if ptz.mode = IEC61883_MODE_BLOCKING_NODATA then ptz.syt_interval
      else fill_header_nevents ptz next)) % ptz.syt_interval = 0
    split_ifs
    · rcases hs with h8 | h8 | h8 <;> rw [h8] at hdbc ⊢ <;> omega
    · rcases hnev with h1 | h1 <;> rw [h1]
      · simpa using hdbc
      · rcases hs with h8 | h8 | h8 <;> rw [h8] at hdbc ⊢ <;> omega
  · rcases hnev with h1 | h1
    · left
      refine ⟨h1, ?_⟩
      have hsv := hsy0 (by rw [h1]; decide)
      simp only [fill_header_packet, hsv]
      cases be <;> rfl
    · right
      have hpos : 0 < fill_header_nevents ptz next := by
        rw [h1]; rcases hs with h8 | h8 | h8 <;> rw [h8] <;> decide
      have hsv := hsy1 hpos
      have hne0 : ¬ (fill_header_nevents ptz next = 0 ∧
          ptz.mode = IEC61883_MODE_BLOCKING_NODATA) := by
        intro hc; omega
      refine ⟨h1, ?_, ?_⟩
      · simp only [fill_header_packet, hsv, bitfield]
        rw [show ((2 : Int) ^ 16) = 65536 by norm_num]
        simp only [fraction_floor] at hf0 hf1 ⊢
        apply htons_ne <;> omega
      · simp only [fill_header_packet, if_neg hne0]

theorem range_map_getD (f : Nat → Nat) (n : Nat) :
    (List.range n).map (fun i => ((List.range n).map f).getD i 0) = (List.range n).map f := by
  apply List.map_congr_left
  intro i hi
  have hi2 : i < n := List.mem_range.mp hi
  simp [List.getD_eq_getElem?_getD, List.getElem?_map, List.getElem?_range hi2]

/-- The transmit handler of a RAW stream fed by `stream_source`, when the CIP engine
returns `nevents > 0`. -/
theorem xmit_handler_raw_data (be : Bool) (local_id : Nat) (sk : Bool) (src : Nat → Nat)
    (a : iec61883_amdtp) (p : Nat) (nevents : Int) (cip2 : iec61883_cip)
    (pkt : iec61883_packet)
    (hfill : iec61883_cip_fill_header be local_id a.cip = some (nevents, cip2, pkt))
    (hpos : nevents > 0) (hdim : 0 ≤ a.dimension)
    (hfmt : a.format = IEC61883_AMDTP_FORMAT_RAW) :
    amdtp_xmit_handler be local_id sk (stream_source src) a p 0 =
      some
        { result := RAW1394_ISO_OK
          amdtp := { a with cip := cip2, total_dropped := (a.total_dropped + 0) % 4294967296 }
          callback_data := p + (nevents * a.dimension).toNat
          packet := pkt
          data := (List.range (nevents * a.dimension).toNat).map
            (fun i => htonl be (src (p + i) ||| xmit_raw_label a.sample_format))
          len := some (((nevents * a.dimension).toNat * 4 + 8) % 4294967296)
          tag := some IEC61883_TAG_WITH_CIP
          sy := some 0 } := by
  have hq : ¬ (nevents * a.dimension < 0) := not_lt.mpr (mul_nonneg hpos.le hdim)
  simp only [amdtp_xmit_handler, hfill, xmit_nsamples, if_pos hpos, if_neg hq, stream_source,
    hfmt, lt_self_iff_false, if_false, if_true, range_map_getD, List.map_map]
  rfl

/-- The transmit handler of a RAW stream when the CIP engine returns no event: a packet
without data from the source. -/
theorem xmit_handler_raw_empty (be : Bool) (local_id : Nat) (sk : Bool) (src : Nat → Nat)
    (a : iec61883_amdtp) (p : Nat) (cip2 : iec61883_cip) (pkt : iec61883_packet)
    (hfill : iec61883_cip_fill_header be local_id a.cip = some (0, cip2, pkt))
    (hq : 0 ≤ xmit_nsamples cip2 0 * a.dimension)
    (hfmt : a.format = IEC61883_AMDTP_FORMAT_RAW) :
    ∃ data len,
      amdtp_xmit_handler be local_id sk (stream_source src) a p 0 =
        some
          { result := RAW1394_ISO_OK
            amdtp := { a with cip := cip2, total_dropped := (a.total_dropped + 0) % 4294967296 }
            callback_data := p
            packet := pkt
            data := data
            len := some len
            tag := some IEC61883_TAG_WITH_CIP
            sy := some 0 } := by
  simp only [amdtp_xmit_handler, hfill, if_neg (not_lt.mpr hq), hfmt, lt_self_iff_false,
    if_false, if_true, gt_iff_lt]
  exact ⟨_, _, rfl⟩

theorem bswap_bytes (b0 b1 b2 b3 : Nat) (h0 : b0 < 256) (h1 : b1 < 256) (h2 : b2 < 256)
    (h3 : b3 < 256) :
    (b0 * 16777216 + b1 * 65536 + b2 * 256 + b3) % 256 = b3 ∧
    (b0 * 16777216 + b1 * 65536 + b2 * 256 + b3) / 256 % 256 = b2 ∧
    (b0 * 16777216 + b1 * 65536 + b2 * 256 + b3) / 65536 % 256 = b1 ∧
    (b0 * 16777216 + b1 * 65536 + b2 * 256 + b3) / 16777216 % 256 = b0 := by
  refine ⟨by omega, by omega, by omega, by omega⟩

theorem htonl_htonl (be : Bool) (v : Nat) (h : v < 4294967296) :
    htonl be (htonl be v) = v := by
  cases be
  · simp only [htonl, Bool.false_eq_true, if_false]
    obtain ⟨h1, h2, h3, h4⟩ := bswap_bytes (v % 256) (v / 256 % 256) (v / 65536 % 256)
      (v / 16777216 % 256) (Nat.mod_lt _ (by decide)) (Nat.mod_lt _ (by decide))
      (Nat.mod_lt _ (by decide)) (Nat.mod_lt _ (by decide))
    rw [h1, h2, h3, h4]
    clear h1 h2 h3 h4
    omega
  · simp only [htonl, if_true]
    omega

theorem htonl_lt (be : Bool) (v : Nat) : htonl be v < 4294967296 := by
  cases be
  · simp only [htonl, Bool.false_eq_true, if_false]
    omega
  · simp only [htonl, if_true]
    omega

theorem xmit_raw_label_cases (sample_format : Int) :
    xmit_raw_label sample_format = 16777216 * 64 ∨
      xmit_raw_label sample_format = 16777216 * 65 ∨
      xmit_raw_label sample_format = 16777216 * 66 := by
  unfold xmit_raw_label
  split_ifs
  · left; decide
  · right; left; decide
  · right; right; decide
  · left; decide

/-- A quadlet with a zero top byte ORed with the label: the label lands in the top byte and
the low 24 bits are unchanged. -/
theorem lor_label (x : Nat) (sample_format : Int) (hx : x < 16777216) :
    (x ||| xmit_raw_label sample_format) % 16777216 = x ∧
      (x ||| xmit_raw_label sample_format) < 4294967296 ∧
      ((x ||| xmit_raw_label sample_format) / 16777216 = 64 ∨
        (x ||| xmit_raw_label sample_format) / 16777216 = 65 ∨
        (x ||| xmit_raw_label sample_format) / 16777216 = 66) := by
  have key : ∀ lab : Nat, x ||| 16777216 * lab = 16777216 * lab + x := by
    intro lab
    have := Nat.mul_add_lt_is_or (i := 24) (b := x) (by simpa using hx) lab
    rw [Nat.lor_comm]
    simpa using this.symm
  rcases xmit_raw_label_cases sample_format with h | h | h <;> rw [h, key] <;> omega

theorem recv_check_label_raw (a : iec61883_amdtp) (lab : Nat)
    (h : lab = 64 ∨ lab = 65 ∨ lab = 66) :
    (recv_check_label a (lab : Int)).1 = RAW1394_ISO_OK ∧
      (recv_check_label a (lab : Int)).2.dimension = a.dimension := by
  rcases h with h | h | h <;> subst h <;> exact ⟨rfl, rfl⟩

/-- A packet without timestamp changes neither the latched dimension nor the state of the
sink. -/
theorem recv_no_timestamp {σ : Type} (be : Bool)
    (put_data : iec61883_amdtp → σ → List Nat → Int → Nat → Nat → Int × σ)
    (rx : iec61883_amdtp) (sink : σ) (packet : iec61883_packet) (data : List Nat)
    (len channel tag sy cycle : Nat) (h : packet.syt = 0xFFFF) :
    ∃ c, amdtp_recv_handler be put_data rx sink packet data len channel tag sy cycle 0 =
        some c ∧
      c.callback_data = sink ∧ c.amdtp.dimension = rx.dimension := by
  unfold amdtp_recv_handler
  by_cases hv : recv_valid tag packet
  · simp only [if_pos hv, recv_latch, recv_deliver, h, ne_eq, not_true_eq_false, and_false,
      if_false]
    exact ⟨_, rfl, rfl, rfl⟩
  · simp only [if_neg hv]
    exact ⟨_, rfl, rfl, rfl⟩

theorem recv_valid_of_fdf (packet : iec61883_packet) (hfmt : packet.fmt = 16)
    (hfdf : packet.fdf ≤ 6) :
    recv_valid 1 packet ∧
      (recv_rate_switch (int_and (packet.fdf : Int) IEC61883_FDF_SFC_MASK)).2 = true := by
  unfold recv_valid
  rw [hfmt]
  generalize packet.fdf = f at hfdf
  interval_cases f <;> decide

/-- A timestamped data packet of a RAW transmitter, whose payload is the network-order
image of the quadlets `vs`: the receiver latches a positive dimension if none is latched
yet, and hands exactly `vs` to the sink. -/
theorem recv_data_packet (be : Bool) (rx : iec61883_amdtp) (sink : List Nat)
    (packet : iec61883_packet) (vs : List Nat)
    (hsyt : packet.syt ≠ 0xFFFF) (hfmt : packet.fmt = 16) (hfdf : packet.fdf ≤ 6)
    (hdbs : 0 < packet.dbs) (hrx : rx.dimension < 0 ∨ rx.dimension > 0)
    (hvs : ∀ v ∈ vs, v < 4294967296 ∧
      (v / 16777216 = 64 ∨ v / 16777216 = 65 ∨ v / 16777216 = 66))
    (hne : vs ≠ []) :
    ∃ c, amdtp_recv_handler be list_sink rx sink packet (vs.map (htonl be))
        (vs.length * 4 + 8) 63 1 0 0 0 = some c ∧
      c.callback_data = sink ++ vs ∧ c.amdtp.dimension > 0 := by
  obtain ⟨hvalid, hsw⟩ := recv_valid_of_fdf packet hfmt hfdf
  have hmap : (vs.map (htonl be)).map (htonl be) = vs := by
    rw [List.map_map]
    conv_rhs => rw [← List.map_id vs]
    apply List.map_congr_left
    intro v hv
    exact htonl_htonl be v (hvs v hv).1
  have hn : (((vs.length * 4 + 8) / 4 : Nat) : Int) - 2 = (vs.length : Int) := by omega
  -- the delivery block, for any latched stream of positive dimension
  have hdeliver : ∀ a : iec61883_amdtp, a.dimension > 0 →
      ∃ c, recv_deliver be list_sink RAW1394_ISO_OK a sink packet (vs.map (htonl be))
          (vs.length * 4 + 8) 0 = some c ∧
        c.callback_data = sink ++ vs ∧ c.amdtp.dimension > 0 := by
    intro a ha
    have hcond : RAW1394_ISO_OK = RAW1394_ISO_OK ∧ a.dimension > 0 ∧ packet.syt ≠ 0xFFFF :=
      ⟨rfl, ha, hsyt⟩
    unfold recv_deliver
    rw [if_pos hcond]
    simp only [hn, List.length_map, lt_self_iff_false, if_false, Int.toNat_ofNat]
    refine ⟨_, rfl, ?_, ha⟩
    have htake : List.take vs.length (List.map (htonl be) vs) = List.map (htonl be) vs := by
      apply List.take_of_length_le
      simp
    have hdrop : List.drop vs.length (List.map (htonl be) vs) = [] := by
      apply List.drop_of_length_le
      simp
    simp only [list_sink, htake, hdrop, hmap, List.append_nil]
    rw [List.take_of_length_le (le_refl _)]
  unfold amdtp_recv_handler
  simp only [if_pos hvalid]
  by_cases hd : rx.dimension < 0
  · -- first packet: the fields are latched
    obtain ⟨q, rest, hq⟩ := List.exists_cons_of_ne_nil hne
    have hqv := hvs q (by rw [hq]; exact List.mem_cons_self _ _)
    have hhead : (vs.map (htonl be)).head? = some (htonl be q) := by
      rw [hq]; rfl
    have hlab : htonl be (htonl be q) / 16777216 = q / 16777216 := by
      rw [htonl_htonl be q hqv.1]
    have hcond : rx.dimension < 0 ∧ packet.syt ≠ 0xFFFF := ⟨hd, hsyt⟩
    simp only [recv_latch, if_pos hcond, hsw, if_true, hhead, hlab]
    obtain ⟨hres, hdim⟩ := recv_check_label_raw
      (match (recv_rate_switch (int_and (packet.fdf : Int) IEC61883_FDF_SFC_MASK)).1 with
        | some rate =>
          { ({ rx with total_dropped := (rx.total_dropped + 0) % 4294967296,
                       dimension := (packet.dbs : Int) } : iec61883_amdtp) with rate := rate }
        | none =>
          { rx with total_dropped := (rx.total_dropped + 0) % 4294967296,
                    dimension := (packet.dbs : Int) })
      (q / 16777216) hqv.2
    rw [hres]
    apply hdeliver
    rw [hdim]
    have hpos : (0 : Int) < (packet.dbs : Int) := by exact_mod_cast hdbs
    split <;> exact hpos
  · -- the dimension is latched already
    have hpos : rx.dimension > 0 := by
      rcases hrx with h | h
      · exact absurd h hd
      · exact h
    have hcond : ¬ (rx.dimension < 0 ∧ packet.syt ≠ 0xFFFF) := fun h => hd h.1
    simp only [recv_latch, if_neg hcond]
    exact hdeliver _ hpos

/-- One cycle of a RAW transmitter in a blocking mode fed by `stream_source`: either a
packet without timestamp that takes nothing from the source, or a timestamped packet
carrying the next `syt_interval * dimension` quadlets of the source, labelled and in
network order. -/
theorem blocking_xmit_cycle (be : Bool) (local_id : Nat) (sk : Bool) (src : Nat → Nat) (k : Nat)
    (rate mode dimension syt_interval sample_format fdf : Int) (hk : k ≤ 30)
    (hmode : mode = IEC61883_MODE_BLOCKING_EMPTY ∨ mode = IEC61883_MODE_BLOCKING_NODATA)
    (hs : syt_interval = 8 ∨ syt_interval = 16 ∨ syt_interval = 32)
    (hd1 : 1 ≤ dimension) (hd2 : dimension % 256 ≠ 0) (hd3 : dimension ≤ 16777216)
    (hfdf : 0 ≤ fdf ∧ fdf ≤ 6) (a : iec61883_amdtp) (p : Nat)
    (h : blocking_inv k rate mode dimension syt_interval sample_format fdf a) :
    ∃ r, amdtp_xmit_handler be local_id sk (stream_source src) a p 0 = some r ∧
      blocking_inv k rate mode dimension syt_interval sample_format fdf r.amdtp ∧
      r.tag = some 1 ∧ r.sy = some 0 ∧
      ((r.callback_data = p ∧ r.packet.syt = 0xFFFF ∧ ∃ len, r.len = some len) ∨
        (r.callback_data = p + (syt_interval * dimension).toNat ∧ r.packet.syt ≠ 0xFFFF ∧
          r.packet.fmt = 16 ∧ r.packet.fdf ≤ 6 ∧ 0 < r.packet.dbs ∧
          r.data = (List.range (syt_interval * dimension).toNat).map
            (fun i => htonl be (src (p + i) ||| xmit_raw_label sample_format)) ∧
          r.len = some ((syt_interval * dimension).toNat * 4 + 8) ∧
          0 < (syt_interval * dimension).toNat)) := by
  obtain ⟨hx, ht, hdbc, hfmt, hsf, hf, hcf⟩ := h
  obtain ⟨hadim, hdbs, hm, hsy, hspc, hrd, hcd, hnb⟩ := hx
  have hmode2 : a.cip.mode = IEC61883_MODE_BLOCKING_EMPTY ∨
      a.cip.mode = IEC61883_MODE_BLOCKING_NODATA := by
    rw [hm]; exact hmode
  obtain ⟨nevents, cip2, pkt, hfill, hdbc2, hpf, hpd, _, hcase⟩ :=
    blocking_fill_header be local_id a.cip k hk ht hmode2 (by rw [hsy]; exact hs)
      (by rw [hsy]; exact hdbc)
  have ht2 := timing_inv_step be local_id a.cip cip2 k hk ht nevents pkt hfill
  obtain ⟨sm, ss, sd, sp, _, sf, sfo, srd, scd⟩ :=
    fill_header_static be local_id _ _ _ _ hfill
  have hinv2 : blocking_inv k rate mode dimension syt_interval sample_format fdf
      { a with cip := cip2, total_dropped := (a.total_dropped + 0) % 4294967296 } := by
    refine ⟨⟨hadim, sd.trans hdbs, sm.trans hm, ss.trans hsy, sp.trans hspc, srd.trans hrd,
      by rw [scd]; exact hcd, ?_⟩, ht2, by rw [← hsy]; exact hdbc2, hfmt, hsf, sf.trans hf,
      sfo.trans hcf⟩
    intro h2
    rcases hmode with h3 | h3 <;> rw [h3] at h2 <;> exact absurd h2 (by decide)
  have hdim0 : 0 ≤ a.dimension := by omega
  rcases hcase with ⟨hn0, hsyt⟩ | ⟨hn1, hsyt, hpfdf⟩
  · -- no event
    subst hn0
    have hq : 0 ≤ xmit_nsamples cip2 0 * a.dimension := by
      apply mul_nonneg _ hdim0
      simp only [xmit_nsamples, lt_self_iff_false, if_false, gt_iff_lt]
      split_ifs
      · exact le_refl _
      · rw [ss, hsy]; rcases hs with h8 | h8 | h8 <;> rw [h8] <;> decide
    obtain ⟨data, len, hr⟩ := xmit_handler_raw_empty be local_id sk src a p cip2 pkt hfill hq hfmt
    exact ⟨_, hr, hinv2, rfl, rfl, Or.inl ⟨rfl, hsyt, len, rfl⟩⟩
  · -- a full packet
    have hpos : nevents > 0 := by
      rw [hn1, hsy]; rcases hs with h8 | h8 | h8 <;> rw [h8] <;> decide
    have hr := xmit_handler_raw_data be local_id sk src a p nevents cip2 pkt hfill hpos hdim0 hfmt
    have hlen : ((syt_interval * dimension).toNat * 4 + 8) % 4294967296 =
        (syt_interval * dimension).toNat * 4 + 8 := by
      rcases hs with h8 | h8 | h8 <;> rw [h8] <;> omega
    have hnq : 0 < (syt_interval * dimension).toNat := by
      rcases hs with h8 | h8 | h8 <;> rw [h8] <;> omega
    have hprod : nevents * a.dimension = syt_interval * dimension := by
      rw [hn1, hsy, hadim]
    refine ⟨_, hr, hinv2, rfl, rfl, Or.inr ⟨?_, hsyt, ?_, ?_, ?_, ?_, ?_, hnq⟩⟩
    · show p + (nevents * a.dimension).toNat = _
      rw [hprod]
    rotate_left 3
    · show List.map _ (List.range (nevents * a.dimension).toNat) = _
      rw [hprod, hsf]
    · show some (((nevents * a.dimension).toNat * 4 + 8) % 4294967296) = _
      rw [hprod, hlen]
    · show pkt.fmt = 16
      rw [hpf, hcf]; decide
    · show pkt.fdf ≤ 6
      rw [hpfdf, hf]
      simp only [bitfield]
      rw [show ((2 : Int) ^ 8) = 256 by norm_num]
      omega
    · show 0 < pkt.dbs
      rw [hpd, hdbs]
      simp only [bitfield]
      rw [show ((2 : Int) ^ 8) = 256 by norm_num]
      omega

theorem blocking_inv_init (mem : Option iec61883_amdtp)
    (rate sample_format mode dimension : Int) (a0 : iec61883_amdtp)
    (hinit : iec61883_amdtp_xmit_init mem rate IEC61883_AMDTP_FORMAT_RAW sample_format mode
      dimension = some a0) :
    ∃ (k : Nat) (syt_interval fdf : Int), k ≤ 30 ∧
      (syt_interval = 8 ∨ syt_interval = 16 ∨ syt_interval = 32) ∧ (0 ≤ fdf ∧ fdf ≤ 6) ∧
      blocking_inv k rate mode dimension syt_interval sample_format fdf a0 := by
  obtain ⟨m, syt_interval, fdf, rc, c, _, hr, hc, hcip, hd, hfmt, hsf, _, _⟩ :=
    xmit_init_inv mem rate IEC61883_AMDTP_FORMAT_RAW sample_format mode dimension a0 hinit
  obtain ⟨hrate, hsyt, hf0, hf1⟩ := xmit_init_rate_facts rate syt_interval fdf rc hr
  obtain ⟨c2, hc2, _, hdbs, hs, hdbc, _, hfdf, hform, _, hspc, hrs, _, hco⟩ :=
    cip_init_some m.cip IEC61883_FMT_AMDTP fdf rate dimension syt_interval (by omega)
  rw [hc] at hc2
  injection hc2 with hc2
  subst hc2
  have htim : ∃ k : Nat, k ≤ 30 ∧ timing_inv k c := by
    obtain ⟨k, _, hk5, ht⟩ :=
      xmit_init_timing mem rate IEC61883_AMDTP_FORMAT_RAW sample_format mode dimension a0 hinit
    rw [hcip] at ht
    exact ⟨k, by omega, ht⟩
  obtain ⟨k, hk, ht⟩ := htim
  refine ⟨k, syt_interval, fdf, hk, hsyt, ⟨hf0, hf1⟩, ⟨hd, ?_, ?_, ?_, ?_, ?_, ?_, ?_⟩, ?_, ?_,
    hfmt, hsf, ?_, ?_⟩
  · rw [hcip]; exact hdbs
  · rw [hcip]; rfl
  · rw [hcip]; exact hs
  · rw [hcip]; exact hspc
  · rw [hcip]; simp only [iec61883_cip_set_transmission_mode, hrs]
  · rw [hcip]; simp only [iec61883_cip_set_transmission_mode, hco]; omega
  · intro _
    rw [hcip]
    simp only [iec61883_cip_set_transmission_mode, hrs]
    decide
  · rw [hcip]; exact ht
  · rw [hcip]
    simp only [iec61883_cip_set_transmission_mode, hdbc]
    simp
  · rw [hcip]; exact hfdf
  · rw [hcip]; exact hform

/-- Any number of cycles of a RAW transmitter in a blocking mode, its packets handed to a
receiver: the sink gets exactly the labelled quadlets the source handed out. -/
theorem round_trip_run (be : Bool) (local_id : Nat) (sk : Bool) (src : Nat → Nat) (k : Nat)
    (rate mode dimension syt_interval sample_format fdf : Int) (hk : k ≤ 30)
    (hmode : mode = IEC61883_MODE_BLOCKING_EMPTY ∨ mode = IEC61883_MODE_BLOCKING_NODATA)
    (hs : syt_interval = 8 ∨ syt_interval = 16 ∨ syt_interval = 32)
    (hd1 : 1 ≤ dimension) (hd2 : dimension % 256 ≠ 0) (hd3 : dimension ≤ 16777216)
    (hfdf : 0 ≤ fdf ∧ fdf ≤ 6) (hsrc : ∀ i, src i < 16777216) (n : Nat) :
    ∀ (a : iec61883_amdtp) (p : Nat) (rx : iec61883_amdtp) (sink : List Nat),
      blocking_inv k rate mode dimension syt_interval sample_format fdf a →
      (rx.dimension < 0 ∨ rx.dimension > 0) →
      ∃ cycles rx2 sink2,
        amdtp_xmit_run be local_id sk (stream_source src) (List.replicate n 0) a p =
          some cycles ∧
        cycles.length = n ∧
        amdtp_loopback be list_sink cycles rx sink = some (rx2, sink2) ∧
        p ≤ (xmit_run_last a p cycles).2 ∧
        sink2 = sink ++ (List.range' p ((xmit_run_last a p cycles).2 - p)).map
          (fun i => src i ||| xmit_raw_label sample_format) := by
  induction n with
  | zero =>
    intro a p rx sink _ _
    refine ⟨[], rx, sink, rfl, rfl, rfl, le_refl _, ?_⟩
    simp [xmit_run_last]
  | succ n ih =>
    intro a p rx sink ha hrx
    obtain ⟨r, hr, hinv, htag, hsy, hcase⟩ :=
      blocking_xmit_cycle be local_id sk src k rate mode dimension syt_interval sample_format
        fdf hk hmode hs hd1 hd2 hd3 hfdf a p ha
    rcases hcase with ⟨hcb, hsyt, len, hlen⟩ | ⟨hcb, hsyt, hfmt, hpf, hdbs, hdata, hlen, hnq⟩
    · -- nothing for the sink
      obtain ⟨c, hc, hcs, hcd⟩ :=
        recv_no_timestamp be list_sink rx sink r.packet r.data len 63 1 0 0 hsyt
      obtain ⟨cycles, rx2, sink2, hrun, hlen2, hloop, hle, hsink⟩ :=
        ih r.amdtp r.callback_data c.amdtp c.callback_data hinv (by rw [hcd]; exact hrx)
      generalize hq : (xmit_run_last r.amdtp r.callback_data cycles).2 = q at hle hsink
      refine ⟨r :: cycles, rx2, sink2, ?_, by simp [hlen2], ?_, ?_, ?_⟩
      · simp only [List.replicate_succ, amdtp_xmit_run, hr, hrun]
      · simp only [amdtp_loopback, hlen, htag, hsy, hc, hloop]
      · simp only [xmit_run_last, hq]
        omega
      · simp only [xmit_run_last, hq]
        rw [hsink, hcs, hcb]
    · -- a packet of data
      have hvs : ∀ v ∈ (List.range (syt_interval * dimension).toNat).map
          (fun i => src (p + i) ||| xmit_raw_label sample_format),
          v < 4294967296 ∧ (v / 16777216 = 64 ∨ v / 16777216 = 65 ∨ v / 16777216 = 66) := by
        intro v hv
        obtain ⟨i, _, hi⟩ := List.mem_map.mp hv
        rw [← hi]
        exact (lor_label (src (p + i)) sample_format (hsrc _)).2
      have hne : (List.range (syt_interval * dimension).toNat).map
          (fun i => src (p + i) ||| xmit_raw_label sample_format) ≠ [] := by
        intro h0
        have := congrArg List.length h0
        simp at this
        omega
      obtain ⟨c, hc, hcs, hcd⟩ :=
        recv_data_packet be rx sink r.packet _ hsyt hfmt hpf hdbs hrx hvs hne
      rw [List.map_map, List.length_map, List.length_range] at hc
      obtain ⟨cycles, rx2, sink2, hrun, hlen2, hloop, hle, hsink⟩ :=
        ih r.amdtp r.callback_data c.amdtp c.callback_data hinv (Or.inr hcd)
      generalize hq : (xmit_run_last r.amdtp r.callback_data cycles).2 = q at hle hsink
      refine ⟨r :: cycles, rx2, sink2, ?_, by simp [hlen2], ?_, ?_, ?_⟩
      · simp only [List.replicate_succ, amdtp_xmit_run, hr, hrun]
      · have hd2 : r.data = List.map (htonl be ∘ fun i => src (p + i) |||
            xmit_raw_label sample_format) (List.range (syt_interval * dimension).toNat) := by
          rw [hdata]; rfl
        simp only [amdtp_loopback, hlen, htag, hsy, hd2, hc, hloop]
      · simp only [xmit_run_last, hq]
        omega
      · simp only [xmit_run_last, hq]
        rw [hsink, hcs, hcb, List.append_assoc]
        congr 1
        have hsplit : q - p = (q - (p + (syt_interval * dimension).toNat)) +
            (syt_interval * dimension).toNat := by omega
        have hfirst : List.map (fun i => src (p + i) ||| xmit_raw_label sample_format)
            (List.range (syt_interval * dimension).toNat) =
            List.map (fun i => src i ||| xmit_raw_label sample_format)
              (List.range' p (syt_interval * dimension).toNat) := by
          rw [List.range'_eq_map_range, List.map_map]
          rfl
        rw [hsplit, ← List.range'_append_1, List.map_append, hfirst]

/-- The evaluation of a transmitter of dimension 256 (blocking-empty mode, 32000 Hz): after
two cycles the source has handed out 2048 quadlets, the receiver has latched the
dimension 0 from the 8-bit `dbs` field and its sink has received nothing. -/
theorem loopback_dimension_256 :
    (iec61883_amdtp_xmit_init (some amdtp_blank) 32000 IEC61883_AMDTP_FORMAT_RAW
        IEC61883_AMDTP_INPUT_LE16 IEC61883_MODE_BLOCKING_EMPTY 256).bind
      (fun tx =>
        (amdtp_xmit_run false 0 false (stream_source count_source) [0, 0] tx 0).bind
          (fun cycles =>
            (amdtp_loopback false list_sink cycles amdtp_recv_blank []).map
              (fun r => (r.2, r.1.dimension, (xmit_run_last tx 0 cycles).2)))) =
      some ([], 0, 2048) := by
  set_option maxRecDepth 1000000 in decide

/-- C10, counterexample. In non-blocking mode samples are lost: a stereo 44100 Hz RAW
transmitter hands the quadlets 1..32 to three packets, the third of which (5 events at
`dbc` 11) carries no timestamp, and the receive handler delivers the quadlets 1..22 only.
And with dimension 256 nothing at all reaches the sink. -/
theorem round_trip_fails :
    (amdtp_xmit_run false 0 false (stream_source count_source) [0, 0, 0]
        (amdtp_44100 IEC61883_MODE_NON_BLOCKING) 0).bind
      (fun cycles =>
        (amdtp_loopback false list_sink cycles amdtp_recv_blank []).map
          (fun r => (r.2.map (fun q => q % 16777216),
            (xmit_run_last (amdtp_44100 IEC61883_MODE_NON_BLOCKING) 0 cycles).2))) =
      some ([1, 2, 3, 4, 5, 6, 7, 8, 9, 10, 11, 12, 13, 14, 15, 16, 17, 18, 19, 20, 21, 22],
        32) ∧
    (iec61883_amdtp_xmit_init (some amdtp_blank) 32000 IEC61883_AMDTP_FORMAT_RAW
        IEC61883_AMDTP_INPUT_LE16 IEC61883_MODE_BLOCKING_EMPTY 256).bind
      (fun tx =>
        (amdtp_xmit_run false 0 false (stream_source count_source) [0, 0] tx 0).bind
          (fun cycles =>
            (amdtp_loopback false list_sink cycles amdtp_recv_blank []).map
              (fun r => (r.2, r.1.dimension, (xmit_run_last tx 0 cycles).2)))) =
      some ([], 0, 2048) :=
  ⟨by decide, loopback_dimension_256⟩

/-- C10, amended. AMDTP sample round trip in the two blocking modes, for a RAW transmitter
of any of the seven rates and any sample format, of dimension `≥ 1` that is not a multiple
of 256 (and at most `2 ^ 24`, so that the packet length fits), on hosts of one byte order:
whatever quadlets with a zero top byte the source hands out, after any number `n` of
cycles the sink of a receiver started with `iec61883_amdtp_recv_start` has received, in
order, exactly the quadlets handed out so far, each ORed with the label; their low 24
bits are the supplied values, so that the bytes `read_packet` of the test takes from them
are those of the supplied 16-bit samples. -/
theorem amdtp_round_trip (be : Bool) (local_id : Nat) (sk : Bool) (mem : Option iec61883_amdtp)
    (rxmem : iec61883_amdtp) (channel recv_start_result : Int)
    (rate sample_format mode dimension : Int) (a0 : iec61883_amdtp) (src : Nat → Nat)
    (n : Nat)
    (hmode : mode = IEC61883_MODE_BLOCKING_EMPTY ∨ mode = IEC61883_MODE_BLOCKING_NODATA)
    (hd1 : 1 ≤ dimension) (hd2 : dimension % 256 ≠ 0) (hd3 : dimension ≤ 16777216)
    (hsrc : ∀ i, src i < 16777216)
    (hinit : iec61883_amdtp_xmit_init mem rate IEC61883_AMDTP_FORMAT_RAW sample_format mode
      dimension = some a0) :
    ∃ cycles rx sink,
      amdtp_xmit_run be local_id sk (stream_source src) (List.replicate n 0) a0 0 =
        some cycles ∧
      cycles.length = n ∧
      amdtp_loopback be list_sink cycles
        (iec61883_amdtp_recv_start rxmem channel 0 recv_start_result).2 [] = some (rx, sink) ∧
      sink = (List.range (xmit_run_last a0 0 cycles).2).map
        (fun i => src i ||| xmit_raw_label sample_format) ∧
      sink.map (fun q => q % 16777216) =
        (List.range (xmit_run_last a0 0 cycles).2).map src ∧
      sink.map read_packet_bytes =
        (List.range (xmit_run_last a0 0 cycles).2).map (fun i => read_packet_bytes (src i)) := by
  obtain ⟨k, syt_interval, fdf, hk, hs, hfdf, hinv⟩ :=
    blocking_inv_init mem rate sample_format mode dimension a0 hinit
  have hrx : (iec61883_amdtp_recv_start rxmem channel 0 recv_start_result).2.dimension < 0 ∨
      (iec61883_amdtp_recv_start rxmem channel 0 recv_start_result).2.dimension > 0 := by
    left
    simp [iec61883_amdtp_recv_start]
  obtain ⟨cycles, rx, sink, hrun, hlen, hloop, _, hsink⟩ :=
    round_trip_run be local_id sk src k rate mode dimension syt_interval sample_format fdf hk
      hmode hs hd1 hd2 hd3 hfdf hsrc n a0 0 _ [] hinv hrx
  rw [List.nil_append, Nat.sub_zero, ← List.range_eq_range'] at hsink
  refine ⟨cycles, rx, sink, hrun, hlen, hloop, hsink, ?_, ?_⟩
  · rw [hsink, List.map_map]
    apply List.map_congr_left
    intro i _
    exact (lor_label (src i) sample_format (hsrc i)).1
  · rw [hsink, List.map_map]
    apply List.map_congr_left
    intro i _
    have h24 := (lor_label (src i) sample_format (hsrc i)).1
    simp only [Function.comp, read_packet_bytes, List.cons.injEq, and_true]
    constructor <;> omega

/-- Witness of `amdtp_round_trip`: four cycles of a stereo 44100 Hz stream in blocking-empty
mode. -/
theorem amdtp_round_trip_witness :
    ((IEC61883_MODE_BLOCKING_EMPTY = IEC61883_MODE_BLOCKING_EMPTY ∨
        IEC61883_MODE_BLOCKING_EMPTY = IEC61883_MODE_BLOCKING_NODATA) ∧
      (1 : Int) ≤ 2 ∧ (2 : Int) % 256 ≠ 0 ∧ (2 : Int) ≤ 16777216 ∧
      (∀ i, count_source i < 16777216) ∧
      iec61883_amdtp_xmit_init (some amdtp_blank) 44100 IEC61883_AMDTP_FORMAT_RAW
        IEC61883_AMDTP_INPUT_LE16 IEC61883_MODE_BLOCKING_EMPTY 2 =
          some (amdtp_44100 IEC61883_MODE_BLOCKING_EMPTY)) ∧
    ∃ cycles rx sink,
      amdtp_xmit_run false 0 false (stream_source count_source) (List.replicate 4 0)
        (amdtp_44100 IEC61883_MODE_BLOCKING_EMPTY) 0 = some cycles ∧
      cycles.length = 4 ∧
      amdtp_loopback false list_sink cycles
        (iec61883_amdtp_recv_start amdtp_blank 63 0 0).2 [] = some (rx, sink) ∧
      sink = (List.range
          (xmit_run_last (amdtp_44100 IEC61883_MODE_BLOCKING_EMPTY) 0 cycles).2).map
        (fun i => count_source i ||| xmit_raw_label IEC61883_AMDTP_INPUT_LE16) ∧
      sink.map (fun q => q % 16777216) =
        (List.range (xmit_run_last (amdtp_44100 IEC61883_MODE_BLOCKING_EMPTY) 0 cycles).2).map
          count_source ∧
      sink.map read_packet_bytes =
        (List.range (xmit_run_last (amdtp_44100 IEC61883_MODE_BLOCKING_EMPTY) 0 cycles).2).map
          (fun i => read_packet_bytes (count_source i)) :=
  ⟨⟨by decide, by decide, by decide, by decide,
      fun i => Nat.mod_lt _ (by decide), rfl⟩,
    amdtp_round_trip false 0 false (some amdtp_blank) amdtp_blank 63 0 44100
      IEC61883_AMDTP_INPUT_LE16 IEC61883_MODE_BLOCKING_EMPTY 2
      (amdtp_44100 IEC61883_MODE_BLOCKING_EMPTY) count_source 4
      (by decide) (by decide) (by decide) (by decide)
      (fun i => Nat.mod_lt _ (by decide)) rfl⟩

/-! ### Wire layout of the CIP header -/

/-- On a little-endian host the header bytes are the ones of the CIP wire format: source
id, `dbs`, a zero byte, `dbc`, `0x80 | fmt`, `fdf` (0xFF for an empty packet in
blocking-no-data mode), and the 16-bit syt value most significant byte first; each field
is reduced to the width of its bit-field. -/
theorem header_image_little_endian (local_id : Nat) (ptz : iec61883_cip)
    (h1 : ptz.ready_samples.denominator ≠ 0) (h2 : ptz.cycle_offset.denominator ≠ 0) :
    ∃ nevents ptz2 pkt syt,
      iec61883_cip_fill_header false local_id ptz = some (nevents, ptz2, pkt) ∧
      fill_header_timing ptz nevents = some (syt, ptz2.cycle_offset, ptz2.cycle_count) ∧
      packet_image false pkt =
        [local_id % 64, (ptz.dbs % 256).toNat, 0, (ptz.dbc % 256).toNat,
          128 + (ptz.format % 64).toNat,
          (if nevents = 0 ∧ ptz.mode = IEC61883_MODE_BLOCKING_NODATA then 255
            else (ptz.fdf % 256).toNat),
          (syt % 65536).toNat / 256, (syt % 65536).toNat % 256] := by
  obtain ⟨next, syt, co, cc, _, ht, hfill⟩ := fill_header_some false local_id ptz h1 h2
  refine ⟨_, _, _, syt, hfill, ht, ?_⟩
  have hsid : (local_id &&& 63) = local_id % 64 := by
    have := Nat.and_pow_two_sub_one_eq_mod local_id 6
    simpa using this
  have hsyt0 : 0 ≤ syt % 65536 := Int.emod_nonneg _ (by decide)
  have hsyt1 : syt % 65536 < 65536 := Int.emod_lt_of_pos _ (by decide)
  have hdbs0 : 0 ≤ ptz.dbs % 256 := Int.emod_nonneg _ (by decide)
  have hdbs1 : ptz.dbs % 256 < 256 := Int.emod_lt_of_pos _ (by decide)
  have hdbc0 : 0 ≤ ptz.dbc % 256 := Int.emod_nonneg _ (by decide)
  have hdbc1 : ptz.dbc % 256 < 256 := Int.emod_lt_of_pos _ (by decide)
  have hfmt0 : 0 ≤ ptz.format % 64 := Int.emod_nonneg _ (by decide)
  have hfmt1 : ptz.format % 64 < 64 := Int.emod_lt_of_pos _ (by decide)
  have hfdf0 : 0 ≤ ptz.fdf % 256 := Int.emod_nonneg _ (by decide)
  have hfdf1 : ptz.fdf % 256 < 256 := Int.emod_lt_of_pos _ (by decide)
  have himg := u16_image_htons false (syt % 65536).toNat (by omega)
  simp only [packet_image, fill_header_packet, bitfield, Bool.false_eq_true, if_false, hsid,
    show ((2 : Int) ^ 6) = 64 by norm_num, show ((2 : Int) ^ 8) = 256 by norm_num,
    show ((2 : Int) ^ 16) = 65536 by norm_num, himg, List.cons_append, List.nil_append,
    List.cons.injEq, and_true]
  refine ⟨by omega, by omega, trivial, by omega, by omega, ?_⟩
  split_ifs
  · decide
  · omega

/-- C9, evaluation at the failing input. On a big-endian host the header of the first
packet of a stereo 44100 Hz stream (node id 1, `dbs` 2, format 0x10, fdf 1) is
`02 01 00 00 01 90 FF FF`: the bytes of each pair are exchanged with respect to the wire
layout `01 02 00 00 90 01 FF FF` that the same call produces on a little-endian host. -/
theorem header_image_big_endian :
    (iec61883_cip_fill_header true 0xffc1 (cip_44100 0)).map
        (fun r => packet_image true r.2.2) =
      some [0x02, 0x01, 0x00, 0x00, 0x01, 0x90, 0xFF, 0xFF] ∧
    (iec61883_cip_fill_header false 0xffc1 (cip_44100 0)).map
        (fun r => packet_image false r.2.2) =
      some [0x01, 0x02, 0x00, 0x00, 0x90, 0x01, 0xFF, 0xFF] := by
  decide

/-! ### The sampling frequency code between transmitter and receiver -/

/-- The frequency code read by the receiver is the fdf modulo 4. -/
theorem recv_sfc_mod (f : Int) : int_and f IEC61883_FDF_SFC_MASK = f % 4 := by
  have := int_and_mask f 2 (by decide)
  simpa [IEC61883_FDF_SFC_MASK] using this

/-- The switch on the frequency code never reaches its default case: the code has two
bits, and the four values 0..3 all have a case with a `break`. -/
theorem recv_rate_switch_breaks (f : Int) :
    (recv_rate_switch (int_and f IEC61883_FDF_SFC_MASK)).2 = true ∧
      ∃ rate, (recv_rate_switch (int_and f IEC61883_FDF_SFC_MASK)).1 = some rate := by
  rw [recv_sfc_mod]
  have h0 : 0 ≤ f % 4 := Int.emod_nonneg _ (by decide)
  have h1 : f % 4 < 4 := Int.emod_lt_of_pos _ (by decide)
  generalize f % 4 = m at h0 h1
  interval_cases m <;> exact ⟨rfl, _, rfl⟩

/-- C11, evaluation at the failing inputs. For each of the seven rates, the fdf that
`iec61883_amdtp_xmit_init` configures, and the dimension and rate the receiver has latched
after two cycles of a stereo blocking-empty transmitter: the fdf is accepted every time,
the four rates up to 88200 are latched as sent, but 96000, 176400 and 192000 (fdf 4, 5, 6)
are latched as 32000, 44100 and 48000, the frequency code being masked with 0x03. -/
theorem rate_round_trip_evaluated :
    [32000, 44100, 48000, 88200, 96000, 176400, 192000].map
      (fun rate =>
        (iec61883_amdtp_xmit_init (some amdtp_blank) rate IEC61883_AMDTP_FORMAT_RAW
            IEC61883_AMDTP_INPUT_LE16 IEC61883_MODE_BLOCKING_EMPTY 2).bind
          (fun tx =>
            (amdtp_xmit_run false 0 false (stream_source count_source) [0, 0] tx 0).bind
              (fun cycles =>
                (amdtp_loopback false list_sink cycles amdtp_recv_blank []).map
                  (fun r => (tx.cip.fdf, r.1.dimension, r.1.rate))))) =
      [some (0, 2, 32000), some (1, 2, 44100), some (2, 2, 48000), some (3, 2, 88200),
        some (4, 2, 32000), some (5, 2, 44100), some (6, 2, 48000)] := by
  set_option maxRecDepth 100000 in decide

/-! ### The receive latch -/

theorem recv_deliver_amdtp {σ : Type} (be : Bool)
    (put_data : iec61883_amdtp → σ → List Nat → Int → Nat → Nat → Int × σ)
    (result : raw1394_iso_disposition) (a : iec61883_amdtp) (cb : σ)
    (packet : iec61883_packet) (data : List Nat) (len dropped : Nat) (c : recv_cycle σ)
    (h : recv_deliver be put_data result a cb packet data len dropped = some c) :
    c.amdtp = a := by
  unfold recv_deliver at h
  split at h
  · simp only at h
    split at h
    · exact absurd h (by simp)
    · simp only [Option.some.injEq] at h
      rw [← h]
  · simp only [Option.some.injEq] at h
    rw [← h]

/-- The delivery block is defined when the buffer holds the quadlets of the packet. -/
theorem recv_deliver_some {σ : Type} (be : Bool)
    (put_data : iec61883_amdtp → σ → List Nat → Int → Nat → Nat → Int × σ)
    (result : raw1394_iso_disposition) (a : iec61883_amdtp) (cb : σ)
    (packet : iec61883_packet) (data : List Nat) (len dropped : Nat)
    (hlen : ((len / 4 : Nat) : Int) - 2 ≤ (data.length : Int)) :
    ∃ c, recv_deliver be put_data result a cb packet data len dropped = some c := by
  unfold recv_deliver
  split
  · simp only
    rw [if_neg (by omega)]
    exact ⟨_, rfl⟩
  · exact ⟨_, rfl⟩

/-- Once a dimension is latched (`dimension ≥ 0`), no packet changes the latched fields. -/
theorem recv_latched_fixed {σ : Type} (be : Bool)
    (put_data : iec61883_amdtp → σ → List Nat → Int → Nat → Nat → Int × σ)
    (rx : iec61883_amdtp) (cb : σ) (packet : iec61883_packet) (data : List Nat)
    (len channel tag sy cycle dropped : Nat) (c : recv_cycle σ) (hd : 0 ≤ rx.dimension)
    (h : amdtp_recv_handler be put_data rx cb packet data len channel tag sy cycle dropped =
      some c) :
    c.amdtp.dimension = rx.dimension ∧ c.amdtp.rate = rx.rate ∧
      c.amdtp.format = rx.format ∧ c.amdtp.sample_format = rx.sample_format := by
  unfold amdtp_recv_handler at h
  have hcond : ∀ x : iec61883_amdtp, x.dimension = rx.dimension →
      ¬ (x.dimension < 0 ∧ packet.syt ≠ 0xFFFF) := by
    intro x hx hc
    rw [hx] at hc
    omega
  split_ifs at h
  · simp only [recv_latch, if_neg (hcond _ rfl)] at h
    have := recv_deliver_amdtp _ _ _ _ _ _ _ _ _ _ h
    rw [this]
    exact ⟨rfl, rfl, rfl, rfl⟩
  · simp only [Option.some.injEq] at h
    rw [← h]
    exact ⟨rfl, rfl, rfl, rfl⟩

/-- The label check on the four kinds of label byte. -/
theorem recv_check_label_cases (a : iec61883_amdtp) (label : Nat) :
    (recv_check_label a (label : Int)).2.dimension = a.dimension ∧
    (recv_check_label a (label : Int)).2.rate = a.rate ∧
    (label = 0x40 → recv_check_label a (label : Int) =
      (RAW1394_ISO_OK, { a with format := IEC61883_AMDTP_FORMAT_RAW,
                                sample_format := IEC61883_AMDTP_INPUT_LE24 })) ∧
    (label = 0x41 → recv_check_label a (label : Int) =
      (RAW1394_ISO_OK, { a with format := IEC61883_AMDTP_FORMAT_RAW,
                                sample_format := IEC61883_AMDTP_INPUT_LE20 })) ∧
    (label = 0x42 → recv_check_label a (label : Int) =
      (RAW1394_ISO_OK, { a with format := IEC61883_AMDTP_FORMAT_RAW,
                                sample_format := IEC61883_AMDTP_INPUT_LE16 })) ∧
    (label = 0x43 → recv_check_label a (label : Int) =
      (RAW1394_ISO_ERROR, { a with format := IEC61883_AMDTP_FORMAT_RAW })) ∧
    (label ≤ 0x3F → recv_check_label a (label : Int) =
      (RAW1394_ISO_OK, { a with format := IEC61883_AMDTP_FORMAT_IEC958_PCM,
                                sample_format := IEC61883_AMDTP_INPUT_NA })) ∧
    (0x44 ≤ label → label ≤ 0xFF → recv_check_label a (label : Int) =
      (RAW1394_ISO_ERROR, a)) := by
  refine ⟨?_, ?_, ?_, ?_, ?_, ?_, ?_, ?_⟩
  · unfold recv_check_label
    split_ifs <;> rfl
  · unfold recv_check_label
    split_ifs <;> rfl
  · intro h; subst h; rfl
  · intro h; subst h; rfl
  · intro h; subst h; rfl
  · intro h; subst h; rfl
  · intro h
    interval_cases label <;> rfl
  · intro h0 h1
    interval_cases label <;> rfl

/-- The first valid timestamped packet on a stream without a dimension: the handler
returns, and the stream it leaves is the one the label check produced from the stream with
`dimension` and `rate` filled in. -/
theorem recv_first_packet {σ : Type} (be : Bool)
    (put_data : iec61883_amdtp → σ → List Nat → Int → Nat → Nat → Int × σ)
    (rx : iec61883_amdtp) (cb : σ) (packet : iec61883_packet) (q : Nat) (rest : List Nat)
    (len channel tag sy cycle dropped : Nat)
    (hvalid : recv_valid tag packet) (hsyt : packet.syt ≠ 0xFFFF) (hdim : rx.dimension < 0)
    (hlen : ((len / 4 : Nat) : Int) - 2 ≤ ((q :: rest).length : Int)) :
    ∃ c rate, amdtp_recv_handler be put_data rx cb packet (q :: rest) len channel tag sy cycle
        dropped = some c ∧
      recv_rate_switch (int_and (packet.fdf : Int) IEC61883_FDF_SFC_MASK) = (some rate, true) ∧
      c.amdtp = (recv_check_label
        { rx with total_dropped := (rx.total_dropped + dropped) % 4294967296,
                  dimension := (packet.dbs : Int), rate := rate }
        ((htonl be q / 16777216 : Nat) : Int)).2 := by
  obtain ⟨h2, rate, h1⟩ := recv_rate_switch_breaks (packet.fdf : Int)
  have hsw : recv_rate_switch (int_and (packet.fdf : Int) IEC61883_FDF_SFC_MASK) =
      (some rate, true) := Prod.ext h1 h2
  unfold amdtp_recv_handler
  simp only
  rw [if_pos hvalid]
  unfold recv_latch
  simp only
  rw [if_pos ⟨hdim, hsyt⟩, hsw]
  simp only [if_true, List.head?_cons]
  obtain ⟨c, hc⟩ := recv_deliver_some be put_data
    (recv_check_label
        { rx with total_dropped := (rx.total_dropped + dropped) % 4294967296,
                  dimension := (packet.dbs : Int), rate := rate }
        ((htonl be q / 16777216 : Nat) : Int)).1
    (recv_check_label
        { rx with total_dropped := (rx.total_dropped + dropped) % 4294967296,
                  dimension := (packet.dbs : Int), rate := rate }
        ((htonl be q / 16777216 : Nat) : Int)).2 cb packet (q :: rest) len dropped hlen
  exact ⟨c, rate, hc, rfl, recv_deliver_amdtp _ _ _ _ _ _ _ _ _ _ hc⟩

/-- C12, the receive latch. After `iec61883_amdtp_recv_start` (with `raw1394_iso_recv_init`
succeeding) the dimension is -1. A valid timestamped packet that finds the dimension
negative, in a buffer holding its `len / 4 - 2` payload quadlets, makes the handler return
with `dimension` equal to the `dbs` field and with `format` and `sample_format` given by
the top byte of the first quadlet in network order: 0x40, 0x41, 0x42 give RAW with LE24,
LE20, LE16, which are the labels the transmitter uses for these sample formats, and a byte
of at most 0x3F gives IEC958 PCM. Once the dimension is non-negative, whatever the handler
returns for whatever packet has the same `dimension`, `rate`, `format` and
`sample_format`. -/
theorem recv_latch_once {σ : Type} (be : Bool)
    (put_data : iec61883_amdtp → σ → List Nat → Int → Nat → Nat → Int × σ)
    (a rx : iec61883_amdtp) (ch r : Int) (cb : σ) (packet : iec61883_packet) (q : Nat)
    (rest data : List Nat) (len channel tag sy cycle dropped : Nat) :
    (iec61883_amdtp_recv_start a ch 0 r).2.dimension = -1 ∧
    (recv_valid tag packet → packet.syt ≠ 0xFFFF → rx.dimension < 0 →
      ((len / 4 : Nat) : Int) - 2 ≤ ((q :: rest).length : Int) →
      ∃ c, amdtp_recv_handler be put_data rx cb packet (q :: rest) len channel tag sy cycle
          dropped = some c ∧
        c.amdtp.dimension = (packet.dbs : Int) ∧
        (htonl be q / 16777216 = 0x40 →
          c.amdtp.format = IEC61883_AMDTP_FORMAT_RAW ∧
            c.amdtp.sample_format = IEC61883_AMDTP_INPUT_LE24) ∧
        (htonl be q / 16777216 = 0x41 →
          c.amdtp.format = IEC61883_AMDTP_FORMAT_RAW ∧
            c.amdtp.sample_format = IEC61883_AMDTP_INPUT_LE20) ∧
        (htonl be q / 16777216 = 0x42 →
          c.amdtp.format = IEC61883_AMDTP_FORMAT_RAW ∧
            c.amdtp.sample_format = IEC61883_AMDTP_INPUT_LE16) ∧
        (htonl be q / 16777216 ≤ 0x3F →
          c.amdtp.format = IEC61883_AMDTP_FORMAT_IEC958_PCM ∧
            c.amdtp.sample_format = IEC61883_AMDTP_INPUT_NA)) ∧
    (0 ≤ rx.dimension →
      ∀ c, amdtp_recv_handler be put_data rx cb packet data len channel tag sy cycle dropped =
          some c →
        c.amdtp.dimension = rx.dimension ∧ c.amdtp.rate = rx.rate ∧
          c.amdtp.format = rx.format ∧ c.amdtp.sample_format = rx.sample_format) ∧
    xmit_raw_label IEC61883_AMDTP_INPUT_LE24 = 0x40 * 16777216 ∧
    xmit_raw_label IEC61883_AMDTP_INPUT_LE20 = 0x41 * 16777216 ∧
    xmit_raw_label IEC61883_AMDTP_INPUT_LE16 = 0x42 * 16777216 := by
  refine ⟨rfl, ?_, ?_, by decide, by decide, by decide⟩
  · intro hvalid hsyt hdim hlen
    obtain ⟨c, rate, hc, _, hamdtp⟩ := recv_first_packet be put_data rx cb packet q rest len
      channel tag sy cycle dropped hvalid hsyt hdim hlen
    obtain ⟨h1, _, h40, h41, h42, _, h3f, _⟩ := recv_check_label_cases
      { rx with total_dropped := (rx.total_dropped + dropped) % 4294967296,
                dimension := (packet.dbs : Int), rate := rate } (htonl be q / 16777216)
    refine ⟨c, hc, ?_, ?_, ?_, ?_, ?_⟩
    · rw [hamdtp, h1]
    · intro h
      rw [hamdtp, h40 h]
      exact ⟨rfl, rfl⟩
    · intro h
      rw [hamdtp, h41 h]
      exact ⟨rfl, rfl⟩
    · intro h
      rw [hamdtp, h42 h]
      exact ⟨rfl, rfl⟩
    · intro h
      rw [hamdtp, h3f h]
      exact ⟨rfl, rfl⟩
  · intro hd c hc
    exact recv_latched_fixed be put_data rx cb packet data len channel tag sy cycle dropped c
      hd hc

/-- An instance of `recv_latch_once`: a stereo packet of one event with label 0x42 on a
little-endian host, and a second packet of other `dbs`, `fdf` and label on the stream it
leaves. -/
theorem recv_latch_once_witness :
    (iec61883_amdtp_recv_start amdtp_recv_blank 63 0 0).2.dimension = -1 ∧
    (∃ c, amdtp_recv_handler false list_sink amdtp_recv_blank []
          { dbs := 2, eoh0 := 0, sid := 0, dbc := 0, fn := 0, qpc := 0, sph := 0,
            reserved := 0, fdf := 1, eoh1 := 2, fmt := 0x10, syt := 0 }
          [0x01000042, 0x02000042] 16 63 1 0 0 0 = some c ∧
        c.amdtp.dimension = 2 ∧ c.amdtp.format = IEC61883_AMDTP_FORMAT_RAW ∧
        c.amdtp.sample_format = IEC61883_AMDTP_INPUT_LE16) ∧
    (∀ c, amdtp_recv_handler false list_sink
          { amdtp_recv_blank with dimension := 2, rate := 44100 } []
          { dbs := 5, eoh0 := 0, sid := 0, dbc := 0, fn := 0, qpc := 0, sph := 0,
            reserved := 0, fdf := 2, eoh1 := 2, fmt := 0x10, syt := 0 }
          [0x01000040, 0x02000040] 16 63 1 0 0 0 = some c →
        c.amdtp.dimension = 2 ∧ c.amdtp.rate = 44100) := by
  refine ⟨rfl, ?_, ?_⟩
  · obtain ⟨c, hc, hd, _, _, h42, _⟩ :=
      (recv_latch_once false list_sink amdtp_recv_blank amdtp_recv_blank 63 0 []
        { dbs := 2, eoh0 := 0, sid := 0, dbc := 0, fn := 0, qpc := 0, sph := 0,
          reserved := 0, fdf := 1, eoh1 := 2, fmt := 0x10, syt := 0 }
        0x01000042 [0x02000042] [] 16 63 1 0 0 0).2.1 (by decide) (by decide) (by decide)
        (by decide)
    exact ⟨c, hc, hd, h42 (by decide)⟩
  · intro c hc
    have h := (recv_latch_once false list_sink amdtp_recv_blank
        { amdtp_recv_blank with dimension := 2, rate := 44100 } 63 0 []
        { dbs := 5, eoh0 := 0, sid := 0, dbc := 0, fn := 0, qpc := 0, sph := 0,
          reserved := 0, fdf := 2, eoh1 := 2, fmt := 0x10, syt := 0 }
        0 [] [0x01000040, 0x02000040] 16 63 1 0 0 0).2.2.1 (by decide) c hc
    exact ⟨h.1, h.2.1⟩

/-! ### The AM824 label on transmit -/

theorem u32_image_htonl (be : Bool) (x : Nat) :
    u32_image be (htonl be x) =
      [x / 16777216 % 256, x / 65536 % 256, x / 256 % 256, x % 256] := by
  cases be
  · simp only [htonl, u32_image, Bool.false_eq_true, if_false]
    obtain ⟨h1, h2, h3, h4⟩ := bswap_bytes (x % 256) (x / 256 % 256) (x / 65536 % 256)
      (x / 16777216 % 256) (Nat.mod_lt _ (by decide)) (Nat.mod_lt _ (by decide))
      (Nat.mod_lt _ (by decide)) (Nat.mod_lt _ (by decide))
    rw [h1, h2, h3, h4]
  · simp only [htonl, u32_image, if_true]
    refine congrArg₂ _ (by omega) (congrArg₂ _ (by omega) (congrArg₂ _ (by omega)
      (congrArg₂ _ (by omega) rfl)))

theorem lor_label_low (v : Nat) (sample_format : Int) :
    (v ||| xmit_raw_label sample_format) % 16777216 = v % 16777216 := by
  have key : ∀ lab : Nat, (v ||| 16777216 * lab) % 16777216 = v % 16777216 := by
    intro lab
    apply Nat.eq_of_testBit_eq
    intro i
    rw [show (16777216 : Nat) = 2 ^ 24 by norm_num, Nat.testBit_mod_two_pow,
      Nat.testBit_mod_two_pow, Nat.testBit_or, Nat.testBit_mul_pow_two]
    by_cases h : i < 24
    · have h2 : ¬ i ≥ 24 := by omega
      simp [h, h2]
    · simp [h]
  rcases xmit_raw_label_cases sample_format with h | h | h <;> rw [h, key]

theorem xmit_raw_label_values (sample_format : Int) :
    (sample_format = IEC61883_AMDTP_INPUT_LE24 →
      xmit_raw_label sample_format = 0x40 * 16777216) ∧
    (sample_format = IEC61883_AMDTP_INPUT_LE20 →
      xmit_raw_label sample_format = 0x41 * 16777216) ∧
    (sample_format = IEC61883_AMDTP_INPUT_LE16 →
      xmit_raw_label sample_format = 0x42 * 16777216) ∧
    (sample_format ≠ IEC61883_AMDTP_INPUT_LE24 → sample_format ≠ IEC61883_AMDTP_INPUT_LE20 →
      sample_format ≠ IEC61883_AMDTP_INPUT_LE16 →
      xmit_raw_label sample_format = 0x40 * 16777216) := by
  refine ⟨?_, ?_, ?_, ?_⟩
  · intro h; subst h; decide
  · intro h; subst h; decide
  · intro h; subst h; decide
  · intro h1 h2 h3
    unfold xmit_raw_label
    rw [if_neg h1, if_neg h2, if_neg h3]
    decide

/-- C13, counterexample. A RAW stream of the 16-bit sample format
`IEC61883_AMDTP_INPUT_BE16` (one channel, 48000 Hz, blocking-empty mode, little-endian
host): the first cycle is empty, the second carries the quadlets 1, .., 8 of the source
under the label 0x40, not 0x42. -/
theorem raw_label_of_be16 :
    ((iec61883_amdtp_xmit_init (some amdtp_blank) 48000 IEC61883_AMDTP_FORMAT_RAW
          IEC61883_AMDTP_INPUT_BE16 IEC61883_MODE_BLOCKING_EMPTY 1).bind
        (fun tx => amdtp_xmit_run false 0 false (stream_source count_source) [0, 0] tx 0)).map
      (fun cycles => cycles.map (fun r => r.data.map (u32_image false))) =
      some [[], [[0x40, 0, 0, 1], [0x40, 0, 0, 2], [0x40, 0, 0, 3], [0x40, 0, 0, 4],
        [0x40, 0, 0, 5], [0x40, 0, 0, 6], [0x40, 0, 0, 7], [0x40, 0, 0, 8]]] ∧
    xmit_raw_label IEC61883_AMDTP_INPUT_BE16 ≠ 0x42 * 16777216 ∧
    xmit_raw_label IEC61883_AMDTP_INPUT_BE20 ≠ 0x41 * 16777216 := by
  refine ⟨?_, by decide, by decide⟩
  set_option maxRecDepth 100000 in decide

/-- C13, amended. A cycle of a RAW stream in which the CIP engine is defined, the payload
size is not negative and the source, if called, does not fail: the handler returns OK, and
the four bytes of every payload quadlet in memory are the big-endian bytes of `v ||| l`,
where `v` is the quadlet the source stored (zero when the source is not called) and `l` is
the label shifted left by 24; the low 24 bits of `v ||| l` are those of `v`. The label is
0x40 for `IEC61883_AMDTP_INPUT_LE24`, 0x41 for `IEC61883_AMDTP_INPUT_LE20`, 0x42 for
`IEC61883_AMDTP_INPUT_LE16`, and 0x40 for every other value of `sample_format`. -/
theorem xmit_raw_labelling {σ : Type} (be : Bool) (local_id : Nat) (sk : Bool)
    (get_data : iec61883_amdtp → σ → Int → Nat → Nat → Int × List Nat × σ)
    (a : iec61883_amdtp) (cb : σ) (dropped : Nat) (nevents : Int) (cip2 : iec61883_cip)
    (pkt : iec61883_packet)
    (hfill : iec61883_cip_fill_header be local_id a.cip = some (nevents, cip2, pkt))
    (hfmt : a.format = IEC61883_AMDTP_FORMAT_RAW)
    (hq : 0 ≤ xmit_nsamples cip2 nevents * a.dimension)
    (hok : nevents > 0 →
      0 ≤ (get_data
        { a with cip := cip2, total_dropped := (a.total_dropped + dropped) % 4294967296 }
        cb nevents pkt.dbc dropped).1) :
    ∃ r, amdtp_xmit_handler be local_id sk get_data a cb dropped = some r ∧
      r.result = RAW1394_ISO_OK ∧
      r.data.length = (xmit_nsamples cip2 nevents * a.dimension).toNat ∧
      (∀ i, i < r.data.length →
        ∃ v, v = (if nevents > 0 then
              (get_data
                { a with cip := cip2,
                         total_dropped := (a.total_dropped + dropped) % 4294967296 }
                cb nevents pkt.dbc dropped).2.1.getD i 0
            else 0) ∧
          (r.data.get? i).map (u32_image be) =
            some [(v ||| xmit_raw_label a.sample_format) / 16777216 % 256,
              (v ||| xmit_raw_label a.sample_format) / 65536 % 256,
              (v ||| xmit_raw_label a.sample_format) / 256 % 256,
              (v ||| xmit_raw_label a.sample_format) % 256] ∧
          (v ||| xmit_raw_label a.sample_format) % 16777216 = v % 16777216) ∧
      (a.sample_format = IEC61883_AMDTP_INPUT_LE24 →
        xmit_raw_label a.sample_format = 0x40 * 16777216) ∧
      (a.sample_format = IEC61883_AMDTP_INPUT_LE20 →
        xmit_raw_label a.sample_format = 0x41 * 16777216) ∧
      (a.sample_format = IEC61883_AMDTP_INPUT_LE16 →
        xmit_raw_label a.sample_format = 0x42 * 16777216) ∧
      (a.sample_format ≠ IEC61883_AMDTP_INPUT_LE24 →
        a.sample_format ≠ IEC61883_AMDTP_INPUT_LE20 →
        a.sample_format ≠ IEC61883_AMDTP_INPUT_LE16 →
        xmit_raw_label a.sample_format = 0x40 * 16777216) := by
  obtain ⟨l1, l2, l3, l4⟩ := xmit_raw_label_values a.sample_format
  cases a
  dsimp only at hfill hfmt hq hok l1 l2 l3 l4 ⊢
  subst hfmt
  by_cases hpos : nevents > 0
  · have hcall := not_lt.mpr (hok hpos)
    simp only [amdtp_xmit_handler, hfill, if_neg (not_lt.mpr hq), if_pos hpos, if_neg hcall,
      if_true]
    refine ⟨_, rfl, rfl, ?_, ?_, l1, l2, l3, l4⟩
    · simp
    · intro i hi
      simp only [List.length_map, List.length_range] at hi
      refine ⟨_, rfl, ?_, lor_label_low _ _⟩
      rw [List.get?_eq_getElem?, List.getElem?_map, List.getElem?_map, List.getElem?_range hi]
      simp only [Option.map_some']
      rw [u32_image_htonl]
  · simp only [amdtp_xmit_handler, hfill, if_neg (not_lt.mpr hq), if_neg hpos,
      lt_self_iff_false, if_false, if_true]
    refine ⟨_, rfl, rfl, ?_, ?_, l1, l2, l3, l4⟩
    · simp
    · intro i hi
      simp only [List.length_map, List.length_range] at hi
      refine ⟨_, rfl, ?_, lor_label_low _ _⟩
      rw [List.get?_eq_getElem?, List.getElem?_map, List.getElem?_map, List.getElem?_range hi]
      simp only [Option.map_some', List.getD_nil]
      rw [u32_image_htonl]

/-- An instance of `xmit_raw_labelling`: the first cycle of a stereo 44100 Hz RAW stream of
16-bit samples in non-blocking mode on a little-endian host carries five events, the first
quadlet being the first quadlet of the source under the label 0x42. -/
theorem xmit_raw_labelling_witness :
    ∃ r, amdtp_xmit_handler false 0 false (stream_source count_source) (amdtp_44100 2) 0 0 = some r ∧
      r.result = RAW1394_ISO_OK ∧ r.data.length = 10 ∧
      (r.data.get? 0).map (u32_image false) = some [0x42, 0, 0, 1] := by
  obtain ⟨r, hr, hres, hlen, hdata, _, _, _, _⟩ :=
    xmit_raw_labelling false 0 false (stream_source count_source) (amdtp_44100 2) 0 0 5 _ _
      (show iec61883_cip_fill_header false 0 (amdtp_44100 2).cip = some (5, _, _) from rfl)
      rfl (by decide) (fun _ => by decide)
  refine ⟨r, hr, hres, hlen, ?_⟩
  obtain ⟨v, hv, himg, _⟩ := hdata 0 (by rw [hlen]; decide)
  rw [himg, hv]
  decide

/-! ### Empty cycles of the AMDTP transmitter -/

/-- The `fdf` field of the header that `iec61883_cip_fill_header` writes. -/
theorem fill_header_fdf (be : Bool) (local_id : Nat) (ptz ptz2 : iec61883_cip)
    (nevents : Int) (pkt : iec61883_packet)
    (h : iec61883_cip_fill_header be local_id ptz = some (nevents, ptz2, pkt)) :
    pkt.fdf = (if nevents = 0 ∧ ptz.mode = IEC61883_MODE_BLOCKING_NODATA then
        bitfield 8 IEC61883_FDF_NODATA else bitfield 8 ptz.fdf) := by
  unfold iec61883_cip_fill_header at h
  split at h
  · exact absurd h (by simp)
  · rename_i next hadd
    dsimp only at h
    split at h
    · exact absurd h (by simp)
    · rename_i syt co cc ht
      simp only [Option.some.injEq, Prod.mk.injEq] at h
      obtain ⟨h1, _, h3⟩ := h
      rw [← h3, ← h1]
      rfl

theorem empty_event_getD (n i : Nat) :
    ((List.range n).map (fun i => ([] : List Nat).getD i 0)).getD i 0 = 0 := by
  rw [List.getD_eq_getElem?_getD, List.getElem?_map]
  by_cases h : i < n
  · rw [List.getElem?_range h]
    rfl
  · rw [List.getElem?_eq_none (by simpa using h)]
    rfl

/-- The transmit handler in a cycle for which the CIP engine returns no event: the result
is the same for every data source, which is not called. -/
theorem xmit_handler_no_event {σ : Type} (be : Bool) (local_id : Nat) (sk : Bool)
    (get_data : iec61883_amdtp → σ → Int → Nat → Nat → Int × List Nat × σ)
    (a : iec61883_amdtp) (cb : σ) (dropped : Nat) (cip2 : iec61883_cip)
    (pkt : iec61883_packet)
    (hfill : iec61883_cip_fill_header be local_id a.cip = some (0, cip2, pkt))
    (hq : 0 ≤ xmit_nsamples cip2 0 * a.dimension) :
    amdtp_xmit_handler be local_id sk get_data a cb dropped =
      some
        { result :=
            if a.format = IEC61883_AMDTP_FORMAT_RAW ∨
                a.format = IEC61883_AMDTP_FORMAT_IEC958_PCM then RAW1394_ISO_OK
            else RAW1394_ISO_ERROR
          amdtp :=
            { a with cip := cip2, total_dropped := (a.total_dropped + dropped) % 4294967296 }
          callback_data := cb
          packet := pkt
          data := (List.range (xmit_nsamples cip2 0 * a.dimension).toNat).map
            (fun _ =>
              if a.format = IEC61883_AMDTP_FORMAT_RAW then
                htonl be (xmit_raw_label a.sample_format)
              else if a.format = IEC61883_AMDTP_FORMAT_IEC958_PCM then
                htonl be (iec60958_set be sk 0 IEC60958_LABEL IEC60958_DATA_INVALID
                  IEC60958_PAC_RSV)
              else 0)
          len := some (((xmit_nsamples cip2 0 * a.dimension).toNat * 4 + 8) % 4294967296)
          tag := some IEC61883_TAG_WITH_CIP
          sy := some 0 } := by
  by_cases hraw : a.format = IEC61883_AMDTP_FORMAT_RAW
  · simp only [amdtp_xmit_handler, hfill, if_neg (not_lt.mpr hq), gt_iff_lt, lt_self_iff_false,
      if_false, if_pos hraw, List.map_map, if_pos (Or.inl hraw), if_true, Function.comp_def,
      List.getD_nil, Nat.zero_or]
  · by_cases hpcm : a.format = IEC61883_AMDTP_FORMAT_IEC958_PCM
    · simp only [amdtp_xmit_handler, hfill, if_neg (not_lt.mpr hq), gt_iff_lt,
        lt_self_iff_false, if_false, if_neg hraw, if_pos hpcm, if_pos (Or.inr hpcm), if_true,
        empty_event_getD]
    · simp only [amdtp_xmit_handler, hfill, if_neg (not_lt.mpr hq), gt_iff_lt,
        lt_self_iff_false, if_false, if_neg hraw, if_neg hpcm,
        if_neg (not_or.mpr ⟨hraw, hpcm⟩), List.getD_nil]

/-- C14, empty cycles of the AMDTP transmitter. In a cycle for which
`iec61883_cip_fill_header` returns 0, on a stream whose payload size `syt_interval *
dimension * 4 + 8` is not negative and fits the `unsigned int` length: in
blocking-no-data mode the handler returns the same result for every data source and
leaves the callback state alone (the source is not called), the header `fdf` is 0xFF,
`*len` is `syt_interval * dimension * 4 + 8` and the payload has `syt_interval *
dimension` quadlets; in RAW format the disposition is OK and the bytes of each quadlet are
the label followed by three zero bytes, in IEC958 PCM format the disposition is OK and
the 24 data bits of each quadlet are zero (in a build that keeps the stores made through
the struct pointer the other byte holds the validity flag and the reserved preamble code,
in a build that loses them, as the library built with `-O2`, the whole quadlet is zero),
and in any other format the quadlets are zero. In blocking-empty
mode the handler returns the same result for every data source, leaves the callback state
alone, stores no payload and sets `*len` to 8, with disposition OK in the formats RAW and
IEC958 PCM. -/
theorem xmit_empty_cycle {σ : Type} (be : Bool) (local_id : Nat) (sk : Bool) (a : iec61883_amdtp)
    (cb : σ) (dropped : Nat) (cip2 : iec61883_cip) (pkt : iec61883_packet)
    (hfill : iec61883_cip_fill_header be local_id a.cip = some (0, cip2, pkt))
    (hsize : 0 ≤ a.cip.syt_interval * a.dimension)
    (hmax : a.cip.syt_interval * a.dimension * 4 + 8 < 4294967296) :
    (a.cip.mode = IEC61883_MODE_BLOCKING_NODATA →
      ∃ r, (∀ get_data : iec61883_amdtp → σ → Int → Nat → Nat → Int × List Nat × σ,
          amdtp_xmit_handler be local_id sk get_data a cb dropped = some r) ∧
        r.callback_data = cb ∧ r.packet = pkt ∧ pkt.fdf = 0xFF ∧
        r.len = some (a.cip.syt_interval * a.dimension * 4 + 8).toNat ∧
        r.data.length = (a.cip.syt_interval * a.dimension).toNat ∧
        (a.format = IEC61883_AMDTP_FORMAT_RAW →
          r.result = RAW1394_ISO_OK ∧
            ∀ q ∈ r.data, u32_image be q = [xmit_raw_label a.sample_format / 16777216, 0, 0, 0]) ∧
        (a.format = IEC61883_AMDTP_FORMAT_IEC958_PCM →
          r.result = RAW1394_ISO_OK ∧
            ∀ q ∈ r.data, u32_image be q =
              (if sk then (if be then [0, 0, 0, 0x88] else [0x21, 0, 0, 0])
                else [0, 0, 0, 0])) ∧
        (a.format ≠ IEC61883_AMDTP_FORMAT_RAW → a.format ≠ IEC61883_AMDTP_FORMAT_IEC958_PCM →
          ∀ q ∈ r.data, q = 0)) ∧
    (a.cip.mode = IEC61883_MODE_BLOCKING_EMPTY →
      ∃ r, (∀ get_data : iec61883_amdtp → σ → Int → Nat → Nat → Int × List Nat × σ,
          amdtp_xmit_handler be local_id sk get_data a cb dropped = some r) ∧
        r.callback_data = cb ∧ r.packet = pkt ∧ r.data = [] ∧ r.len = some 8 ∧
        (a.format = IEC61883_AMDTP_FORMAT_RAW ∨ a.format = IEC61883_AMDTP_FORMAT_IEC958_PCM →
          r.result = RAW1394_ISO_OK)) := by
  have hfdf := fill_header_fdf be local_id a.cip cip2 0 pkt hfill
  obtain ⟨hmode, hsyt, _⟩ := fill_header_static be local_id a.cip cip2 0 pkt hfill
  constructor
  · intro hm
    have hne : ¬ (cip2.mode = IEC61883_MODE_BLOCKING_EMPTY) := by
      rw [hmode, hm]; decide
    have hns : xmit_nsamples cip2 0 = a.cip.syt_interval := by
      simp only [xmit_nsamples, gt_iff_lt, lt_self_iff_false, if_false, if_neg hne, hsyt]
    have hq : 0 ≤ xmit_nsamples cip2 0 * a.dimension := by rw [hns]; exact hsize
    have hlen : ((a.cip.syt_interval * a.dimension).toNat * 4 + 8) % 4294967296 =
        (a.cip.syt_interval * a.dimension * 4 + 8).toNat := by
      omega
    refine ⟨_, fun g => xmit_handler_no_event be local_id sk g a cb dropped cip2 pkt hfill hq,
      rfl, rfl, ?_, ?_, ?_, ?_, ?_, ?_⟩
    · rw [hfdf, if_pos ⟨rfl, hm⟩]
      decide
    · simp only [hns, hlen]
    · simp only [hns, List.length_map, List.length_range]
    · intro hraw
      refine ⟨by simp only [hraw, true_or, if_true], ?_⟩
      intro q hq
      simp only [List.mem_map, List.mem_range, if_pos hraw] at hq
      obtain ⟨i, _, rfl⟩ := hq
      rw [u32_image_htonl]
      rcases xmit_raw_label_cases a.sample_format with h | h | h <;> rw [h]
    · intro hpcm
      have hraw : ¬ a.format = IEC61883_AMDTP_FORMAT_RAW := by rw [hpcm]; decide
      refine ⟨by simp only [hpcm, or_true, if_true], ?_⟩
      intro q hq
      simp only [List.mem_map, List.mem_range, if_neg hraw, if_pos hpcm] at hq
      obtain ⟨i, _, rfl⟩ := hq
      rw [u32_image_htonl]
      cases be <;> cases sk <;> rfl
    · intro hraw hpcm q hq
      simp only [List.mem_map, List.mem_range, if_neg hraw, if_neg hpcm] at hq
      obtain ⟨i, _, rfl⟩ := hq
      rfl
  · intro hm
    have hns : xmit_nsamples cip2 0 = 0 := by
      simp only [xmit_nsamples, gt_iff_lt, lt_self_iff_false, if_false, hmode, hm, if_true]
    have hq : 0 ≤ xmit_nsamples cip2 0 * a.dimension := by rw [hns, zero_mul]
    refine ⟨_, fun g => xmit_handler_no_event be local_id sk g a cb dropped cip2 pkt hfill hq,
      rfl, rfl, ?_, ?_, ?_⟩
    · simp only [hns, zero_mul, Int.toNat_zero, List.range_zero, List.map_nil]
    · simp only [hns, zero_mul, Int.toNat_zero]
      rfl
    · intro h
      simp only [h, if_true]

/-- An instance of `xmit_empty_cycle`: the first cycle of a stereo 44100 Hz stream on a
little-endian host in blocking-no-data mode, in the format RAW with 16-bit samples and in
the format IEC958 PCM for a build that loses the stores made through the struct pointer
and for one that keeps them, and the first cycle of the RAW stream in blocking-empty
mode. -/
theorem xmit_empty_cycle_witness :
    (∃ r, (∀ get_data : iec61883_amdtp → Unit → Int → Nat → Nat → Int × List Nat × Unit,
          amdtp_xmit_handler false 0 false get_data (amdtp_44100 1) () 0 = some r) ∧
        r.packet.fdf = 0xFF ∧ r.len = some 72 ∧ r.data.length = 16 ∧
        r.result = RAW1394_ISO_OK ∧ ∀ q ∈ r.data, u32_image false q = [0x42, 0, 0, 0]) ∧
    (∃ r, (∀ get_data : iec61883_amdtp → Unit → Int → Nat → Nat → Int × List Nat × Unit,
          amdtp_xmit_handler false 0 false get_data
            { amdtp_44100 1 with format := IEC61883_AMDTP_FORMAT_IEC958_PCM } () 0 = some r) ∧
        r.packet.fdf = 0xFF ∧ r.len = some 72 ∧ r.data.length = 16 ∧
        r.result = RAW1394_ISO_OK ∧ ∀ q ∈ r.data, u32_image false q = [0, 0, 0, 0]) ∧
    (∃ r, (∀ get_data : iec61883_amdtp → Unit → Int → Nat → Nat → Int × List Nat × Unit,
          amdtp_xmit_handler false 0 true get_data
            { amdtp_44100 1 with format := IEC61883_AMDTP_FORMAT_IEC958_PCM } () 0 = some r) ∧
        r.packet.fdf = 0xFF ∧ r.len = some 72 ∧ r.data.length = 16 ∧
        r.result = RAW1394_ISO_OK ∧ ∀ q ∈ r.data, u32_image false q = [0x21, 0, 0, 0]) ∧
    (∃ r, (∀ get_data : iec61883_amdtp → Unit → Int → Nat → Nat → Int × List Nat × Unit,
          amdtp_xmit_handler false 0 false get_data (amdtp_44100 0) () 0 = some r) ∧
        r.data = [] ∧ r.len = some 8) := by
  refine ⟨?_, ?_, ?_, ?_⟩
  · obtain ⟨r, hr, _, hp, hfdf, hlen, hn, hraw, _, _⟩ :=
      (xmit_empty_cycle false 0 false (amdtp_44100 1) () 0 _ _
        (show iec61883_cip_fill_header false 0 (amdtp_44100 1).cip = some (0, _, _) from rfl)
        (by decide) (by decide)).1 rfl
    exact ⟨r, hr, by rw [hp]; exact hfdf, hlen, hn, (hraw rfl).1, (hraw rfl).2⟩
  · obtain ⟨r, hr, _, hp, hfdf, hlen, hn, _, hpcm, _⟩ :=
      (xmit_empty_cycle false 0 false
        { amdtp_44100 1 with format := IEC61883_AMDTP_FORMAT_IEC958_PCM } () 0 _ _
        (show iec61883_cip_fill_header false 0 (amdtp_44100 1).cip = some (0, _, _) from rfl)
        (by decide) (by decide)).1 rfl
    exact ⟨r, hr, by rw [hp]; exact hfdf, hlen, hn, (hpcm rfl).1, (hpcm rfl).2⟩
  · obtain ⟨r, hr, _, hp, hfdf, hlen, hn, _, hpcm, _⟩ :=
      (xmit_empty_cycle false 0 true
        { amdtp_44100 1 with format := IEC61883_AMDTP_FORMAT_IEC958_PCM } () 0 _ _
        (show iec61883_cip_fill_header false 0 (amdtp_44100 1).cip = some (0, _, _) from rfl)
        (by decide) (by decide)).1 rfl
    exact ⟨r, hr, by rw [hp]; exact hfdf, hlen, hn, (hpcm rfl).1, (hpcm rfl).2⟩
  · obtain ⟨r, hr, _, _, hdata, hlen, _⟩ :=
      (xmit_empty_cycle false 0 false (amdtp_44100 0) () 0 _ _
        (show iec61883_cip_fill_header false 0 (amdtp_44100 0).cip = some (0, _, _) from rfl)
        (by decide) (by decide)).2 rfl
    exact ⟨r, hr, hdata, hlen⟩

/-! ### Validation of inbound AMDTP packets -/

/-- C15, receive validation. A packet whose tag is not `IEC61883_TAG_WITH_CIP`, or whose
`fmt` is not `IEC61883_FMT_AMDTP`, or whose `fdf & ~IEC61883_FDF_SFC_MASK` is neither
`IEC61883_FDF_AM824` nor `IEC61883_FDF_AM824_CONTROLLED`: the handler returns the same
result for every sink and leaves the callback state and the buffer alone (the sink is not
called), `dimension`, `rate`, `format` and `sample_format` are unchanged, and the
disposition is DEFER when `dropped` is not zero and OK otherwise, never ERROR. -/
theorem recv_invalid_skipped {σ : Type} (be : Bool) (rx : iec61883_amdtp) (cb : σ)
    (packet : iec61883_packet) (data : List Nat) (len channel tag sy cycle dropped : Nat)
    (h : tag ≠ IEC61883_TAG_WITH_CIP ∨ (packet.fmt : Int) ≠ IEC61883_FMT_AMDTP ∨
      (int_and (packet.fdf : Int) (int_not IEC61883_FDF_SFC_MASK) ≠ IEC61883_FDF_AM824 ∧
        int_and (packet.fdf : Int) (int_not IEC61883_FDF_SFC_MASK) ≠
          IEC61883_FDF_AM824_CONTROLLED)) :
    ∃ c, (∀ put_data : iec61883_amdtp → σ → List Nat → Int → Nat → Nat → Int × σ,
        amdtp_recv_handler be put_data rx cb packet data len channel tag sy cycle dropped =
          some c) ∧
      c.callback_data = cb ∧ c.data = data ∧
      c.amdtp.dimension = rx.dimension ∧ c.amdtp.rate = rx.rate ∧
      c.amdtp.format = rx.format ∧ c.amdtp.sample_format = rx.sample_format ∧
      c.result ≠ RAW1394_ISO_ERROR ∧
      c.result = (if dropped = 0 then RAW1394_ISO_OK else RAW1394_ISO_DEFER) := by
  have hv : ¬ recv_valid tag packet := by
    unfold recv_valid
    rintro ⟨h1, h2, h3⟩
    rcases h with h | h | h
    · exact h h1
    · exact h h2
    · rcases h3 with h3 | h3
      · exact h.1 h3
      · exact h.2 h3
  refine ⟨{ result := recv_defer RAW1394_ISO_OK dropped,
            amdtp := { rx with total_dropped := (rx.total_dropped + dropped) % 4294967296 },
            callback_data := cb, data := data }, fun put_data => ?_, rfl, rfl, rfl, rfl, rfl,
    rfl, ?_, ?_⟩
  · unfold amdtp_recv_handler
    simp only
    rw [if_neg hv]
  · simp only [recv_defer]
    split_ifs <;> decide
  · simp only [recv_defer]
    by_cases hd : dropped = 0
    · simp [hd]
    · simp [hd]

/-- An instance of `recv_invalid_skipped`: a packet without CIP header (tag 0) and a packet
of `fdf` 0x08 after a dropped packet, on a stream with the dimension latched. -/
theorem recv_invalid_skipped_witness :
    (∃ c, (∀ put_data : iec61883_amdtp → List Nat → List Nat → Int → Nat → Nat →
            Int × List Nat,
          amdtp_recv_handler false put_data { amdtp_recv_blank with dimension := 2 } []
            { dbs := 2, eoh0 := 0, sid := 0, dbc := 0, fn := 0, qpc := 0, sph := 0,
              reserved := 0, fdf := 1, eoh1 := 2, fmt := 0x10, syt := 0 }
            [0x01000042, 0x02000042] 16 63 0 0 0 0 = some c) ∧
        c.callback_data = [] ∧ c.result = RAW1394_ISO_OK) ∧
    (∃ c, (∀ put_data : iec61883_amdtp → List Nat → List Nat → Int → Nat → Nat →
            Int × List Nat,
          amdtp_recv_handler false put_data { amdtp_recv_blank with dimension := 2 } []
            { dbs := 2, eoh0 := 0, sid := 0, dbc := 0, fn := 0, qpc := 0, sph := 0,
              reserved := 0, fdf := 8, eoh1 := 2, fmt := 0x10, syt := 0 }
            [0x01000042, 0x02000042] 16 63 1 0 0 3 = some c) ∧
        c.callback_data = [] ∧ c.result = RAW1394_ISO_DEFER) := by
  constructor
  · obtain ⟨c, hc, hcb, _, _, _, _, _, _, hres⟩ :=
      recv_invalid_skipped false { amdtp_recv_blank with dimension := 2 } ([] : List Nat)
        { dbs := 2, eoh0 := 0, sid := 0, dbc := 0, fn := 0, qpc := 0, sph := 0,
          reserved := 0, fdf := 1, eoh1 := 2, fmt := 0x10, syt := 0 }
        [0x01000042, 0x02000042] 16 63 0 0 0 0 (Or.inl (by decide))
    exact ⟨c, hc, hcb, hres⟩
  · obtain ⟨c, hc, hcb, _, _, _, _, _, _, hres⟩ :=
      recv_invalid_skipped false { amdtp_recv_blank with dimension := 2 } ([] : List Nat)
        { dbs := 2, eoh0 := 0, sid := 0, dbc := 0, fn := 0, qpc := 0, sph := 0,
          reserved := 0, fdf := 8, eoh1 := 2, fmt := 0x10, syt := 0 }
        [0x01000042, 0x02000042] 16 63 1 0 0 3 (Or.inr (Or.inr (by decide)))
    exact ⟨c, hc, hcb, hres⟩

/-! ### Sub-codes the receiver does not support -/

/-- The first valid timestamped packet with a label the handler does not support (the
reserved valid-bit-length code 3, or a label from 0x44 on): the disposition is ERROR
whatever the sink, which is not called. -/
theorem recv_label_unsupported {σ : Type} (be : Bool) (rx : iec61883_amdtp) (cb : σ)
    (packet : iec61883_packet) (q : Nat) (rest : List Nat)
    (len channel tag sy cycle dropped : Nat)
    (hvalid : recv_valid tag packet) (hsyt : packet.syt ≠ 0xFFFF) (hdim : rx.dimension < 0)
    (hlabel : 0x43 ≤ htonl be q / 16777216) :
    ∃ c, (∀ put_data : iec61883_amdtp → σ → List Nat → Int → Nat → Nat → Int × σ,
        amdtp_recv_handler be put_data rx cb packet (q :: rest) len channel tag sy cycle
          dropped = some c) ∧
      c.result = RAW1394_ISO_ERROR ∧ c.callback_data = cb ∧ c.data = q :: rest := by
  obtain ⟨h2, rate, h1⟩ := recv_rate_switch_breaks (packet.fdf : Int)
  have hsw : recv_rate_switch (int_and (packet.fdf : Int) IEC61883_FDF_SFC_MASK) =
      (some rate, true) := Prod.ext h1 h2
  have hlt : htonl be q / 16777216 ≤ 0xFF := by
    have := htonl_lt be q
    omega
  obtain ⟨_, _, _, _, _, h43, _, h44⟩ := recv_check_label_cases
    { rx with total_dropped := (rx.total_dropped + dropped) % 4294967296,
              dimension := (packet.dbs : Int), rate := rate } (htonl be q / 16777216)
  have herr : (recv_check_label
      { rx with total_dropped := (rx.total_dropped + dropped) % 4294967296,
                dimension := (packet.dbs : Int), rate := rate }
      ((htonl be q / 16777216 : Nat) : Int)).1 = RAW1394_ISO_ERROR := by
    by_cases h : htonl be q / 16777216 = 0x43
    · rw [h43 h]
    · rw [h44 (by omega) hlt]
  refine ⟨{ result := RAW1394_ISO_ERROR,
            amdtp := (recv_check_label
              { rx with total_dropped := (rx.total_dropped + dropped) % 4294967296,
                        dimension := (packet.dbs : Int), rate := rate }
              ((htonl be q / 16777216 : Nat) : Int)).2,
            callback_data := cb, data := q :: rest }, fun put_data => ?_, rfl, rfl, rfl⟩
  unfold amdtp_recv_handler
  simp only
  rw [if_pos hvalid]
  unfold recv_latch
  simp only
  rw [if_pos ⟨hdim, hsyt⟩, hsw]
  simp only [if_true, List.head?_cons]
  unfold recv_deliver
  rw [if_neg (fun h => absurd (herr.symm.trans h.1) (by decide)), herr]
  rfl

/-- C16, evaluation at the failing input. On a stream without a dimension, a packet with
tag 1, `fmt` 0x10, a timestamp and `fdf` 7, whose sampling frequency code 7 is not one of
the seven defined codes, is not refused: the handler (little-endian host, buffer of two
quadlets labelled 0x42, `len` 16) returns OK, stores the rate 88200 of the code 3 and
hands both quadlets to the sink. -/
theorem recv_sfc_code_seven :
    (amdtp_recv_handler false list_sink amdtp_recv_blank []
        { dbs := 2, eoh0 := 0, sid := 0, dbc := 0, fn := 0, qpc := 0, sph := 0,
          reserved := 0, fdf := 7, eoh1 := 2, fmt := 0x10, syt := 0 }
        [0x01000042, 0x02000042] 16 63 1 0 0 0).map
      (fun c => (c.result, c.amdtp.dimension, c.amdtp.rate, c.callback_data)) =
      some (RAW1394_ISO_OK, 2, 88200, [0x42000001, 0x42000002]) := by
  decide

/-! ### Arguments of the AMDTP sink call -/

/-- C17, counterexample. A stereo stream with the dimension latched and five packets
dropped so far receives a valid timestamped packet of 72 bytes (8 events of 2 quadlets)
with `dbc` 7 in a call that reports one more dropped packet: the sink is called once, with
`nsamples` 16 (not the event count 8) and `dropped` 1 (not the accumulated count 6, which
is in the `total_dropped` field of the stream). -/
theorem recv_sink_arguments_evaluated :
    (amdtp_recv_handler false record_sink
        { amdtp_recv_blank with dimension := 2, rate := 48000, total_dropped := 5 } []
        { dbs := 2, eoh0 := 0, sid := 0, dbc := 7, fn := 0, qpc := 0, sph := 0,
          reserved := 0, fdf := 2, eoh1 := 2, fmt := 0x10, syt := 0 }
        ((List.range 16).map (fun i => i * 16777216 + 0x42)) 72 63 1 0 0 1).map
      (fun c => (c.callback_data.map (fun call => (call.2.1, call.2.2.1, call.2.2.2)),
        c.amdtp.total_dropped, c.result)) =
      some ([(16, 7, 1)], 6, RAW1394_ISO_DEFER) ∧
    ((72 - 8) / (4 * 2) : Int) = 8 := by
  decide

/-- C17, amended. A valid timestamped packet of `len ≥ 8` bytes on a stream with a
positive dimension, in a buffer that holds its `len / 4 - 2` payload quadlets: the handler
returns, having applied the sink once, to the stream with `total_dropped` increased by
`dropped`, to the payload quadlets converted by `ntohl`, to their number `len / 4 - 2`
(the dimension times the event count `k` when `len = 8 + 4 * dimension * k`), to the
`dbc` of the header and to the `dropped` of this call; the disposition is ERROR when the
sink returns a negative value, DEFER when it does not and `dropped` is not zero, OK
otherwise. With the recording sink the record of this call is the only one added. -/
theorem recv_sink_arguments {σ : Type} (be : Bool)
    (put_data : iec61883_amdtp → σ → List Nat → Int → Nat → Nat → Int × σ)
    (rx : iec61883_amdtp) (cb : σ) (calls : List (List Nat × Int × Nat × Nat))
    (packet : iec61883_packet)
    (data : List Nat) (len channel tag sy cycle dropped : Nat)
    (hvalid : recv_valid tag packet) (hsyt : packet.syt ≠ 0xFFFF) (hdim : 0 < rx.dimension)
    (h8 : 8 ≤ len) (hlen : len / 4 - 2 ≤ data.length) :
    amdtp_recv_handler be put_data rx cb packet data len channel tag sy cycle dropped =
      some
        { result :=
            recv_defer
              (if (put_data
                    { rx with total_dropped := (rx.total_dropped + dropped) % 4294967296 } cb
                    ((data.take (len / 4 - 2)).map (htonl be)) ((len / 4 - 2 : Nat) : Int)
                    packet.dbc dropped).1 < 0 then RAW1394_ISO_ERROR
                else RAW1394_ISO_OK) dropped
          amdtp := { rx with total_dropped := (rx.total_dropped + dropped) % 4294967296 }
          callback_data :=
            (put_data
              { rx with total_dropped := (rx.total_dropped + dropped) % 4294967296 } cb
              ((data.take (len / 4 - 2)).map (htonl be)) ((len / 4 - 2 : Nat) : Int)
              packet.dbc dropped).2
          data := (data.take (len / 4 - 2)).map (htonl be) ++ data.drop (len / 4 - 2) } ∧
    (∀ k : Nat, (len : Int) = 8 + 4 * (rx.dimension * k) →
      ((len / 4 - 2 : Nat) : Int) = rx.dimension * k) ∧
    (amdtp_recv_handler be record_sink rx calls packet data len channel tag sy cycle
        dropped).map (fun c => c.callback_data) =
      some (calls ++ [((data.take (len / 4 - 2)).map (htonl be),
        ((len / 4 - 2 : Nat) : Int), packet.dbc, dropped)]) := by
  have hn : (((len / 4 : Nat) : Int) - 2) = ((len / 4 - 2 : Nat) : Int) := by omega
  have hgen : ∀ (τ : Type) (put : iec61883_amdtp → τ → List Nat → Int → Nat → Nat → Int × τ)
      (s : τ),
      amdtp_recv_handler be put rx s packet data len channel tag sy cycle dropped =
      some
        { result :=
            recv_defer
              (if (put
                    { rx with total_dropped := (rx.total_dropped + dropped) % 4294967296 } s
                    ((data.take (len / 4 - 2)).map (htonl be)) ((len / 4 - 2 : Nat) : Int)
                    packet.dbc dropped).1 < 0 then RAW1394_ISO_ERROR
                else RAW1394_ISO_OK) dropped
          amdtp := { rx with total_dropped := (rx.total_dropped + dropped) % 4294967296 }
          callback_data :=
            (put
              { rx with total_dropped := (rx.total_dropped + dropped) % 4294967296 } s
              ((data.take (len / 4 - 2)).map (htonl be)) ((len / 4 - 2 : Nat) : Int)
              packet.dbc dropped).2
          data := (data.take (len / 4 - 2)).map (htonl be) ++ data.drop (len / 4 - 2) } := by
    intro τ put s
    have hl : ((data.take (len / 4 - 2)).map (htonl be)).length = len / 4 - 2 := by
      rw [List.length_map, List.length_take]
      omega
    unfold amdtp_recv_handler
    simp only
    rw [if_pos hvalid]
    unfold recv_latch
    simp only
    rw [if_neg (fun h => absurd h.1 (by omega))]
    simp only
    unfold recv_deliver
    simp only
    rw [if_pos ⟨trivial, hdim, hsyt⟩, if_neg (by omega), hn, Int.toNat_ofNat,
      List.take_left' hl]
  refine ⟨hgen σ put_data cb, ?_, ?_⟩
  · intro k hk
    omega
  · rw [hgen]
    rfl

/-- An instance of `recv_sink_arguments`: a stereo packet of one event, 16 bytes long, on
a little-endian host. -/
theorem recv_sink_arguments_witness :
    recv_valid 1
        { dbs := 2, eoh0 := 0, sid := 0, dbc := 3, fn := 0, qpc := 0, sph := 0,
          reserved := 0, fdf := 2, eoh1 := 2, fmt := 0x10, syt := 0 } ∧
      (amdtp_recv_handler false record_sink
          { amdtp_recv_blank with dimension := 2, rate := 48000 } []
          { dbs := 2, eoh0 := 0, sid := 0, dbc := 3, fn := 0, qpc := 0, sph := 0,
            reserved := 0, fdf := 2, eoh1 := 2, fmt := 0x10, syt := 0 }
          [0x01000042, 0x02000042] 16 63 1 0 0 0).map (fun c => c.callback_data) =
        some ([] ++ [(([0x01000042, 0x02000042].take (16 / 4 - 2)).map (htonl false),
          ((16 / 4 - 2 : Nat) : Int), 3, 0)]) :=
  ⟨by decide,
    (recv_sink_arguments false record_sink
      { amdtp_recv_blank with dimension := 2, rate := 48000 } [] []
      { dbs := 2, eoh0 := 0, sid := 0, dbc := 3, fn := 0, qpc := 0, sph := 0,
        reserved := 0, fdf := 2, eoh1 := 2, fmt := 0x10, syt := 0 }
      [0x01000042, 0x02000042] 16 63 1 0 0 0 (by decide) (by decide) (by decide) (by decide)
      (by decide)).2.2⟩

/-! ### Dispositions of the receive handlers -/

/-- The disposition of `dv_recv_handler`: ERROR when the sink is called and returns a
negative value, otherwise DEFER when `dropped` is not zero and OK when it is. -/
theorem dv_recv_disposition {σ : Type} (put_data : Option (σ → List Nat → Int → Nat → Int × σ))
    (dv : iec61883_dv) (cb : σ) (data : List Nat) (len channel tag sy cycle dropped : Nat) :
    (∀ put, put_data = some put → (channel : Int) = dv.channel → len = DIF_BLOCK_SIZE + 8 →
      (put cb (data.drop 8) (DIF_BLOCK_SIZE : Int) dropped).1 < 0 →
      (dv_recv_handler put_data dv cb data len channel tag sy cycle dropped).result =
        RAW1394_ISO_ERROR) ∧
    ((∀ put, put_data = some put → (channel : Int) = dv.channel → len = DIF_BLOCK_SIZE + 8 →
        0 ≤ (put cb (data.drop 8) (DIF_BLOCK_SIZE : Int) dropped).1) →
      (dv_recv_handler put_data dv cb data len channel tag sy cycle dropped).result =
        (if dropped = 0 then RAW1394_ISO_OK else RAW1394_ISO_DEFER)) := by
  have hd : recv_defer RAW1394_ISO_OK dropped =
      (if dropped = 0 then RAW1394_ISO_OK else RAW1394_ISO_DEFER) := by
    simp only [recv_defer]
    by_cases h : dropped = 0
    · simp [h]
    · simp [h]
  constructor
  · intro put hput hch hlen hneg
    subst hput
    simp only [dv_recv_handler]
    rw [if_pos ⟨hch, hlen⟩]
    simp only [if_pos hneg]
    rfl
  · intro hok
    cases put_data with
    | none => exact hd
    | some put =>
      simp only [dv_recv_handler]
      by_cases hc : (channel : Int) = dv.channel ∧ len = DIF_BLOCK_SIZE + 8
      · rw [if_pos hc]
        simp only [if_neg (not_lt.mpr (hok put rfl hc.1 hc.2))]
        exact hd
      · rw [if_neg hc]
        exact hd

theorem mpeg2_recv_loop_result {σ : Type} (put : σ → List Nat → Int → Nat → Int × σ)
    (data : List Nat) (fuel : Nat) :
    ∀ (len offset dropped : Nat) (cb : σ) (calls : Nat) (r : raw1394_iso_disposition)
      (d2 : Nat) (cb2 : σ) (n : Nat),
      mpeg2_recv_loop put data fuel len offset dropped cb calls = some (r, d2, cb2, n) →
      r ≠ RAW1394_ISO_DEFER ∧ (dropped = 0 → d2 = 0) := by
  induction fuel with
  | zero =>
    intro len offset dropped cb calls r d2 cb2 n h
    exact absurd h (by simp [mpeg2_recv_loop])
  | succ fuel ih =>
    intro len offset dropped cb calls r d2 cb2 n h
    unfold mpeg2_recv_loop at h
    split at h
    · simp only at h
      split at h
      · simp only [Option.some.injEq, Prod.mk.injEq] at h
        obtain ⟨h1, h2, _, _⟩ := h
        subst h1 h2
        exact ⟨by decide, fun h0 => h0⟩
      · obtain ⟨i1, i2⟩ := ih _ _ _ _ _ _ _ _ _ h
        exact ⟨i1, fun _ => i2 rfl⟩
    · simp only [Option.some.injEq, Prod.mk.injEq] at h
      obtain ⟨h1, h2, _, _⟩ := h
      subst h1 h2
      exact ⟨by decide, fun h0 => h0⟩

/-- The loop of `mpeg2_recv_handler` entered with `len > 188`: either the first call of the
sink fails, or `dropped` is zero when the loop ends. -/
theorem mpeg2_recv_loop_first {σ : Type} (put : σ → List Nat → Int → Nat → Int × σ)
    (data : List Nat) (fuel len offset dropped : Nat) (cb : σ) (calls : Nat)
    (r : raw1394_iso_disposition) (d2 : Nat) (cb2 : σ) (n : Nat)
    (hlen : len > IEC61883_MPEG2_TSP_SIZE)
    (h : mpeg2_recv_loop put data (fuel + 1) len offset dropped cb calls =
      some (r, d2, cb2, n)) :
    r = RAW1394_ISO_ERROR ∨ (r ≠ RAW1394_ISO_DEFER ∧ d2 = 0) := by
  unfold mpeg2_recv_loop at h
  rw [if_pos hlen] at h
  simp only at h
  split at h
  · simp only [Option.some.injEq, Prod.mk.injEq] at h
    exact Or.inl h.1.symm
  · obtain ⟨i1, i2⟩ := mpeg2_recv_loop_result put data _ _ _ _ _ _ _ _ _ _ h
    exact Or.inr ⟨i1, i2 rfl⟩

/-- A packet that passes the checks of `mpeg2_recv_handler` never gets the disposition
DEFER, whatever `dropped` is. -/
theorem mpeg2_recv_never_defers {σ : Type} (be long_is_64 : Bool)
    (put : σ → List Nat → Int → Nat → Int × σ) (mpeg : iec61883_mpeg2) (cb : σ)
    (data : List Nat) (len channel tag sy cycle dropped : Nat) (q0 q1 : Nat)
    (c : mpeg2_recv_cycle σ)
    (h0 : read_long_u32 be long_is_64 data 0 = some q0)
    (h1 : read_long_u32 be long_is_64 data 4 = some q1)
    (hch : (channel : Int) = mpeg.channel) (hlen : len ≥ TSP_SPH_SIZE + 8)
    (hdbs : (htonl be q0 / 1024) % 16384 = 0x01b1) (hfmt : (htonl be q1 / 16777216) % 64 = 0x20)
    (h : mpeg2_recv_handler be long_is_64 (some put) mpeg cb data len channel tag sy cycle
      dropped = some c) :
    c.result ≠ RAW1394_ISO_DEFER := by
  unfold mpeg2_recv_handler at h
  rw [h0, h1] at h
  simp only at h
  rw [if_pos ⟨hch, hlen, hdbs, hfmt⟩] at h
  split at h
  · exact absurd h (by simp)
  · rename_i r d2 cb2 n hloop
    simp only [Option.some.injEq] at h
    rw [← h]
    simp only
    have h188 : len > IEC61883_MPEG2_TSP_SIZE := by
      have e1 : TSP_SPH_SIZE + 8 = 200 := rfl
      have e2 : IEC61883_MPEG2_TSP_SIZE = 188 := rfl
      omega
    rw [show (67108864 : Nat) = 67108863 + 1 from rfl] at hloop
    unfold recv_defer
    rcases mpeg2_recv_loop_first put data _ _ _ _ _ _ _ _ _ _ h188 hloop with hr | ⟨hr, hd⟩
    · rw [if_neg (fun hh => absurd (hr.symm.trans hh.1) (by decide)), hr]
      decide
    · rw [if_neg (fun hh => hh.2 hd)]
      exact hr

/-- C18, evaluation at the failing input. A packet of one MPEG2 transport packet, with
a valid CIP header, on the selected channel, given to `mpeg2_recv_handler` (little-endian
host, 8-byte `long`) with `dropped = 1` and a sink that returns 0: the sink is called once
with `dropped` 1, `total_dropped` becomes 1, and the disposition is OK, not DEFER. On the
same input with `dropped = 0` the disposition is OK as well. -/
theorem mpeg2_recv_dropped_evaluated :
    (mpeg2_recv_handler false true (some byte_sink) mpeg2_blank [] mpeg2_packet_bytes 200
        63 1 0 0 1).map
      (fun c => (c.result, c.mpeg.total_dropped,
        c.callback_data.map (fun call => (call.1.length, call.2.1, call.2.2)))) =
      some (RAW1394_ISO_OK, 1, [(188, 188, 1)]) ∧
    (mpeg2_recv_handler false true (some byte_sink) mpeg2_blank [] mpeg2_packet_bytes 200
        63 1 0 0 0).map (fun c => c.result) = some RAW1394_ISO_OK := by
  constructor
  · set_option maxRecDepth 100000 in decide
  · set_option maxRecDepth 100000 in decide

/-! ### The buffer handed to the AMDTP sink -/

/-- C19, evaluation at the failing input. The first packet of a stereo stream of 16-bit raw
PCM, carrying the samples 0x1234 and 0x5678 under the label 0x42 (bytes `42 12 34 00` and
`42 56 78 00` on the wire), received on a little-endian host: the stream is recognised as
RAW with 16-bit samples, and the sink is called once, with `nsamples` 2 and a buffer of
the two quadlets 0x42123400 and 0x42567800, whose top byte is the label and not zero; the
buffer does not hold the four bytes of two 16-bit samples. -/
theorem recv_label_kept :
    (amdtp_recv_handler false record_sink amdtp_recv_blank []
        { dbs := 2, eoh0 := 0, sid := 0, dbc := 0, fn := 0, qpc := 0, sph := 0,
          reserved := 0, fdf := 2, eoh1 := 2, fmt := 0x10, syt := 0 }
        [0x00341242, 0x00785642] 16 63 1 0 0 0).map
      (fun c => (c.result, c.amdtp.format, c.amdtp.sample_format)) =
      some (RAW1394_ISO_OK, IEC61883_AMDTP_FORMAT_RAW, IEC61883_AMDTP_INPUT_LE16) ∧
    (amdtp_recv_handler false record_sink amdtp_recv_blank []
        { dbs := 2, eoh0 := 0, sid := 0, dbc := 0, fn := 0, qpc := 0, sph := 0,
          reserved := 0, fdf := 2, eoh1 := 2, fmt := 0x10, syt := 0 }
        [0x00341242, 0x00785642] 16 63 1 0 0 0).map (fun c => c.callback_data) =
      some [([0x42123400, 0x42567800], 2, 0, 0)] ∧
    [0x42123400 / 16777216, 0x42567800 / 16777216] = [0x42, 0x42] ∧
    [0x00341242, 0x00785642].map (u32_image false) =
      [[0x42, 0x12, 0x34, 0x00], [0x42, 0x56, 0x78, 0x00]] := by
  refine ⟨by decide, by decide, by decide, by decide⟩

/-! ### Parameters of `iec61883_amdtp_xmit_init` -/

theorem xmit_init_rate_none (rate : Int)
    (h : rate ∉ [(32000 : Int), 44100, 48000, 88200, 96000, 176400, 192000]) :
    xmit_init_rate rate = none := by
  simp only [List.mem_cons, List.mem_singleton, not_or, List.mem_nil_iff, or_false] at h
  obtain ⟨h1, h2, h3, h4, h5, h6, h7⟩ := h
  simp only [xmit_init_rate, if_neg h1, if_neg h2, if_neg h3, if_neg h4, if_neg h5, if_neg h6,
    if_neg h7]

theorem xmit_init_rate_table (rate : Int)
    (h : rate ∈ [(32000 : Int), 44100, 48000, 88200, 96000, 176400, 192000]) :
    ∃ syt_interval fdf rc, xmit_init_rate rate = some (syt_interval, fdf, rc) ∧ rate ≠ 0 ∧
      (rate, syt_interval, fdf) ∈ [((32000 : Int), (8 : Int), (0 : Int)), (44100, 8, 1),
        (48000, 8, 2), (88200, 16, 3), (96000, 16, 4), (176400, 32, 5), (192000, 32, 6)] := by
  simp only [List.mem_cons, List.mem_singleton, List.mem_nil_iff, or_false] at h
  rcases h with h | h | h | h | h | h | h <;> subst h <;>
    exact ⟨_, _, _, rfl, by decide, by decide⟩

/-- C20, evaluated. On a zero-filled block `iec61883_amdtp_xmit_init` returns a stream, and
not `NULL`, for the negative format -1, for the dimensions 0 and -3, and for IEC958 AC3
with six channels, although the comment of the function says that the IEC958 subformat
supports 2 channels only. What the transmit handler then does shows that these arguments
are not meant to be accepted: with the format -1 the first cycle already returns
`RAW1394_ISO_ERROR` (unsupported format), and with the dimension -3 the second cycle, the
first one that carries events, gives `memset` the negative size `8 * -3 * 4`, so that the
run of two cycles is undefined. -/
theorem xmit_init_accepts_invalid :
    (iec61883_amdtp_xmit_init (some amdtp_blank) 48000 (-1) IEC61883_AMDTP_INPUT_LE16
      IEC61883_MODE_BLOCKING_EMPTY 2).isSome = true ∧
    (iec61883_amdtp_xmit_init (some amdtp_blank) 48000 IEC61883_AMDTP_FORMAT_RAW
      IEC61883_AMDTP_INPUT_LE16 IEC61883_MODE_BLOCKING_EMPTY 0).isSome = true ∧
    (iec61883_amdtp_xmit_init (some amdtp_blank) 48000 IEC61883_AMDTP_FORMAT_RAW
      IEC61883_AMDTP_INPUT_LE16 IEC61883_MODE_BLOCKING_EMPTY (-3)).isSome = true ∧
    (iec61883_amdtp_xmit_init (some amdtp_blank) 48000 IEC61883_AMDTP_FORMAT_IEC958_PCM
      IEC61883_AMDTP_INPUT_LE16 IEC61883_MODE_BLOCKING_EMPTY (-3)).isSome = true ∧
    (iec61883_amdtp_xmit_init (some amdtp_blank) 48000 IEC61883_AMDTP_FORMAT_IEC958_AC3
      IEC61883_AMDTP_INPUT_LE16 IEC61883_MODE_BLOCKING_EMPTY 6).isSome = true ∧
    ((iec61883_amdtp_xmit_init (some amdtp_blank) 48000 (-1) IEC61883_AMDTP_INPUT_LE16
        IEC61883_MODE_BLOCKING_EMPTY 2).bind (fun tx =>
      (amdtp_xmit_handler false 0 false (stream_source count_source) tx 0 0).map
        (fun r => r.result))) = some RAW1394_ISO_ERROR ∧
    ((iec61883_amdtp_xmit_init (some amdtp_blank) 48000 IEC61883_AMDTP_FORMAT_RAW
        IEC61883_AMDTP_INPUT_LE16 IEC61883_MODE_BLOCKING_EMPTY (-3)).bind (fun tx =>
      (amdtp_xmit_run false 0 false (stream_source count_source) [0] tx 0).map
        (fun rs => rs.map (fun r => (r.result, r.len))))) = some [(RAW1394_ISO_OK, some 8)] ∧
    ((iec61883_amdtp_xmit_init (some amdtp_blank) 48000 IEC61883_AMDTP_FORMAT_RAW
        IEC61883_AMDTP_INPUT_LE16 IEC61883_MODE_BLOCKING_EMPTY (-3)).bind (fun tx =>
      (amdtp_xmit_run false 0 false (stream_source count_source) [0, 0] tx 0).map
        (fun rs => rs.length))) = none := by
  refine ⟨by decide, by decide, by decide, by decide, by decide, by decide, by decide,
    by decide⟩

/-- The tests that `iec61883_amdtp_xmit_init` makes, and no others: it returns `NULL` for
every rate outside the seven supported ones, for every format above
`IEC61883_AMDTP_FORMAT_IEC958_AC3`, for `IEC61883_AMDTP_FORMAT_IEC958_PCM` with a dimension
above 2, and when the allocation fails. In every other case, which a negative format, a
non-positive dimension and IEC958 AC3 with more than two channels fall under for want of a
test, it returns a stream with the given format, sample format, dimension and mode, whose
`syt_interval` is 8, 8, 8, 16, 16, 32, 32 and whose `fdf` is 0, 1, 2, 3, 4, 5, 6 for the
rates 32000, 44100, 48000, 88200, 96000, 176400, 192000. -/
theorem xmit_init_parameters (mem : Option iec61883_amdtp)
    (rate format sample_format mode dimension : Int) :
    (rate ∉ [(32000 : Int), 44100, 48000, 88200, 96000, 176400, 192000] →
      iec61883_amdtp_xmit_init mem rate format sample_format mode dimension = none) ∧
    (format > IEC61883_AMDTP_FORMAT_IEC958_AC3 →
      iec61883_amdtp_xmit_init mem rate format sample_format mode dimension = none) ∧
    (format = IEC61883_AMDTP_FORMAT_IEC958_PCM → dimension > 2 →
      iec61883_amdtp_xmit_init mem rate format sample_format mode dimension = none) ∧
    (mem = none →
      iec61883_amdtp_xmit_init mem rate format sample_format mode dimension = none) ∧
    (mem ≠ none → rate ∈ [(32000 : Int), 44100, 48000, 88200, 96000, 176400, 192000] →
      format ≤ IEC61883_AMDTP_FORMAT_IEC958_AC3 →
      ¬ (format = IEC61883_AMDTP_FORMAT_IEC958_PCM ∧ dimension > 2) →
      ∃ tx, iec61883_amdtp_xmit_init mem rate format sample_format mode dimension = some tx ∧
        tx.format = format ∧ tx.sample_format = sample_format ∧ tx.dimension = dimension ∧
        tx.cip.mode = mode ∧ tx.cip.dbs = dimension ∧
        (rate, tx.cip.syt_interval, tx.cip.fdf) ∈
          [((32000 : Int), (8 : Int), (0 : Int)), (44100, 8, 1), (48000, 8, 2),
            (88200, 16, 3), (96000, 16, 4), (176400, 32, 5), (192000, 32, 6)]) := by
  refine ⟨?_, ?_, ?_, ?_, ?_⟩
  · intro h
    cases mem with
    | none => rfl
    | some a =>
      simp only [iec61883_amdtp_xmit_init, xmit_init_rate_none rate h]
      split_ifs <;> rfl
  · intro h
    cases mem with
    | none => rfl
    | some a =>
      simp only [iec61883_amdtp_xmit_init, if_neg (not_le.mpr h)]
  · intro hf hd
    cases mem with
    | none => rfl
    | some a =>
      simp only [iec61883_amdtp_xmit_init, if_pos (And.intro hf hd)]
      cases hr : xmit_init_rate rate with
      | none => simp only [ite_self]
      | some t =>
        obtain ⟨s, f, rc⟩ := t
        simp only [ite_self]
  · intro h
    subst h
    rfl
  · intro hm hr hf hd
    cases mem with
    | none => exact absurd rfl hm
    | some a =>
      obtain ⟨syt_interval, fdf, rc, hrate, hne, htab⟩ := xmit_init_rate_table rate hr
      obtain ⟨c, hc, _, hdbs, hsyt, _, _, hfdf, _⟩ :=
        cip_init_some a.cip IEC61883_FMT_AMDTP fdf rate dimension syt_interval hne
      obtain ⟨tx, htx, hcip, hdim, hfmt, hsf⟩ :=
        xmit_init_some a rate format sample_format mode dimension syt_interval fdf rc c hf
          hrate hd hc
      refine ⟨tx, htx, hfmt, hsf, hdim, ?_, ?_, ?_⟩
      · rw [hcip]; rfl
      · rw [hcip]; exact hdbs
      · rw [hcip]
        show (rate, c.syt_interval, c.fdf) ∈ _
        rw [hsyt, hfdf]
        exact htab

/-- An instance of `xmit_init_parameters`: the rate 96000 with the RAW format and two
channels on a zero-filled block, and the rate 22050. -/
theorem xmit_init_parameters_witness :
    (∃ tx, iec61883_amdtp_xmit_init (some amdtp_blank) 96000 IEC61883_AMDTP_FORMAT_RAW
          IEC61883_AMDTP_INPUT_LE16 IEC61883_MODE_BLOCKING_EMPTY 2 = some tx ∧
        tx.cip.syt_interval = 16 ∧ tx.cip.fdf = 4) ∧
    iec61883_amdtp_xmit_init (some amdtp_blank) 22050 IEC61883_AMDTP_FORMAT_RAW
      IEC61883_AMDTP_INPUT_LE16 IEC61883_MODE_BLOCKING_EMPTY 2 = none := by
  constructor
  · obtain ⟨tx, htx, _, _, _, _, _, htab⟩ :=
      (xmit_init_parameters (some amdtp_blank) 96000 IEC61883_AMDTP_FORMAT_RAW
        IEC61883_AMDTP_INPUT_LE16 IEC61883_MODE_BLOCKING_EMPTY 2).2.2.2.2 (by simp)
        (by decide) (by decide) (by decide)
    refine ⟨tx, htx, ?_⟩
    simp only [List.mem_cons, Prod.mk.injEq, List.mem_singleton, List.mem_nil_iff,
      or_false] at htab
    rcases htab with h | h | h | h | h | h | h
    all_goals first
      | exact absurd h.1 (by decide)
      | exact ⟨h.2.1, h.2.2⟩
  · exact (xmit_init_parameters (some amdtp_blank) 22050 IEC61883_AMDTP_FORMAT_RAW
      IEC61883_AMDTP_INPUT_LE16 IEC61883_MODE_BLOCKING_EMPTY 2).1 (by decide)

/-! ### Decoding of the PCR -/

theorem ts_byte_lt (ts : List Nat) (i : Nat) : ts_byte ts i < 256 :=
  Nat.mod_lt _ (by decide)

theorem byte_bit_facts :
    ∀ b : Nat, b < 256 → (b &&& 0x80) / 128 = b >>> 7 ∧ (b &&& 0x80) / 128 ≤ 1 ∧
      (b &&& 0x1) ≤ 1 ∧ (b &&& 0x1) = b % 2 ∧ b >>> 7 = b / 128 := by
  set_option maxRecDepth 100000 in decide

/-- For `pcr[0] < 0x40` the function `ts_get_pcr` returns `300 * base + ext`. -/
theorem ts_get_pcr_small (ts : List Nat) (h : ts_byte ts 6 < 0x40) :
    ts_get_pcr ts =
      300 * (ts_byte ts 6 * 2 ^ 25 + ts_byte ts 7 * 2 ^ 17 + ts_byte ts 8 * 2 ^ 9 +
          ts_byte ts 9 * 2 + (ts_byte ts 10 >>> 7)) +
        ((ts_byte ts 10 &&& 1) * 256 + ts_byte ts 11) := by
  have h7 := ts_byte_lt ts 7
  have h8 := ts_byte_lt ts 8
  have h9 := ts_byte_lt ts 9
  have h10 := ts_byte_lt ts 10
  have h11 := ts_byte_lt ts 11
  obtain ⟨e1, e2, e3, _, _⟩ := byte_bit_facts (ts_byte ts 10) h10
  have hshl : (int_shl (ts_byte ts 6 : Int) 25 % 18446744073709551616).toNat =
      ts_byte ts 6 * 33554432 := by
    simp only [int_shl, to_u32, of_u32]
    have : ((ts_byte ts 6 : Int) % 4294967296).toNat = ts_byte ts 6 := by omega
    rw [this, show (2 : Nat) ^ 25 = 33554432 by norm_num,
      Nat.mod_eq_of_lt (by omega : ts_byte ts 6 * 33554432 < 4294967296),
      if_pos (by omega : ts_byte ts 6 * 33554432 < 2147483648)]
    omega
  unfold ts_get_pcr
  simp only [hshl]
  rw [← e1]
  generalize (ts_byte ts 10 &&& 0x80) / 128 = hi at e2 ⊢
  generalize (ts_byte ts 10 &&& 0x1) = lo at e3 ⊢
  generalize ts_byte ts 6 = b0 at h ⊢
  generalize ts_byte ts 7 = b1 at h7 ⊢
  generalize ts_byte ts 8 = b2 at h8 ⊢
  generalize ts_byte ts 9 = b3 at h9 ⊢
  generalize ts_byte ts 11 = b5 at h11 ⊢
  norm_num
  omega

/-- C25, evaluation at the failing input. A PCR field whose first byte is 0x40 (base
`2 ^ 31`, extension 0, PCR `300 * 2 ^ 31 = 644245094400`): `ts_get_pcr` returns
`2 ^ 64 - 300 * 2 ^ 31`, above the largest PCR `300 * (2 ^ 33 - 1) + 511`. With the first
byte 0x80 (base `2 ^ 32`) it returns 0, and with 0xC0 again `2 ^ 64 - 300 * 2 ^ 31`: the
two top bits of the base are lost. -/
theorem ts_get_pcr_high_base :
    ((pcr_packet 0x11 644245094400 0).drop 6).take 6 = [0x40, 0, 0, 0, 0x7E, 0] ∧
    ts_get_pcr (pcr_packet 0x11 644245094400 0) = 18446743429464457216 ∧
    18446743429464457216 > 300 * (2 ^ 33 - 1) + 511 ∧
    ts_get_pcr (pcr_packet 0x11 (300 * 2 ^ 32) 0) = 0 ∧
    ts_get_pcr (pcr_packet 0x11 (300 * (2 ^ 32 + 2 ^ 31)) 0) = 18446743429464457216 := by
  refine ⟨by decide, by decide, by decide, by decide, by decide⟩

/-! ### Selection by PID -/

/-- The value `ts_get_pid` returns is the low byte of the PID: header byte 2. -/
theorem ts_get_pid_low_byte (ts : List Nat) : ts_get_pid ts = ts_byte ts 2 := by
  unfold ts_get_pid
  have h1 : ts_byte ts 1 < 256 := Nat.mod_lt _ (by decide)
  have h2 : ts_byte ts 2 < 256 := Nat.mod_lt _ (by decide)
  have hm : (ts_byte ts 1 * 256 + ts_byte ts 2) &&& 0x1fff =
      (ts_byte ts 1 * 256 + ts_byte ts 2) % 8192 :=
    Nat.and_pow_two_sub_one_eq_mod _ 13
  rw [hm]
  omega

/-- What `ts_has_pcr` tests: the selected PID is -1 or equal to header byte 2 alone, the
adaptation field bit is set, the adaptation length is positive and the PCR flag is set. -/
theorem ts_has_pcr_iff (ts : List Nat) (pid : Int) :
    (ts_has_pcr ts pid = 1 ↔
      (pid = -1 ∨ pid = (ts_byte ts 2 : Int)) ∧ (ts_byte ts 3 &&& 0x20) ≠ 0 ∧
        ts_byte ts 4 > 0 ∧ (ts_byte ts 5 &&& 0x10) ≠ 0) ∧
    (ts_has_pcr ts pid = 0 ∨ ts_has_pcr ts pid = 1) := by
  unfold ts_has_pcr
  rw [ts_get_pid_low_byte]
  by_cases h1 : pid = -1 ∨ pid = (ts_byte ts 2 : Int)
  · by_cases h2 : (ts_byte ts 3 &&& 0x20) ≠ 0 ∧ ts_byte ts 4 > 0 ∧ (ts_byte ts 5 &&& 0x10) ≠ 0
    · rw [if_pos h1, if_pos h2]
      exact ⟨⟨fun _ => ⟨h1, h2⟩, fun _ => rfl⟩, Or.inr rfl⟩
    · rw [if_pos h1, if_neg h2]
      exact ⟨⟨fun h => absurd h (by decide), fun h => absurd h.2 h2⟩, Or.inl rfl⟩
  · rw [if_neg h1]
    exact ⟨⟨fun h => absurd h (by decide), fun h => absurd h.1 h1⟩, Or.inl rfl⟩

/-- C24, evaluation at the failing inputs. A PCR-bearing packet of PID 0x100 (header bytes
`47 01 00 30`, adaptation length 7, flags 0x10): with the selected PID 0x100 `ts_has_pcr`
returns 0, and with the selected PID 0 it returns 1, because `ts_get_pid` returns 0 for
it. A PCR-bearing packet of PID 0x111 is taken for the selected PID 0x11. -/
theorem ts_has_pcr_pid_truncated :
    (pcr_packet 0x100 0 0).take 6 = [0x47, 0x01, 0x00, 0x30, 7, 0x10] ∧
    ts_get_pid (pcr_packet 0x100 0 0) = 0 ∧
    ts_has_pcr (pcr_packet 0x100 0 0) 0x100 = 0 ∧
    ts_has_pcr (pcr_packet 0x100 0 0) 0 = 1 ∧
    ts_has_pcr (pcr_packet 0x100 0 0) (-1) = 1 ∧
    ts_has_pcr (pcr_packet 0x111 0 0) 0x11 = 1 ∧
    ts_has_pcr (pcr_packet 0x11 0 0) 0x11 = 1 := by
  refine ⟨by decide, by decide, by decide, by decide, by decide, by decide, by decide⟩

/-! ### The search for the next PCR -/

theorem search_pid_ne (pid : Int) (first : List Nat) : search_pid pid first ≠ -1 ∨
    search_pid pid first = pid := by
  unfold search_pid
  split_ifs
  · left; omega
  · right; rfl

theorem search_pid_fixed (pid : Int) (first : List Nat) (h : pid ≠ -1) :
    search_pid pid first = pid := by
  unfold search_pid
  rw [if_neg h]

theorem search_pid_idem (pid : Int) (first second : List Nat) :
    search_pid (search_pid pid first) second = search_pid pid first := by
  rcases search_pid_ne pid first with h | h
  · exact search_pid_fixed _ _ h
  · by_cases hp : pid = -1
    · subst hp
      unfold search_pid
      rw [if_pos rfl, if_neg (by omega)]
    · rw [search_pid_fixed _ second (by rw [h]; exact hp)]

/-- One iteration of the loop of `tsbuffer_read_to_next_pcr`. -/
theorem read_to_next_pcr_step {σ : Type} (read : σ → Int → Nat → Int × List Nat × σ)
    (fuel : Nat) (this : tsbuffer) (cb : σ) :
    read_to_next_pcr_loop read (fuel + 1) this cb =
      if this.ts_queue.length > MAX_PCR_LOOKAHEAD then some (0, this, cb)
      else if (read cb 1 this.dropped).1 < 0 then some (0, this, (read cb 1 this.dropped).2.2)
      else if ts_has_pcr (ts_block (read cb 1 this.dropped).2.1)
          (search_pid this.selected_pid (read cb 1 this.dropped).2.1) = 0 then
        read_to_next_pcr_loop read fuel
          { this with
            dropped := 0
            ts_queue := this.ts_queue ++ [ts_block (read cb 1 this.dropped).2.1]
            selected_pid := search_pid this.selected_pid (read cb 1 this.dropped).2.1 }
          (read cb 1 this.dropped).2.2
      else
        some (1,
          { this with
            dropped := 0
            ts_queue := this.ts_queue ++ [ts_block (read cb 1 this.dropped).2.1]
            selected_pid := search_pid this.selected_pid (read cb 1 this.dropped).2.1 },
          (read cb 1 this.dropped).2.2) := by
  rw [read_to_next_pcr_loop]
  by_cases hq : this.ts_queue.length > MAX_PCR_LOOKAHEAD
  · rw [if_pos hq, if_pos hq]
  · rw [if_neg hq, if_neg hq]
    by_cases hr : (read cb 1 this.dropped).1 < 0
    · simp only [tsbuffer_read_ts, if_pos hr, if_true]
    · simp only [tsbuffer_read_ts, if_neg hr, List.getLast?_append, List.getLast?_singleton,
        Option.or, one_ne_zero, if_false]
      unfold search_pid
      by_cases hp : this.selected_pid = -1
      · simp only [if_pos hp]
      · simp only [if_neg hp]

theorem source_packets_succ {σ : Type} (read : σ → Int → Nat → Int × List Nat × σ)
    (m : Nat) (cb : σ) (d : Nat) :
    source_packets read (m + 1) cb d =
      ts_block (read cb 1 d).2.1 :: source_packets read m (read cb 1 d).2.2 0 := by
  unfold source_packets
  rw [List.range_succ_eq_map, List.map_cons, List.map_map]
  rfl

theorem source_packets_length {σ : Type} (read : σ → Int → Nat → Int × List Nat × σ)
    (m : Nat) (cb : σ) (d : Nat) : (source_packets read m cb d).length = m := by
  simp [source_packets]

theorem source_packets_getLast {σ : Type} (read : σ → Int → Nat → Int × List Nat × σ)
    (m : Nat) (cb : σ) (d : Nat) :
    (source_packets read (m + 1) cb d).getLast? =
      some (ts_block (source_nth read m cb d).2.1) := by
  unfold source_packets
  rw [List.range_succ, List.map_append, List.map_singleton, List.getLast?_append,
    List.getLast?_singleton]
  rfl

/-- The search succeeds at the packet number `m` of the source when the queue has room
for it, the source does not fail up to it, and it is the first packet with a PCR. -/
theorem read_to_next_pcr_finds {σ : Type} (read : σ → Int → Nat → Int × List Nat × σ) :
    ∀ (m fuel : Nat) (this : tsbuffer) (cb : σ),
      this.ts_queue.length + m ≤ MAX_PCR_LOOKAHEAD → m < fuel →
      (∀ j, j ≤ m → 0 ≤ (source_nth read j cb this.dropped).1) →
      (∀ j, j < m →
        ts_has_pcr (ts_block (source_nth read j cb this.dropped).2.1)
          (search_pid this.selected_pid (read cb 1 this.dropped).2.1) = 0) →
      ts_has_pcr (ts_block (source_nth read m cb this.dropped).2.1)
          (search_pid this.selected_pid (read cb 1 this.dropped).2.1) ≠ 0 →
      read_to_next_pcr_loop read fuel this cb =
        some (1,
          { this with
            dropped := 0
            ts_queue := this.ts_queue ++ source_packets read (m + 1) cb this.dropped
            selected_pid := search_pid this.selected_pid (read cb 1 this.dropped).2.1 },
          (source_nth read m cb this.dropped).2.2) := by
  intro m
  induction m with
  | zero =>
    intro fuel this cb hq hf hok _ hpcr
    obtain ⟨f, rfl⟩ : ∃ f, fuel = f + 1 := ⟨fuel - 1, by omega⟩
    have h0 := hok 0 (le_refl 0)
    rw [read_to_next_pcr_step, if_neg (by omega),
      if_neg (not_lt.mpr (show 0 ≤ (read cb 1 this.dropped).1 from h0)),
      if_neg (show ¬ ts_has_pcr (ts_block (read cb 1 this.dropped).2.1) _ = 0 from hpcr)]
    rfl
  | succ m ih =>
    intro fuel this cb hq hf hok hno hpcr
    obtain ⟨f, rfl⟩ : ∃ f, fuel = f + 1 := ⟨fuel - 1, by omega⟩
    have h0 := hok 0 (Nat.zero_le _)
    have hn0 := hno 0 (Nat.succ_pos m)
    rw [read_to_next_pcr_step, if_neg (by omega),
      if_neg (not_lt.mpr (show 0 ≤ (read cb 1 this.dropped).1 from h0)),
      if_pos (show ts_has_pcr (ts_block (read cb 1 this.dropped).2.1) _ = 0 from hn0)]
    have ih2 := ih f
      { this with
        dropped := 0
        ts_queue := this.ts_queue ++ [ts_block (read cb 1 this.dropped).2.1]
        selected_pid := search_pid this.selected_pid (read cb 1 this.dropped).2.1 }
      (read cb 1 this.dropped).2.2
      (by simp only [List.length_append, List.length_singleton]; omega) (by omega)
      (fun j hj => hok (j + 1) (by omega))
      (fun j hj => by
        simp only [search_pid_idem]
        exact hno (j + 1) (by omega))
      (by
        simp only [search_pid_idem]
        exact hpcr)
    rw [ih2]
    simp only [search_pid_idem, List.append_assoc, List.singleton_append,
      source_packets_succ read (m + 1)]
    rfl

theorem tsbuffer_frame_refl (a : tsbuffer) : tsbuffer_frame a a :=
  ⟨rfl, rfl, rfl, rfl, rfl, rfl, rfl, rfl, rfl, rfl⟩

theorem tsbuffer_frame_trans (a b c : tsbuffer) (h1 : tsbuffer_frame a b)
    (h2 : tsbuffer_frame b c) : tsbuffer_frame a c := by
  obtain ⟨a1, a2, a3, a4, a5, a6, a7, a8, a9, a10⟩ := h1
  obtain ⟨b1, b2, b3, b4, b5, b6, b7, b8, b9, b10⟩ := h2
  exact ⟨b1.trans a1, b2.trans a2, b3.trans a3, b4.trans a4, b5.trans a5, b6.trans a6,
    b7.trans a7, b8.trans a8, b9.trans a9, b10.trans a10⟩

/-- With enough iterations the loop of `tsbuffer_read_to_next_pcr` returns 0 or 1; it
changes only the queue, to which it appends, `dropped` and the selected PID; and it
returns 1 only if the source delivers a first packet with a PCR before it fails and before
the queue holds more than `MAX_PCR_LOOKAHEAD` packets. -/
theorem read_to_next_pcr_spec {σ : Type} (read : σ → Int → Nat → Int × List Nat × σ) :
    ∀ (fuel : Nat) (this : tsbuffer) (cb : σ), 1 ≤ fuel →
      MAX_PCR_LOOKAHEAD + 2 ≤ this.ts_queue.length + fuel →
      ∃ r t cb2, read_to_next_pcr_loop read fuel this cb = some (r, t, cb2) ∧
        (r = 0 ∨ r = 1) ∧ tsbuffer_frame this t ∧
        (∃ added, t.ts_queue = this.ts_queue ++ added) ∧
        (r = 1 → ∃ m, this.ts_queue.length + m ≤ MAX_PCR_LOOKAHEAD ∧
          (∀ j, j ≤ m → 0 ≤ (source_nth read j cb this.dropped).1) ∧
          (∀ j, j < m →
            ts_has_pcr (ts_block (source_nth read j cb this.dropped).2.1)
              (search_pid this.selected_pid (read cb 1 this.dropped).2.1) = 0) ∧
          ts_has_pcr (ts_block (source_nth read m cb this.dropped).2.1)
            (search_pid this.selected_pid (read cb 1 this.dropped).2.1) ≠ 0) := by
  intro fuel
  induction fuel with
  | zero => intro this cb h; omega
  | succ f ih =>
    intro this cb _ hfuel
    rw [read_to_next_pcr_step]
    by_cases hq : this.ts_queue.length > MAX_PCR_LOOKAHEAD
    · rw [if_pos hq]
      exact ⟨0, this, cb, rfl, Or.inl rfl, tsbuffer_frame_refl _, ⟨[], by simp⟩,
        fun h => absurd h (by decide)⟩
    · rw [if_neg hq]
      by_cases hr : (read cb 1 this.dropped).1 < 0
      · rw [if_pos hr]
        exact ⟨0, this, _, rfl, Or.inl rfl, tsbuffer_frame_refl _, ⟨[], by simp⟩,
          fun h => absurd h (by decide)⟩
      · rw [if_neg hr]
        by_cases hp : ts_has_pcr (ts_block (read cb 1 this.dropped).2.1)
            (search_pid this.selected_pid (read cb 1 this.dropped).2.1) = 0
        · rw [if_pos hp]
          obtain ⟨r, t, cb2, hloop, hr01, hframe, ⟨added, hadded⟩, hsucc⟩ := ih
            { this with
              dropped := 0
              ts_queue := this.ts_queue ++ [ts_block (read cb 1 this.dropped).2.1]
              selected_pid := search_pid this.selected_pid (read cb 1 this.dropped).2.1 }
            (read cb 1 this.dropped).2.2 (by omega)
            (by simp only [List.length_append, List.length_singleton]; omega)
          refine ⟨r, t, cb2, hloop, hr01, hframe,
            ⟨ts_block (read cb 1 this.dropped).2.1 :: added, by
              rw [hadded]; simp⟩, ?_⟩
          intro h1
          obtain ⟨m, hm, hok, hno, hpcr⟩ := hsucc h1
          simp only [search_pid_idem, List.length_append, List.length_singleton] at hm hok hno hpcr
          refine ⟨m + 1, by omega, ?_, ?_, hpcr⟩
          · intro j hj
            cases j with
            | zero => exact not_lt.mp hr
            | succ k => exact hok k (by omega)
          · intro j hj
            cases j with
            | zero => exact hp
            | succ k => exact hno k (by omega)
        · rw [if_neg hp]
          exact ⟨1, _, _, rfl, Or.inr rfl, ⟨rfl, rfl, rfl, rfl, rfl, rfl, rfl, rfl, rfl, rfl⟩,
            ⟨[ts_block (read cb 1 this.dropped).2.1], rfl⟩,
            fun _ => ⟨0, by omega, fun j hj => by
              have : j = 0 := by omega
              subst this
              exact not_lt.mp hr, fun j hj => absurd hj (by omega), hp⟩⟩

theorem ts_has_pcr_ne_zero (ts : List Nat) (pid : Int) (h : ts_has_pcr ts pid ≠ 0) :
    ts_has_pcr ts pid = 1 := by
  unfold ts_has_pcr at h ⊢
  split_ifs at h ⊢ <;> first | rfl | exact absurd rfl h

/-- The function `tsbuffer_read_to_next_pcr` returns, with 0 or 1; it returns 1 exactly
when the source delivers a first packet with a PCR (number `m`, from 0) before it fails
and while the queue holds at most `MAX_PCR_LOOKAHEAD` packets before the read; the buffer
is then the old one with the packets 0 to `m` appended to the queue. -/
theorem read_to_next_pcr_result {σ : Type} (read : σ → Int → Nat → Int × List Nat × σ)
    (this : tsbuffer) (cb : σ) :
    ∃ r t cb2, tsbuffer_read_to_next_pcr read this cb = some (r, t, cb2) ∧
      (r = 0 ∨ r = 1) ∧ tsbuffer_frame this t ∧
      (∃ added, t.ts_queue = this.ts_queue ++ added) ∧
      ((∃ m, this.ts_queue.length + m ≤ MAX_PCR_LOOKAHEAD ∧
          (∀ j, j ≤ m → 0 ≤ (source_nth read j cb this.dropped).1) ∧
          (∀ j, j < m →
            ts_has_pcr (ts_block (source_nth read j cb this.dropped).2.1)
              (search_pid this.selected_pid (read cb 1 this.dropped).2.1) = 0) ∧
          ts_has_pcr (ts_block (source_nth read m cb this.dropped).2.1)
            (search_pid this.selected_pid (read cb 1 this.dropped).2.1) ≠ 0) → r = 1) ∧
      (r = 1 → ∃ m, this.ts_queue.length + m ≤ MAX_PCR_LOOKAHEAD ∧
          (∀ j, j ≤ m → 0 ≤ (source_nth read j cb this.dropped).1) ∧
          (∀ j, j < m →
            ts_has_pcr (ts_block (source_nth read j cb this.dropped).2.1)
              (search_pid this.selected_pid (read cb 1 this.dropped).2.1) = 0) ∧
          ts_has_pcr (ts_block (source_nth read m cb this.dropped).2.1)
            (search_pid this.selected_pid (read cb 1 this.dropped).2.1) ≠ 0 ∧
          t = { this with
                dropped := 0
                ts_queue := this.ts_queue ++ source_packets read (m + 1) cb this.dropped
                selected_pid := search_pid this.selected_pid (read cb 1 this.dropped).2.1 } ∧
          cb2 = (source_nth read m cb this.dropped).2.2) := by
  have hM : MAX_PCR_LOOKAHEAD = 20000 := rfl
  obtain ⟨r, t, cb2, hloop, h01, hframe, hadded, hsucc⟩ :=
    read_to_next_pcr_spec read (MAX_PCR_LOOKAHEAD + 2) this cb (by omega) (by omega)
  refine ⟨r, t, cb2, hloop, h01, hframe, hadded, ?_, ?_⟩
  · rintro ⟨m, hm, hok, hno, hpcr⟩
    have hf := read_to_next_pcr_finds read m (MAX_PCR_LOOKAHEAD + 2) this cb hm (by omega)
      hok hno hpcr
    rw [hf] at hloop
    simp only [Option.some.injEq, Prod.mk.injEq] at hloop
    exact hloop.1.symm
  · intro h1
    obtain ⟨m, hm, hok, hno, hpcr⟩ := hsucc h1
    have hf := read_to_next_pcr_finds read m (MAX_PCR_LOOKAHEAD + 2) this cb hm (by omega)
      hok hno hpcr
    rw [hf] at hloop
    simp only [Option.some.injEq, Prod.mk.injEq] at hloop
    exact ⟨m, hm, hok, hno, hpcr, hloop.2.1.symm, hloop.2.2.symm⟩

/-- After a search that returns 1 the queue holds at most `MAX_PCR_LOOKAHEAD + 1` packets
and ends with a packet for which `ts_has_pcr` returns 1. -/
theorem read_to_next_pcr_inv {σ : Type} (read : σ → Int → Nat → Int × List Nat × σ)
    (this t : tsbuffer) (cb cb2 : σ)
    (h : tsbuffer_read_to_next_pcr read this cb = some (1, t, cb2)) :
    tsbuffer_inv t ∧ 1 ≤ t.ts_queue.length ∧ t.ts_queue.length ≤ MAX_PCR_LOOKAHEAD + 1 ∧
      this.ts_queue.length < t.ts_queue.length ∧ tsbuffer_frame this t := by
  obtain ⟨r, t2, cb3, hres, _, hframe, _, _, hsucc⟩ := read_to_next_pcr_result read this cb
  rw [h] at hres
  simp only [Option.some.injEq, Prod.mk.injEq] at hres
  obtain ⟨h1, h2, _⟩ := hres
  subst h1 h2
  obtain ⟨m, hm, _, _, hpcr, ht, _⟩ := hsucc rfl
  have hlen : t.ts_queue.length = this.ts_queue.length + (m + 1) := by
    rw [ht]
    simp only [List.length_append, source_packets_length]
  refine ⟨⟨ts_block (source_nth read m cb this.dropped).2.1, ?_, ?_⟩, by omega, by omega,
    by omega, hframe⟩
  · rw [ht]
    simp only [List.getLast?_append, source_packets_getLast, Option.or]
  · rw [ht]
    exact ts_has_pcr_ne_zero _ _ hpcr

/-- What the source `late_pcr_source` delivers at its call number `j` from the state
`k`. -/
theorem late_pcr_source_nth (j k d : Nat) :
    source_nth late_pcr_source j k d =
      (0, if k + j = 20000 then pcr_packet 0x11 0 0 else plain_packet 0x11 0, k + j + 1) := by
  induction j generalizing k d with
  | zero => rfl
  | succ j ih =>
    show source_nth late_pcr_source j (k + 1) 0 = _
    rw [ih]
    have e : k + 1 + j = k + (j + 1) := by omega
    rw [e]

/-- C27, counterexample. From an empty queue, with a source that never fails and whose
only packet with a PCR is the 20001st (number 20000), none of the first 20000 packets
examined has a PCR on the selected PID 0x11, and yet the search returns 1, with 20001
packets in the queue. -/
theorem pcr_found_in_packet_20001 :
    (∀ j, j < 20000 →
      0 ≤ (source_nth late_pcr_source j 0 0).1 ∧
        ts_has_pcr (ts_block (source_nth late_pcr_source j 0 0).2.1) 0x11 = 0) ∧
    (tsbuffer_read_to_next_pcr late_pcr_source { tsbuffer_blank with selected_pid := 0x11 }
        0).map (fun x => (x.1, x.2.1.ts_queue.length)) = some (1, 20001) := by
  have hplain : ts_has_pcr (ts_block (plain_packet 0x11 0)) 0x11 = 0 := by decide
  have hpcr : ts_has_pcr (ts_block (pcr_packet 0x11 0 0)) 0x11 ≠ 0 := by decide
  constructor
  · intro j hj
    rw [late_pcr_source_nth]
    simp only [zero_add, if_neg (by omega : ¬ j = 20000)]
    exact ⟨le_refl _, hplain⟩
  · have hf := read_to_next_pcr_finds late_pcr_source 20000 (MAX_PCR_LOOKAHEAD + 2)
      { tsbuffer_blank with selected_pid := 0x11 } 0 (by decide) (by decide)
      (fun j _ => by rw [late_pcr_source_nth])
      (fun j hj => by
        rw [late_pcr_source_nth]
        simp only [zero_add, if_neg (by omega : ¬ j = 20000)]
        exact hplain)
      (by
        rw [late_pcr_source_nth]
        exact hpcr)
    unfold tsbuffer_read_to_next_pcr
    rw [hf]
    simp only [Option.map_some', List.length_append, source_packets_length]
    rfl

/-- C27, amended. For every source, buffer and callback state
`tsbuffer_read_to_next_pcr` returns, with 0 or 1. It returns 1 exactly when some call
number `m` (from 0) of the source is reached while the queue holds at most 20000 packets
before the read (`length + m ≤ 20000`), the source does not fail up to that call, none of
the packets before it passes `ts_has_pcr` for the selected PID, and the packet of that
call does; in every other case, in particular when the source fails first or when the
queue has grown beyond 20000 packets, it returns 0. When it returns 1 the back of the
queue passes `ts_has_pcr` for the selected PID and the queue holds at most 20001
packets. -/
theorem pcr_search_bounded {σ : Type} (read : σ → Int → Nat → Int × List Nat × σ)
    (this : tsbuffer) (cb : σ) :
    ∃ r t cb2, tsbuffer_read_to_next_pcr read this cb = some (r, t, cb2) ∧
      (r = 0 ∨ r = 1) ∧
      (r = 1 ↔ ∃ m, this.ts_queue.length + m ≤ 20000 ∧
          (∀ j, j ≤ m → 0 ≤ (source_nth read j cb this.dropped).1) ∧
          (∀ j, j < m →
            ts_has_pcr (ts_block (source_nth read j cb this.dropped).2.1)
              (search_pid this.selected_pid (read cb 1 this.dropped).2.1) = 0) ∧
          ts_has_pcr (ts_block (source_nth read m cb this.dropped).2.1)
            (search_pid this.selected_pid (read cb 1 this.dropped).2.1) ≠ 0) ∧
      (r = 1 → t.selected_pid = search_pid this.selected_pid (read cb 1 this.dropped).2.1 ∧
        t.ts_queue.length ≤ 20001 ∧
        ∃ back, t.ts_queue.getLast? = some back ∧ ts_has_pcr back t.selected_pid = 1) := by
  obtain ⟨r, t, cb2, hres, h01, _, _, hif, honly⟩ := read_to_next_pcr_result read this cb
  refine ⟨r, t, cb2, hres, h01, ⟨fun h => ?_, hif⟩, fun h => ?_⟩
  · obtain ⟨m, hm, hok, hno, hpcr, _, _⟩ := honly h
    exact ⟨m, hm, hok, hno, hpcr⟩
  · subst h
    obtain ⟨hinv, _, hlen, _, _⟩ := read_to_next_pcr_inv read this t cb cb2 hres
    obtain ⟨m, _, _, _, _, ht, _⟩ := honly rfl
    refine ⟨by rw [ht], hlen, hinv⟩

/-- An instance of `pcr_search_bounded`: the source `pcr_source`, whose every packet has
a PCR, read into an empty queue without a selected PID. -/
theorem pcr_search_bounded_witness :
    ∃ r t cb2, tsbuffer_read_to_next_pcr (pcr_source slowing_pcr)
        { tsbuffer_blank with selected_pid := -1 } 0 = some (r, t, cb2) ∧ (r = 0 ∨ r = 1) := by
  obtain ⟨r, t, cb2, h, h01, _⟩ :=
    pcr_search_bounded (pcr_source slowing_pcr) { tsbuffer_blank with selected_pid := -1 } 0
  exact ⟨r, t, cb2, h, h01⟩

/-! ### The rate computed by `tsbuffer_refill` -/

theorem ts_get_pcr_lt (ts : List Nat) : ts_get_pcr ts < 18446744073709551616 := by
  unfold ts_get_pcr
  exact Nat.mod_lt _ (by decide)

/-- The searches of `tsbuffer_refill`: the result is 0 or 1, only the queue, `dropped` and
the selected PID change, and after `n ≥ 1` successful searches the queue ends with a
packet that has a PCR and holds at most `MAX_PCR_LOOKAHEAD + 1` packets. -/
theorem refill_search_spec {σ : Type} (read : σ → Int → Nat → Int × List Nat × σ) :
    ∀ (n : Nat) (this : tsbuffer) (cb : σ),
      ∃ r t cb2, refill_search read n this cb = some (r, t, cb2) ∧ (r = 0 ∨ r = 1) ∧
        tsbuffer_frame this t ∧
        (r = 1 → 1 ≤ n →
          tsbuffer_inv t ∧ 1 ≤ t.ts_queue.length ∧
            t.ts_queue.length ≤ MAX_PCR_LOOKAHEAD + 1) := by
  intro n
  induction n with
  | zero =>
    intro this cb
    exact ⟨1, this, cb, rfl, Or.inr rfl, tsbuffer_frame_refl _, fun _ h => absurd h (by omega)⟩
  | succ n ih =>
    intro this cb
    obtain ⟨r1, t1, cb1, h1, h01, hframe1, _, _, _⟩ := read_to_next_pcr_result read this cb
    rw [refill_search, h1]
    simp only
    rcases h01 with h0 | h1r
    · subst h0
      rw [if_pos rfl]
      exact ⟨0, t1, cb1, rfl, Or.inl rfl, hframe1, fun h => absurd h (by decide)⟩
    · subst h1r
      rw [if_neg (by decide)]
      obtain ⟨hinv1, hlen1, hmax1, _, _⟩ := read_to_next_pcr_inv read this t1 cb cb1 h1
      obtain ⟨r, t, cb2, hr, hr01, hframe, hsucc⟩ := ih t1 cb1
      refine ⟨r, t, cb2, hr, hr01, tsbuffer_frame_trans _ _ _ hframe1 hframe, ?_⟩
      intro hr1 _
      cases n with
      | zero =>
        simp only [refill_search, Option.some.injEq, Prod.mk.injEq] at hr
        obtain ⟨_, ht, _⟩ := hr
        subst ht
        exact ⟨hinv1, hlen1, hmax1⟩
      | succ k => exact hsucc hr1 (by omega)

/-- The shape of a successful `tsbuffer_refill`. -/
theorem refill_success {σ : Type} (read : σ → Int → Nat → Int × List Nat × σ)
    (this t : tsbuffer) (cb cb2 : σ)
    (h : tsbuffer_refill read this cb = some (1, t, cb2)) :
    ∃ t1 back, refill_search read PCR_SMOOTH_INTERVAL this cb = some (1, t1, cb2) ∧
      t1.ts_queue.getLast? = some back ∧
      t.ts_queue = t1.ts_queue ∧ t.selected_pid = t1.selected_pid ∧
      t.iso_counter = this.iso_counter ∧ t.tsp_accum = this.tsp_accum ∧
      t.last_pcr = ts_get_pcr back ∧ t.packets_since_last_pcr = 0 ∧
      t.delta_pcr_per_packet =
        (ts_get_pcr back + 18446744073709551616 - this.last_pcr) % 18446744073709551616 /
          (t1.ts_queue.length % 4294967296) ∧
      t1.ts_queue.length % 4294967296 ≠ 0 ∧
      refill_rate (t1.ts_queue.length % 4294967296)
          ((ts_get_pcr back + 18446744073709551616 - this.last_pcr) % 18446744073709551616) =
        some (t.tsp_whole, t.tsp_num, t.tsp_denom) := by
  obtain ⟨r1, t1, cb1, hs, h01, hframe, _⟩ := refill_search_spec read PCR_SMOOTH_INTERVAL this cb
  obtain ⟨f1, _, _, _, _, f6, _, _, _, f10⟩ := hframe
  unfold tsbuffer_refill at h
  rw [hs] at h
  simp only at h
  rcases h01 with h0 | h1
  · subst h0
    rw [if_pos rfl] at h
    exact absurd h (by simp)
  · subst h1
    rw [if_neg (by decide)] at h
    cases hb : t1.ts_queue.getLast? with
    | none =>
      rw [hb] at h
      exact absurd h (by simp)
    | some back =>
      rw [hb] at h
      simp only at h
      split at h
      · exact absurd h (by simp)
      · rename_i hn
        split at h
        · exact absurd h (by simp)
        · rename_i whole num denom hrate
          simp only [Option.some.injEq, Prod.mk.injEq] at h
          obtain ⟨_, ht, hcb⟩ := h
          subst hcb
          refine ⟨t1, back, hs, hb, ?_, ?_, ?_, ?_, ?_, ?_, ?_, hn, ?_⟩
          · rw [← ht]; split_ifs <;> rfl
          · rw [← ht]; split_ifs <;> rfl
          · rw [← ht]; simp only; split_ifs <;> exact f10
          · rw [← ht]; simp only; split_ifs <;> exact f6
          · rw [← ht]
          · rw [← ht]
          · rw [← ht]; simp only; split_ifs <;> simp only [f1]
          · rw [← ht]
            simp only
            rw [← hrate]
            split_ifs <;> simp only [f1]

/-- C21, the rate computation of `tsbuffer_refill`. After a call that returns 1 the queue
holds `n` packets, `1 ≤ n ≤ 20001`, and with `pcr` the PCR of its last packet and
`delta_pcr = pcr - last_pcr` in `u64` arithmetic (the plain difference when the old
baseline is not above `pcr`): `tsp_denom = delta_pcr > 0`, `tsp_num < tsp_denom`,
`tsp_whole * tsp_denom + tsp_num = 3375 * n`, `delta_pcr_per_packet` is the quotient
`delta_pcr / n`, and the baseline `last_pcr` is `pcr`. For 1000 packets and a `delta_pcr`
of 50000000 the rate is 0 and 3375000 / 50000000. -/
theorem refill_rate_exact {σ : Type} (read : σ → Int → Nat → Int × List Nat × σ)
    (this t : tsbuffer) (cb cb2 : σ)
    (h : tsbuffer_refill read this cb = some (1, t, cb2)) :
    ∃ back, t.ts_queue.getLast? = some back ∧
      1 ≤ t.ts_queue.length ∧ t.ts_queue.length ≤ 20001 ∧
      t.tsp_denom =
        (ts_get_pcr back + 18446744073709551616 - this.last_pcr) % 18446744073709551616 ∧
      (this.last_pcr ≤ ts_get_pcr back → t.tsp_denom = ts_get_pcr back - this.last_pcr) ∧
      0 < t.tsp_denom ∧ t.tsp_num < t.tsp_denom ∧
      t.tsp_whole * t.tsp_denom + t.tsp_num = 3375 * t.ts_queue.length ∧
      t.delta_pcr_per_packet = t.tsp_denom / t.ts_queue.length ∧
      t.last_pcr = ts_get_pcr back ∧
      refill_rate 1000 50000000 = some (0, 3375000, 50000000) := by
  obtain ⟨t1, back, hs, hb, hq, _, _, _, hlast, _, hdelta, _, hrate⟩ :=
    refill_success read this t cb cb2 h
  obtain ⟨r, t2, cb3, hs2, _, _, hsucc⟩ := refill_search_spec read PCR_SMOOTH_INTERVAL this cb
  rw [hs] at hs2
  simp only [Option.some.injEq, Prod.mk.injEq] at hs2
  obtain ⟨hr, ht, _⟩ := hs2
  subst hr ht
  obtain ⟨_, hlen1, hlen2⟩ := hsucc rfl (by decide)
  have hM : MAX_PCR_LOOKAHEAD = 20000 := rfl
  have hmod : t1.ts_queue.length % 4294967296 = t1.ts_queue.length := by omega
  have hpcr := ts_get_pcr_lt back
  rw [hmod] at hrate hdelta
  unfold refill_rate at hrate
  simp only at hrate
  split at hrate
  · exact absurd hrate (by simp)
  · rename_i hne
    simp only [Option.some.injEq, Prod.mk.injEq] at hrate
    obtain ⟨hw, hn, hd⟩ := hrate
    have hnum : t1.ts_queue.length * 3375 % 4294967296 = t1.ts_queue.length * 3375 := by
      omega
    rw [hnum] at hw hn
    rw [hq]
    refine ⟨back, hb, hlen1, by omega, hd.symm, ?_, ?_, ?_, ?_, ?_, hlast, by decide⟩
    · intro hle
      rw [← hd]
      omega
    · rw [← hd]
      omega
    · rw [← hn, ← hd]
      exact Nat.mod_lt _ (by omega)
    · rw [← hw, ← hn, ← hd]
      have := Nat.div_add_mod (t1.ts_queue.length * 3375)
        ((ts_get_pcr back + 18446744073709551616 - this.last_pcr) % 18446744073709551616)
      rw [Nat.mul_comm] at this
      omega
    · rw [hdelta, ← hd]

/-- An instance of `refill_rate_exact`: a refill from an empty queue with the baseline 0
from a source whose packets 1 to 5 carry the PCRs 13500 to 67500. -/
theorem refill_rate_exact_witness :
    ∃ t cb2, tsbuffer_refill (pcr_source slowing_pcr)
        { tsbuffer_blank with selected_pid := 0x11 } 1 = some (1, t, cb2) ∧
      t.ts_queue.length = 5 ∧ t.tsp_denom = 67500 ∧ t.tsp_whole = 0 ∧ t.tsp_num = 16875 ∧
      t.last_pcr = 67500 := by
  have h : ∃ t cb2, tsbuffer_refill (pcr_source slowing_pcr)
      { tsbuffer_blank with selected_pid := 0x11 } 1 = some (1, t, cb2) ∧
      t.ts_queue.length = 5 ∧ t.ts_queue.getLast?.map ts_get_pcr = some 67500 := by
    refine ⟨_, _, rfl, ?_, ?_⟩
    · decide
    · decide
  obtain ⟨t, cb2, ht, hlen, hpcr⟩ := h
  obtain ⟨back, hb, _, _, hd, _, _, hlt, hsum, _, hlast, _⟩ :=
    refill_rate_exact (pcr_source slowing_pcr) { tsbuffer_blank with selected_pid := 0x11 } t
      1 cb2 ht
  rw [hb] at hpcr
  simp only [Option.map_some', Option.some.injEq] at hpcr
  rw [hpcr] at hd hlast
  have hd2 : t.tsp_denom = 67500 := by rw [hd]; rfl
  rw [hd2, hlen] at hsum
  rw [hd2] at hlt
  refine ⟨t, cb2, ht, hlen, hd2, ?_, ?_, hlast⟩
  · by_contra hw
    have : 1 ≤ t.tsp_whole := Nat.one_le_iff_ne_zero.mpr hw
    nlinarith
  · have : t.tsp_whole = 0 := by
      by_contra hw
      have : 1 ≤ t.tsp_whole := Nat.one_le_iff_ne_zero.mpr hw
      nlinarith
    rw [this] at hsum
    omega

/-! ### One cycle of the MPEG2 transmitter -/

/-- The loop of `tsbuffer_send_iso_cycle` that reads from the source until the queue holds
`n_tsps` packets: with `n_tsps` iterations it returns, with 0 or 1; it appends to the queue
and changes `dropped`; when it returns 1 the queue is the old one followed by the first
`n_tsps - length` packets of the source. -/
theorem send_read_loop_spec {σ : Type} (read : σ → Int → Nat → Int × List Nat × σ)
    (n : Nat) :
    ∀ (fuel : Nat) (this : tsbuffer) (cb : σ), n ≤ this.ts_queue.length + fuel →
      ∃ r t cb2, send_read_loop read n fuel this cb = some (r, t, cb2) ∧ (r = 0 ∨ r = 1) ∧
        tsbuffer_frame this t ∧ t.selected_pid = this.selected_pid ∧
        (r = 1 → t.ts_queue =
          this.ts_queue ++ source_packets read (n - this.ts_queue.length) cb this.dropped) := by
  intro fuel
  induction fuel with
  | zero =>
    intro this cb h
    rw [send_read_loop, if_neg (by omega)]
    refine ⟨1, this, cb, rfl, Or.inr rfl, tsbuffer_frame_refl _, rfl, fun _ => ?_⟩
    rw [show n - this.ts_queue.length = 0 by omega]
    simp [source_packets]
  | succ f ih =>
    intro this cb h
    rw [send_read_loop]
    by_cases hn : n > this.ts_queue.length
    · rw [if_pos hn]
      by_cases hr : (read cb 1 this.dropped).1 < 0
      · simp only [tsbuffer_read_ts, if_pos hr, if_true]
        exact ⟨0, this, _, rfl, Or.inl rfl, tsbuffer_frame_refl _, rfl,
          fun h => absurd h (by decide)⟩
      · simp only [tsbuffer_read_ts, if_neg hr, one_ne_zero, if_false]
        obtain ⟨r, t, cb2, hloop, h01, hframe, hpid, hq⟩ := ih
          { this with
            dropped := 0
            ts_queue := this.ts_queue ++ [ts_block (read cb 1 this.dropped).2.1] }
          (read cb 1 this.dropped).2.2
          (by simp only [List.length_append, List.length_singleton]; omega)
        refine ⟨r, t, cb2, hloop, h01, hframe, hpid, fun h1 => ?_⟩
        rw [hq h1]
        simp only [List.length_append, List.length_singleton, List.append_assoc,
          List.singleton_append]
        rw [show n - this.ts_queue.length = (n - (this.ts_queue.length + 1)) + 1 by omega,
          source_packets_succ]
    · rw [if_neg hn]
      refine ⟨1, this, cb, rfl, Or.inr rfl, tsbuffer_frame_refl _, rfl, fun _ => ?_⟩
      rw [show n - this.ts_queue.length = 0 by omega]
      simp [source_packets]

/-- The loop of `tsbuffer_send_iso_cycle` that writes `n` packets: it takes them from the
front of the queue, in order, each after the four bytes of its source packet header. -/
theorem send_packets_spec (be : Bool) (iso_cycle : Nat) :
    ∀ (n i : Nat) (this : tsbuffer), n ≤ this.ts_queue.length →
      ∃ t, send_packets be iso_cycle n i this =
          some (t, (List.range n).flatMap (fun k =>
            u32_image be (htonl be (make_sph (((iso_cycle + SYT_OFFSET) % 4294967296) % 8000)
              ((1000 * (i + k)) % 4294967296))) ++ ts_block (this.ts_queue.getD k []))) ∧
        t.ts_queue = this.ts_queue.drop n ∧ t.selected_pid = this.selected_pid ∧
        t.iso_counter = this.iso_counter ∧ t.tsp_accum = this.tsp_accum ∧
        t.tsp_whole = this.tsp_whole ∧ t.tsp_num = this.tsp_num ∧
        t.tsp_denom = this.tsp_denom ∧ t.last_pcr = this.last_pcr := by
  intro n
  induction n with
  | zero =>
    intro i this _
    exact ⟨this, rfl, rfl, rfl, rfl, rfl, rfl, rfl, rfl, rfl⟩
  | succ n ih =>
    intro i this h
    cases hq : this.ts_queue with
    | nil =>
      rw [hq] at h
      exact absurd h (by simp)
    | cons ts rest =>
      rw [hq] at h
      obtain ⟨t, ht, h1, h2, h3, h4, h5, h6, h7, h8⟩ := ih (i + 1)
        { this with
          ts_queue := this.ts_queue.tail
          packets_since_last_pcr := (this.packets_since_last_pcr + 1) % 4294967296 }
        (by
          simp only [hq, List.tail_cons]
          simp only [List.length_cons] at h
          omega)
      refine ⟨t, ?_, ?_, h2, h3, h4, h5, h6, h7, h8⟩
      · rw [send_packets]
        simp only [hq, List.head?_cons, List.tail_cons]
        simp only [hq, List.tail_cons] at ht
        rw [ht]
        rw [List.range_succ_eq_map, List.flatMap_cons, List.flatMap_map]
        simp only [List.getD_cons_zero, List.getD_cons_succ, Nat.add_zero, List.append_assoc,
          Function.comp_def, Nat.succ_eq_add_one]
        simp only [show ∀ k, i + 1 + k = i + (k + 1) from fun k => by omega]
      · rw [h1]
        simp only [hq, List.tail_cons, List.drop_succ_cons]

theorem send_read_loop_inv {σ : Type} (read : σ → Int → Nat → Int × List Nat × σ)
    (n fuel : Nat) (this t : tsbuffer) (cb cb2 : σ) (r : Int)
    (h : send_read_loop read n fuel this cb = some (r, t, cb2))
    (hf : n ≤ this.ts_queue.length + fuel) :
    (r = 0 ∨ r = 1) ∧ tsbuffer_frame this t ∧ t.selected_pid = this.selected_pid ∧
      (r = 1 → t.ts_queue =
        this.ts_queue ++ source_packets read (n - this.ts_queue.length) cb this.dropped) := by
  obtain ⟨r2, t2, cb3, h2, h01, hframe, hpid, hq⟩ := send_read_loop_spec read n fuel this cb hf
  rw [h] at h2
  simp only [Option.some.injEq, Prod.mk.injEq] at h2
  obtain ⟨e1, e2, _⟩ := h2
  subst e1 e2
  exact ⟨h01, hframe, hpid, hq⟩

theorem send_packets_inv (be : Bool) (iso_cycle n i : Nat) (this t : tsbuffer)
    (bytes : List Nat) (h : send_packets be iso_cycle n i this = some (t, bytes))
    (hn : n ≤ this.ts_queue.length) :
    bytes = (List.range n).flatMap (fun k =>
        u32_image be (htonl be (make_sph (((iso_cycle + SYT_OFFSET) % 4294967296) % 8000)
          ((1000 * (i + k)) % 4294967296))) ++ ts_block (this.ts_queue.getD k [])) ∧
      t.ts_queue = this.ts_queue.drop n ∧ t.selected_pid = this.selected_pid ∧
      t.iso_counter = this.iso_counter ∧ t.tsp_accum = this.tsp_accum ∧
      t.tsp_whole = this.tsp_whole ∧ t.tsp_num = this.tsp_num ∧
      t.tsp_denom = this.tsp_denom ∧ t.last_pcr = this.last_pcr := by
  obtain ⟨t2, h2, hrest⟩ := send_packets_spec be iso_cycle n i this hn
  rw [h] at h2
  simp only [Option.some.injEq, Prod.mk.injEq] at h2
  obtain ⟨e1, e2⟩ := h2
  subst e1
  exact ⟨e2, hrest⟩

/-- A call of `tsbuffer_refill` returns 0 or 1 when it is defined; when it returns 1 the
queue ends with a packet that has a PCR, and the accumulator, the continuity counter and
`packets_since_last_pcr = 0` are as stated. -/
theorem refill_inv {σ : Type} (read : σ → Int → Nat → Int × List Nat × σ)
    (this t : tsbuffer) (cb cb2 : σ) (r : Int)
    (h : tsbuffer_refill read this cb = some (r, t, cb2)) :
    (r = 0 ∨ r = 1) ∧
      (r = 1 → tsbuffer_inv t ∧ t.ts_queue.length ≤ MAX_PCR_LOOKAHEAD + 1 ∧
        t.iso_counter = this.iso_counter ∧ t.tsp_accum = this.tsp_accum ∧
        t.packets_since_last_pcr = 0 ∧
        t.ts_queue.getLast?.map ts_get_pcr = some t.last_pcr) := by
  have h01 : r = 0 ∨ r = 1 := by
    obtain ⟨r1, t1, cb1, hs, h01, _⟩ := refill_search_spec read PCR_SMOOTH_INTERVAL this cb
    unfold tsbuffer_refill at h
    rw [hs] at h
    simp only at h
    split at h
    · simp only [Option.some.injEq, Prod.mk.injEq] at h
      exact Or.inl h.1.symm
    · split at h
      · exact absurd h (by simp)
      · split at h
        · exact absurd h (by simp)
        · split at h
          · exact absurd h (by simp)
          · simp only [Option.some.injEq, Prod.mk.injEq] at h
            exact Or.inr h.1.symm
  refine ⟨h01, fun h1 => ?_⟩
  subst h1
  obtain ⟨t1, back, hs, hb, hq, hpid, hiso, hacc, hlast, hp, _⟩ :=
    refill_success read this t cb cb2 h
  obtain ⟨r, t2, cb3, hs2, _, _, hsucc⟩ := refill_search_spec read PCR_SMOOTH_INTERVAL this cb
  rw [hs] at hs2
  simp only [Option.some.injEq, Prod.mk.injEq] at hs2
  obtain ⟨hr, ht, _⟩ := hs2
  subst hr ht
  obtain ⟨⟨b, hb1, hb2⟩, _, hlen2⟩ := hsucc rfl (by decide)
  exact ⟨⟨b, by rw [hq]; exact hb1, by rw [hpid]; exact hb2⟩, by rw [hq]; exact hlen2,
    hiso, hacc, hp, by rw [hq, hb, hlast]; rfl⟩

theorem send_prepare_fields (this : tsbuffer) (dropped : Nat) :
    (send_prepare this dropped).ts_queue = this.ts_queue ∧
    (send_prepare this dropped).dropped = dropped ∧
    (send_prepare this dropped).selected_pid = this.selected_pid ∧
    (send_prepare this dropped).iso_counter = this.iso_counter ∧
    (send_prepare this dropped).tsp_whole = this.tsp_whole ∧
    (send_prepare this dropped).tsp_num = this.tsp_num ∧
    (send_prepare this dropped).tsp_denom = this.tsp_denom ∧
    (send_prepare this dropped).last_pcr = this.last_pcr ∧
    (send_prepare this dropped).tsp_accum = (send_accumulate this).2.tsp_accum := by
  unfold send_prepare send_accumulate
  simp only
  split_ifs <;> exact ⟨rfl, rfl, rfl, rfl, rfl, rfl, rfl, rfl, rfl⟩

theorem send_accumulate_dropped (this : tsbuffer) (dropped : Nat) :
    (send_accumulate { this with dropped := dropped }).1 = (send_accumulate this).1 := by
  unfold send_accumulate
  simp only
  split_ifs <;> rfl

/-- The function `tsbuffer_send_iso_cycle` in terms of `send_n_tsps` and
`send_prepare`. -/
theorem send_iso_cycle_unfold {σ : Type} (read : σ → Int → Nat → Int × List Nat × σ)
    (be : Bool) (this : tsbuffer) (cb : σ) (iso_cycle src_node_id dropped : Nat) :
    tsbuffer_send_iso_cycle read be this cb iso_cycle src_node_id dropped =
      match send_read_loop read (send_n_tsps this) (send_n_tsps this)
          (send_prepare this dropped) cb with
      | none => none
      | some (r, t, cb1) =>
        if r = 0 then some { len := 0, this := t, callback_data := cb1, data := [] }
        else
          match send_packets be iso_cycle (send_n_tsps this) 0 t with
          | none => none
          | some (t2, packets) =>
            if t2.ts_queue.length = 0 then
              match tsbuffer_refill read t2 cb1 with
              | none => none
              | some (r3, t3, cb3) =>
                if r3 = 0 then
                  some { len := 0, this := t3, callback_data := cb3,
                         data := fill_mpeg_cip_header src_node_id t.iso_counter ++ packets }
                else
                  some
                    { len := (8 + send_n_tsps this * 192) % 4294967296
                      this := { t3 with
                                iso_counter :=
                                  (t3.iso_counter + 8 * send_n_tsps this) % 4294967296 }
                      callback_data := cb3
                      data := fill_mpeg_cip_header src_node_id t.iso_counter ++ packets }
            else
              some
                { len := (8 + send_n_tsps this * 192) % 4294967296
                  this := { t2 with
                            iso_counter := (t2.iso_counter + 8 * send_n_tsps this) % 4294967296 }
                  callback_data := cb1
                  data := fill_mpeg_cip_header src_node_id t.iso_counter ++ packets } := by
  have a1 := send_accumulate_dropped this dropped
  unfold tsbuffer_send_iso_cycle send_n_tsps send_prepare
  simp only [a1]


/-- A call of `tsbuffer_send_iso_cycle` that returns a length other than 0: the length, the
bytes written, the continuity counter and the accumulator; the queue when it is not
drained, and what holds when it is. -/
theorem send_iso_cycle_spec {σ : Type} (read : σ → Int → Nat → Int × List Nat × σ)
    (be : Bool) (this : tsbuffer) (cb : σ) (iso_cycle src_node_id dropped : Nat)
    (r : send_iso_cycle_result σ)
    (h : tsbuffer_send_iso_cycle read be this cb iso_cycle src_node_id dropped = some r)
    (hlen : r.len ≠ 0) :
    r.len = (8 + send_n_tsps this * 192) % 4294967296 ∧
    r.data = fill_mpeg_cip_header src_node_id this.iso_counter ++
      (List.range (send_n_tsps this)).flatMap (fun k =>
        u32_image be (htonl be (make_sph (((iso_cycle + SYT_OFFSET) % 4294967296) % 8000)
          ((1000 * (0 + k)) % 4294967296))) ++
        ts_block ((this.ts_queue ++ source_packets read
          (send_n_tsps this - this.ts_queue.length) cb dropped).getD k [])) ∧
    r.this.iso_counter = (this.iso_counter + 8 * send_n_tsps this) % 4294967296 ∧
    r.this.tsp_accum = (send_accumulate this).2.tsp_accum ∧
    (send_n_tsps this < this.ts_queue.length →
      r.this.ts_queue = this.ts_queue.drop (send_n_tsps this) ∧
      r.this.selected_pid = this.selected_pid ∧ r.this.tsp_whole = this.tsp_whole ∧
      r.this.tsp_num = this.tsp_num ∧ r.this.tsp_denom = this.tsp_denom ∧
      r.this.last_pcr = this.last_pcr) ∧
    (this.ts_queue.length ≤ send_n_tsps this →
      tsbuffer_inv r.this ∧ r.this.ts_queue.length ≤ MAX_PCR_LOOKAHEAD + 1 ∧
      r.this.packets_since_last_pcr = 0 ∧
      r.this.ts_queue.getLast?.map ts_get_pcr = some r.this.last_pcr) := by
  obtain ⟨p1, p2, p3, p4, p5, p6, p7, p8, p9⟩ := send_prepare_fields this dropped
  rw [send_iso_cycle_unfold] at h
  split at h
  · exact absurd h (by simp)
  · rename_i r1 t1 cb1 hloop
    obtain ⟨h01, hframe, hpid, hq⟩ := send_read_loop_inv read _ _ _ _ _ _ _ hloop
      (by rw [p1]; omega)
    obtain ⟨f1, _, _, _, _, f6, f7, f8, f9, f10⟩ := hframe
    rcases h01 with h0 | h1
    · subst h0
      rw [if_pos rfl] at h
      simp only [Option.some.injEq] at h
      rw [← h] at hlen
      exact absurd rfl hlen
    · subst h1
      rw [if_neg (by decide)] at h
      have hq1 := hq rfl
      rw [p1, p2] at hq1
      have hlenq : send_n_tsps this ≤ t1.ts_queue.length := by
        rw [hq1, List.length_append, source_packets_length]
        omega
      split at h
      · exact absurd h (by simp)
      · rename_i t2 packets hpk
        obtain ⟨hbytes, g1, g2, g3, g4, g5, g6, g7, g8⟩ :=
          send_packets_inv be iso_cycle _ 0 t1 t2 packets hpk hlenq
        have hdata : fill_mpeg_cip_header src_node_id t1.iso_counter ++ packets =
            fill_mpeg_cip_header src_node_id this.iso_counter ++
              (List.range (send_n_tsps this)).flatMap (fun k =>
                u32_image be (htonl be
                  (make_sph (((iso_cycle + SYT_OFFSET) % 4294967296) % 8000)
                    ((1000 * (0 + k)) % 4294967296))) ++
                ts_block ((this.ts_queue ++ source_packets read
                  (send_n_tsps this - this.ts_queue.length) cb dropped).getD k [])) := by
          rw [hbytes, f10, p4, hq1]
        have hlen2 : t2.ts_queue.length = t1.ts_queue.length - send_n_tsps this := by
          rw [g1, List.length_drop]
        have hlen1 : t1.ts_queue.length =
            this.ts_queue.length + (send_n_tsps this - this.ts_queue.length) := by
          rw [hq1, List.length_append, source_packets_length]
        by_cases hz : t2.ts_queue.length = 0
        · rw [if_pos hz] at h
          split at h
          · exact absurd h (by simp)
          · rename_i r3 t3 cb3 hrefill
            obtain ⟨h301, h3⟩ := refill_inv read t2 t3 cb1 cb3 r3 hrefill
            rcases h301 with h30 | h31
            · subst h30
              rw [if_pos rfl] at h
              simp only [Option.some.injEq] at h
              rw [← h] at hlen
              exact absurd rfl hlen
            · subst h31
              rw [if_neg (by decide)] at h
              simp only [Option.some.injEq] at h
              obtain ⟨⟨b, hb1, hb2⟩, hmax, hiso, hacc, hps, hbase⟩ := h3 rfl
              rw [← h]
              refine ⟨rfl, hdata, ?_, ?_, ?_, ?_⟩
              · show (t3.iso_counter + 8 * send_n_tsps this) % 4294967296 = _
                rw [hiso, g3, f10, p4]
              · show t3.tsp_accum = _
                rw [hacc, g4, f6, p9]
              · intro hlt
                omega
              · intro _
                exact ⟨⟨b, hb1, hb2⟩, hmax, hps, hbase⟩
        · rw [if_neg hz] at h
          simp only [Option.some.injEq] at h
          rw [← h]
          have hlt : send_n_tsps this < this.ts_queue.length := by omega
          have hsrc : source_packets read (send_n_tsps this - this.ts_queue.length) cb
              dropped = [] := by
            rw [show send_n_tsps this - this.ts_queue.length = 0 by omega]
            simp [source_packets]
          refine ⟨rfl, hdata, ?_, ?_, ?_, ?_⟩
          · show (t2.iso_counter + 8 * send_n_tsps this) % 4294967296 = _
            rw [g3, f10, p4]
          · show t2.tsp_accum = _
            rw [g4, f6, p9]
          · intro _
            refine ⟨?_, ?_, ?_, ?_, ?_, ?_⟩
            · show t2.ts_queue = _
              rw [g1, hq1, hsrc, List.append_nil]
            · show t2.selected_pid = _
              rw [g2, hpid, p3]
            · show t2.tsp_whole = _
              rw [g5, f7, p5]
            · show t2.tsp_num = _
              rw [g6, f8, p6]
            · show t2.tsp_denom = _
              rw [g7, f9, p7]
            · show t2.last_pcr = _
              rw [g8, f1, p8]
          · intro hle
            omega

theorem ts_block_length (bytes : List Nat) : (ts_block bytes).length = 188 := by
  unfold ts_block
  rw [List.length_take, List.length_append, List.length_replicate]
  omega

theorem flatMap_length_const (f : Nat → List Nat) (c : Nat) (hf : ∀ k, (f k).length = c) :
    ∀ l : List Nat, (l.flatMap f).length = c * l.length := by
  intro l
  induction l with
  | nil => simp
  | cons a l ih =>
    rw [List.flatMap_cons, List.length_append, hf, ih, List.length_cons]
    ring

theorem make_sph_args (iso_cycle k : Nat) (h : iso_cycle + 7 < 4294967296) :
    make_sph (((iso_cycle + SYT_OFFSET) % 4294967296) % 8000) ((1000 * (0 + k)) % 4294967296) =
      ((((iso_cycle + 7) % 8000) &&& 0x1FFF) <<< 12) ||| ((1000 * k) &&& 0xFFF) := by
  unfold make_sph
  have h1 : (iso_cycle + SYT_OFFSET) % 4294967296 = iso_cycle + 7 := Nat.mod_eq_of_lt h
  have h2 : ∀ x : Nat, x &&& 0xfff = x % 4096 := fun x => Nat.and_pow_two_sub_one_eq_mod x 12
  rw [h1, h2, h2, Nat.zero_add, Nat.mod_mod_of_dvd _ (by decide : 4096 ∣ 4294967296)]

theorem refill_iso_counter {σ : Type} (read : σ → Int → Nat → Int × List Nat × σ)
    (this t : tsbuffer) (cb cb2 : σ) (r : Int)
    (h : tsbuffer_refill read this cb = some (r, t, cb2)) :
    t.iso_counter = this.iso_counter := by
  obtain ⟨h01, h1⟩ := refill_inv read this t cb cb2 r h
  rcases h01 with h0 | h1r
  · subst h0
    obtain ⟨r1, t1, cb1, hs, _, hframe, _⟩ := refill_search_spec read PCR_SMOOTH_INTERVAL this cb
    unfold tsbuffer_refill at h
    rw [hs] at h
    simp only at h
    split at h
    · simp only [Option.some.injEq, Prod.mk.injEq] at h
      rw [← h.2.1]
      exact hframe.2.2.2.2.2.2.2.2.2
    · split at h
      · exact absurd h (by simp)
      · split at h
        · exact absurd h (by simp)
        · split at h
          · exact absurd h (by simp)
          · simp only [Option.some.injEq, Prod.mk.injEq] at h
            exact absurd h.1 (by decide)
  · exact (h1 h1r).2.2.1

/-- The continuity counter is 0 after `tsbuffer_init`. -/
theorem init_iso_counter {σ : Type} (read : σ → Int → Nat → Int × List Nat × σ) (cb : σ)
    (pid : Int) (calloc_ok : Bool) (res : tsbuffer_init_result σ) (t : tsbuffer)
    (h : tsbuffer_init calloc_ok read cb pid = some res) (ht : res.this = some t) :
    t.iso_counter = 0 := by
  unfold tsbuffer_init at h
  split at h
  · simp only at h
    split at h
    · exact absurd h (by simp)
    · rename_i r1 t1 cb1 hsearch
      obtain ⟨r, t2, cb3, hres, _, hframe, _⟩ := read_to_next_pcr_result read _ cb
      rw [hsearch] at hres
      simp only [Option.some.injEq, Prod.mk.injEq] at hres
      obtain ⟨_, e2, _⟩ := hres
      subst e2
      split at h
      · exact absurd h (by simp)
      · split at h
        · exact absurd h (by simp)
        · rename_i r2 t3 cb4 hrefill
          simp only [Option.some.injEq] at h
          rw [← h] at ht
          simp only [Option.some.injEq] at ht
          rw [← ht, refill_iso_counter read _ t3 cb1 cb4 r2 hrefill]
          exact hframe.2.2.2.2.2.2.2.2.2
  · simp only [Option.some.injEq] at h
    rw [← h] at ht
    exact absurd ht (by simp)

/-- C23, the wire layout of an MPEG2 transmit cycle. A call of `tsbuffer_send_iso_cycle`
that returns a length other than 0, with `iso_cycle + 7` and `8 + 192 * n` in the range of
`unsigned int`, where `n` is the number of packets chosen: it returns `8 + 192 * n` and
writes as many bytes, first `[src_node_id, 0x06, 0xC4, c, 0xA0, 0x80, 0x00, 0x00]` with `c`
the low byte of `iso_counter`, then for `i = 0 .. n - 1` the four bytes, most significant
first, of `((((iso_cycle + 7) mod 8000) & 0x1FFF) << 12) | ((1000 * i) & 0xFFF)` and the
188 bytes of the packet number `i` of the queue, front first, the queue being continued by
the packets read from the source in this call, in the order read. The counter
`iso_counter` is 0 after `tsbuffer_init` and grows by `8 * n` modulo `2 ^ 32`: if it is
`8 * sent` modulo `2 ^ 32` before the call, then `c` is `8 * sent` modulo 256 and it is
`8 * (sent + n)` modulo `2 ^ 32` after the call. -/
theorem send_iso_cycle_layout {σ : Type} (read : σ → Int → Nat → Int × List Nat × σ)
    (be : Bool) (this : tsbuffer) (cb : σ) (iso_cycle src_node_id dropped sent : Nat)
    (r : send_iso_cycle_result σ)
    (h : tsbuffer_send_iso_cycle read be this cb iso_cycle src_node_id dropped = some r)
    (hlen : r.len ≠ 0) (hcycle : iso_cycle + 7 < 4294967296)
    (hn : 8 + 192 * send_n_tsps this < 4294967296) :
    r.len = 8 + 192 * send_n_tsps this ∧ r.data.length = 8 + 192 * send_n_tsps this ∧
    r.data =
      [src_node_id % 256, 0x06, 0xC4, this.iso_counter % 256, 0xA0, 0x80, 0x00, 0x00] ++
        (List.range (send_n_tsps this)).flatMap (fun i =>
          [(((((iso_cycle + 7) % 8000) &&& 0x1FFF) <<< 12) ||| ((1000 * i) &&& 0xFFF)) /
              16777216 % 256,
            (((((iso_cycle + 7) % 8000) &&& 0x1FFF) <<< 12) ||| ((1000 * i) &&& 0xFFF)) /
              65536 % 256,
            (((((iso_cycle + 7) % 8000) &&& 0x1FFF) <<< 12) ||| ((1000 * i) &&& 0xFFF)) /
              256 % 256,
            (((((iso_cycle + 7) % 8000) &&& 0x1FFF) <<< 12) ||| ((1000 * i) &&& 0xFFF)) %
              256] ++
          ts_block ((this.ts_queue ++ source_packets read
            (send_n_tsps this - this.ts_queue.length) cb dropped).getD i [])) ∧
    (∀ i, (ts_block ((this.ts_queue ++ source_packets read
        (send_n_tsps this - this.ts_queue.length) cb dropped).getD i [])).length = 188) ∧
    r.this.iso_counter = (this.iso_counter + 8 * send_n_tsps this) % 4294967296 ∧
    (this.iso_counter = (8 * sent) % 4294967296 →
      this.iso_counter % 256 = (8 * sent) % 256 ∧
        r.this.iso_counter = (8 * (sent + send_n_tsps this)) % 4294967296) ∧
    (∀ (calloc_ok : Bool) (pid : Int) (res : tsbuffer_init_result σ) (t : tsbuffer),
      tsbuffer_init calloc_ok read cb pid = some res → res.this = some t →
        t.iso_counter = 0) := by
  obtain ⟨h1, h2, h3, _, _, _⟩ :=
    send_iso_cycle_spec read be this cb iso_cycle src_node_id dropped r h hlen
  have hdata : r.data =
      [src_node_id % 256, 0x06, 0xC4, this.iso_counter % 256, 0xA0, 0x80, 0x00, 0x00] ++
        (List.range (send_n_tsps this)).flatMap (fun i =>
          [(((((iso_cycle + 7) % 8000) &&& 0x1FFF) <<< 12) ||| ((1000 * i) &&& 0xFFF)) /
              16777216 % 256,
            (((((iso_cycle + 7) % 8000) &&& 0x1FFF) <<< 12) ||| ((1000 * i) &&& 0xFFF)) /
              65536 % 256,
            (((((iso_cycle + 7) % 8000) &&& 0x1FFF) <<< 12) ||| ((1000 * i) &&& 0xFFF)) /
              256 % 256,
            (((((iso_cycle + 7) % 8000) &&& 0x1FFF) <<< 12) ||| ((1000 * i) &&& 0xFFF)) %
              256] ++
          ts_block ((this.ts_queue ++ source_packets read
            (send_n_tsps this - this.ts_queue.length) cb dropped).getD i [])) := by
    rw [h2]
    simp only [u32_image_htonl, make_sph_args _ _ hcycle]
    rfl
  refine ⟨?_, ?_, hdata, fun i => ts_block_length _, h3, ?_, ?_⟩
  · rw [h1]
    omega
  · rw [hdata, List.length_append, flatMap_length_const _ 192 (fun k => by
      rw [List.length_append, ts_block_length]; rfl), List.length_range]
    rfl
  · intro hs
    rw [h3, hs]
    constructor <;> omega
  · intro calloc_ok pid res t hinit ht
    exact init_iso_counter read cb pid calloc_ok res t hinit ht

/-- An instance of `send_iso_cycle_layout`: one cycle with the cycle number 100 and the
node id 0x21 on the buffer `tsbuffer_two_packets`, whatever the source. -/
theorem send_iso_cycle_layout_witness :
    ∃ r, tsbuffer_send_iso_cycle failing_source false tsbuffer_two_packets () 100 0x21 0 =
        some r ∧
      r.len = 200 ∧ r.data.length = 200 ∧
      r.data.take 12 = [0x21, 0x06, 0xC4, 16, 0xA0, 0x80, 0x00, 0x00, 0x00, 0x06, 0xB0, 0x00] ∧
      r.this.iso_counter = 24 := by
  have h : ∃ r, tsbuffer_send_iso_cycle failing_source false tsbuffer_two_packets () 100 0x21
      0 = some r ∧ r.len = 200 := ⟨_, rfl, by decide⟩
  obtain ⟨r, hr, hlen⟩ := h
  obtain ⟨_, h2, h3, _, h5, _, _⟩ :=
    send_iso_cycle_layout failing_source false tsbuffer_two_packets () 100 0x21 0 2 r hr
      (by rw [hlen]; decide) (by decide) (by decide)
  refine ⟨r, hr, hlen, ?_, ?_, ?_⟩
  · rw [h2]
    decide
  · rw [h3]
    decide
  · rw [h5]
    decide

/-! ### The invariant of the smoothing queue -/

/-- C28, the invariant of the smoothing queue. When the `tsbuffer_refill` of
`tsbuffer_init` returns 1, the queue of the new buffer is not empty and ends with a packet
for which `ts_has_pcr` returns 1 for the selected PID (`tsbuffer_inv`). A call of
`tsbuffer_send_iso_cycle` that starts with this invariant and returns a length other than
0 ends with it. When the call takes every packet of the queue (`length ≤ n_tsps`) it
returns 0, or it has refilled the queue before it returns: no packet is counted since the
last PCR and the baseline `last_pcr` is the PCR of the last queued packet. -/
theorem smoothing_queue_invariant {σ : Type} (read : σ → Int → Nat → Int × List Nat × σ)
    (be : Bool) :
    (∀ (calloc_ok : Bool) (cb : σ) (pid : Int) (res : tsbuffer_init_result σ),
      tsbuffer_init calloc_ok read cb pid = some res → res.refill_result = 1 →
        ∃ t, res.this = some t ∧ tsbuffer_inv t) ∧
    (∀ (this : tsbuffer) (cb : σ) (iso_cycle src_node_id dropped : Nat)
      (r : send_iso_cycle_result σ),
      tsbuffer_send_iso_cycle read be this cb iso_cycle src_node_id dropped = some r →
        (tsbuffer_inv this → r.len ≠ 0 → tsbuffer_inv r.this ∧ r.this.ts_queue ≠ []) ∧
        (this.ts_queue.length ≤ send_n_tsps this →
          r.len = 0 ∨
            (r.this.ts_queue ≠ [] ∧ r.this.packets_since_last_pcr = 0 ∧
              r.this.ts_queue.getLast?.map ts_get_pcr = some r.this.last_pcr))) := by
  have hne : ∀ t : tsbuffer, tsbuffer_inv t → t.ts_queue ≠ [] := by
    rintro t ⟨b, hb, _⟩ hnil
    rw [hnil] at hb
    exact absurd hb (by simp)
  constructor
  · intro calloc_ok cb pid res h hres
    unfold tsbuffer_init at h
    split at h
    · simp only at h
      split at h
      · exact absurd h (by simp)
      · split at h
        · exact absurd h (by simp)
        · split at h
          · exact absurd h (by simp)
          · rename_i r2 t3 cb4 hrefill
            simp only [Option.some.injEq] at h
            rw [← h] at hres ⊢
            simp only at hres
            subst hres
            exact ⟨t3, rfl, (refill_inv read _ t3 _ cb4 1 hrefill).2 rfl |>.1⟩
    · simp only [Option.some.injEq] at h
      rw [← h] at hres
      exact absurd (show (0 : Int) = 1 from hres) (by decide)
  · intro this cb iso_cycle src_node_id dropped r h
    constructor
    · intro hinv hlen
      obtain ⟨_, _, _, _, hkeep, hdrain⟩ :=
        send_iso_cycle_spec read be this cb iso_cycle src_node_id dropped r h hlen
      have hres : tsbuffer_inv r.this := by
        by_cases hlt : send_n_tsps this < this.ts_queue.length
        · obtain ⟨hq, hpid, _⟩ := hkeep hlt
          obtain ⟨b, hb1, hb2⟩ := hinv
          refine ⟨b, ?_, ?_⟩
          · rw [hq, List.getLast?_drop, if_neg (by omega)]
            exact hb1
          · rw [hpid]
            exact hb2
        · exact (hdrain (by omega)).1
      exact ⟨hres, hne _ hres⟩
    · intro hle
      by_cases hlen : r.len = 0
      · exact Or.inl hlen
      · obtain ⟨_, _, _, _, _, hdrain⟩ :=
          send_iso_cycle_spec read be this cb iso_cycle src_node_id dropped r h hlen
        obtain ⟨hinv, _, hps, hbase⟩ := hdrain hle
        exact Or.inr ⟨hne _ hinv, hps, hbase⟩

/-- An instance of `smoothing_queue_invariant`: one cycle on the buffer
`tsbuffer_two_packets`, which sends the first of its two packets. -/
theorem smoothing_queue_invariant_witness :
    tsbuffer_inv tsbuffer_two_packets ∧
    ∃ r, tsbuffer_send_iso_cycle failing_source false tsbuffer_two_packets () 100 0x21 0 =
        some r ∧ r.len = 200 ∧ tsbuffer_inv r.this ∧ r.this.ts_queue ≠ [] := by
  have hinv : tsbuffer_inv tsbuffer_two_packets := ⟨pcr_packet 0x11 300 2, rfl, by decide⟩
  have h : ∃ r, tsbuffer_send_iso_cycle failing_source false tsbuffer_two_packets () 100 0x21
      0 = some r ∧ r.len = 200 := ⟨_, rfl, by decide⟩
  obtain ⟨r, hr, hlen⟩ := h
  have hres := ((smoothing_queue_invariant failing_source false).2 tsbuffer_two_packets ()
    100 0x21 0 r hr).1 hinv (by rw [hlen]; decide)
  exact ⟨hinv, r, hr, hlen, hres⟩

/-! ### The duty-cycle accumulator of the MPEG2 transmitter -/

/-- One step of the accumulator on a buffer with `tsp_num ≤ tsp_denom < 2 ^ 64`: no `u64`
operation wraps; the new accumulator is `tsp_accum + tsp_num` less `tsp_denom` for a
packet added, and it is at most `tsp_denom` when `tsp_accum` is. -/
theorem send_accumulate_step (this : tsbuffer) (hnum : this.tsp_num ≤ this.tsp_denom)
    (hden : this.tsp_denom < 18446744073709551616)
    (hacc : this.tsp_accum < 18446744073709551616) :
    (send_accumulate this).1 ≤ 1 ∧
    (send_accumulate this).2.tsp_accum + (send_accumulate this).1 * this.tsp_denom =
      this.tsp_accum + this.tsp_num ∧
    (this.tsp_accum ≤ this.tsp_denom → (send_accumulate this).2.tsp_accum ≤ this.tsp_denom) ∧
    ((send_accumulate this).1 = 1 ↔ this.tsp_accum > this.tsp_denom - this.tsp_num) ∧
    (send_accumulate this).2.tsp_whole = this.tsp_whole ∧
    (send_accumulate this).2.tsp_num = this.tsp_num ∧
    (send_accumulate this).2.tsp_denom = this.tsp_denom := by
  have hgap : (this.tsp_denom + 18446744073709551616 - this.tsp_num) % 18446744073709551616 =
      this.tsp_denom - this.tsp_num := by omega
  unfold send_accumulate
  simp only [hgap]
  by_cases hc : this.tsp_accum > this.tsp_denom - this.tsp_num
  · simp only [if_pos hc]
    refine ⟨le_refl _, ?_, ?_, ?_, trivial, trivial, trivial⟩
    · show (this.tsp_accum + 18446744073709551616 - (this.tsp_denom - this.tsp_num)) %
        18446744073709551616 + 1 * this.tsp_denom = _
      omega
    · intro hle
      show (this.tsp_accum + 18446744073709551616 - (this.tsp_denom - this.tsp_num)) %
        18446744073709551616 ≤ _
      omega
    · exact ⟨fun _ => hc, fun _ => trivial⟩
  · simp only [if_neg hc]
    refine ⟨Nat.zero_le _, ?_, ?_, ?_, trivial, trivial, trivial⟩
    · show (this.tsp_accum + this.tsp_num) % 18446744073709551616 + 0 * this.tsp_denom = _
      omega
    · intro hle
      show (this.tsp_accum + this.tsp_num) % 18446744073709551616 ≤ _
      omega
    · exact ⟨fun h => absurd h (by decide), fun h => absurd h hc⟩

/-- The accumulator over `n` cycles at a fixed rate. -/
theorem send_accumulate_run_sum :
    ∀ (n : Nat) (this : tsbuffer), this.tsp_num ≤ this.tsp_denom →
      this.tsp_denom < 18446744073709551616 → this.tsp_accum ≤ this.tsp_denom →
      this.tsp_whole + 1 < 4294967296 →
      (send_accumulate_run n this).1.length = n ∧
      (∀ k ∈ (send_accumulate_run n this).1, k = this.tsp_whole ∨ k = this.tsp_whole + 1) ∧
      (send_accumulate_run n this).2.tsp_accum ≤ this.tsp_denom ∧
      (send_accumulate_run n this).1.sum * this.tsp_denom +
          (send_accumulate_run n this).2.tsp_accum =
        this.tsp_accum + n * (this.tsp_whole * this.tsp_denom + this.tsp_num) := by
  intro n
  induction n with
  | zero =>
    intro this _ _ hacc _
    exact ⟨rfl, fun k hk => absurd hk (by simp [send_accumulate_run]), hacc, by
      simp [send_accumulate_run]⟩
  | succ n ih =>
    intro this hnum hden hacc hwhole
    obtain ⟨s1, s3, s2a, _, s5, s6, s7⟩ := send_accumulate_step this hnum hden (by omega)
    have s2 := s2a hacc
    obtain ⟨i1, i2, i3, i4⟩ := ih (send_accumulate this).2 (by rw [s6, s7]; exact hnum)
      (by rw [s7]; exact hden) (by rw [s7]; exact s2) (by rw [s5]; exact hwhole)
    rw [s5, s6, s7] at i4
    rw [s7] at i3
    rw [s5] at i2
    have hk : (this.tsp_whole % 4294967296 + (send_accumulate this).1) % 4294967296 =
        this.tsp_whole + (send_accumulate this).1 := by omega
    simp only [send_accumulate_run, hk, List.length_cons, List.mem_cons, List.sum_cons]
    refine ⟨by rw [i1], ?_, i3, ?_⟩
    · intro k hk2
      rcases hk2 with hk2 | hk2
      · rw [hk2]
        have : (send_accumulate this).1 = 0 ∨ (send_accumulate this).1 = 1 := by omega
        rcases this with h | h <;> rw [h]
        · left; rfl
        · right; rfl
      · exact i2 k hk2
    · have e : (this.tsp_whole + (send_accumulate this).1 +
          (send_accumulate_run n (send_accumulate this).2).1.sum) * this.tsp_denom =
          this.tsp_whole * this.tsp_denom + (send_accumulate this).1 * this.tsp_denom +
            (send_accumulate_run n (send_accumulate this).2).1.sum * this.tsp_denom := by ring
      rw [e]
      have e2 : (n + 1) * (this.tsp_whole * this.tsp_denom + this.tsp_num) =
          n * (this.tsp_whole * this.tsp_denom + this.tsp_num) +
            (this.tsp_whole * this.tsp_denom + this.tsp_num) := by ring
      rw [e2]
      omega

/-- The rate set by a successful `tsbuffer_refill` has `tsp_num < tsp_denom`. -/
theorem refill_num_lt {σ : Type} (read : σ → Int → Nat → Int × List Nat × σ)
    (this t : tsbuffer) (cb cb2 : σ)
    (h : tsbuffer_refill read this cb = some (1, t, cb2)) : t.tsp_num < t.tsp_denom := by
  obtain ⟨t1, back, _, _, _, _, _, _, _, _, _, _, hrate⟩ :=
    refill_success read this t cb cb2 h
  unfold refill_rate at hrate
  simp only at hrate
  split at hrate
  · exact absurd hrate (by simp)
  · rename_i hd
    simp only [Option.some.injEq, Prod.mk.injEq] at hrate
    obtain ⟨_, hn, hdn⟩ := hrate
    rw [← hn, ← hdn]
    exact Nat.mod_lt _ (Nat.pos_of_ne_zero hd)

/-- A call of `tsbuffer_send_iso_cycle` that returns a length other than 0 keeps
`tsp_num ≤ tsp_denom`. -/
theorem send_iso_cycle_rate {σ : Type} (read : σ → Int → Nat → Int × List Nat × σ)
    (be : Bool) (this : tsbuffer) (cb : σ) (iso_cycle src_node_id dropped : Nat)
    (r : send_iso_cycle_result σ)
    (h : tsbuffer_send_iso_cycle read be this cb iso_cycle src_node_id dropped = some r)
    (hlen : r.len ≠ 0) (hnum : this.tsp_num ≤ this.tsp_denom) :
    r.this.tsp_num ≤ r.this.tsp_denom := by
  obtain ⟨p1, p2, p3, p4, p5, p6, p7, p8, p9⟩ := send_prepare_fields this dropped
  rw [send_iso_cycle_unfold] at h
  split at h
  · exact absurd h (by simp)
  · rename_i r1 t1 cb1 hloop
    obtain ⟨h01, hframe, hpid, hq⟩ := send_read_loop_inv read _ _ _ _ _ _ _ hloop
      (by rw [p1]; omega)
    obtain ⟨f1, _, _, _, _, f6, f7, f8, f9, f10⟩ := hframe
    rcases h01 with h0 | h1
    · subst h0
      rw [if_pos rfl] at h
      simp only [Option.some.injEq] at h
      rw [← h] at hlen
      exact absurd rfl hlen
    · subst h1
      rw [if_neg (by decide)] at h
      have hq1 := hq rfl
      rw [p1, p2] at hq1
      have hlenq : send_n_tsps this ≤ t1.ts_queue.length := by
        rw [hq1, List.length_append, source_packets_length]
        omega
      split at h
      · exact absurd h (by simp)
      · rename_i t2 packets hpk
        obtain ⟨_, g1, g2, g3, g4, g5, g6, g7, g8⟩ :=
          send_packets_inv be iso_cycle _ 0 t1 t2 packets hpk hlenq
        by_cases hz : t2.ts_queue.length = 0
        · rw [if_pos hz] at h
          split at h
          · exact absurd h (by simp)
          · rename_i r3 t3 cb3 hrefill
            obtain ⟨h301, _⟩ := refill_inv read t2 t3 cb1 cb3 r3 hrefill
            rcases h301 with h30 | h31
            · subst h30
              rw [if_pos rfl] at h
              simp only [Option.some.injEq] at h
              rw [← h] at hlen
              exact absurd rfl hlen
            · subst h31
              rw [if_neg (by decide)] at h
              simp only [Option.some.injEq] at h
              rw [← h]
              exact Nat.le_of_lt (refill_num_lt read t2 t3 cb1 cb3 hrefill)
        · rw [if_neg hz] at h
          simp only [Option.some.injEq] at h
          rw [← h]
          show t2.tsp_num ≤ t2.tsp_denom
          rw [g6, g7, f8, f9, p6, p7]
          exact hnum

/-- The number of packets chosen by the accumulator step. -/
theorem send_n_tsps_cases (this : tsbuffer) (hnum : this.tsp_num ≤ this.tsp_denom)
    (hden : this.tsp_denom < 18446744073709551616)
    (hacc : this.tsp_accum < 18446744073709551616)
    (hwhole : this.tsp_whole + 1 < 4294967296) :
    send_n_tsps this = this.tsp_whole + (send_accumulate this).1 := by
  obtain ⟨s1, _⟩ := send_accumulate_step this hnum hden hacc
  unfold send_n_tsps
  omega

/-- C22, the claim as written fails. The source `pcr_source slowing_pcr` delivers packets
whose PCR grows by 13500 per packet up to packet 5 and by 2000 per packet after it. After
`tsbuffer_init` on it, the 21st call of `tsbuffer_send_iso_cycle` refills the queue: the
rate becomes 1 + 6875 / 10000 and the accumulator keeps the 16875 counted at the rate
16875 / 67500. The 22nd call starts with `tsp_accum = 16875 > tsp_denom = 10000`, does not
change the rate, and ends with `tsp_accum = 13750 > tsp_denom = 10000`. -/
theorem accumulator_above_denom :
    ((tsbuffer_init true (pcr_source slowing_pcr) 0 (-1)).bind (fun res =>
      res.this.bind (fun t =>
        send_iso_run (pcr_source slowing_pcr) false 0x21 (List.replicate 22 (0, 0)) t
          res.callback_data))).map (fun rs =>
        (rs.drop 20).map (fun r =>
          (r.len, r.this.tsp_accum, r.this.tsp_whole, r.this.tsp_num, r.this.tsp_denom))) =
      some [(200, 16875, 1, 6875, 10000), (392, 13750, 1, 6875, 10000)] := by
  set_option maxRecDepth 1000000 in decide

/-- C22, amended. (1) A call of `tsbuffer_send_iso_cycle` that returns a length other than
0, on a buffer with `tsp_num ≤ tsp_denom`, chooses `k = tsp_whole` or `k = tsp_whole + 1`
packets (the length is `8 + 192 * k`); no `u64` operation on the accumulator wraps: the
new `tsp_accum` is `tsp_accum + tsp_num`, less `tsp_denom` when `k = tsp_whole + 1`; the
new `tsp_accum` is at most the `tsp_denom` of the call when the old one is; and
`tsp_num ≤ tsp_denom` holds again after the call. (2) At a fixed rate with
`tsp_num < tsp_denom` and the accumulator starting at 0, each of the first `N` cycles
chooses `tsp_whole` or `tsp_whole + 1` packets, the accumulator ends in `[0, tsp_denom]`,
and the number `P` of packets chosen in these cycles has
`P * denom ≤ N * (whole * denom + num) ≤ (P + 1) * denom`, so that
`N * (whole * denom + num) / denom - 1 ≤ P ≤ N * (whole * denom + num) / denom`.
(3) For whole = 0, num = 3375000, denom = 50000000, 999 packets are chosen in the first
14814 cycles and 1000 in the first 14815. -/
theorem send_duty_cycle :
    (∀ (σ : Type) (read : σ → Int → Nat → Int × List Nat × σ) (be : Bool) (this : tsbuffer)
        (cb : σ) (iso_cycle src_node_id dropped : Nat) (r : send_iso_cycle_result σ),
      tsbuffer_send_iso_cycle read be this cb iso_cycle src_node_id dropped = some r →
      r.len ≠ 0 → this.tsp_num ≤ this.tsp_denom → this.tsp_denom < 18446744073709551616 →
      this.tsp_accum < 18446744073709551616 → 8 + 192 * (this.tsp_whole + 1) < 4294967296 →
        (∃ k, (k = this.tsp_whole ∨ k = this.tsp_whole + 1) ∧ send_n_tsps this = k ∧
          r.len = 8 + 192 * k ∧
          r.this.tsp_accum + (k - this.tsp_whole) * this.tsp_denom =
            this.tsp_accum + this.tsp_num) ∧
        (this.tsp_accum ≤ this.tsp_denom → r.this.tsp_accum ≤ this.tsp_denom) ∧
        r.this.tsp_num ≤ r.this.tsp_denom) ∧
    (∀ (this : tsbuffer) (N : Nat),
      this.tsp_num < this.tsp_denom → this.tsp_denom < 18446744073709551616 →
      this.tsp_accum = 0 → this.tsp_whole + 1 < 4294967296 →
        (send_accumulate_run N this).1.length = N ∧
        (∀ k ∈ (send_accumulate_run N this).1, k = this.tsp_whole ∨ k = this.tsp_whole + 1) ∧
        (send_accumulate_run N this).2.tsp_accum ≤ this.tsp_denom ∧
        (send_accumulate_run N this).1.sum * this.tsp_denom ≤
          N * (this.tsp_whole * this.tsp_denom + this.tsp_num) ∧
        N * (this.tsp_whole * this.tsp_denom + this.tsp_num) ≤
          ((send_accumulate_run N this).1.sum + 1) * this.tsp_denom ∧
        N * (this.tsp_whole * this.tsp_denom + this.tsp_num) / this.tsp_denom - 1 ≤
          (send_accumulate_run N this).1.sum ∧
        (send_accumulate_run N this).1.sum ≤
          N * (this.tsp_whole * this.tsp_denom + this.tsp_num) / this.tsp_denom) ∧
    (send_accumulate_run 14814 tsbuffer_fixed_rate).1.sum = 999 ∧
    (send_accumulate_run 14815 tsbuffer_fixed_rate).1.sum = 1000 := by
  have hfix : ∀ (this : tsbuffer) (N : Nat),
      this.tsp_num < this.tsp_denom → this.tsp_denom < 18446744073709551616 →
      this.tsp_accum = 0 → this.tsp_whole + 1 < 4294967296 →
        (send_accumulate_run N this).1.length = N ∧
        (∀ k ∈ (send_accumulate_run N this).1, k = this.tsp_whole ∨ k = this.tsp_whole + 1) ∧
        (send_accumulate_run N this).2.tsp_accum ≤ this.tsp_denom ∧
        (send_accumulate_run N this).1.sum * this.tsp_denom ≤
          N * (this.tsp_whole * this.tsp_denom + this.tsp_num) ∧
        N * (this.tsp_whole * this.tsp_denom + this.tsp_num) ≤
          ((send_accumulate_run N this).1.sum + 1) * this.tsp_denom ∧
        N * (this.tsp_whole * this.tsp_denom + this.tsp_num) / this.tsp_denom - 1 ≤
          (send_accumulate_run N this).1.sum ∧
        (send_accumulate_run N this).1.sum ≤
          N * (this.tsp_whole * this.tsp_denom + this.tsp_num) / this.tsp_denom := by
    intro this N hnum hden hacc hwhole
    obtain ⟨i1, i2, i3, i4⟩ := send_accumulate_run_sum N this (Nat.le_of_lt hnum) hden
      (by rw [hacc]; exact Nat.zero_le _) hwhole
    rw [hacc, Nat.zero_add] at i4
    have hpos : 0 < this.tsp_denom := by omega
    have hlo : (send_accumulate_run N this).1.sum * this.tsp_denom ≤
        N * (this.tsp_whole * this.tsp_denom + this.tsp_num) := by omega
    have hhi : N * (this.tsp_whole * this.tsp_denom + this.tsp_num) ≤
        ((send_accumulate_run N this).1.sum + 1) * this.tsp_denom := by
      rw [Nat.add_mul, Nat.one_mul]
      omega
    refine ⟨i1, i2, i3, hlo, hhi, ?_, ?_⟩
    · have : N * (this.tsp_whole * this.tsp_denom + this.tsp_num) / this.tsp_denom ≤
          (send_accumulate_run N this).1.sum + 1 := by
        have := Nat.div_le_div_right (c := this.tsp_denom) hhi
        rwa [Nat.mul_div_cancel _ hpos] at this
      omega
    · exact (Nat.le_div_iff_mul_le hpos).mpr hlo
  refine ⟨?_, hfix, ?_, ?_⟩
  · intro σ read be this cb iso_cycle src_node_id dropped r h hlen hnum hden hacc hwhole
    obtain ⟨s1, s2, s3, _, _, _, _⟩ := send_accumulate_step this hnum hden hacc
    have hn := send_n_tsps_cases this hnum hden hacc (by omega)
    obtain ⟨h1, _, _, h4, _, _⟩ :=
      send_iso_cycle_spec read be this cb iso_cycle src_node_id dropped r h hlen
    refine ⟨⟨send_n_tsps this, ?_, rfl, ?_, ?_⟩, ?_,
      send_iso_cycle_rate read be this cb iso_cycle src_node_id dropped r h hlen hnum⟩
    · rw [hn]
      omega
    · rw [h1, hn]
      omega
    · rw [h4, hn, Nat.add_sub_cancel_left]
      exact s2
    · intro hle
      rw [h4]
      exact s3 hle
  · obtain ⟨_, _, i3, i4, i5, _, _⟩ := hfix tsbuffer_fixed_rate 14814 (by decide) (by decide)
      rfl (by decide)
    have e1 : tsbuffer_fixed_rate.tsp_denom = 50000000 := rfl
    have e2 : tsbuffer_fixed_rate.tsp_num = 3375000 := rfl
    have e3 : tsbuffer_fixed_rate.tsp_whole = 0 := rfl
    rw [e1, e2, e3] at i4 i5
    omega
  · obtain ⟨_, _, i3, i4, i5, _, _⟩ := hfix tsbuffer_fixed_rate 14815 (by decide) (by decide)
      rfl (by decide)
    have e1 : tsbuffer_fixed_rate.tsp_denom = 50000000 := rfl
    have e2 : tsbuffer_fixed_rate.tsp_num = 3375000 := rfl
    have e3 : tsbuffer_fixed_rate.tsp_whole = 0 := rfl
    rw [e1, e2, e3] at i4 i5
    omega

/-- An instance of `send_duty_cycle`: one cycle on the buffer `tsbuffer_two_packets`, whose
rate is 1 + 0 / 1, sends one packet and leaves the accumulator at 0; and the first three
cycles at the rate 3375000 / 50000000 send no packet. -/
theorem send_duty_cycle_witness :
    (∃ r, tsbuffer_send_iso_cycle failing_source false tsbuffer_two_packets () 100 0x21 0 =
        some r ∧ r.len = 200 ∧ r.this.tsp_accum = 0 ∧ r.this.tsp_num ≤ r.this.tsp_denom) ∧
    (send_accumulate_run 3 tsbuffer_fixed_rate).1.sum = 0 := by
  have h : ∃ r, tsbuffer_send_iso_cycle failing_source false tsbuffer_two_packets () 100 0x21
      0 = some r ∧ r.len = 200 := ⟨_, rfl, by decide⟩
  obtain ⟨r, hr, hlen⟩ := h
  obtain ⟨_, hacc, hrate⟩ := send_duty_cycle.1 Unit failing_source false tsbuffer_two_packets
    () 100 0x21 0 r hr (by rw [hlen]; decide) (by decide) (by decide) (by decide) (by decide)
  have hzero : r.this.tsp_accum ≤ 1 := hacc (by decide)
  obtain ⟨_, _, _, _, _, _, hsum⟩ := send_duty_cycle.2.1 tsbuffer_fixed_rate 3 (by decide)
    (by decide) rfl (by decide)
  refine ⟨⟨r, hr, hlen, ?_, hrate⟩, ?_⟩
  · have : r.this.tsp_accum = 0 := by
      obtain ⟨⟨k, _, hk, _, hk2⟩, _, _⟩ := send_duty_cycle.1 Unit failing_source false
        tsbuffer_two_packets () 100 0x21 0 r hr (by rw [hlen]; decide) (by decide) (by decide)
        (by decide) (by decide)
      have hk3 : k = 1 := by rw [← hk]; decide
      subst hk3
      have e1 : tsbuffer_two_packets.tsp_whole = 1 := rfl
      have e2 : tsbuffer_two_packets.tsp_accum = 0 := rfl
      have e3 : tsbuffer_two_packets.tsp_num = 0 := rfl
      rw [e1, e2, e3] at hk2
      omega
    exact this
  · have e : 3 * (tsbuffer_fixed_rate.tsp_whole * tsbuffer_fixed_rate.tsp_denom +
        tsbuffer_fixed_rate.tsp_num) / tsbuffer_fixed_rate.tsp_denom = 0 := by decide
    rw [e] at hsum
    omega

/-! ### The bootstrap of the smoothing buffer -/

/-- C26, evaluated on the source `pcr_source slowing_pcr`, whose packets are all on PID
0x11 and all carry a PCR, the packet `k` being tagged `k`. Called with the PID -1,
`tsbuffer_init` selects 0x11, the search ends with the packet 0, the first with a PCR, and
the refill finds five more. The queue of the new buffer holds the packets 1 to 5 and not
the packet 0: the loop that follows the comment "dump the useless packets that precede the
first PCR" pops every packet of the queue, the first PCR-bearing packet with them. -/
theorem init_discards_first_pcr_packet :
    ts_has_pcr (ts_block (pcr_source slowing_pcr 0 1 0).2.1) 0x11 = 1 ∧
    (tsbuffer_init true (pcr_source slowing_pcr) 0 (-1)).map (fun res =>
      (res.search_result, res.refill_result, res.callback_data,
        res.this.map (fun t => (t.selected_pid, t.ts_queue.length)))) =
      some (1, 1, 6, some (0x11, 5)) ∧
    (tsbuffer_init true (pcr_source slowing_pcr) 0 (-1)).map (fun res =>
      res.this.map (fun t => t.ts_queue)) =
      some (some ((List.range 5).map (fun j =>
        ts_block (pcr_packet 0x11 (slowing_pcr (j + 1)) (j + 1))))) ∧
    (tsbuffer_init true (pcr_source slowing_pcr) 0 (-1)).map (fun res =>
      res.this.map (fun t => t.ts_queue.map (fun ts => ts.getD 187 0))) =
      some (some [1, 2, 3, 4, 5]) := by
  refine ⟨?_, ?_, ?_, ?_⟩
  · set_option maxRecDepth 100000 in decide
  · set_option maxRecDepth 1000000 in decide
  · set_option maxRecDepth 1000000 in decide
  · set_option maxRecDepth 1000000 in decide

/-! ### The result of `iec61883_mpeg2_xmit_start` -/

/-- C29, evaluated. With a source that fails at its first call the queue is empty when
`tsbuffer_init` takes the PCR of `iec61883_deque_back`, which is `NULL`: the call is
undefined. With a source that delivers one packet without PCR and then fails, both
`tsbuffer_read_to_next_pcr` and `tsbuffer_refill` return 0 in `tsbuffer_init`, which does
not look at them, and `iec61883_mpeg2_xmit_start` returns what `raw1394_iso_xmit_start`
returns, here 0, with an empty queue. Whatever the source, when `calloc` and the two
`raw1394` calls succeed the function does not return -1. -/
theorem xmit_start_ignores_bootstrap :
    (iec61883_mpeg2_xmit_start true (some failing_source) mpeg2_blank () (-1) 63 0 0).map
      (fun r => r.result) = none ∧
    (tsbuffer_init true one_packet_source 0 (-1)).map (fun res =>
      (res.search_result, res.refill_result)) = some (0, 0) ∧
    (iec61883_mpeg2_xmit_start true (some one_packet_source) mpeg2_blank 0 (-1) 63 0 0).map
      (fun r => (r.result, r.tsbuffer.map (fun t => t.ts_queue.length))) =
      some (0, some 0) ∧
    (∀ (σ : Type) (read : σ → Int → Nat → Int × List Nat × σ) (mpeg : iec61883_mpeg2)
        (cb : σ) (pid channel : Int),
      (iec61883_mpeg2_xmit_start true (some read) mpeg cb pid channel 0 0).map
          (fun r => r.result) = none ∨
        (iec61883_mpeg2_xmit_start true (some read) mpeg cb pid channel 0 0).map
          (fun r => r.result) = some 0) := by
  refine ⟨?_, ?_, ?_, ?_⟩
  · set_option maxRecDepth 100000 in decide
  · set_option maxRecDepth 100000 in decide
  · set_option maxRecDepth 100000 in decide
  · intro σ read mpeg cb pid channel
    unfold iec61883_mpeg2_xmit_start
    simp only
    cases hinit : tsbuffer_init true read cb pid with
    | none => exact Or.inl rfl
    | some init =>
      have hthis : init.this ≠ none := by
        unfold tsbuffer_init at hinit
        rw [if_pos rfl] at hinit
        simp only at hinit
        split at hinit
        · exact absurd hinit (by simp)
        · split at hinit
          · exact absurd hinit (by simp)
          · split at hinit
            · exact absurd hinit (by simp)
            · simp only [Option.some.injEq] at hinit
              rw [← hinit]
              simp
      cases ht : init.this with
      | none => exact absurd ht hthis
      | some t =>
        right
        simp only [ht, if_pos, Option.map_some']

/-! ### The cadence of the DV transmitter -/

/-- The stream made by `iec61883_dv_xmit_init`: `syt_interval` is 300 for PAL and 250 for
NTSC, and the denominators of `ready_samples` and `cycle_offset` are not 0. -/
theorem dv_xmit_init_some (mem : iec61883_dv) (is_pal : Int) :
    ∃ dv, iec61883_dv_xmit_init (some mem) is_pal = some dv ∧
      dv.cip.syt_interval = (if is_pal ≠ 0 then 300 else 250) ∧
      dv.cip.ready_samples.denominator ≠ 0 ∧ dv.cip.cycle_offset.denominator ≠ 0 := by
  have hr : (if is_pal ≠ 0 then (7500 : Int) else 7492) ≠ 0 := by
    split <;> decide
  obtain ⟨c, hc, _, _, hsyt, _, _, _, _, _, _, hrs, _, hco⟩ :=
    cip_init_some mem.cip IEC61883_FMT_DV (if is_pal ≠ 0 then 0x80 else 0x00)
      (if is_pal ≠ 0 then 7500 else 7492) ((DIF_BLOCK_SIZE : Int).tdiv 4)
      (if is_pal ≠ 0 then 300 else 250) hr
  have hinit : iec61883_dv_xmit_init (some mem) is_pal =
      some
        { mem with
          channel := -1
          buffer_packets := 1000
          prebuffer_packets := 1000
          irq_interval := 250
          synch := 0
          speed := RAW1394_ISO_SPEED_100
          cip := iec61883_cip_set_transmission_mode c IEC61883_MODE_NON_BLOCKING } := by
    simp only [iec61883_dv_xmit_init, hc]
  refine ⟨_, hinit, ?_, ?_, ?_⟩
  · exact hsyt
  · show c.ready_samples.denominator ≠ 0
    rw [hrs]
    decide
  · show c.cycle_offset.denominator ≠ 0
    rw [hco]
    exact hr

/-- The tick fields of the stream made by `iec61883_dv_xmit_init`. The product
`24576000 * syt_interval` is 7372800000 for PAL and 6144000000 for NTSC; neither fits an
`int`, the 32-bit words kept are -1217134592 and 1849032704, and `ticks_per_syt_offset` is
`-162284 - 4592/7500` for PAL and `246800 + 7104/7492` for NTSC. The handler
`dv_xmit_handler` computes its timestamps without these fields. -/
theorem dv_xmit_init_ticks (mem : iec61883_dv) (is_pal : Int) :
    ∃ dv, iec61883_dv_xmit_init (some mem) is_pal = some dv ∧
      dv.cip.ticks_per_syt_offset =
        (if is_pal ≠ 0 then ⟨-162284, -4592, 7500⟩ else ⟨246800, 7104, 7492⟩) ∧
      dv.cip.cycle_offset = ⟨2856, 0, if is_pal ≠ 0 then 7500 else 7492⟩ := by
  by_cases hp : is_pal ≠ 0
  · obtain ⟨c, hc, _, _, _, _, _, _, _, _, _, _, hti, hco⟩ :=
      cip_init_some mem.cip IEC61883_FMT_DV 0x80 7500 ((DIF_BLOCK_SIZE : Int).tdiv 4) 300
        (by decide)
    have hinit : iec61883_dv_xmit_init (some mem) is_pal =
        some
          { mem with
            channel := -1
            buffer_packets := 1000
            prebuffer_packets := 1000
            irq_interval := 250
            synch := 0
            speed := RAW1394_ISO_SPEED_100
            cip := iec61883_cip_set_transmission_mode c IEC61883_MODE_NON_BLOCKING } := by
      simp only [iec61883_dv_xmit_init, if_pos hp, hc]
    refine ⟨_, hinit, ?_, ?_⟩
    · rw [if_pos hp]
      show c.ticks_per_syt_offset = _
      rw [hti]
      decide
    · rw [if_pos hp]
      show c.cycle_offset = _
      rw [hco]
      decide
  · obtain ⟨c, hc, _, _, _, _, _, _, _, _, _, _, hti, hco⟩ :=
      cip_init_some mem.cip IEC61883_FMT_DV 0x00 7492 ((DIF_BLOCK_SIZE : Int).tdiv 4) 250
        (by decide)
    have hinit : iec61883_dv_xmit_init (some mem) is_pal =
        some
          { mem with
            channel := -1
            buffer_packets := 1000
            prebuffer_packets := 1000
            irq_interval := 250
            synch := 0
            speed := RAW1394_ISO_SPEED_100
            cip := iec61883_cip_set_transmission_mode c IEC61883_MODE_NON_BLOCKING } := by
      simp only [iec61883_dv_xmit_init, if_neg hp, hc]
    refine ⟨_, hinit, ?_, ?_⟩
    · rw [if_neg hp]
      show c.ticks_per_syt_offset = _
      rw [hti]
      decide
    · rw [if_neg hp]
      show c.cycle_offset = _
      rw [hco]
      decide

/-- One cycle of `dv_xmit_handler` on a stream with non-zero denominators: the call is
defined, the stream keeps its `syt_interval` and its denominators, and the cadence step
sends no DIF block and takes `cip_d - cip_n` from the accumulator when it is above
`cip_d - cip_n`, and sends one block and adds `cip_n` otherwise. -/
theorem dv_xmit_handler_step {σ : Type} (be : Bool) (local_id : Nat)
    (get_data : Option (σ → Int → Nat → Int × List Nat × σ)) (dv : iec61883_dv)
    (statics : dv_xmit_static) (cb : σ) (cycle : Int) (dropped : Nat)
    (h1 : dv.cip.ready_samples.denominator ≠ 0) (h2 : dv.cip.cycle_offset.denominator ≠ 0) :
    ∃ r, dv_xmit_handler be local_id get_data dv statics cb cycle dropped = some r ∧
      r.dv.cip.syt_interval = dv.cip.syt_interval ∧
      r.dv.cip.ready_samples.denominator ≠ 0 ∧ r.dv.cip.cycle_offset.denominator ≠ 0 ∧
      (if statics.cip_accum >
          (if dv.cip.syt_interval = 250 then 1068 else 16) -
            (if dv.cip.syt_interval = 250 then 68 else 1) then
        r.n_dif_blocks = 0 ∧ r.len = 8 ∧
          r.statics.cip_accum = statics.cip_accum -
            ((if dv.cip.syt_interval = 250 then 1068 else 16) -
              (if dv.cip.syt_interval = 250 then 68 else 1)) ∧
          r.statics.continuity_counter = statics.continuity_counter
      else
        r.n_dif_blocks = 1 ∧ r.len = 488 ∧
          r.statics.cip_accum = statics.cip_accum +
            (if dv.cip.syt_interval = 250 then 68 else 1) ∧
          r.statics.continuity_counter = statics.continuity_counter + 1) := by
  obtain ⟨next, syt, co, cc, _, _, hfill⟩ := fill_header_some be local_id dv.cip h1 h2
  obtain ⟨_, s2, _, _, _, _, _, s8, s9⟩ := fill_header_static be local_id dv.cip _ _ _ hfill
  unfold dv_xmit_handler
  rw [hfill]
  simp only
  have hlen0 : to_u32 (0 * (DIF_BLOCK_SIZE : Int) + 8) = 8 := by decide
  have hlen1 : to_u32 (1 * (DIF_BLOCK_SIZE : Int) + 8) = 488 := by decide
  by_cases hc : statics.cip_accum >
      (if dv.cip.syt_interval = 250 then 1068 else 16) -
        (if dv.cip.syt_interval = 250 then 68 else 1)
  · simp only [if_pos hc]
    cases get_data with
    | none => exact ⟨_, rfl, s2, by rw [s8]; exact h1, by rw [s9]; exact h2, rfl, hlen0, rfl, rfl⟩
    | some get =>
      exact ⟨_, rfl, s2, by rw [s8]; exact h1, by rw [s9]; exact h2, rfl, hlen0, rfl, rfl⟩
  · simp only [if_neg hc]
    cases get_data with
    | none => exact ⟨_, rfl, s2, by rw [s8]; exact h1, by rw [s9]; exact h2, rfl, hlen1, rfl, rfl⟩
    | some get =>
      exact ⟨_, rfl, s2, by rw [s8]; exact h1, by rw [s9]; exact h2, rfl, hlen1, rfl, rfl⟩

/-- The cycles of a run of `dv_xmit_handler` on a stream with non-zero denominators and
`0 ≤ cip_accum ≤ d`: each is defined, carries 0 or 1 DIF block, keeps the accumulator in
`[0, d]`; the `E` empty packets and the last accumulator `a` have
`E * d + a = cip_accum + N * n`. -/
theorem dv_xmit_run_spec {σ : Type} (be : Bool) (local_id : Nat)
    (get_data : Option (σ → Int → Nat → Int × List Nat × σ)) (n d : Int) (hn : 0 ≤ n)
    (hnd : n ≤ d) :
    ∀ (cycles : List (Int × Nat)) (dv : iec61883_dv) (statics : dv_xmit_static) (cb : σ),
      dv.cip.ready_samples.denominator ≠ 0 → dv.cip.cycle_offset.denominator ≠ 0 →
      (if dv.cip.syt_interval = 250 then 68 else 1) = n →
      (if dv.cip.syt_interval = 250 then 1068 else 16) = d →
      0 ≤ statics.cip_accum → statics.cip_accum ≤ d →
      ∃ rs, dv_xmit_run be local_id get_data cycles dv statics cb = some rs ∧
        rs.length = cycles.length ∧
        (∀ r ∈ rs, (r.n_dif_blocks = 0 ∧ r.len = 8) ∨ (r.n_dif_blocks = 1 ∧ r.len = 488)) ∧
        (∀ r ∈ rs, 0 ≤ r.statics.cip_accum ∧ r.statics.cip_accum ≤ d) ∧
        (∀ r ∈ rs, statics.continuity_counter ≤ r.statics.continuity_counter ∧
          r.statics.continuity_counter ≤ statics.continuity_counter + cycles.length) ∧
        ∃ a : Int, 0 ≤ a ∧ a ≤ d ∧
          (dv_empty_count rs : Int) * d + a = statics.cip_accum + cycles.length * n := by
  intro cycles
  induction cycles with
  | nil =>
    intro dv statics cb _ _ _ _ h0 hd
    refine ⟨[], rfl, rfl, fun r hr => absurd hr (List.not_mem_nil r),
      fun r hr => absurd hr (List.not_mem_nil r), fun r hr => absurd hr (List.not_mem_nil r),
      statics.cip_accum, h0, hd, ?_⟩
    simp [dv_empty_count]
  | cons c cycles ih =>
    intro dv statics cb h1 h2 hcn hcd h0 hd
    obtain ⟨cycle, dropped⟩ := c
    obtain ⟨r, hr, hsyt, g1, g2, hstep⟩ :=
      dv_xmit_handler_step be local_id get_data dv statics cb cycle dropped h1 h2
    rw [hcn, hcd] at hstep
    have hcases : (r.n_dif_blocks = 0 ∧ r.len = 8 ∧
          r.statics.cip_accum + d = statics.cip_accum + n ∧
          r.statics.continuity_counter = statics.continuity_counter) ∨
        (r.n_dif_blocks = 1 ∧ r.len = 488 ∧ r.statics.cip_accum = statics.cip_accum + n ∧
          r.statics.continuity_counter = statics.continuity_counter + 1) := by
      by_cases hc : statics.cip_accum > d - n
      · rw [if_pos hc] at hstep
        obtain ⟨e1, e2, e3, e4⟩ := hstep
        exact Or.inl ⟨e1, e2, by rw [e3]; ring, e4⟩
      · rw [if_neg hc] at hstep
        exact Or.inr hstep
    have hbound : 0 ≤ r.statics.cip_accum ∧ r.statics.cip_accum ≤ d := by
      by_cases hc : statics.cip_accum > d - n
      · rw [if_pos hc] at hstep
        obtain ⟨_, _, e3, _⟩ := hstep
        rw [e3]
        constructor <;> omega
      · rw [if_neg hc] at hstep
        obtain ⟨_, _, e3, _⟩ := hstep
        rw [e3]
        constructor <;> omega
    obtain ⟨rs, hrs, hlen, hall, hacc, hcc, a, ha0, had, hsum⟩ :=
      ih r.dv r.statics r.callback_data g1 g2 (by rw [hsyt]; exact hcn)
        (by rw [hsyt]; exact hcd) hbound.1 hbound.2
    refine ⟨r :: rs, ?_, ?_, ?_, ?_, ?_, a, ha0, had, ?_⟩
    · simp only [dv_xmit_run, hr, hrs]
    · rw [List.length_cons, List.length_cons, hlen]
    · intro x hx
      rcases List.mem_cons.mp hx with hx | hx
      · subst hx
        rcases hcases with ⟨e1, e2, _⟩ | ⟨e1, e2, _⟩
        · exact Or.inl ⟨e1, e2⟩
        · exact Or.inr ⟨e1, e2⟩
      · exact hall x hx
    · intro x hx
      rcases List.mem_cons.mp hx with hx | hx
      · subst hx
        exact hbound
      · exact hacc x hx
    · intro x hx
      rw [List.length_cons]
      push_cast
      rcases List.mem_cons.mp hx with hx | hx
      · subst hx
        rcases hcases with ⟨_, _, _, e4⟩ | ⟨_, _, _, e4⟩ <;> rw [e4] <;> constructor <;> omega
      · obtain ⟨c1, c2⟩ := hcc x hx
        rcases hcases with ⟨_, _, _, e4⟩ | ⟨_, _, _, e4⟩ <;> rw [e4] at c1 c2 <;>
          constructor <;> omega
    · rw [List.length_cons]
      push_cast
      rcases hcases with ⟨e1, _, e3, _⟩ | ⟨e1, _, e3, _⟩
      · have hcount : dv_empty_count (r :: rs) = dv_empty_count rs + 1 := by
          unfold dv_empty_count
          rw [List.countP_cons_of_pos]
          exact decide_eq_true e1
        rw [hcount]
        push_cast
        have e : ((dv_empty_count rs : Int) + 1) * d + a =
            ((dv_empty_count rs : Int) * d + a) + d := by ring
        rw [e, hsum]
        have e5 : ((cycles.length : Int) + 1) * n = (cycles.length : Int) * n + n := by ring
        rw [e5]
        omega
      · have hcount : dv_empty_count (r :: rs) = dv_empty_count rs := by
          unfold dv_empty_count
          rw [List.countP_cons_of_neg]
          rw [e1]
          decide
        rw [hcount, hsum, e3]
        ring

/-- The run over the first `N` cycles is the first `N` results of the run over more
cycles. -/
theorem dv_xmit_run_take {σ : Type} (be : Bool) (local_id : Nat)
    (get_data : Option (σ → Int → Nat → Int × List Nat × σ)) :
    ∀ (cycles : List (Int × Nat)) (N : Nat) (dv : iec61883_dv) (statics : dv_xmit_static)
      (cb : σ) (rs : List (dv_xmit_cycle σ)),
      dv_xmit_run be local_id get_data cycles dv statics cb = some rs →
      dv_xmit_run be local_id get_data (cycles.take N) dv statics cb = some (rs.take N) := by
  intro cycles
  induction cycles with
  | nil =>
    intro N dv statics cb rs h
    simp only [dv_xmit_run, Option.some.injEq] at h
    rw [← h, List.take_nil, List.take_nil]
    rfl
  | cons c cycles ih =>
    intro N dv statics cb rs h
    obtain ⟨cycle, dropped⟩ := c
    cases N with
    | zero => rfl
    | succ N =>
      simp only [dv_xmit_run] at h
      split at h
      · exact absurd h (by simp)
      · rename_i r hr
        split at h
        · exact absurd h (by simp)
        · rename_i rs2 hrs2
          simp only [Option.some.injEq] at h
          rw [← h, List.take_succ_cons, List.take_succ_cons]
          simp only [dv_xmit_run, hr, ih N r.dv r.statics r.callback_data rs2 hrs2]

/-- C30, the cadence of the DV transmitter. From the stream made by
`iec61883_dv_xmit_init`, whose `ticks_per_syt_offset` holds the overflowed product of
`iec61883_cip_init` as the machine keeps it, and the initial values of the static
variables, any number of cycles of `dv_xmit_handler`, whatever the callback, the cycle
numbers and the drop counts, are defined; every cycle carries 0 DIF blocks with length 8
or 1 DIF block with length 488; the accumulator `cip_accum` stays within `[0, d]`; and
for every `N` the number `E` of empty packets among the first `N` cycles has
`E * d ≤ N * n ≤ (E + 1) * d`, that is `N * n / d - 1 ≤ E ≤ N * n / d`, with
`n / d = 1 / 16` for PAL and `68 / 1068` for NTSC. The counter `continuity_counter` is at
most the number of cycles. -/
theorem dv_xmit_cadence {σ : Type} (be : Bool) (local_id : Nat)
    (get_data : Option (σ → Int → Nat → Int × List Nat × σ)) (mem : iec61883_dv)
    (is_pal : Int) (cb : σ) (cycles : List (Int × Nat)) :
    ∃ dv rs, iec61883_dv_xmit_init (some mem) is_pal = some dv ∧
      dv.cip.ticks_per_syt_offset =
        (if is_pal ≠ 0 then ⟨-162284, -4592, 7500⟩ else ⟨246800, 7104, 7492⟩) ∧
      dv_xmit_run be local_id get_data cycles dv dv_xmit_static_init cb = some rs ∧
      rs.length = cycles.length ∧
      (∀ r ∈ rs, (r.n_dif_blocks = 0 ∧ r.len = 8) ∨ (r.n_dif_blocks = 1 ∧ r.len = 488)) ∧
      (∀ r ∈ rs, 0 ≤ r.statics.cip_accum ∧
        r.statics.cip_accum ≤ (if is_pal ≠ 0 then 16 else 1068)) ∧
      (∀ r ∈ rs, 0 ≤ r.statics.continuity_counter ∧
        r.statics.continuity_counter ≤ cycles.length) ∧
      (∀ N, N ≤ cycles.length →
        dv_xmit_run be local_id get_data (cycles.take N) dv dv_xmit_static_init cb =
          some (rs.take N) ∧
        dv_empty_count (rs.take N) * (if is_pal ≠ 0 then 16 else 1068) ≤
          N * (if is_pal ≠ 0 then 1 else 68) ∧
        N * (if is_pal ≠ 0 then 1 else 68) ≤
          (dv_empty_count (rs.take N) + 1) * (if is_pal ≠ 0 then 16 else 1068) ∧
        N * (if is_pal ≠ 0 then 1 else 68) / (if is_pal ≠ 0 then 16 else 1068) - 1 ≤
          dv_empty_count (rs.take N) ∧
        dv_empty_count (rs.take N) ≤
          N * (if is_pal ≠ 0 then 1 else 68) / (if is_pal ≠ 0 then 16 else 1068)) := by
  obtain ⟨dv, hdv, hsyt, h1, h2⟩ := dv_xmit_init_some mem is_pal
  have hticks : dv.cip.ticks_per_syt_offset =
      (if is_pal ≠ 0 then ⟨-162284, -4592, 7500⟩ else ⟨246800, 7104, 7492⟩) := by
    obtain ⟨dv2, hdv2, ht, _⟩ := dv_xmit_init_ticks mem is_pal
    rw [hdv] at hdv2
    injection hdv2 with hdv2
    rw [hdv2]
    exact ht
  have hn : (if dv.cip.syt_interval = 250 then (68 : Int) else 1) =
      (if is_pal ≠ 0 then 1 else 68) := by
    rw [hsyt]
    by_cases hp : is_pal ≠ 0
    · simp only [if_pos hp]
      decide
    · simp only [if_neg hp]
      decide
  have hd : (if dv.cip.syt_interval = 250 then (1068 : Int) else 16) =
      (if is_pal ≠ 0 then 16 else 1068) := by
    rw [hsyt]
    by_cases hp : is_pal ≠ 0
    · simp only [if_pos hp]
      decide
    · simp only [if_neg hp]
      decide
  have hn0 : (0 : Int) ≤ (if is_pal ≠ 0 then 1 else 68) := by split <;> decide
  have hnd : (if is_pal ≠ 0 then (1 : Int) else 68) ≤ (if is_pal ≠ 0 then 16 else 1068) := by
    split <;> decide
  have hd0 : (dv_xmit_static_init.cip_accum : Int) ≤ (if is_pal ≠ 0 then 16 else 1068) := by
    split <;> decide
  obtain ⟨rs, hrs, hlen, hall, hacc, hcc, _⟩ :=
    dv_xmit_run_spec be local_id get_data _ _ hn0 hnd cycles dv dv_xmit_static_init cb h1 h2
      hn hd (by decide) hd0
  refine ⟨dv, rs, hdv, hticks, hrs, hlen, hall, hacc, ?_, ?_⟩
  · intro r hr
    obtain ⟨c1, c2⟩ := hcc r hr
    have e : dv_xmit_static_init.continuity_counter = 0 := rfl
    rw [e] at c1 c2
    constructor <;> omega
  · intro N hN
    have htake := dv_xmit_run_take be local_id get_data cycles N dv dv_xmit_static_init cb rs
      hrs
    obtain ⟨rs2, hrs2, hlen2, _, _, _, a, ha0, had, hsum⟩ :=
      dv_xmit_run_spec be local_id get_data _ _ hn0 hnd (cycles.take N) dv
        dv_xmit_static_init cb h1 h2 hn hd (by decide) hd0
    rw [htake] at hrs2
    simp only [Option.some.injEq] at hrs2
    subst hrs2
    have hlenN : ((cycles.take N).length : Int) = N := by
      rw [List.length_take, Nat.min_eq_left hN]
    have e0 : dv_xmit_static_init.cip_accum = 0 := rfl
    rw [hlenN, e0, Int.zero_add] at hsum
    refine ⟨htake, ?_⟩
    generalize dv_empty_count (List.take N rs) = E at hsum ⊢
    by_cases hp : is_pal ≠ 0
    · simp only [if_pos hp] at hsum had ⊢
      omega
    · simp only [if_neg hp] at hsum had ⊢
      omega

/-- An instance of `dv_xmit_cadence`: 33 PAL cycles without callback. The packets 17 and 33
are the empty ones, and `cip_accum` is 1 after the last. -/
theorem dv_xmit_cadence_witness :
    ∃ dv rs, iec61883_dv_xmit_init (some dv_blank) 1 = some dv ∧
      dv.cip.ticks_per_syt_offset = ⟨-162284, -4592, 7500⟩ ∧
      dv_xmit_run false 0 (none : Option (Unit → Int → Nat → Int × List Nat × Unit))
        (List.replicate 33 (0, 0)) dv dv_xmit_static_init () = some rs ∧
      rs.map (fun r => r.len) =
        List.replicate 16 488 ++ [8] ++ List.replicate 15 488 ++ [8] ∧
      dv_empty_count rs = 2 ∧ rs.getLast?.map (fun r => r.statics.cip_accum) = some 1 := by
  obtain ⟨dv, rs, hdv, hticks, hrs, _, _, _, _, _⟩ :=
    dv_xmit_cadence false 0 (none : Option (Unit → Int → Nat → Int × List Nat × Unit))
      dv_blank 1 () (List.replicate 33 (0, 0))
  have hdv2 : ∃ dv2, iec61883_dv_xmit_init (some dv_blank) 1 = some dv2 ∧
      ((dv_xmit_run false 0 (none : Option (Unit → Int → Nat → Int × List Nat × Unit))
        (List.replicate 33 (0, 0)) dv2 dv_xmit_static_init ()).map (fun rs =>
          (rs.map (fun r => r.len), dv_empty_count rs,
            rs.getLast?.map (fun r => r.statics.cip_accum)))) =
        some (List.replicate 16 488 ++ [8] ++ List.replicate 15 488 ++ [8], 2, some 1) :=
    ⟨_, rfl, by set_option maxRecDepth 1000000 in decide⟩
  obtain ⟨dv2, hdv3, hev⟩ := hdv2
  rw [hdv] at hdv3
  simp only [Option.some.injEq] at hdv3
  subst hdv3
  rw [hrs] at hev
  simp only [Option.map_some', Option.some.injEq, Prod.mk.injEq] at hev
  exact ⟨dv, rs, hdv, hticks.trans (if_pos (by decide)), hrs, hev.1, hev.2.1, hev.2.2⟩

/-! ### The parameters of the plug register initialisation -/

/-- C35, evaluated. With the data rate 4, which is not a 2-bit code, and
`raw1394_arm_register` returning 0, `iec61883_plug_impr_init` returns 0 and not `-EINVAL`:
the test of the parameter assigns `-EINVAL` to `errno` and goes on, and the register gets
the low two bits of the rate, 0. The same holds for `iec61883_plug_ompr_init` with the data
rate 4 or the broadcast channel 64. Both functions return what `raw1394_arm_register`
returns, whatever the parameters. -/
theorem plug_init_accepts_invalid :
    (iec61883_plug_impr_init 0 0 4).result = 0 ∧
    (iec61883_plug_impr_init 0 0 4).errno = -22 ∧
    (iec61883_plug_impr_init 0 0 4).mpr.data_rate = 0 ∧
    (iec61883_plug_ompr_init 0 0 4 0).result = 0 ∧
    (iec61883_plug_ompr_init 0 0 4 0).errno = -22 ∧
    (iec61883_plug_ompr_init 0 0 0 64).result = 0 ∧
    (iec61883_plug_ompr_init 0 0 0 64).errno = -22 ∧
    (iec61883_plug_ompr_init 0 0 0 64).mpr.bcast_channel = 0 ∧
    (∀ (errno arm_register : Int) (data_rate : Nat),
      (iec61883_plug_impr_init errno arm_register data_rate).result = arm_register) ∧
    (∀ (errno arm_register : Int) (data_rate bcast_channel : Nat),
      (iec61883_plug_ompr_init errno arm_register data_rate bcast_channel).result =
        arm_register) := by
  refine ⟨by decide, by decide, by decide, by decide, by decide, by decide, by decide,
    by decide, fun _ _ _ => rfl, fun _ _ _ _ => rfl⟩

/-! ### The size of a packet of the MPEG2 transmitter -/

/-- C37, evaluated. The source delivers packets whose PCR grows by 500 per packet. After
`tsbuffer_init` the rate is 6 + 1875 / 2500 packets per cycle, and the first call of
`tsbuffer_send_iso_cycle` writes 6 transport packets: it returns 1160 and writes 1160
bytes, more than the 968 bytes of the maximum packet size. -/
theorem send_iso_cycle_six_packets :
    ((tsbuffer_init true (pcr_source fast_pcr) 0 (-1)).bind (fun res =>
      res.this.bind (fun t =>
        (tsbuffer_send_iso_cycle (pcr_source fast_pcr) false t res.callback_data 0 0x21
          0).map (fun r =>
            (res.refill_result, t.tsp_whole, t.tsp_num, t.tsp_denom, r.len,
              r.data.length))))) =
      some (1, 6, 1875, 2500, 1160, 1160) ∧
    1160 > 5 * 192 + 8 := by
  constructor
  · set_option maxRecDepth 1000000 in decide
  · decide

/-! ### The cases of `dv_fb_recv` -/

/-- A list of at least three elements. -/
theorem list_three (data : List Nat) (h : 3 ≤ data.length) :
    ∃ d0 d1 d2 rest, data = d0 :: d1 :: d2 :: rest := by
  match data, h with
  | d0 :: d1 :: d2 :: rest, _ => exact ⟨d0, d1, d2, rest, rfl⟩

/-- A block that is not a start of frame, before the first start of frame. -/
theorem dv_fb_recv_waiting {σ : Type} (put : σ → List Nat → Int → Int → Int × σ)
    (fb : iec61883_dv_fb) (cb : σ) (data : List Nat) (len : Int) (dropped : Nat)
    (hlen : 3 ≤ data.length) (hff : fb.ff ≠ 0)
    (hs : ¬ (dif_section_type data = 0 ∧ dif_sequence_number data = 0)) :
    dv_fb_recv put fb cb data len dropped = some (0, fb, cb) := by
  obtain ⟨d0, d1, d2, rest, rfl⟩ := list_three data hlen
  simp only [dif_section_type, dif_sequence_number, List.getD_cons_zero,
    List.getD_cons_succ] at hs
  simp only [dv_fb_recv, List.get?, if_neg hs, if_neg hff]

/-- The first start of frame. -/
theorem dv_fb_recv_first {σ : Type} (put : σ → List Nat → Int → Int → Int × σ)
    (fb : iec61883_dv_fb) (cb : σ) (data : List Nat) (len : Int) (dropped : Nat)
    (hlen : 480 ≤ data.length) (hff : fb.ff ≠ 0)
    (hs : dif_section_type data = 0 ∧ dif_sequence_number data = 0) :
    dv_fb_recv put fb cb data len dropped =
      some (0, { fb with ff := 0, len := fb.len + len, data := memcpy_480 fb.data 0 data },
        cb) := by
  obtain ⟨d0, d1, d2, rest, rfl⟩ := list_three data (by omega)
  simp only [dif_section_type, dif_sequence_number, List.getD_cons_zero,
    List.getD_cons_succ] at hs
  have hoff : dv_fb_offset ((d0 % 256 / 32 : Nat) : Int) ((d1 % 256 / 16 : Nat) : Int)
      ((d2 % 256 : Nat) : Int) = some 0 := by
    rw [hs.1, hs.2]
    rfl
  simp only [dv_fb_recv, List.get?, if_pos hs, if_neg hff, hoff]
  rw [if_pos trivial, if_pos ⟨by decide, hlen⟩]
  rfl

/-- A start of frame after the first. -/
theorem dv_fb_recv_boundary {σ : Type} (put : σ → List Nat → Int → Int → Int × σ)
    (fb : iec61883_dv_fb) (cb : σ) (data : List Nat) (len : Int) (dropped : Nat)
    (hlen : 480 ≤ data.length) (hff : fb.ff = 0)
    (hs : dif_section_type data = 0 ∧ dif_sequence_number data = 0) :
    dv_fb_recv put fb cb data len dropped =
      some ((put cb fb.data (dv_fb_total fb) (if fb.len = dv_fb_total fb then 1 else 0)).1,
        { data := memcpy_480 fb.data 0 data
          len := 0 + len
          ff := fb.ff
          total_incomplete :=
            if fb.len ≠ dv_fb_total fb then (fb.total_incomplete + 1) % 4294967296
            else fb.total_incomplete },
        (put cb fb.data (dv_fb_total fb) (if fb.len = dv_fb_total fb then 1 else 0)).2) := by
  obtain ⟨d0, d1, d2, rest, rfl⟩ := list_three data (by omega)
  simp only [dif_section_type, dif_sequence_number, List.getD_cons_zero,
    List.getD_cons_succ] at hs
  have hoff : dv_fb_offset ((d0 % 256 / 32 : Nat) : Int) ((d1 % 256 / 16 : Nat) : Int)
      ((d2 % 256 : Nat) : Int) = some 0 := by
    rw [hs.1, hs.2]
    rfl
  simp only [dv_fb_recv, List.get?, if_pos hs, if_pos hff, hoff]
  by_cases hc : fb.len = dv_fb_total fb
  · have hc2 : fb.len = (if fb.data.getD 3 0 % 256 &&& 128 = 0 then 250 else 300) * 480 := hc
    simp only [dv_fb_total, hc2, ne_eq, not_true_eq_false, if_false, if_true]
    rw [if_pos hff, if_pos ⟨by decide, hlen⟩]
    rfl
  · have hc2 : ¬ fb.len = (if fb.data.getD 3 0 % 256 &&& 128 = 0 then 250 else 300) * 480 := hc
    simp only [dv_fb_total, hc2, ne_eq, not_false_eq_true, if_false, if_true]
    rw [if_pos hff, if_pos ⟨by decide, hlen⟩]
    rfl

/-- A block that is not a start of frame, after the first start of frame. -/
theorem dv_fb_recv_inside {σ : Type} (put : σ → List Nat → Int → Int → Int × σ)
    (fb : iec61883_dv_fb) (cb : σ) (data : List Nat) (len : Int) (dropped : Nat)
    (hlen : 3 ≤ data.length) (hff : fb.ff = 0)
    (hs : ¬ (dif_section_type data = 0 ∧ dif_sequence_number data = 0)) :
    dv_fb_recv put fb cb data len dropped =
      match dv_fb_offset (dif_section_type data) (dif_sequence_number data)
          (dif_block_number data) with
      | some offset =>
        if offset + 480 ≤ 480 * 300 ∧ 480 ≤ data.length then
          some (0, { fb with len := fb.len + len,
                             data := memcpy_480 fb.data offset.toNat data }, cb)
        else none
      | none => some (0, { fb with len := fb.len + len }, cb) := by
  obtain ⟨d0, d1, d2, rest, rfl⟩ := list_three data hlen
  simp only [dif_section_type, dif_sequence_number, dif_block_number, List.getD_cons_zero,
    List.getD_cons_succ] at hs ⊢
  simp only [dv_fb_recv, List.get?, if_neg hs, if_pos hff]

/-- The length of the blocks made by `dif_packet`. -/
theorem dif_packet_length (b0 b1 b2 tag : Nat) : (dif_packet b0 b1 b2 tag).length = 480 := by
  unfold dif_packet
  rw [List.length_append, List.length_replicate]
  rfl

/-! ### The delivery of DV frames -/

/-- C33, the delivery of frames by `dv_fb_recv`, for every block of at least 480 bytes,
every frame buffer object, every sink and every `len`. A start of frame is a block with
section type 0 and sequence number 0. (1) `iec61883_dv_fb_init` sets `ff` to 1 and `len` to
0. (2) With `ff` not 0, a block that is not a start of frame changes nothing: it is neither
stored nor counted, and the sink is not called. (3) With `ff` not 0, a start of frame
clears `ff`, is stored at offset 0 and counted, and the sink is not called. (4) With `ff`
0, a start of frame calls the sink once, with the frame buffer, `total` (the length
300 * 480 when bit 7 of byte 3 of the frame buffer is set and 250 * 480 otherwise) and
`complete`, which is 1 exactly when the count `len` is `total`; the function returns what
the sink returns; the count restarts at the `len` of the block, 480 as `dv_recv_handler`
calls it; `total_incomplete` grows by one, modulo `2 ^ 32`, exactly when `complete` is 0.
(5) With `ff` 0, a block that is not a start of frame does not call the sink and adds its
`len` to the count, when it has a place in the frame buffer or a section type above 4. -/
theorem dv_fb_frame_delivery {σ : Type} (put : σ → List Nat → Int → Int → Int × σ)
    (fb : iec61883_dv_fb) (cb : σ) (data : List Nat) (len : Int) (dropped : Nat)
    (hlen : 480 ≤ data.length) :
    (∀ (mem fb0 : iec61883_dv_fb), iec61883_dv_fb_init (some mem) true = some fb0 →
      fb0.ff = 1 ∧ fb0.len = 0) ∧
    (fb.ff ≠ 0 → ¬ (dif_section_type data = 0 ∧ dif_sequence_number data = 0) →
      dv_fb_recv put fb cb data len dropped = some (0, fb, cb)) ∧
    (fb.ff ≠ 0 → dif_section_type data = 0 ∧ dif_sequence_number data = 0 →
      dv_fb_recv put fb cb data len dropped =
        some (0, { fb with ff := 0, len := fb.len + len,
                           data := memcpy_480 fb.data 0 data }, cb)) ∧
    (fb.ff = 0 → dif_section_type data = 0 ∧ dif_sequence_number data = 0 →
      dv_fb_recv put fb cb data len dropped =
        some ((put cb fb.data (dv_fb_total fb) (if fb.len = dv_fb_total fb then 1 else 0)).1,
          { data := memcpy_480 fb.data 0 data
            len := len
            ff := 0
            total_incomplete :=
              if fb.len = dv_fb_total fb then fb.total_incomplete
              else (fb.total_incomplete + 1) % 4294967296 },
          (put cb fb.data (dv_fb_total fb) (if fb.len = dv_fb_total fb then 1 else 0)).2) ∧
      dv_fb_total fb = (if (fb.data.getD 3 0 % 256) / 128 % 2 = 1 then 300 * 480
        else 250 * 480)) ∧
    (fb.ff = 0 → ¬ (dif_section_type data = 0 ∧ dif_sequence_number data = 0) →
      (∀ offset, dv_fb_offset (dif_section_type data) (dif_sequence_number data)
          (dif_block_number data) = some offset → offset + 480 ≤ 480 * 300 →
        dv_fb_recv put fb cb data len dropped =
          some (0, { fb with len := fb.len + len,
                             data := memcpy_480 fb.data offset.toNat data }, cb)) ∧
      (dif_section_type data > 4 →
        dv_fb_recv put fb cb data len dropped =
          some (0, { fb with len := fb.len + len }, cb))) := by
  refine ⟨?_, ?_, ?_, ?_, ?_⟩
  · intro mem fb0 h
    simp only [iec61883_dv_fb_init, if_true, Option.some.injEq] at h
    rw [← h]
    exact ⟨rfl, rfl⟩
  · intro hff hs
    exact dv_fb_recv_waiting put fb cb data len dropped (by omega) hff hs
  · intro hff hs
    exact dv_fb_recv_first put fb cb data len dropped hlen hff hs
  · intro hff hs
    constructor
    · rw [dv_fb_recv_boundary put fb cb data len dropped hlen hff hs, Int.zero_add, hff]
      by_cases hc : fb.len = dv_fb_total fb
      · simp only [hc, ne_eq, not_true_eq_false, if_false, if_true]
      · simp only [hc, ne_eq, not_false_eq_true, if_false, if_true]
    · unfold dv_fb_total
      have hb : ∀ x : Nat, x < 256 → ((x &&& 0x80 = 0) ↔ ¬ (x / 128 % 2 = 1)) := by
        set_option maxRecDepth 100000 in decide
      by_cases hc : (fb.data.getD 3 0 % 256) &&& 0x80 = 0
      · rw [if_pos hc, if_neg ((hb _ (Nat.mod_lt _ (by decide))).mp hc)]
      · rw [if_neg hc, if_pos (by
          by_contra h2
          exact hc ((hb _ (Nat.mod_lt _ (by decide))).mpr h2))]
  · intro hff hs
    have hin := dv_fb_recv_inside put fb cb data len dropped (by omega) hff hs
    constructor
    · intro offset hoff hb
      rw [hin, hoff]
      simp only
      rw [if_pos ⟨hb, hlen⟩]
    · intro h4
      rw [hin]
      have hnone : dv_fb_offset (dif_section_type data) (dif_sequence_number data)
          (dif_block_number data) = none := by
        unfold dv_fb_offset
        rw [if_neg (by omega), if_neg (by omega), if_neg (by omega), if_neg (by omega),
          if_neg (by omega)]
      rw [hnone]

/-- An instance of `dv_fb_frame_delivery`: a start of frame given to a frame buffer object
that has counted 480 bytes of an NTSC frame. The sink is called once, with the length
120000 and `complete` 0; the count restarts at 480 and `total_incomplete` becomes 1. -/
theorem dv_fb_frame_delivery_witness :
    (dv_fb_recv frame_sink dv_fb_started [] (dif_packet 0x1F 0x07 0x00 0xAA) 480 0).map
        (fun r => (r.1, r.2.1.len, r.2.1.ff, r.2.1.total_incomplete, r.2.2)) =
      some (0, 480, 0, 1, [(120000, 0)]) := by
  have h := (dv_fb_frame_delivery frame_sink dv_fb_started [] (dif_packet 0x1F 0x07 0x00 0xAA)
    480 0 (le_of_eq (dif_packet_length _ _ _ _).symm)).2.2.2.1 rfl (by decide)
  rw [h.1]
  rfl

/-! ### The counter of incomplete frames -/

/-- What a call of `dv_fb_recv` does to `total_incomplete`: it adds one, modulo `2 ^ 32`,
when the block is a start of frame, `ff` is 0 and `len` is not the length of the frame, and
leaves it alone otherwise. -/
theorem dv_fb_recv_incomplete {σ : Type} (put : σ → List Nat → Int → Int → Int × σ)
    (fb fb2 : iec61883_dv_fb) (cb cb2 : σ) (data : List Nat) (len : Int) (dropped : Nat)
    (result : Int) (hlen : 480 ≤ data.length)
    (h : dv_fb_recv put fb cb data len dropped = some (result, fb2, cb2)) :
    fb2.total_incomplete =
      if (dif_section_type data = 0 ∧ dif_sequence_number data = 0) ∧ fb.ff = 0 ∧
          fb.len ≠ dv_fb_total fb then
        (fb.total_incomplete + 1) % 4294967296
      else fb.total_incomplete := by
  by_cases hs : dif_section_type data = 0 ∧ dif_sequence_number data = 0
  · by_cases hff : fb.ff = 0
    · rw [dv_fb_recv_boundary put fb cb data len dropped hlen hff hs] at h
      simp only [Option.some.injEq, Prod.mk.injEq] at h
      rw [← h.2.1]
      by_cases hc : fb.len = dv_fb_total fb
      · simp only [hc, ne_eq, not_true_eq_false, and_false, if_false]
      · simp only [hc, ne_eq, not_false_eq_true, and_true, if_true, hs, hff]
    · rw [dv_fb_recv_first put fb cb data len dropped hlen hff hs] at h
      simp only [Option.some.injEq, Prod.mk.injEq] at h
      rw [← h.2.1, if_neg (fun hh => hff hh.2.1)]
  · rw [if_neg (fun hh => hs hh.1)]
    by_cases hff : fb.ff = 0
    · rw [dv_fb_recv_inside put fb cb data len dropped (by omega) hff hs] at h
      split at h
      · split at h
        · simp only [Option.some.injEq, Prod.mk.injEq] at h
          rw [← h.2.1]
        · exact absurd h (by simp)
      · simp only [Option.some.injEq, Prod.mk.injEq] at h
        rw [← h.2.1]
    · rw [dv_fb_recv_waiting put fb cb data len dropped (by omega) hff hs] at h
      simp only [Option.some.injEq, Prod.mk.injEq] at h
      rw [← h.2.1]

/-- C34, evaluated. The object returned by `malloc` holds 7 where `total_incomplete` is;
`iec61883_dv_fb_init` does not store the field, so that `iec61883_dv_fb_get_incomplete`
returns 7 before any frame is delivered, and 8 after one frame has been delivered with
`complete` 0 (two starts of frame in a row, in a PAL stream). For every content of the fresh memory the
counter starts at the value found there. -/
theorem dv_fb_incomplete_not_initialised :
    (iec61883_dv_fb_init (some { data := [], len := 0, ff := 0, total_incomplete := 7 })
      true).map iec61883_dv_fb_get_incomplete = some 7 ∧
    ((iec61883_dv_fb_init (some { data := [], len := 0, ff := 0, total_incomplete := 7 })
      true).bind (fun fb =>
        dv_fb_run frame_sink [dif_packet 0x1F 0x07 0x00 0xAA, dif_packet 0x1F 0x07 0x00 0xBB]
          fb [])).map (fun r => (r.2.2, iec61883_dv_fb_get_incomplete r.2.1)) =
      some ([(144000, 0)], 8) ∧
    (∀ mem : iec61883_dv_fb,
      (iec61883_dv_fb_init (some mem) true).map iec61883_dv_fb_get_incomplete =
        some mem.total_incomplete) := by
  refine ⟨by decide, ?_, fun mem => rfl⟩
  set_option maxRecDepth 1000000 in decide

/-! ### The bounds of the frame buffer -/

/-- C36, evaluated. A header block (section type 0) with the sequence number 12 has the
offset 144000, the size of the frame buffer, so that its 480 bytes are copied behind the
array: the call is undefined. A video block number 134 of the sequence 11 has the offset
143920 and ends 400 bytes behind the array, and an audio block with the block number 255 in
the sequence 15 has the offset 506880. -/
theorem dv_fb_recv_out_of_bounds :
    dif_section_type (dif_packet 0x1F 0xC7 0x00 0xAA) = 0 ∧
    dif_sequence_number (dif_packet 0x1F 0xC7 0x00 0xAA) = 12 ∧
    dv_fb_offset 0 12 0 = some 144000 ∧
    (dv_fb_recv frame_sink dv_fb_started [] (dif_packet 0x1F 0xC7 0x00 0xAA) 480 0).map
      (fun r => r.1) = none ∧
    dv_fb_offset 4 11 134 = some 143920 ∧ 143920 + 480 > 480 * 300 ∧
    (dv_fb_recv frame_sink dv_fb_started [] (dif_packet 0x9F 0xB7 134 0xAA) 480 0).map
      (fun r => r.1) = none ∧
    dv_fb_offset 3 15 255 = some 506880 ∧
    (dv_fb_recv frame_sink dv_fb_started [] (dif_packet 0x7F 0xF7 255 0xAA) 480 0).map
      (fun r => r.1) = none := by
  refine ⟨by decide, by decide, by decide, by decide, by decide, by decide, by decide,
    by decide, by decide⟩

/-! ### The timestamps of the DV transmitter -/

/-- One cycle of `dv_xmit_handler` on a stream with non-zero denominators: the timestamp
written, the number of DIF blocks and the new static variables. -/
theorem dv_xmit_handler_syt {σ : Type} (be : Bool) (local_id : Nat)
    (get_data : Option (σ → Int → Nat → Int × List Nat × σ)) (dv : iec61883_dv)
    (statics : dv_xmit_static) (cb : σ) (cycle : Int) (dropped : Nat)
    (h1 : dv.cip.ready_samples.denominator ≠ 0) (h2 : dv.cip.cycle_offset.denominator ≠ 0) :
    ∃ r, dv_xmit_handler be local_id get_data dv statics cb cycle dropped = some r ∧
      r.dv.cip.syt_interval = dv.cip.syt_interval ∧
      r.dv.cip.ready_samples.denominator ≠ 0 ∧ r.dv.cip.cycle_offset.denominator ≠ 0 ∧
      r.packet.syt = htons be (dv_xmit_ts statics.packet_num cycle % 65536) ∧
      (if statics.cip_accum >
          (if dv.cip.syt_interval = 250 then 1068 else 16) -
            (if dv.cip.syt_interval = 250 then 68 else 1) then
        r.n_dif_blocks = 0 ∧
          r.statics.cip_accum = statics.cip_accum -
            ((if dv.cip.syt_interval = 250 then 1068 else 16) -
              (if dv.cip.syt_interval = 250 then 68 else 1)) ∧
          r.statics.packet_num = statics.packet_num
      else
        r.n_dif_blocks = 1 ∧
          r.statics.cip_accum = statics.cip_accum +
            (if dv.cip.syt_interval = 250 then 68 else 1) ∧
          r.statics.packet_num =
            (if statics.packet_num + 1 ≥ dv.cip.syt_interval then 0
              else statics.packet_num + 1)) := by
  obtain ⟨next, syt, co, cc, _, _, hfill⟩ := fill_header_some be local_id dv.cip h1 h2
  obtain ⟨_, s2, _, _, _, _, _, s8, s9⟩ := fill_header_static be local_id dv.cip _ _ _ hfill
  unfold dv_xmit_handler
  rw [hfill]
  simp only
  by_cases hc : statics.cip_accum >
      (if dv.cip.syt_interval = 250 then 1068 else 16) -
        (if dv.cip.syt_interval = 250 then 68 else 1)
  · simp only [if_pos hc]
    cases get_data with
    | none => exact ⟨_, rfl, s2, by rw [s8]; exact h1, by rw [s9]; exact h2, rfl, rfl, rfl, rfl⟩
    | some get =>
      exact ⟨_, rfl, s2, by rw [s8]; exact h1, by rw [s9]; exact h2, rfl, rfl, rfl, rfl⟩
  · simp only [if_neg hc]
    cases get_data with
    | none => exact ⟨_, rfl, s2, by rw [s8]; exact h1, by rw [s9]; exact h2, rfl, rfl, rfl, rfl⟩
    | some get =>
      exact ⟨_, rfl, s2, by rw [s8]; exact h1, by rw [s9]; exact h2, rfl, rfl, rfl, rfl⟩

/-- The timestamp computed for a cycle number in 0..7999. -/
theorem dv_xmit_ts_value (packet_num : Int) (c : Nat) (hc : c < 8000) :
    dv_xmit_ts packet_num (c : Int) =
      if packet_num = 0 then (((c + 3) % 8000) &&& 0xF) <<< 12 else 0xFFFF := by
  unfold dv_xmit_ts
  by_cases hp : packet_num = 0
  · rw [if_pos hp, if_pos hp]
    have hu : to_u32 ((c : Int) + 3) = c + 3 := by
      unfold to_u32
      omega
    simp only [hu]
    have hand : ∀ x : Nat, x &&& 0xF = x % 16 := fun x => Nat.and_pow_two_sub_one_eq_mod x 4
    rw [hand, hand, Nat.shiftLeft_eq, Nat.shiftLeft_eq]
    have e : (if c + 3 > 8000 then c + 3 - 8000 else c + 3) % 16 = (c + 3) % 8000 % 16 := by
      split <;> omega
    rw [e]
    omega
  · rw [if_neg hp, if_neg hp]

/-- The real timestamps are below `2 ^ 16` and are not 0xFFFF. -/
theorem dv_xmit_ts_real (c : Nat) :
    (((c + 3) % 8000) &&& 0xF) <<< 12 < 65536 ∧ (((c + 3) % 8000) &&& 0xF) <<< 12 ≠ 0xFFFF := by
  have hand : ∀ x : Nat, x &&& 0xF = x % 16 := fun x => Nat.and_pow_two_sub_one_eq_mod x 4
  rw [hand, Nat.shiftLeft_eq]
  constructor <;> omega

/-- The timestamps of a run of `dv_xmit_handler` that starts with the invariant
`dv_cadence_inv`: the packet number `i` has a real timestamp exactly when it carries a DIF
block and the number of blocks sent before it, counted from `packet_num`, is a multiple of
`S`. -/
theorem dv_xmit_run_syt {σ : Type} (be : Bool) (local_id : Nat)
    (get_data : Option (σ → Int → Nat → Int × List Nat × σ)) (S n d : Int)
    (hcfg : (S = 300 ∧ n = 1 ∧ d = 16) ∨ (S = 250 ∧ n = 68 ∧ d = 1068)) :
    ∀ (cycles : List (Int × Nat)) (dv : iec61883_dv) (statics : dv_xmit_static) (cb : σ),
      dv.cip.ready_samples.denominator ≠ 0 → dv.cip.cycle_offset.denominator ≠ 0 →
      dv.cip.syt_interval = S → dv_cadence_inv S n d statics →
      (∀ c ∈ cycles, 0 ≤ c.1 ∧ c.1 < 8000) →
      ∃ rs, dv_xmit_run be local_id get_data cycles dv statics cb = some rs ∧
        rs.length = cycles.length ∧
        ∀ (i : Nat) (c : Int) (dr : Nat) (r : dv_xmit_cycle σ),
          cycles.get? i = some (c, dr) → rs.get? i = some r →
          (r.n_dif_blocks = 0 ∨ r.n_dif_blocks = 1) ∧
          r.packet.syt = htons be
            (if r.n_dif_blocks = 1 ∧
                (statics.packet_num + (dv_data_count (rs.take i) : Int)) % S = 0 then
              (((c.toNat + 3) % 8000) &&& 0xF) <<< 12
            else 0xFFFF) := by
  intro cycles
  induction cycles with
  | nil =>
    intro dv statics cb _ _ _ _ _
    exact ⟨[], rfl, rfl, fun i c dr r hc _ => absurd hc (by simp)⟩
  | cons head cycles ih =>
    intro dv statics cb h1 h2 hS hinv hcyc
    obtain ⟨cycle, dropped⟩ := head
    obtain ⟨i0, i1, i2, i3, i4⟩ := hinv
    have hn : (if dv.cip.syt_interval = 250 then (68 : Int) else 1) = n := by
      rw [hS]
      rcases hcfg with ⟨e1, e2, _⟩ | ⟨e1, e2, _⟩ <;> rw [e1, e2] <;> decide
    have hd : (if dv.cip.syt_interval = 250 then (1068 : Int) else 16) = d := by
      rw [hS]
      rcases hcfg with ⟨e1, _, e3⟩ | ⟨e1, _, e3⟩ <;> rw [e1, e3] <;> decide
    obtain ⟨r, hr, hsyt, g1, g2, hts, hstep⟩ :=
      dv_xmit_handler_syt be local_id get_data dv statics cb cycle dropped h1 h2
    rw [hn, hd, hS] at hstep
    obtain ⟨hc0, hc1⟩ := hcyc (cycle, dropped) (List.mem_cons_self _ _)
    have hcast : cycle = ((cycle.toNat : Nat) : Int) := (Int.toNat_of_nonneg hc0).symm
    have hlt : cycle.toNat < 8000 := by omega
    have hval := dv_xmit_ts_value statics.packet_num cycle.toNat hlt
    rw [← hcast] at hval
    have hreal := dv_xmit_ts_real cycle.toNat
    have hts2 : r.packet.syt = htons be
        (if statics.packet_num = 0 then (((cycle.toNat + 3) % 8000) &&& 0xF) <<< 12
          else 0xFFFF) := by
      rw [hts, hval]
      by_cases hp : statics.packet_num = 0
      · rw [if_pos hp, Nat.mod_eq_of_lt hreal.1]
      · rw [if_neg hp]
    have hdata0 : statics.packet_num = 0 → ¬ (statics.cip_accum > d - n) := by
      intro hp
      rw [hp] at i4
      rcases hcfg with ⟨_, e2, e3⟩ | ⟨_, e2, e3⟩ <;> subst e2 e3 <;> omega
    have hcases : (r.n_dif_blocks = 0 ∧ statics.packet_num ≠ 0 ∧
          r.statics.packet_num = statics.packet_num ∧
          r.statics.cip_accum = statics.cip_accum - (d - n) ∧ statics.cip_accum > d - n) ∨
        (r.n_dif_blocks = 1 ∧
          r.statics.packet_num =
            (if statics.packet_num + 1 ≥ S then 0 else statics.packet_num + 1) ∧
          r.statics.cip_accum = statics.cip_accum + n ∧ ¬ (statics.cip_accum > d - n)) := by
      by_cases hc : statics.cip_accum > d - n
      · rw [if_pos hc] at hstep
        exact Or.inl ⟨hstep.1, fun hp => hdata0 hp hc, hstep.2.2, hstep.2.1, hc⟩
      · rw [if_neg hc] at hstep
        exact Or.inr ⟨hstep.1, hstep.2.2, hstep.2.1, hc⟩
    have hinv2 : dv_cadence_inv S n d r.statics := by
      unfold dv_cadence_inv
      rcases hcases with ⟨_, _, e2, e3, e4⟩ | ⟨_, e2, e3, e4⟩
      · rw [e2, e3]
        rcases hcfg with ⟨f1, f2, f3⟩ | ⟨f1, f2, f3⟩ <;> subst f1 f2 f3 <;>
          refine ⟨?_, ?_, ?_, ?_, ?_⟩ <;> omega
      · rw [e2, e3]
        rcases hcfg with ⟨f1, f2, f3⟩ | ⟨f1, f2, f3⟩ <;> subst f1 f2 f3 <;>
          refine ⟨?_, ?_, ?_, ?_, ?_⟩ <;> omega
    obtain ⟨rs, hrs, hlen, hall⟩ :=
      ih r.dv r.statics r.callback_data g1 g2 (by rw [hsyt]; exact hS) hinv2
        (fun c hc => hcyc c (List.mem_cons_of_mem _ hc))
    refine ⟨r :: rs, ?_, ?_, ?_⟩
    · simp only [dv_xmit_run, hr, hrs]
    · rw [List.length_cons, List.length_cons, hlen]
    · intro i c dr x hci hri
      cases i with
      | zero =>
        simp only [List.get?, Option.some.injEq, Prod.mk.injEq] at hci hri
        obtain ⟨hc, _⟩ := hci
        subst hc hri
        refine ⟨?_, ?_⟩
        · rcases hcases with ⟨e1, _⟩ | ⟨e1, _⟩
          · exact Or.inl e1
          · exact Or.inr e1
        · rw [hts2]
          have hcount : (dv_data_count (List.take 0 (r :: rs)) : Int) = 0 := by
            simp [dv_data_count]
          rw [hcount]
          by_cases hp : statics.packet_num = 0
          · have hdata : r.n_dif_blocks = 1 := by
              rcases hcases with ⟨_, e2, _⟩ | ⟨e1, _⟩
              · exact absurd hp e2
              · exact e1
            rw [if_pos hp, if_pos ⟨hdata, by rw [hp]; rcases hcfg with ⟨f1, _⟩ | ⟨f1, _⟩ <;>
              rw [f1] <;> decide⟩]
          · rw [if_neg hp, if_neg]
            intro hh
            apply hp
            have := hh.2
            rcases hcfg with ⟨f1, _⟩ | ⟨f1, _⟩ <;> subst f1 <;> omega
      | succ i =>
        simp only [List.get?] at hci hri
        obtain ⟨h01, hx⟩ := hall i c dr x hci hri
        refine ⟨h01, ?_⟩
        rw [hx]
        have hcount : (dv_data_count (List.take (i + 1) (r :: rs)) : Int) =
            (dv_data_count (List.take i rs) : Int) + (if r.n_dif_blocks = 1 then 1 else 0) := by
          unfold dv_data_count
          rw [List.take_succ_cons, List.countP_cons]
          by_cases h1 : r.n_dif_blocks = 1
          · simp [h1]
          · simp [h1]
        rw [hcount]
        have hmod : (r.statics.packet_num + (dv_data_count (List.take i rs) : Int)) % S =
            (statics.packet_num + ((dv_data_count (List.take i rs) : Int) +
              (if r.n_dif_blocks = 1 then 1 else 0))) % S := by
          rcases hcases with ⟨e1, _, e2, _⟩ | ⟨e1, e2, _⟩
          · rw [e2, e1]
            simp
          · rw [e2, e1]
            simp only [if_true]
            rcases hcfg with ⟨f1, _⟩ | ⟨f1, _⟩ <;> subst f1 <;> split <;> omega
        rw [hmod]

/-- C31, the timestamps of the DV transmitter. From the stream made by
`iec61883_dv_xmit_init`, whose `ticks_per_syt_offset` holds the overflowed product of
`iec61883_cip_init` as the machine keeps it, and the initial values of the static
variables, for PAL and for NTSC, any number of cycles with cycle numbers in 0..7999: every
packet carries 0 or 1 DIF block; a packet without DIF block has `syt = htons (0xFFFF)`; a
packet with a DIF block has a real timestamp exactly when the number of DIF blocks sent
before it is a multiple of `syt_interval` (300 for PAL, 250 for NTSC), that is when it
begins a group of `syt_interval` data packets, and 0xFFFF otherwise; the real timestamp is
`htons ((((c + 3) mod 8000) & 0xF) << 12)`, whose two bytes in memory are the high byte and
the low byte of that value, and which is never 0xFFFF. -/
theorem dv_xmit_timestamps {σ : Type} (be : Bool) (local_id : Nat)
    (get_data : Option (σ → Int → Nat → Int × List Nat × σ)) (mem : iec61883_dv)
    (is_pal : Int) (cb : σ) (cycles : List (Int × Nat))
    (hcyc : ∀ c ∈ cycles, 0 ≤ c.1 ∧ c.1 < 8000) :
    ∃ dv rs, iec61883_dv_xmit_init (some mem) is_pal = some dv ∧
      dv.cip.ticks_per_syt_offset =
        (if is_pal ≠ 0 then ⟨-162284, -4592, 7500⟩ else ⟨246800, 7104, 7492⟩) ∧
      dv_xmit_run be local_id get_data cycles dv dv_xmit_static_init cb = some rs ∧
      rs.length = cycles.length ∧
      ∀ (i : Nat) (c : Int) (dr : Nat) (r : dv_xmit_cycle σ),
        cycles.get? i = some (c, dr) → rs.get? i = some r →
        (r.n_dif_blocks = 0 ∨ r.n_dif_blocks = 1) ∧
        (r.n_dif_blocks = 0 →
          r.packet.syt = htons be 0xFFFF ∧ u16_image be r.packet.syt = [0xFF, 0xFF]) ∧
        (r.n_dif_blocks = 1 →
          dv_data_count (rs.take i) % (if is_pal ≠ 0 then 300 else 250) = 0 →
          r.packet.syt = htons be ((((c.toNat + 3) % 8000) &&& 0xF) <<< 12) ∧
            u16_image be r.packet.syt =
              [((((c.toNat + 3) % 8000) &&& 0xF) <<< 12) / 256,
                ((((c.toNat + 3) % 8000) &&& 0xF) <<< 12) % 256]) ∧
        (r.n_dif_blocks = 1 →
          dv_data_count (rs.take i) % (if is_pal ≠ 0 then 300 else 250) ≠ 0 →
          r.packet.syt = htons be 0xFFFF ∧ u16_image be r.packet.syt = [0xFF, 0xFF]) ∧
        (((c.toNat + 3) % 8000) &&& 0xF) <<< 12 ≠ 0xFFFF := by
  obtain ⟨dv, hdv, hsyt, h1, h2⟩ := dv_xmit_init_some mem is_pal
  have hticks : dv.cip.ticks_per_syt_offset =
      (if is_pal ≠ 0 then ⟨-162284, -4592, 7500⟩ else ⟨246800, 7104, 7492⟩) := by
    obtain ⟨dv2, hdv2, ht, _⟩ := dv_xmit_init_ticks mem is_pal
    rw [hdv] at hdv2
    injection hdv2 with hdv2
    rw [hdv2]
    exact ht
  have hcfg : ((if is_pal ≠ 0 then (300 : Int) else 250) = 300 ∧
        (if is_pal ≠ 0 then (1 : Int) else 68) = 1 ∧
        (if is_pal ≠ 0 then (16 : Int) else 1068) = 16) ∨
      ((if is_pal ≠ 0 then (300 : Int) else 250) = 250 ∧
        (if is_pal ≠ 0 then (1 : Int) else 68) = 68 ∧
        (if is_pal ≠ 0 then (16 : Int) else 1068) = 1068) := by
    by_cases hp : is_pal ≠ 0
    · rw [if_pos hp, if_pos hp, if_pos hp]
      exact Or.inl ⟨rfl, rfl, rfl⟩
    · rw [if_neg hp, if_neg hp, if_neg hp]
      exact Or.inr ⟨rfl, rfl, rfl⟩
  have hinv : dv_cadence_inv (if is_pal ≠ 0 then (300 : Int) else 250)
      (if is_pal ≠ 0 then (1 : Int) else 68) (if is_pal ≠ 0 then (16 : Int) else 1068)
      dv_xmit_static_init := by
    unfold dv_cadence_inv
    have e1 : dv_xmit_static_init.cip_accum = 0 := rfl
    have e2 : dv_xmit_static_init.packet_num = 0 := rfl
    rw [e1, e2]
    by_cases hp : is_pal ≠ 0
    · simp only [if_pos hp]
      decide
    · simp only [if_neg hp]
      decide
  obtain ⟨rs, hrs, hlen, hall⟩ :=
    dv_xmit_run_syt be local_id get_data _ _ _ hcfg cycles dv dv_xmit_static_init cb h1 h2
      hsyt hinv hcyc
  refine ⟨dv, rs, hdv, hticks, hrs, hlen, ?_⟩
  intro i c dr r hc hr
  obtain ⟨h01, hx⟩ := hall i c dr r hc hr
  have hreal := dv_xmit_ts_real c.toNat
  have e2 : dv_xmit_static_init.packet_num = 0 := rfl
  rw [e2, Int.zero_add] at hx
  have hmod : ((dv_data_count (List.take i rs) : Int) % (if is_pal ≠ 0 then (300 : Int) else 250)
      = 0) ↔ dv_data_count (List.take i rs) % (if is_pal ≠ 0 then 300 else 250) = 0 := by
    by_cases hp : is_pal ≠ 0
    · simp only [if_pos hp]
      omega
    · simp only [if_neg hp]
      omega
  have hff : u16_image be (htons be 0xFFFF) = [0xFF, 0xFF] :=
    u16_image_htons be 0xFFFF (by decide)
  refine ⟨h01, ?_, ?_, ?_, hreal.2⟩
  · intro h0
    rw [hx, if_neg (fun hh => by rw [h0] at hh; exact absurd hh.1 (by decide))]
    exact ⟨rfl, hff⟩
  · intro hd hm
    rw [hx, if_pos ⟨hd, hmod.mpr hm⟩]
    exact ⟨rfl, u16_image_htons be _ hreal.1⟩
  · intro hd hm
    rw [hx, if_neg (fun hh => hm (hmod.mp hh.2))]
    exact ⟨rfl, hff⟩

/-- An instance of `dv_xmit_timestamps`: the first two PAL cycles, with the cycle numbers 5
and 6, on a little-endian host. The first packet has the timestamp bytes `80 00`, the
second `FF FF`. -/
theorem dv_xmit_timestamps_witness :
    ∃ dv rs, iec61883_dv_xmit_init (some dv_blank) 1 = some dv ∧
      dv.cip.ticks_per_syt_offset = ⟨-162284, -4592, 7500⟩ ∧
      dv_xmit_run false 0 (none : Option (Unit → Int → Nat → Int × List Nat × Unit))
        [(5, 0), (6, 0)] dv dv_xmit_static_init () = some rs ∧
      rs.map (fun r => (r.n_dif_blocks, u16_image false r.packet.syt)) =
        [(1, [0x80, 0x00]), (1, [0xFF, 0xFF])] := by
  obtain ⟨dv, rs, hdv, hticks, hrs, _, _⟩ :=
    dv_xmit_timestamps false 0 (none : Option (Unit → Int → Nat → Int × List Nat × Unit))
      dv_blank 1 () [(5, 0), (6, 0)] (by decide)
  have hdv2 : ∃ dv2, iec61883_dv_xmit_init (some dv_blank) 1 = some dv2 ∧
      ((dv_xmit_run false 0 (none : Option (Unit → Int → Nat → Int × List Nat × Unit))
        [(5, 0), (6, 0)] dv2 dv_xmit_static_init ()).map (fun rs =>
          rs.map (fun r => (r.n_dif_blocks, u16_image false r.packet.syt)))) =
        some [(1, [0x80, 0x00]), (1, [0xFF, 0xFF])] :=
    ⟨_, rfl, by set_option maxRecDepth 1000000 in decide⟩
  obtain ⟨dv2, hdv3, hev⟩ := hdv2
  rw [hdv] at hdv3
  simp only [Option.some.injEq] at hdv3
  subst hdv3
  rw [hrs] at hev
  simp only [Option.map_some', Option.some.injEq] at hev
  exact ⟨dv, rs, hdv, hticks.trans (if_pos (by decide)), hrs, hev⟩

/-! ### The deque as a list -/

/-- A deque with the invariant, as an array of cells and a number of items. -/
theorem deque_inv_cells (this : iec61883_deque) (h : deque_inv this) :
    ∃ (cells : List Nat) (c : Nat), this.list.getD [] = cells ∧ this.count = (c : Int) ∧
      c ≤ cells.length ∧ this.size = (cells.length : Int) ∧ deque_items this = cells.take c ∧
      (this.list = none → cells = []) ∧ (0 < cells.length → this.list = some cells) := by
  obtain ⟨h0, h1, h2⟩ := h
  refine ⟨this.list.getD [], this.count.toNat, rfl, (Int.toNat_of_nonneg h0).symm, by omega,
    h2.symm, rfl, ?_, ?_⟩
  · intro hn
    rw [hn]
    rfl
  · intro hpos
    cases hl : this.list with
    | none =>
      rw [hl] at hpos
      exact absurd hpos (by simp)
    | some cells => rfl

/-- With a successful `realloc`, `iec61883_deque_allocate` returns 0 and leaves a deque with
the same items and a free cell. -/
theorem deque_allocate_spec (fresh : List Nat) (this : iec61883_deque) (h : deque_inv this) :
    ∃ (cells : List Nat) (c : Nat),
      iec61883_deque_allocate true fresh this =
        (0, { list := some cells, size := (cells.length : Int), count := (c : Int) }) ∧
      this.count = (c : Int) ∧ c < cells.length ∧ cells.take c = deque_items this := by
  obtain ⟨cells, c, hcells, hc, hle, hsize, hitems, hnone, hsome⟩ := deque_inv_cells this h
  have hfresh : ((fresh ++ List.replicate 20 0).take 20).length = 20 := by
    rw [List.length_take, List.length_append, List.length_replicate]
    omega
  by_cases hfull : this.count = this.size
  · refine ⟨cells ++ (fresh ++ List.replicate 20 0).take 20, c, ?_, hc, ?_, ?_⟩
    · unfold iec61883_deque_allocate
      simp only [if_pos hfull, if_true, hcells]
      rw [if_neg (by simp)]
      have hs : this.size + 20 =
          ((cells ++ (fresh ++ List.replicate 20 0).take 20).length : Int) := by
        rw [List.length_append, hfresh, hsize]
        push_cast
        rfl
      rw [hs, hc]
    · rw [List.length_append, hfresh]
      omega
    · rw [hitems, List.take_append_of_le_length hle]
  · have hlt : c < cells.length := by omega
    have hl := hsome (by omega)
    refine ⟨cells, c, ?_, hc, hlt, hitems.symm⟩
    unfold iec61883_deque_allocate
    simp only [if_neg hfull, hl]
    rw [if_neg (by simp)]
    congr 1
    cases this
    simp only at hl hsize hc
    rw [hl, hsize, hc]

/-- A deque given by its array and its number of items. -/
theorem deque_inv_mk (cells : List Nat) (c : Nat) (h : c ≤ cells.length) :
    deque_inv { list := some cells, size := (cells.length : Int), count := (c : Int) } ∧
    deque_items { list := some cells, size := (cells.length : Int), count := (c : Int) } =
      cells.take c := by
  refine ⟨⟨?_, ?_, rfl⟩, ?_⟩
  · show (0 : Int) ≤ (c : Int)
    omega
  · show (c : Int) ≤ (cells.length : Int)
    omega
  · show List.take ((c : Int).toNat) cells = _
    rw [Int.toNat_ofNat]

/-- With a successful `realloc`, `iec61883_deque_push_back` returns 0 and appends the
item. -/
theorem deque_push_back_spec (fresh : List Nat) (this : iec61883_deque) (item : Nat)
    (h : deque_inv this) :
    ∃ t, iec61883_deque_push_back true fresh this item = some (0, t) ∧ deque_inv t ∧
      deque_items t = deque_items this ++ [item] := by
  obtain ⟨cells, c, halloc, hc, hlt, hitems⟩ := deque_allocate_spec fresh this h
  have hres : iec61883_deque_push_back true fresh this item =
      some (0, { list := some (cells.set c item), size := (cells.length : Int),
                 count := ((c + 1 : Nat) : Int) }) := by
    unfold iec61883_deque_push_back
    rw [halloc]
    simp only [if_true]
    rw [if_pos ⟨by omega, by omega⟩, Int.toNat_ofNat]
    rfl
  have hlen : (cells.set c item).length = cells.length := List.length_set _ _ _
  obtain ⟨hinv, hit⟩ := deque_inv_mk (cells.set c item) (c + 1) (by rw [hlen]; omega)
  rw [hlen] at hinv hit
  refine ⟨_, hres, hinv, ?_⟩
  rw [hit, ← hitems]
  apply List.ext_getElem
  · rw [List.length_take, List.length_append, List.length_take, hlen]
    simp only [List.length_singleton]
    omega
  · intro i h1 h2
    rw [List.getElem_take, List.getElem_set]
    by_cases hi : c = i
    · subst hi
      rw [if_pos rfl, List.getElem_append_right (by rw [List.length_take]; omega)]
      simp [List.length_take, Nat.min_eq_left (Nat.le_of_lt hlt)]
    · rw [if_neg hi]
      rw [List.length_take, hlen] at h1
      rw [List.getElem_append_left (by rw [List.length_take]; omega), List.getElem_take]

/-- With a successful `realloc`, `iec61883_deque_push_front` returns 0 and prepends the
item. -/
theorem deque_push_front_spec (fresh : List Nat) (this : iec61883_deque) (item : Nat)
    (h : deque_inv this) :
    ∃ t, iec61883_deque_push_front true fresh this item = some (0, t) ∧ deque_inv t ∧
      deque_items t = item :: deque_items this := by
  obtain ⟨cells, c, halloc, hc, hlt, hitems⟩ := deque_allocate_spec fresh this h
  have hlen : (item :: cells.take c ++ cells.drop (c + 1)).length = cells.length := by
    rw [List.length_append, List.length_cons, List.length_take, List.length_drop]
    omega
  have hres : iec61883_deque_push_front true fresh this item =
      some (0, { list := some (item :: cells.take c ++ cells.drop (c + 1)),
                 size := ((item :: cells.take c ++ cells.drop (c + 1)).length : Int),
                 count := ((c + 1 : Nat) : Int) }) := by
    unfold iec61883_deque_push_front
    rw [halloc]
    simp only [if_true]
    rw [if_pos ⟨by omega, by omega⟩, Int.toNat_ofNat, hlen]
    rfl
  obtain ⟨hinv, hit⟩ := deque_inv_mk (item :: cells.take c ++ cells.drop (c + 1)) (c + 1)
    (by rw [hlen]; omega)
  refine ⟨_, hres, hinv, ?_⟩
  rw [hit, ← hitems, List.cons_append, List.take_succ_cons,
    List.take_append_of_le_length (by rw [List.length_take]; omega),
    List.take_take, Nat.min_self]

/-- The function `iec61883_deque_pop_front` on a deque that stands for a list. -/
theorem deque_pop_front_spec (this : iec61883_deque) (h : deque_inv this) :
    (deque_items this = [] → iec61883_deque_pop_front this = some (0, this)) ∧
    (∀ x xs, deque_items this = x :: xs →
      ∃ t, iec61883_deque_pop_front this = some (x, t) ∧ deque_inv t ∧ deque_items t = xs) := by
  obtain ⟨cells, c, hcells, hc, hle, hsize, hitems, hnone, hsome⟩ := deque_inv_cells this h
  constructor
  · intro hempty
    rw [hitems] at hempty
    have hc0 : c = 0 ∨ cells = [] := by
      rcases List.take_eq_nil_iff.mp hempty with h0 | h0
      · exact Or.inl h0
      · exact Or.inr h0
    have hc1 : c = 0 := by
      rcases hc0 with h0 | h0
      · exact h0
      · rw [h0] at hle
        simpa using hle
    unfold iec61883_deque_pop_front
    rw [if_neg (by omega)]
  · intro x xs hx
    rw [hitems] at hx
    cases c with
    | zero => simp at hx
    | succ c =>
      cases cells with
      | nil => simp at hx
      | cons y cs =>
        rw [List.take_succ_cons] at hx
        injection hx with hxy hxs
        subst hxy
        have hl := hsome (by simp)
        have hcs : c ≤ cs.length := by
          simp only [List.length_cons] at hle
          omega
        have hlen : (cs.take c ++ (y :: cs).drop c).length = (y :: cs).length := by
          rw [List.length_append, List.length_take, List.length_drop, List.length_cons]
          omega
        have hres : iec61883_deque_pop_front this =
            some (y, { list := some (cs.take c ++ (y :: cs).drop c),
                       size := ((cs.take c ++ (y :: cs).drop c).length : Int),
                       count := (c : Int) }) := by
          unfold iec61883_deque_pop_front
          rw [if_pos (by omega), hl]
          simp only
          rw [if_pos (by rw [hc]; exact_mod_cast hle), hlen, ← hsize]
          have e : (this.count - 1).toNat = c := by omega
          rw [e]
          have e2 : this.count - 1 = (c : Int) := by omega
          rw [e2]
          rfl
        obtain ⟨hinv, hit⟩ := deque_inv_mk (cs.take c ++ (y :: cs).drop c) c
          (by rw [hlen, List.length_cons]; omega)
        refine ⟨_, hres, hinv, ?_⟩
        rw [hit, List.take_append_of_le_length (by rw [List.length_take]; omega),
          List.take_take, Nat.min_self, hxs]

/-- The function `iec61883_deque_pop_back` on a deque that stands for a list. -/
theorem deque_pop_back_spec (this : iec61883_deque) (h : deque_inv this) :
    (deque_items this = [] → iec61883_deque_pop_back this = some (0, this)) ∧
    (∀ x xs, deque_items this = xs ++ [x] →
      ∃ t, iec61883_deque_pop_back this = some (x, t) ∧ deque_inv t ∧ deque_items t = xs) := by
  obtain ⟨cells, c, hcells, hc, hle, hsize, hitems, hnone, hsome⟩ := deque_inv_cells this h
  constructor
  · intro hempty
    rw [hitems] at hempty
    have hc1 : c = 0 := by
      rcases List.take_eq_nil_iff.mp hempty with h0 | h0
      · exact h0
      · rw [h0] at hle
        simpa using hle
    unfold iec61883_deque_pop_back
    rw [if_neg (by omega)]
  · intro x xs hx
    rw [hitems] at hx
    have hlenx : c = xs.length + 1 := by
      have := congrArg List.length hx
      rw [List.length_take, List.length_append, List.length_singleton] at this
      omega
    have hpos : 0 < cells.length := by omega
    have hl := hsome hpos
    have hget : cells.getD (c - 1) 0 = x := by
      have h1 : (cells.take c).getD (c - 1) 0 = x := by
        rw [hx, hlenx]
        simp [List.getD_eq_getElem?_getD]
      rw [← h1]
      simp only [List.getD_eq_getElem?_getD, List.getElem?_take]
      rw [if_pos (by omega)]
    have hres : iec61883_deque_pop_back this =
        some (x, { list := some cells, size := (cells.length : Int),
                   count := ((c - 1 : Nat) : Int) }) := by
      unfold iec61883_deque_pop_back
      rw [if_pos (by omega), hl]
      simp only
      rw [if_pos (by omega)]
      have e : (this.count - 1).toNat = c - 1 := by omega
      have e2 : this.count - 1 = ((c - 1 : Nat) : Int) := by omega
      rw [e, hget, e2, ← hl]
      cases this
      simp only at hsize ⊢
      rw [hsize]
    obtain ⟨hinv, hit⟩ := deque_inv_mk cells (c - 1) (by omega)
    refine ⟨_, hres, hinv, ?_⟩
    rw [hit]
    have h2 : (cells.take c).take (c - 1) = xs := by
      rw [hx, hlenx]
      simp
    rw [← h2, List.take_take, Nat.min_eq_left (by omega)]

/-- The functions `iec61883_deque_front` and `iec61883_deque_back`. -/
theorem deque_front_back_spec (this : iec61883_deque) (h : deque_inv this) :
    iec61883_deque_front this = some ((deque_items this).head?.getD 0) ∧
    iec61883_deque_back this = some ((deque_items this).getLast?.getD 0) := by
  obtain ⟨cells, c, hcells, hc, hle, hsize, hitems, hnone, hsome⟩ := deque_inv_cells this h
  by_cases hc0 : c = 0
  · subst hc0
    rw [hitems]
    constructor
    · unfold iec61883_deque_front
      rw [if_neg (by omega)]
      rfl
    · unfold iec61883_deque_back
      rw [if_neg (by omega)]
      rfl
  · have hpos : 0 < cells.length := by omega
    have hl := hsome hpos
    rw [hitems]
    constructor
    · unfold iec61883_deque_front
      rw [if_pos (by omega), hl]
      simp only
      rw [if_pos hpos]
      cases cells with
      | nil => simp at hpos
      | cons y cs =>
        cases c with
        | zero => exact absurd rfl hc0
        | succ c => rfl
    · unfold iec61883_deque_back
      rw [if_pos (by omega), hl]
      simp only
      rw [if_pos (by omega)]
      have e : (this.count - 1).toNat = c - 1 := by omega
      rw [e, List.getLast?_eq_getElem?, List.length_take, Nat.min_eq_left hle,
        List.getElem?_take, if_pos (by omega), List.getD_eq_getElem?_getD]

/-- Items pushed at the back of a deque. -/
theorem deque_push_all_spec (items : List Nat) :
    ∀ this : iec61883_deque, deque_inv this →
      ∃ t, deque_push_all items this = some t ∧ deque_inv t ∧
        deque_items t = deque_items this ++ items := by
  induction items with
  | nil =>
    intro this h
    exact ⟨this, rfl, h, (List.append_nil _).symm⟩
  | cons item items ih =>
    intro this h
    obtain ⟨t1, h1, hinv1, hit1⟩ := deque_push_back_spec [] this item h
    obtain ⟨t2, h2, hinv2, hit2⟩ := ih t1 hinv1
    refine ⟨t2, ?_, hinv2, ?_⟩
    · simp only [deque_push_all, h1, h2]
    · rw [hit2, hit1, List.append_assoc, List.singleton_append]

/-- The items of a deque popped from the front. -/
theorem deque_pop_all_spec (items : List Nat) :
    ∀ (this : iec61883_deque) (rest : List Nat), deque_inv this →
      deque_items this = items ++ rest →
      ∃ t, deque_pop_all items.length this = some (items, t) ∧ deque_inv t ∧
        deque_items t = rest := by
  induction items with
  | nil =>
    intro this rest h hit
    exact ⟨this, rfl, h, hit⟩
  | cons item items ih =>
    intro this rest h hit
    obtain ⟨t1, h1, hinv1, hit1⟩ := (deque_pop_front_spec this h).2 item (items ++ rest) hit
    obtain ⟨t2, h2, hinv2, hit2⟩ := ih t1 rest hinv1 hit1
    refine ⟨t2, ?_, hinv2, hit2⟩
    simp only [List.length_cons, deque_pop_all, h1, h2]

/-- C40, the deque refines a list. The list of a deque is `deque_items`, the cells
`list[0 .. count - 1]`; `deque_inv` is the invariant `0 ≤ count ≤ size`, `size` being the
number of cells of the array. The deque made by `iec61883_deque_init` has the invariant and
the empty list. For a deque with the invariant: `iec61883_deque_size` is the length of the
list; with a successful `realloc`, `iec61883_deque_push_back` returns 0 and appends the
item and `iec61883_deque_push_front` returns 0 and prepends it; `iec61883_deque_pop_front`
and `iec61883_deque_pop_back` return the first and the last item and leave the list without
it; `iec61883_deque_front` and `iec61883_deque_back` return the first and the last item;
on an empty list the four return `NULL` (0) and the pops leave the deque as it is. Every
operation keeps the invariant and reads and writes only cells of the array. Items pushed
at the back of a new deque are returned by as many calls of `iec61883_deque_pop_front` in
the order of insertion, and the deque is empty again. -/
theorem deque_refines_list :
    (∃ d, iec61883_deque_init true = some d ∧ deque_inv d ∧ deque_items d = []) ∧
    (∀ this : iec61883_deque, deque_inv this →
      iec61883_deque_size this = (deque_items this).length ∧
      (∀ (fresh : List Nat) (item : Nat),
        (∃ t, iec61883_deque_push_back true fresh this item = some (0, t) ∧ deque_inv t ∧
          deque_items t = deque_items this ++ [item]) ∧
        (∃ t, iec61883_deque_push_front true fresh this item = some (0, t) ∧ deque_inv t ∧
          deque_items t = item :: deque_items this)) ∧
      (∀ x xs, deque_items this = x :: xs →
        ∃ t, iec61883_deque_pop_front this = some (x, t) ∧ deque_inv t ∧
          deque_items t = xs) ∧
      (∀ x xs, deque_items this = xs ++ [x] →
        ∃ t, iec61883_deque_pop_back this = some (x, t) ∧ deque_inv t ∧
          deque_items t = xs) ∧
      iec61883_deque_front this = some ((deque_items this).head?.getD 0) ∧
      iec61883_deque_back this = some ((deque_items this).getLast?.getD 0) ∧
      (deque_items this = [] →
        iec61883_deque_pop_front this = some (0, this) ∧
        iec61883_deque_pop_back this = some (0, this) ∧
        iec61883_deque_front this = some 0 ∧ iec61883_deque_back this = some 0)) ∧
    (∀ items : List Nat,
      ∃ d t u, iec61883_deque_init true = some d ∧ deque_push_all items d = some t ∧
        deque_items t = items ∧ deque_pop_all items.length t = some (items, u) ∧
        deque_items u = []) := by
  have hinit : deque_inv { list := none, size := 0, count := 0 } ∧
      deque_items { list := none, size := 0, count := 0 } = [] := ⟨⟨by decide, by decide, rfl⟩, rfl⟩
  refine ⟨⟨_, rfl, hinit.1, hinit.2⟩, ?_, ?_⟩
  · intro this h
    obtain ⟨hf, hb⟩ := deque_front_back_spec this h
    refine ⟨?_, fun fresh item => ⟨deque_push_back_spec fresh this item h,
      deque_push_front_spec fresh this item h⟩, (deque_pop_front_spec this h).2,
      (deque_pop_back_spec this h).2, hf, hb, ?_⟩
    · obtain ⟨cells, c, _, hc, hle, _, hitems, _, _⟩ := deque_inv_cells this h
      unfold iec61883_deque_size
      rw [hitems, List.length_take, Nat.min_eq_left hle, hc]
    · intro hempty
      refine ⟨(deque_pop_front_spec this h).1 hempty, (deque_pop_back_spec this h).1 hempty,
        ?_, ?_⟩
      · rw [hf, hempty]
        rfl
      · rw [hb, hempty]
        rfl
  · intro items
    obtain ⟨t, ht, hinvt, hitt⟩ := deque_push_all_spec items _ hinit.1
    rw [hinit.2, List.nil_append] at hitt
    obtain ⟨u, hu, _, hitu⟩ := deque_pop_all_spec items t [] hinvt (by rw [hitt, List.append_nil])
    exact ⟨_, t, u, rfl, ht, hitt, hu, hitu⟩

/-- An instance of `deque_refines_list`: the items 11, 22 and 33 pushed at the back of a new
deque and popped from the front. -/
theorem deque_refines_list_witness :
    ∃ d t u, iec61883_deque_init true = some d ∧ deque_push_all [11, 22, 33] d = some t ∧
      iec61883_deque_size t = 3 ∧ iec61883_deque_front t = some 11 ∧
      iec61883_deque_back t = some 33 ∧
      deque_pop_all 3 t = some ([11, 22, 33], u) ∧ iec61883_deque_size u = 0 := by
  obtain ⟨d, t, u, hd, ht, hitt, hu, hitu⟩ := deque_refines_list.2.2 [11, 22, 33]
  have hinvd : deque_inv d := by
    obtain ⟨d2, hd2, hinv2, _⟩ := deque_refines_list.1
    rw [hd] at hd2
    injection hd2 with hd2
    rw [hd2]
    exact hinv2
  obtain ⟨t2, ht2, hinvt, _⟩ := deque_push_all_spec [11, 22, 33] d hinvd
  rw [ht] at ht2
  injection ht2 with ht2
  subst ht2
  obtain ⟨hsize, _, _, _, hf, hb, _⟩ := deque_refines_list.2.1 t hinvt
  obtain ⟨u2, hu2, hinvu, _⟩ := deque_pop_all_spec [11, 22, 33] t [] hinvt (by rw [hitt]; rfl)
  have hu3 : deque_pop_all 3 t = some ([11, 22, 33], u2) := hu2
  have hu4 : deque_pop_all 3 t = some ([11, 22, 33], u) := hu
  rw [hu3] at hu4
  simp only [Option.some.injEq, Prod.mk.injEq, true_and] at hu4
  subst hu4
  obtain ⟨hsizeu, _⟩ := deque_refines_list.2.1 u2 hinvu
  refine ⟨d, t, u2, hd, ht, ?_, ?_, ?_, hu, ?_⟩
  · rw [hsize, hitt]
    rfl
  · rw [hf, hitt]
    rfl
  · rw [hb, hitt]
    rfl
  · rw [hsizeu, hitu]
    rfl

/-! ### The forwarding loop of `mpeg2_recv_handler` -/

/-- The loop of `mpeg2_recv_handler` with a sink that never fails, entered with
`len = r + 192 * k`, `r ≤ 188`: it ends after `k` calls of the sink. -/
theorem mpeg2_recv_loop_calls {σ : Type} (put : σ → List Nat → Int → Nat → Int × σ)
    (data : List Nat) (hput : ∀ cb d l dr, 0 ≤ (put cb d l dr).1) (r : Nat) (hr : r ≤ 188) :
    ∀ (k fuel offset dropped : Nat) (cb : σ) (calls : Nat),
      r + 192 * k < 4294967296 → k < fuel →
      mpeg2_recv_loop put data fuel (r + 192 * k) offset dropped cb calls =
        some (RAW1394_ISO_OK, if k = 0 then dropped else 0,
          mpeg2_sink_run put data k offset dropped cb, calls + k) := by
  intro k
  induction k with
  | zero =>
    intro fuel offset dropped cb calls _ hf
    obtain ⟨f, rfl⟩ : ∃ f, fuel = f + 1 := ⟨fuel - 1, by omega⟩
    unfold mpeg2_recv_loop
    rw [if_neg (by simp only [IEC61883_MPEG2_TSP_SIZE]; omega)]
    rfl
  | succ k ih =>
    intro fuel offset dropped cb calls hlen hf
    obtain ⟨f, rfl⟩ : ∃ f, fuel = f + 1 := ⟨fuel - 1, by omega⟩
    unfold mpeg2_recv_loop
    rw [if_pos (by simp only [IEC61883_MPEG2_TSP_SIZE]; omega)]
    simp only
    have hok := hput cb ((data.drop offset).take IEC61883_MPEG2_TSP_SIZE)
      (IEC61883_MPEG2_TSP_SIZE : Int) dropped
    rw [if_neg (not_lt.mpr hok)]
    have e : (r + 192 * (k + 1) + 4294967296 - TSP_SPH_SIZE) % 4294967296 = r + 192 * k := by
      simp only [TSP_SPH_SIZE]
      omega
    rw [e, ih f _ 0 _ _ (by omega) (by omega)]
    simp only [mpeg2_sink_run, if_neg (Nat.succ_ne_zero k)]
    have e2 : calls + 1 + k = calls + (k + 1) := by omega
    rw [e2]
    split <;> rfl

/-- One turn of the loop of `mpeg2_recv_handler` with a sink that does not fail. -/
theorem mpeg2_recv_loop_turn {σ : Type} (put : σ → List Nat → Int → Nat → Int × σ)
    (data : List Nat) (fuel len offset dropped : Nat) (cb : σ) (calls : Nat)
    (hlen : len > 188)
    (hok : 0 ≤ (put cb ((data.drop offset).take 188) 188 dropped).1) :
    mpeg2_recv_loop put data (fuel + 1) len offset dropped cb calls =
      mpeg2_recv_loop put data fuel ((len + 4294967296 - 192) % 4294967296) (offset + 192) 0
        (put cb ((data.drop offset).take 188) 188 dropped).2 (calls + 1) := by
  have hok2 : 0 ≤ (put cb ((data.drop offset).take IEC61883_MPEG2_TSP_SIZE)
      (IEC61883_MPEG2_TSP_SIZE : Int) dropped).1 := hok
  have hlen2 : len > IEC61883_MPEG2_TSP_SIZE := hlen
  rw [mpeg2_recv_loop, if_pos hlen2]
  simp only
  rw [if_neg (not_lt.mpr hok2)]
  rfl

/-- The state of the counting sink after `k` calls. -/
theorem mpeg2_sink_run_count (data : List Nat) :
    ∀ (k offset dropped calls : Nat),
      mpeg2_sink_run count_sink data k offset dropped calls = calls + k := by
  intro k
  induction k with
  | zero => intro _ _ _; rfl
  | succ k ih =>
    intro offset dropped calls
    rw [mpeg2_sink_run, ih]
    show calls + 1 + k = calls + (k + 1)
    omega

/-- The loop of `mpeg2_recv_handler` on a length `len` with `(len - 8) mod 192 ≤ 180` and
a sink that never fails: it ends after `(len - 8) / 192` calls, and the units handed to the
sink, at the offsets `12 + 192 * i`, end within the first `len` bytes. -/
theorem mpeg2_recv_loop_exact {σ : Type} (put : σ → List Nat → Int → Nat → Int × σ)
    (data : List Nat) (hput : ∀ cb d l dr, 0 ≤ (put cb d l dr).1) (len : Nat) (h8 : 8 ≤ len)
    (hlt : len < 4294967296) (hr : (len - 8) % 192 ≤ 180) (offset dropped : Nat) (cb : σ)
    (calls : Nat) :
    mpeg2_recv_loop put data 67108864 len offset dropped cb calls =
      some (RAW1394_ISO_OK, if (len - 8) / 192 = 0 then dropped else 0,
        mpeg2_sink_run put data ((len - 8) / 192) offset dropped cb,
        calls + (len - 8) / 192) ∧
    ∀ i, i < (len - 8) / 192 → 12 + 192 * i + 188 ≤ len := by
  have e : (8 + (len - 8) % 192) + 192 * ((len - 8) / 192) = len := by omega
  have h := mpeg2_recv_loop_calls put data hput (8 + (len - 8) % 192) (by omega)
    ((len - 8) / 192) 67108864 offset dropped cb calls (by omega) (by omega)
  rw [e] at h
  exact ⟨h, fun i hi => by omega⟩

/-- C38, evaluated on a packet of 381 bytes with a valid CIP header, for which
`(381 - 8) / 192 = 1`. With a sink that fails at its second call the handler calls the sink
twice, and the 188 bytes of the second call are the bytes 204 to 391 of the buffer, the
last eleven of them behind the packet. With a sink that never fails the loop does not end
after two calls: `len` is 189 after the first turn and wraps to `2 ^ 32 - 3` after the
second, and the sink is called 22369623 times before `len` is at most 188. -/
theorem mpeg2_recv_overrun :
    (381 - 8) / 192 = 1 ∧
    (mpeg2_recv_handler false true (some second_call_fails) mpeg2_blank [] mpeg2_packet_381
        381 63 1 0 0 0).map
      (fun c => (c.result, c.callback_data.map (fun d => d.length),
        (c.callback_data.getD 1 []).drop 177)) =
      some (RAW1394_ISO_ERROR, [188, 188], List.replicate 11 0xEE) ∧
    (mpeg2_packet_381.drop 381).take 11 = List.replicate 11 0xEE ∧
    (mpeg2_recv_handler false true (some count_sink) mpeg2_blank 0 mpeg2_packet_381
        381 63 1 0 0 0).map (fun c => (c.result, c.callback_data)) =
      some (RAW1394_ISO_OK, 22369623) := by
  refine ⟨by decide, ?_, ?_, ?_⟩
  · set_option maxRecDepth 1000000 in decide
  · set_option maxRecDepth 1000000 in decide
  · have hput : ∀ (cb : Nat) (d : List Nat) (l : Int) (dr : Nat),
        0 ≤ (count_sink cb d l dr).1 := fun _ _ _ _ => le_refl _
    have hloop : mpeg2_recv_loop count_sink mpeg2_packet_381 (67108862 + 1 + 1) 381 12 0 0 0 =
        some (RAW1394_ISO_OK, 0, 22369623, 22369623) := by
      rw [mpeg2_recv_loop_turn count_sink _ _ 381 _ _ _ _ (by decide) (hput _ _ _ _),
        mpeg2_recv_loop_turn count_sink _ _ _ _ _ _ _ (by decide) (hput _ _ _ _)]
      have e : (((381 + 4294967296 - 192) % 4294967296 + 4294967296 - 192) % 4294967296) =
          61 + 192 * 22369621 := by decide
      rw [e, mpeg2_recv_loop_calls count_sink _ hput 61 (by decide) 22369621 _ _ _ _ _
        (by decide) (by decide), mpeg2_sink_run_count]
      rfl
    have h0 : read_long_u32 false true mpeg2_packet_381 0 = some 0x00C40600 := by decide
    have h1 : read_long_u32 false true mpeg2_packet_381 4 = some 0xA0 := by decide
    unfold mpeg2_recv_handler
    rw [h0, h1]
    simp only
    rw [if_pos ⟨by decide, by decide, by decide, by decide⟩]
    have hloop2 : mpeg2_recv_loop count_sink mpeg2_packet_381 67108864 381 12 0 0 0 =
        some (RAW1394_ISO_OK, 0, 22369623, 22369623) := hloop
    rw [hloop2]
    rfl

/-! ### From the MPEG2 transmitter to the MPEG2 receiver -/

/-- The two quadlets that `mpeg2_recv_handler` reads from a buffer that starts with eight
given bytes and has four more, on a host that is little-endian or has a 4-byte `long`. -/
theorem read_long_u32_header (be l64 : Bool) (hhost : ¬ (be = true ∧ l64 = true))
    (b0 b1 b2 b3 b4 b5 b6 b7 : Nat) (rest : List Nat) (hrest : 4 ≤ rest.length) :
    ∃ q0 q1, read_long_u32 be l64 (b0 :: b1 :: b2 :: b3 :: b4 :: b5 :: b6 :: b7 :: rest) 0 =
        some q0 ∧
      read_long_u32 be l64 (b0 :: b1 :: b2 :: b3 :: b4 :: b5 :: b6 :: b7 :: rest) 4 =
        some q1 ∧
      htonl be q0 = b0 % 256 * 16777216 + b1 % 256 * 65536 + b2 % 256 * 256 + b3 % 256 ∧
      htonl be q1 = b4 % 256 * 16777216 + b5 % 256 * 65536 + b6 % 256 * 256 + b7 % 256 := by
  obtain ⟨r0, r1, r2, r3, rest2, rfl⟩ : ∃ r0 r1 r2 r3 rest2, rest = r0 :: r1 :: r2 :: r3 :: rest2 := by
    match rest, hrest with
    | r0 :: r1 :: r2 :: r3 :: rest2, _ => exact ⟨r0, r1, r2, r3, rest2, rfl⟩
  have hbig : ∀ x : Nat, x < 4294967296 → htonl true x = x := by
    intro x hx
    simp only [htonl, if_true]
    omega
  have hlittle : ∀ a b c d : Nat, a < 256 → b < 256 → c < 256 → d < 256 →
      htonl false (a + b * 256 + c * 65536 + d * 16777216) =
        a * 16777216 + b * 65536 + c * 256 + d := by
    intro a b c d ha hb hc hd
    simp only [htonl, Bool.false_eq_true, if_false]
    omega
  have m0 := Nat.mod_lt b0 (by decide : 256 > 0)
  have m1 := Nat.mod_lt b1 (by decide : 256 > 0)
  have m2 := Nat.mod_lt b2 (by decide : 256 > 0)
  have m3 := Nat.mod_lt b3 (by decide : 256 > 0)
  have m4 := Nat.mod_lt b4 (by decide : 256 > 0)
  have m5 := Nat.mod_lt b5 (by decide : 256 > 0)
  have m6 := Nat.mod_lt b6 (by decide : 256 > 0)
  have m7 := Nat.mod_lt b7 (by decide : 256 > 0)
  cases be
  · cases l64
    · refine ⟨_, _, rfl, rfl, hlittle _ _ _ _ m0 m1 m2 m3, hlittle _ _ _ _ m4 m5 m6 m7⟩
    · refine ⟨_, _, rfl, rfl, hlittle _ _ _ _ m0 m1 m2 m3, hlittle _ _ _ _ m4 m5 m6 m7⟩
  · cases l64
    · refine ⟨_, _, rfl, rfl, hbig _ (by omega), hbig _ (by omega)⟩
    · exact absurd ⟨rfl, rfl⟩ hhost

/-- The chunk number `i` of a list made of `n` chunks of the same length `c`. -/
theorem flatMap_range_chunk (f : Nat → List Nat) (c : Nat) (hf : ∀ k, (f k).length = c) :
    ∀ n i, i < n → (((List.range n).flatMap f).drop (c * i)).take c = f i := by
  intro n
  induction n with
  | zero => intro i hi; exact absurd hi (Nat.not_lt_zero i)
  | succ n ih =>
    intro i hi
    have hlen : ((List.range n).flatMap f).length = c * n := by
      rw [flatMap_length_const f c hf, List.length_range]
    rw [List.range_succ, List.flatMap_append, List.flatMap_singleton]
    by_cases hin : i < n
    · have h1 : c * i + c ≤ c * n := by
        have : c * (i + 1) ≤ c * n := Nat.mul_le_mul_left c hin
        rw [Nat.mul_add, Nat.mul_one] at this
        exact this
      rw [List.drop_append_of_le_length (by rw [hlen]; omega),
        List.take_append_of_le_length (by rw [List.length_drop, hlen]; omega)]
      exact ih i hin
    · have hi2 : i = n := by omega
      subst hi2
      rw [← hlen, List.drop_left, List.take_of_length_le (by rw [hf])]

/-- On a host that is little-endian or has a 4-byte `long`, a packet written by
`tsbuffer_send_iso_cycle` with `n ≥ 1` transport packets passes the checks of
`mpeg2_recv_handler` on the selected channel; with a sink that never fails the sink is
called `n` times, and its call number `i` gets the 188 bytes of the transport packet number
`i`, without the source packet header. -/
theorem mpeg2_round_trip {σ τ : Type} (read : σ → Int → Nat → Int × List Nat × σ)
    (be_tx : Bool) (this : tsbuffer) (cb : σ) (iso_cycle src_node_id dropped_tx : Nat)
    (r : send_iso_cycle_result σ)
    (h : tsbuffer_send_iso_cycle read be_tx this cb iso_cycle src_node_id dropped_tx = some r)
    (hlen : r.len ≠ 0) (hn1 : 1 ≤ send_n_tsps this)
    (hn : 8 + 192 * send_n_tsps this < 4294967296)
    (be l64 : Bool) (hhost : ¬ (be = true ∧ l64 = true))
    (put : τ → List Nat → Int → Nat → Int × τ) (hput : ∀ s d l dr, 0 ≤ (put s d l dr).1)
    (mpeg : iec61883_mpeg2) (sink : τ) (channel tag sy cycle dropped : Nat)
    (hch : (channel : Int) = mpeg.channel) :
    ∃ c, mpeg2_recv_handler be l64 (some put) mpeg sink r.data r.len channel tag sy cycle
        dropped = some c ∧
      c.result = RAW1394_ISO_OK ∧
      c.callback_data = mpeg2_sink_run put r.data (send_n_tsps this) 12 dropped sink ∧
      ∀ i, i < send_n_tsps this →
        (r.data.drop (12 + 192 * i)).take 188 =
          ts_block ((this.ts_queue ++ source_packets read
            (send_n_tsps this - this.ts_queue.length) cb dropped_tx).getD i []) := by
  obtain ⟨h1, h2, _, _, _, _⟩ :=
    send_iso_cycle_spec read be_tx this cb iso_cycle src_node_id dropped_tx r h hlen
  have hrlen : r.len = 8 + 192 * send_n_tsps this := by
    rw [h1]
    omega
  generalize hF : (fun k =>
      u32_image be_tx (htonl be_tx (make_sph (((iso_cycle + SYT_OFFSET) % 4294967296) % 8000)
        ((1000 * (0 + k)) % 4294967296))) ++
      ts_block ((this.ts_queue ++ source_packets read
        (send_n_tsps this - this.ts_queue.length) cb dropped_tx).getD k [])) = f at h2
  have hf : ∀ k, (f k).length = 192 := by
    intro k
    rw [← hF]
    simp only [List.length_append, ts_block_length, u32_image_htonl]
    rfl
  have hfk : ∀ k, (f k).drop 4 = ts_block ((this.ts_queue ++ source_packets read
      (send_n_tsps this - this.ts_queue.length) cb dropped_tx).getD k []) := by
    intro k
    rw [← hF]
    simp only [u32_image_htonl]
    rfl
  have hFlen : ((List.range (send_n_tsps this)).flatMap f).length =
      192 * send_n_tsps this := by
    rw [flatMap_length_const f 192 hf, List.length_range]
  have hunits : ∀ i, i < send_n_tsps this →
      (r.data.drop (12 + 192 * i)).take 188 =
        ts_block ((this.ts_queue ++ source_packets read
          (send_n_tsps this - this.ts_queue.length) cb dropped_tx).getD i []) := by
    intro i hi
    have hchunk := flatMap_range_chunk f 192 hf (send_n_tsps this) i hi
    rw [h2]
    have e : 12 + 192 * i = (fill_mpeg_cip_header src_node_id this.iso_counter).length +
        (192 * i + 4) := by
      simp only [fill_mpeg_cip_header, List.length_cons, List.length_nil]
      omega
    rw [e, List.drop_append, ← hfk i, ← hchunk, List.drop_take, ← List.drop_drop]
  refine ⟨{ result := RAW1394_ISO_OK
            mpeg := { mpeg with
                      total_dropped := (mpeg.total_dropped + dropped) % 4294967296 }
            callback_data := mpeg2_sink_run put r.data (send_n_tsps this) 12 dropped sink },
    ?_, rfl, rfl, hunits⟩
  obtain ⟨rest, hrest, hrest4⟩ : ∃ rest, (List.range (send_n_tsps this)).flatMap f = rest ∧
      4 ≤ rest.length := ⟨_, rfl, by rw [hFlen]; omega⟩
  rw [hrest] at h2
  have hdata : r.data = (src_node_id % 256) :: 0x06 :: 0xC4 :: (this.iso_counter % 256) ::
      0xA0 :: 0x80 :: 0x00 :: 0x00 :: rest := by
    rw [h2]
    rfl
  obtain ⟨q0, q1, hq0, hq1, hv0, hv1⟩ := read_long_u32_header be l64 hhost
    (src_node_id % 256) 0x06 0xC4 (this.iso_counter % 256) 0xA0 0x80 0x00 0x00 rest hrest4
  have hdbs : (htonl be q0 / 1024) % 16384 = 0x01b1 := by
    rw [hv0]
    omega
  have hfmt : (htonl be q1 / 16777216) % 64 = 0x20 := by
    rw [hv1]
  have hloop := mpeg2_recv_loop_calls put r.data hput 8 (by decide) (send_n_tsps this)
    67108864 12 dropped sink 0 hn (by omega)
  rw [← hrlen] at hloop
  unfold mpeg2_recv_handler
  rw [hdata] at hloop ⊢
  rw [hq0, hq1]
  simp only
  rw [if_pos ⟨hch, by rw [hrlen]; simp only [TSP_SPH_SIZE]; omega, hdbs, hfmt⟩, hloop]
  simp only [if_neg (Nat.ne_of_gt hn1)]
  rfl

/-- A packet shorter than 200 bytes, such as the 8 bytes written for `n = 0`, is forwarded
to no one. -/
theorem mpeg2_recv_short {τ : Type} (be l64 : Bool)
    (put : Option (τ → List Nat → Int → Nat → Int × τ)) (mpeg : iec61883_mpeg2) (sink : τ)
    (data : List Nat) (len channel tag sy cycle dropped : Nat) (hlen : len < 200)
    (c : mpeg2_recv_cycle τ)
    (h : mpeg2_recv_handler be l64 put mpeg sink data len channel tag sy cycle dropped =
      some c) :
    c.callback_data = sink := by
  unfold mpeg2_recv_handler at h
  split at h
  · simp only at h
    split at h
    · rw [if_neg (fun hh => by
        have := hh.2.1
        simp only [TSP_SPH_SIZE] at this
        omega)] at h
      simp only [Option.some.injEq] at h
      rw [← h]
    · simp only [Option.some.injEq] at h
      rw [← h]
  · exact absurd h (by simp)

/-- C39, evaluated. The packet written by one cycle of `tsbuffer_send_iso_cycle` on the
buffer `tsbuffer_two_packets` has 200 bytes: the CIP header `21 06 C4 10 A0 80 00 00`, a
source packet header and one transport packet. On a big-endian host with an 8-byte `long`
`mpeg2_recv_handler` does not call the sink for it: `* (unsigned long*) data` is cut to its
low 32 bits, the bytes 4 to 7, so that `dbs_fn_qpc_sph` is 0x2000 and not 0x01B1. On a
little-endian host, and on a big-endian host with a 4-byte `long`, the sink is called
once, with the 188 bytes of the transport packet. -/
theorem mpeg2_round_trip_big_endian_64 :
    (tsbuffer_send_iso_cycle failing_source true tsbuffer_two_packets () 100 0x21 0).map
      (fun r => (r.len, r.data.take 8)) =
      some (200, [0x21, 0x06, 0xC4, 0x10, 0xA0, 0x80, 0x00, 0x00]) ∧
    ((tsbuffer_send_iso_cycle failing_source true tsbuffer_two_packets () 100 0x21 0).bind
      (fun r => read_long_u32 true true r.data 0)).map
        (fun q => (q, (htonl true q / 1024) % 16384)) = some (0xA0800000, 0x2000) ∧
    ((tsbuffer_send_iso_cycle failing_source true tsbuffer_two_packets () 100 0x21 0).bind
      (fun r => (mpeg2_recv_handler true true (some byte_sink) mpeg2_blank [] r.data r.len 63
        1 0 0 0).map (fun c => (c.result, c.callback_data.length)))) =
      some (RAW1394_ISO_OK, 0) ∧
    ((tsbuffer_send_iso_cycle failing_source false tsbuffer_two_packets () 100 0x21 0).bind
      (fun r => (mpeg2_recv_handler false true (some byte_sink) mpeg2_blank [] r.data r.len 63
        1 0 0 0).map (fun c => (c.result, c.callback_data.map (fun call => call.1))))) =
      some (RAW1394_ISO_OK, [ts_block (plain_packet 0x11 1)]) ∧
    ((tsbuffer_send_iso_cycle failing_source true tsbuffer_two_packets () 100 0x21 0).bind
      (fun r => (mpeg2_recv_handler true false (some byte_sink) mpeg2_blank [] r.data r.len 63
        1 0 0 0).map (fun c => (c.result, c.callback_data.map (fun call => call.1))))) =
      some (RAW1394_ISO_OK, [ts_block (plain_packet 0x11 1)]) := by
  refine ⟨?_, ?_, ?_, ?_, ?_⟩
  · set_option maxRecDepth 1000000 in decide
  · set_option maxRecDepth 1000000 in decide
  · set_option maxRecDepth 1000000 in decide
  · set_option maxRecDepth 1000000 in decide
  · set_option maxRecDepth 1000000 in decide

/-! ### The reassembly of DV frames -/

/-- The bytes of a chunk. -/
theorem dv_fb_chunk_getElem (a : List Nat) (i p : Nat) :
    (dv_fb_chunk a i)[p]? = if p < 480 then a[480 * i + p]? else none := by
  unfold dv_fb_chunk
  rw [List.getElem?_take]
  split
  · rw [List.getElem?_drop]
  · rfl

/-- The bytes of an array after `memcpy_480`. -/
theorem memcpy_480_getElem (a : List Nat) (off : Nat) (d : List Nat) (q : Nat)
    (ha : off + 480 ≤ a.length) (hd : d.length = 480) :
    (memcpy_480 a off d)[q]? =
      if off ≤ q ∧ q < off + 480 then d[q - off]? else a[q]? := by
  unfold memcpy_480
  have htake : (a.take off).length = off := by
    rw [List.length_take]
    omega
  have hd480 : d.take 480 = d := List.take_of_length_le (by omega)
  rw [hd480]
  by_cases h1 : q < off
  · rw [if_neg (by omega), List.append_assoc, List.getElem?_append_left (by omega),
      List.getElem?_take, if_pos h1]
  · by_cases h2 : q < off + 480
    · have hq1 : (a.take off).length ≤ q := by omega
      have hq2 : q - (a.take off).length < d.length := by omega
      rw [if_pos ⟨by omega, h2⟩, List.append_assoc, List.getElem?_append_right hq1,
        List.getElem?_append_left hq2, htake]
    · have hq1 : (a.take off ++ d).length ≤ q := by
        rw [List.length_append, htake, hd]
        omega
      have e : off + 480 + (q - (off + 480)) = q := by omega
      rw [if_neg (by omega), List.getElem?_append_right hq1, List.length_append, htake, hd,
        List.getElem?_drop, e]

/-- The length of an array after `memcpy_480`. -/
theorem memcpy_480_length (a : List Nat) (off : Nat) (d : List Nat)
    (ha : off + 480 ≤ a.length) (hd : d.length = 480) :
    (memcpy_480 a off d).length = a.length := by
  unfold memcpy_480
  rw [List.length_append, List.length_append, List.length_take, List.length_take,
    List.length_drop]
  omega

/-- The chunks of an array after a packet is copied to the place number `j`. -/
theorem memcpy_480_chunk (a : List Nat) (j i : Nat) (d : List Nat)
    (ha : 480 * j + 480 ≤ a.length) (hd : d.length = 480) :
    dv_fb_chunk (memcpy_480 a (480 * j) d) i = if i = j then d else dv_fb_chunk a i := by
  apply List.ext_getElem?
  intro p
  rw [dv_fb_chunk_getElem, memcpy_480_getElem a _ d _ ha hd]
  by_cases hij : i = j
  · subst hij
    rw [if_pos rfl]
    by_cases hp : p < 480
    · have e : 480 * i + p - 480 * i = p := by omega
      rw [if_pos hp, if_pos ⟨by omega, by omega⟩, e]
    · rw [if_neg hp]
      exact (List.getElem?_eq_none (by omega)).symm
  · rw [if_neg hij, dv_fb_chunk_getElem]
    by_cases hp : p < 480
    · rw [if_pos hp, if_pos hp, if_neg (by omega)]
    · rw [if_neg hp, if_neg hp]

/-- An array as the concatenation of its chunks. -/
theorem drop_eq_chunks (a : List Nat) (m : Nat) :
    ∀ k, 480 * (m + k) ≤ a.length →
      a.drop (480 * m) =
        (List.range k).flatMap (fun i => dv_fb_chunk a (m + i)) ++ a.drop (480 * (m + k)) := by
  intro k
  induction k with
  | zero => intro _; rfl
  | succ k ih =>
    intro h
    rw [List.range_succ, List.flatMap_append, List.flatMap_singleton, List.append_assoc,
      ih (by omega)]
    congr 1
    unfold dv_fb_chunk
    have e : 480 * (m + (k + 1)) = 480 * (m + k) + 480 := by omega
    rw [e, ← List.drop_drop, List.take_append_drop]

/-- The offsets of the 150 DIF blocks of the sequence 0, in the order of the stream: the
block number `k` is copied to the offset `80 * k`. -/
theorem dif_sequence_order_offsets :
    dif_sequence_order.map (fun x => dv_fb_offset x.1 0 x.2) =
      (List.range 150).map (fun (k : Nat) => some (80 * (k : Int))) := by
  set_option maxRecDepth 100000 in decide

/-- The offset in the sequence `s` is the offset in the sequence 0 plus `12000 * s`. -/
theorem dv_fb_offset_shift (t s b : Int) :
    dv_fb_offset t s b = (dv_fb_offset t 0 b).map (fun o => s * 12000 + o) := by
  unfold dv_fb_offset
  split_ifs <;> simp only [Option.map_some', Option.map_none', Option.some.injEq] <;> ring

/-- A packet number `j` of a frame is copied to the offset `480 * j`. -/
theorem dif_packet_at_offset (j : Nat) (data : List Nat) (h : dif_packet_at j data) :
    dv_fb_offset (dif_section_type data) (dif_sequence_number data) (dif_block_number data) =
      some ((480 * j : Nat) : Int) := by
  obtain ⟨_, hseq, hord⟩ := h
  have h1 := congrArg (fun l => l.get? (6 * (j % 25))) dif_sequence_order_offsets
  have hlt : 6 * (j % 25) < 150 := by omega
  simp only [List.get?_eq_getElem?, List.getElem?_map] at h1 hord
  rw [hord, List.getElem?_range hlt] at h1
  simp only [Option.map_some', Option.some.injEq] at h1
  have e : ((j / 25 : Nat) : Int) * 12000 + 80 * ((6 * (j % 25) : Nat) : Int) =
      ((480 * j : Nat) : Int) := by
    push_cast
    omega
  rw [dv_fb_offset_shift, h1, hseq, Option.map_some', e]

/-- One packet of a frame given to `dv_fb_recv`, after the first start of frame or as the
first start of frame: the call is defined, `ff` is 0 after it and the packet is at its
place in the frame buffer. -/
theorem dv_fb_recv_packet {σ : Type} (put : σ → List Nat → Int → Int → Int × σ)
    (fb : iec61883_dv_fb) (cb : σ) (j : Nat) (data : List Nat) (len : Int) (dropped : Nat)
    (h : dif_packet_at j data) (hj : j < 300)
    (hff : fb.ff = 0 ∨ (dif_section_type data = 0 ∧ dif_sequence_number data = 0)) :
    ∃ result fb2 cb2, dv_fb_recv put fb cb data len dropped = some (result, fb2, cb2) ∧
      fb2.ff = 0 ∧ fb2.data = memcpy_480 fb.data (480 * j) data := by
  have hoff := dif_packet_at_offset j data h
  have hlen : 480 ≤ data.length := le_of_eq h.1.symm
  by_cases hs : dif_section_type data = 0 ∧ dif_sequence_number data = 0
  · have hj0 : 480 * j = 0 := by
      rw [hs.1, hs.2] at hoff
      simp only [dv_fb_offset, if_true, Option.some.injEq] at hoff
      omega
    rw [hj0]
    by_cases hf : fb.ff = 0
    · exact ⟨_, _, _, dv_fb_recv_boundary put fb cb data len dropped hlen hf hs, hf, rfl⟩
    · exact ⟨_, _, _, dv_fb_recv_first put fb cb data len dropped hlen hf hs, rfl, rfl⟩
  · have hf : fb.ff = 0 := by
      rcases hff with hf | hf
      · exact hf
      · exact absurd hf hs
    have hin := dv_fb_recv_inside put fb cb data len dropped (by omega) hf hs
    rw [hoff] at hin
    simp only at hin
    rw [if_pos ⟨by push_cast; omega, hlen⟩, Int.toNat_ofNat] at hin
    exact ⟨_, _, _, hin, hf, rfl⟩

/-- The packets number `js` of a frame, fed in this order after the first start of frame:
every call is defined, and the frame buffer holds the packet `frame i` at the place `i` for
every `i` in `js` and is unchanged at the other places. -/
theorem dv_fb_run_chunks {σ : Type} (put : σ → List Nat → Int → Int → Int × σ)
    (frame : Nat → List Nat) :
    ∀ (js : List Nat) (fb : iec61883_dv_fb) (cb : σ), fb.ff = 0 →
      fb.data.length = 480 * 300 → (∀ j ∈ js, j < 300 ∧ dif_packet_at j (frame j)) →
      ∃ results fb2 cb2, dv_fb_run put (js.map frame) fb cb = some (results, fb2, cb2) ∧
        fb2.ff = 0 ∧ fb2.data.length = 480 * 300 ∧
        ∀ i, dv_fb_chunk fb2.data i = if i ∈ js then frame i else dv_fb_chunk fb.data i := by
  intro js
  induction js with
  | nil =>
    intro fb cb hff hlen _
    exact ⟨[], fb, cb, rfl, hff, hlen, fun i => by simp⟩
  | cons j js ih =>
    intro fb cb hff hlen hall
    obtain ⟨hj, hp⟩ := hall j (List.mem_cons_self _ _)
    obtain ⟨result, fb1, cb1, h1, hff1, hdata1⟩ :=
      dv_fb_recv_packet put fb cb j (frame j) 480 0 hp hj (Or.inl hff)
    have hlen1 : fb1.data.length = 480 * 300 := by
      rw [hdata1, memcpy_480_length _ _ _ (by omega) hp.1, hlen]
    obtain ⟨results, fb2, cb2, h2, hff2, hlen2, hch⟩ :=
      ih fb1 cb1 hff1 hlen1 (fun x hx => hall x (List.mem_cons_of_mem _ hx))
    refine ⟨result :: results, fb2, cb2, ?_, hff2, hlen2, ?_⟩
    · simp only [List.map_cons, dv_fb_run, h1, h2]
    · intro i
      rw [hch i, hdata1, memcpy_480_chunk _ _ _ _ (by omega) hp.1]
      by_cases hi : i ∈ js
      · rw [if_pos hi, if_pos (List.mem_cons_of_mem _ hi)]
      · rw [if_neg hi]
        by_cases hij : i = j
        · rw [if_pos hij, if_pos (by rw [hij]; exact List.mem_cons_self _ _), hij]
        · rw [if_neg hij, if_neg (fun hm => by
            rcases List.mem_cons.mp hm with hm | hm
            · exact hij hm
            · exact hi hm)]

/-- Two families of lists that agree on a list of indices have the same concatenation. -/
theorem flatMap_congr_mem (f g : Nat → List Nat) :
    ∀ l : List Nat, (∀ i ∈ l, f i = g i) → l.flatMap f = l.flatMap g := by
  intro l
  induction l with
  | nil => intro _; rfl
  | cons a l ih =>
    intro h
    rw [List.flatMap_cons, List.flatMap_cons, h a (List.mem_cons_self _ _),
      ih (fun i hi => h i (List.mem_cons_of_mem _ hi))]

/-- A frame buffer whose places `i < m` hold the packets `frame i` and whose other places
are those of `old`. -/
theorem dv_fb_data_of_chunks (frame : Nat → List Nat) (data old : List Nat) (m : Nat)
    (hm : m ≤ 300) (hlen : data.length = 480 * 300) (hold : old.length = 480 * 300)
    (h : ∀ i, dv_fb_chunk data i = if i < m then frame i else dv_fb_chunk old i) :
    data = (List.range m).flatMap frame ++ old.drop (480 * m) := by
  have h1 := drop_eq_chunks data 0 m (by omega)
  have h2 := drop_eq_chunks data m (300 - m) (by omega)
  have h3 := drop_eq_chunks old m (300 - m) (by omega)
  have e300 : m + (300 - m) = 300 := by omega
  have hd2 : data.drop (480 * 300) = [] := List.drop_of_length_le (by omega)
  have hd3 : old.drop (480 * 300) = [] := List.drop_of_length_le (by omega)
  rw [e300, hd2, List.append_nil] at h2
  rw [e300, hd3, List.append_nil] at h3
  rw [Nat.mul_zero, List.drop_zero, Nat.zero_add] at h1
  have hfirst : (List.range m).flatMap (fun i => dv_fb_chunk data (0 + i)) =
      (List.range m).flatMap frame := by
    apply flatMap_congr_mem
    intro i hi
    rw [Nat.zero_add, h i, if_pos (List.mem_range.mp hi)]
  have hrest : (List.range (300 - m)).flatMap (fun i => dv_fb_chunk data (m + i)) =
      (List.range (300 - m)).flatMap (fun i => dv_fb_chunk old (m + i)) := by
    apply flatMap_congr_mem
    intro i _
    rw [h (m + i), if_neg (by omega)]
  rw [hfirst, h2, hrest, ← h3] at h1
  exact h1

/-- The blocks of `dif_sequence_order`. -/
theorem dif_sequence_order_blocks :
    dif_sequence_order.length = 150 ∧
    dif_sequence_order.Perm
      ([((0 : Int), (0 : Int))] ++ (List.range 2).map (fun (b : Nat) => ((1 : Int), (b : Int))) ++
        (List.range 3).map (fun (b : Nat) => ((2 : Int), (b : Int))) ++
        (List.range 9).map (fun (b : Nat) => ((3 : Int), (b : Int))) ++
        (List.range 135).map (fun (b : Nat) => ((4 : Int), (b : Int)))) := by
  constructor
  · set_option maxRecDepth 100000 in decide
  · set_option maxRecDepth 100000 in decide

/-- The packets number `js` of a frame, fed in this order to a frame buffer object that has
seen a start of frame or gets one first. -/
theorem dv_fb_run_chunks_any {σ : Type} (put : σ → List Nat → Int → Int → Int × σ)
    (frame : Nat → List Nat) (js : List Nat) (fb : iec61883_dv_fb) (cb : σ)
    (hff : fb.ff = 0 ∨ js.head? = some 0) (hlen : fb.data.length = 480 * 300)
    (hall : ∀ j ∈ js, j < 300 ∧ dif_packet_at j (frame j)) :
    ∃ results fb2 cb2, dv_fb_run put (js.map frame) fb cb = some (results, fb2, cb2) ∧
      fb2.data.length = 480 * 300 ∧
      ∀ i, dv_fb_chunk fb2.data i = if i ∈ js then frame i else dv_fb_chunk fb.data i := by
  cases js with
  | nil => exact ⟨[], fb, cb, rfl, hlen, fun i => by simp⟩
  | cons j js =>
    obtain ⟨hj, hp⟩ := hall j (List.mem_cons_self _ _)
    have hstart : fb.ff = 0 ∨
        (dif_section_type (frame j) = 0 ∧ dif_sequence_number (frame j) = 0) := by
      rcases hff with h0 | h0
      · exact Or.inl h0
      · right
        simp only [List.head?_cons, Option.some.injEq] at h0
        subst h0
        obtain ⟨_, hseq, hord⟩ := hp
        have h00 : dif_sequence_order.get? (6 * (0 % 25)) = some (0, 0) := by decide
        rw [h00] at hord
        simp only [Option.some.injEq, Prod.mk.injEq] at hord
        exact ⟨hord.1.symm, hseq⟩
    obtain ⟨result, fb1, cb1, h1, hff1, hdata1⟩ :=
      dv_fb_recv_packet put fb cb j (frame j) 480 0 hp hj hstart
    have hlen1 : fb1.data.length = 480 * 300 := by
      rw [hdata1, memcpy_480_length _ _ _ (by omega) hp.1, hlen]
    obtain ⟨results, fb2, cb2, h2, _, hlen2, hch⟩ :=
      dv_fb_run_chunks put frame js fb1 cb1 hff1 hlen1
        (fun x hx => hall x (List.mem_cons_of_mem _ hx))
    refine ⟨result :: results, fb2, cb2, ?_, hlen2, ?_⟩
    · simp only [List.map_cons, dv_fb_run, h1, h2]
    · intro i
      rw [hch i, hdata1, memcpy_480_chunk _ _ _ _ (by omega) hp.1]
      by_cases hi : i ∈ js
      · rw [if_pos hi, if_pos (List.mem_cons_of_mem _ hi)]
      · rw [if_neg hi]
        by_cases hij : i = j
        · rw [if_pos hij, if_pos (by rw [hij]; exact List.mem_cons_self _ _), hij]
        · rw [if_neg hij, if_neg (fun hm => by
            rcases List.mem_cons.mp hm with hm | hm
            · exact hij hm
            · exact hi hm)]

/-- The header fields of the blocks made by `dif_packet`. -/
theorem dif_packet_header (b0 b1 b2 tag : Nat) :
    dif_section_type (dif_packet b0 b1 b2 tag) = ((b0 % 256 / 32 : Nat) : Int) ∧
    dif_sequence_number (dif_packet b0 b1 b2 tag) = ((b1 % 256 / 16 : Nat) : Int) ∧
    dif_block_number (dif_packet b0 b1 b2 tag) = ((b2 % 256 : Nat) : Int) :=
  ⟨rfl, rfl, rfl⟩

/-- The blocks made by `dif_standard_packet` are packets of a frame in stream order. -/
theorem dif_standard_packet_at (j tag : Nat) (hj : j < 300) :
    dif_packet_at j (dif_standard_packet j tag) := by
  have hall : ∀ k, k < 25 →
      dif_sequence_order.get? (6 * k) =
        some (((((dif_sequence_order.getD (6 * k) (0, 0)).1.toNat * 32 + 0x1F) % 256 / 32 :
            Nat) : Int),
          (((dif_sequence_order.getD (6 * k) (0, 0)).2.toNat % 256 : Nat) : Int)) := by
    set_option maxRecDepth 100000 in decide
  obtain ⟨h1, h2, h3⟩ := dif_packet_header
    ((dif_sequence_order.getD (6 * (j % 25)) (0, 0)).1.toNat * 32 + 0x1F)
    (j / 25 * 16 + 0x07) (dif_sequence_order.getD (6 * (j % 25)) (0, 0)).2.toNat tag
  refine ⟨dif_packet_length _ _ _ _, ?_, ?_⟩
  · show dif_sequence_number (dif_packet _ _ _ _) = _
    rw [h2]
    congr 1
    omega
  · show _ = some (dif_section_type (dif_packet _ _ _ _), dif_block_number (dif_packet _ _ _ _))
    rw [h1, h3]
    exact hall (j % 25) (Nat.mod_lt _ (by decide))

/-- One more call of `dv_fb_recv` in front of a run of calls. -/
theorem dv_fb_run_cons {σ : Type} (put : σ → List Nat → Int → Int → Int × σ)
    (block : List Nat) (rest : List (List Nat)) (fb fb1 fb2 : iec61883_dv_fb) (cb cb1 cb2 : σ)
    (r : Int) (rs : List Int)
    (h1 : dv_fb_recv put fb cb block 480 0 = some (r, fb1, cb1))
    (h2 : dv_fb_run put rest fb1 cb1 = some (rs, fb2, cb2)) :
    dv_fb_run put (block :: rest) fb cb = some (r :: rs, fb2, cb2) := by
  simp only [dv_fb_run, h1, h2]

/-- C32, counterexample. A new frame buffer object, as `iec61883_dv_fb_init` returns it,
is fed the 250 packets of a frame of 10 sequences with the first two packets exchanged:
the packet 1, the packet 0, then the packets 2..249. Every call is defined, but the packet
1 comes before the first start of frame and is not stored: its place in the frame buffer
still holds 480 zero bytes, so that the frame buffer is not the concatenation of the
packets in stream order. -/
theorem dv_fb_reassembly_fresh_order :
    ∃ results fb2 cb2,
      iec61883_dv_fb_init (some dv_fb_started) true = some dv_fb_fresh ∧
      (1 :: 0 :: (List.range 250).drop 2).Perm (List.range 250) ∧
      dv_fb_run frame_sink
        ((1 :: 0 :: (List.range 250).drop 2).map (fun j => dif_standard_packet j 0x55))
        dv_fb_fresh [] = some (results, fb2, cb2) ∧
      dv_fb_chunk fb2.data 1 = List.replicate 480 0 ∧
      dv_fb_chunk ((List.range 250).flatMap (fun j => dif_standard_packet j 0x55) ++
        dv_fb_fresh.data.drop 120000) 1 = dif_standard_packet 1 0x55 ∧
      fb2.data ≠ (List.range 250).flatMap (fun j => dif_standard_packet j 0x55) ++
        dv_fb_fresh.data.drop 120000 := by
  have hperm : (1 :: 0 :: (List.range 250).drop 2).Perm (List.range 250) := by
    have e : List.range 250 = 0 :: 1 :: (List.range 250).drop 2 := by
      set_option maxRecDepth 100000 in decide
    exact (List.Perm.swap 0 1 _).trans (List.Perm.of_eq e.symm)
  have h1 : dv_fb_recv frame_sink dv_fb_fresh [] (dif_standard_packet 1 0x55) 480 0 =
      some (0, dv_fb_fresh, []) :=
    dv_fb_recv_waiting frame_sink dv_fb_fresh [] _ 480 0
      (by rw [(dif_standard_packet_at 1 0x55 (by decide)).1]; decide) (by decide)
      (by set_option maxRecDepth 100000 in decide)
  have hmem : ∀ j ∈ 0 :: (List.range 250).drop 2, j < 250 := by
    intro j hj
    have : j ∈ List.range 250 := hperm.subset (List.mem_cons_of_mem _ hj)
    exact List.mem_range.mp this
  obtain ⟨results, fb2, cb2, h2, _, hch⟩ :=
    dv_fb_run_chunks_any frame_sink (fun j => dif_standard_packet j 0x55)
      (0 :: (List.range 250).drop 2) dv_fb_fresh [] (Or.inr rfl) (List.length_replicate _ _)
      (fun j hj => ⟨by have := hmem j hj; omega,
        dif_standard_packet_at j 0x55 (by have := hmem j hj; omega)⟩)
  have hnot : (1 : Nat) ∉ 0 :: (List.range 250).drop 2 := by
    intro h
    have hnd : (1 :: 0 :: (List.range 250).drop 2).Nodup :=
      hperm.nodup_iff.mpr (List.nodup_range 250)
    exact (List.nodup_cons.mp hnd).1 h
  have hc1 : dv_fb_chunk fb2.data 1 = List.replicate 480 0 := by
    rw [hch 1, if_neg hnot]
    simp only [dv_fb_chunk, dv_fb_fresh, List.drop_replicate, List.take_replicate]
    rfl
  have hflen : ∀ k, (dif_standard_packet k 0x55).length = 480 := fun k =>
    dif_packet_length _ _ _ _
  have hlenA : ((List.range 250).flatMap (fun j => dif_standard_packet j 0x55)).length =
      480 * 250 := by
    rw [flatMap_length_const _ 480 hflen, List.length_range]
  have hc2 : dv_fb_chunk ((List.range 250).flatMap (fun j => dif_standard_packet j 0x55) ++
      dv_fb_fresh.data.drop 120000) 1 = dif_standard_packet 1 0x55 := by
    have hA := flatMap_range_chunk (fun j => dif_standard_packet j 0x55) 480 hflen 250 1
      (by decide)
    unfold dv_fb_chunk
    rw [List.drop_append_of_le_length (by rw [hlenA]; decide),
      List.take_append_of_le_length (by rw [List.length_drop, hlenA]; decide)]
    exact hA
  refine ⟨0 :: results, fb2, cb2, rfl, hperm, ?_, hc1, hc2, ?_⟩
  · exact dv_fb_run_cons frame_sink _ _ _ _ _ _ _ _ _ _ h1 h2
  · intro h
    rw [h, hc2] at hc1
    exact absurd hc1 (by decide)

/-- C32, amended: the reassembly of a DV frame by `dv_fb_recv`. (1) In the DIF sequence `s` a block
is copied to the offset `12000 * s + 80 * slot`, with the slot 0 for the header block,
`1 + b` for the subcode block `b`, `3 + b` for the VAUX block `b`, `6 + 16 * b` for the
audio block `b` and `7 + b + b / 15` for the video block `b`. (2) The 150 blocks of a DIF
sequence (the header, the subcode blocks 0..1, the VAUX blocks 0..2, the audio blocks 0..8
and the video blocks 0..134), taken in the order of the stream, have the slots 0, 1, ...,
149: the slots are pairwise distinct and cover 0..149. (3) A packet number `j` of a frame
in stream order, which is the packet `k = j mod 25` of the sequence `s = j / 25` and starts
with the DIF block `6 * k` of the sequence, is copied to the offset
`12000 * s + 480 * k = 480 * j`. (4) When the `25 * n` packets of a frame of `n ≤ 12`
sequences are fed in any order `js` to a frame buffer object that has seen a start of
frame, or in an order that begins with the packet 0 to one that has not, every call is
defined, and afterwards the first `12000 * n` bytes of the frame buffer are the
concatenation of the packets in stream order and the other bytes are unchanged. -/
theorem dv_fb_reassembly :
    (∀ s b : Int,
      dv_fb_offset 0 s b = some (12000 * s + 80 * 0) ∧
      dv_fb_offset 1 s b = some (12000 * s + 80 * (1 + b)) ∧
      dv_fb_offset 2 s b = some (12000 * s + 80 * (3 + b)) ∧
      dv_fb_offset 3 s b = some (12000 * s + 80 * (6 + 16 * b)) ∧
      (0 ≤ b → dv_fb_offset 4 s b = some (12000 * s + 80 * (7 + b + b / 15)))) ∧
    (dif_sequence_order.Perm
      ([((0 : Int), (0 : Int))] ++ (List.range 2).map (fun (b : Nat) => ((1 : Int), (b : Int))) ++
        (List.range 3).map (fun (b : Nat) => ((2 : Int), (b : Int))) ++
        (List.range 9).map (fun (b : Nat) => ((3 : Int), (b : Int))) ++
        (List.range 135).map (fun (b : Nat) => ((4 : Int), (b : Int)))) ∧
      ∀ s : Int, dif_sequence_order.map (fun x => dv_fb_offset x.1 s x.2) =
        (List.range 150).map (fun (k : Nat) => some (12000 * s + 80 * (k : Int)))) ∧
    (∀ (j : Nat) (data : List Nat), dif_packet_at j data →
      dv_fb_offset (dif_section_type data) (dif_sequence_number data)
          (dif_block_number data) =
        some (12000 * ((j / 25 : Nat) : Int) + 480 * ((j % 25 : Nat) : Int)) ∧
      12000 * ((j / 25 : Nat) : Int) + 480 * ((j % 25 : Nat) : Int) = ((480 * j : Nat) : Int)) ∧
    (∀ (σ : Type) (put : σ → List Nat → Int → Int → Int × σ) (frame : Nat → List Nat)
        (n : Nat) (js : List Nat) (fb : iec61883_dv_fb) (cb : σ),
      n ≤ 12 → (∀ j, j < 25 * n → dif_packet_at j (frame j)) →
      js.Perm (List.range (25 * n)) → fb.data.length = 480 * 300 →
      (fb.ff = 0 ∨ js.head? = some 0) →
      ∃ results fb2 cb2, dv_fb_run put (js.map frame) fb cb = some (results, fb2, cb2) ∧
        fb2.data = (List.range (25 * n)).flatMap frame ++ fb.data.drop (12000 * n)) := by
  refine ⟨?_, ⟨dif_sequence_order_blocks.2, ?_⟩, ?_, ?_⟩
  · intro s b
    refine ⟨?_, ?_, ?_, ?_, ?_⟩
    · simp only [dv_fb_offset, if_true, Option.some.injEq]
      ring
    · simp only [dv_fb_offset, if_neg (by decide : ¬ ((1 : Int) = 0)), if_true,
        Option.some.injEq]
      ring
    · simp only [dv_fb_offset, if_neg (by decide : ¬ ((2 : Int) = 0)),
        if_neg (by decide : ¬ ((2 : Int) = 1)), if_true, Option.some.injEq]
      ring
    · simp only [dv_fb_offset, if_neg (by decide : ¬ ((3 : Int) = 0)),
        if_neg (by decide : ¬ ((3 : Int) = 1)), if_neg (by decide : ¬ ((3 : Int) = 2)),
        if_true, Option.some.injEq]
      ring
    · intro hb
      have hdiv : b.tdiv 15 = b / 15 := Int.tdiv_eq_ediv hb (by decide)
      simp only [dv_fb_offset, if_neg (by decide : ¬ ((4 : Int) = 0)),
        if_neg (by decide : ¬ ((4 : Int) = 1)), if_neg (by decide : ¬ ((4 : Int) = 2)),
        if_neg (by decide : ¬ ((4 : Int) = 3)), if_true, Option.some.injEq, hdiv]
      ring
  · intro s
    have h0 := dif_sequence_order_offsets
    have hshift : (fun x : Int × Int => dv_fb_offset x.1 s x.2) =
        (fun o : Option Int => o.map (fun o => s * 12000 + o)) ∘
          (fun x : Int × Int => dv_fb_offset x.1 0 x.2) := by
      funext x
      exact dv_fb_offset_shift x.1 s x.2
    rw [hshift, ← List.map_map, h0, List.map_map]
    apply List.map_congr_left
    intro k _
    simp only [Function.comp, Option.map_some', Option.some.injEq]
    ring
  · intro j data h
    have hoff := dif_packet_at_offset j data h
    have e : 12000 * ((j / 25 : Nat) : Int) + 480 * ((j % 25 : Nat) : Int) =
        ((480 * j : Nat) : Int) := by
      push_cast
      omega
    exact ⟨by rw [hoff, e], e⟩
  · intro σ put frame n js fb cb hn hframe hperm hlen hff
    have hmem : ∀ i, i ∈ js ↔ i < 25 * n := fun i => by
      rw [hperm.mem_iff, List.mem_range]
    obtain ⟨results, fb2, cb2, hrun, hlen2, hch⟩ :=
      dv_fb_run_chunks_any put frame js fb cb hff hlen
        (fun j hj => ⟨by have := (hmem j).mp hj; omega, hframe j ((hmem j).mp hj)⟩)
    refine ⟨results, fb2, cb2, hrun, ?_⟩
    have hfin := dv_fb_data_of_chunks frame fb2.data fb.data (25 * n) (by omega) hlen2 hlen
      (fun i => by
        rw [hch i]
        by_cases hi : i < 25 * n
        · rw [if_pos hi, if_pos ((hmem i).mpr hi)]
        · rw [if_neg hi, if_neg (fun hm => hi ((hmem i).mp hm))])
    have e : 480 * (25 * n) = 12000 * n := by omega
    rw [e] at hfin
    exact hfin

/-- An instance of `dv_fb_reassembly`: a new frame buffer object, as `iec61883_dv_fb_init`
returns it, is fed the 25 packets of the sequence 0, the packet 0 first and then the others
from the last to the first. -/
theorem dv_fb_reassembly_witness :
    iec61883_dv_fb_init (some dv_fb_started) true = some dv_fb_fresh ∧
    (1 ≤ 12 ∧ (0 :: ((List.range 25).drop 1).reverse).Perm (List.range (25 * 1)) ∧
      dv_fb_fresh.data.length = 480 * 300 ∧
      (dv_fb_fresh.ff = 0 ∨ (0 :: ((List.range 25).drop 1).reverse).head? = some 0)) ∧
    ∃ results fb2 cb2,
      dv_fb_run frame_sink
        ((0 :: ((List.range 25).drop 1).reverse).map (fun j => dif_standard_packet j j))
        dv_fb_fresh [] = some (results, fb2, cb2) ∧
      fb2.data = (List.range (25 * 1)).flatMap (fun j => dif_standard_packet j j) ++
        dv_fb_fresh.data.drop (12000 * 1) :=
  have hperm : (0 :: ((List.range 25).drop 1).reverse).Perm (List.range (25 * 1)) :=
    (List.Perm.cons 0 (List.reverse_perm _)).trans (List.Perm.of_eq (by decide))
  ⟨rfl, ⟨by decide, hperm, List.length_replicate _ _, Or.inr rfl⟩,
    dv_fb_reassembly.2.2.2 _ frame_sink (fun j => dif_standard_packet j j) 1
      (0 :: ((List.range 25).drop 1).reverse) dv_fb_fresh [] (by decide)
      (fun j hj => dif_standard_packet_at j j (by omega)) hperm
      (List.length_replicate _ _) (Or.inr rfl)⟩

end Iec61883
